import Mathlib

/-!
# EEPROM emulation on two flash pages (STM32F1XX library, V2.0 and V1.0)

A shallow embedding of `src/V2.0/eeprom.c` / `eeprom.h` (namespace `EEPROM`), followed by
one of `src/V1.0/eeprom.c` / `eeprom.h` (namespace `EEPROMV1`).

* Flash is a map from byte addresses to the halfword stored there; the library only ever
  touches halfword-aligned addresses (page bases and cursors are even).
* The C globals (`EEPROM_SizeTable`, `EEPROM_Index`, the three page roles and
  `EEPROM_NextIndex`) are fields of `State`.
* Fixed-width C arithmetic is written with explicit `% 2^w`.
* The two HAL primitives the library calls are not part of the repository; they are
  modelled from the specification of the flash adapter, with an outcome schedule `hal`
  so that hardware failures can be injected, and a `log` of every primitive issued.
* The mutual recursion `EEPROM_WriteVariable` / `EEPROM_PageTransfer` is bounded by a
  nesting budget; `none` is returned when the budget is exhausted.
-/

namespace EEPROM

/-! ## Configuration and constants (`eeprom.h`) -/

/-- Build-time configuration: `EEPROM_START_ADDRESS`, `FLASH_PAGE_SIZE` (from the device
header, not in the repository) and `EEPROM_VARIABLE_COUNT`. -/
structure Config where
  start : Nat
  pageSize : Nat
  varCount : Nat

/-- The configuration of `eeprom.h` as shipped: 64 KByte medium-density device
(1 KByte pages), four variables, emulation area in the last two pages. -/
def stdConfig : Config :=
  { start := 0x08000000 + 1024 * 64 - 2 * 1024, pageSize := 1024, varCount := 4 }

/-- Constraints every sensible build satisfies: aligned non-null base, even page size with
room for the header and one record, the area fits 32-bit addresses, offsets fit the 16-bit
index, and the capacity computation cannot wrap its 16-bit accumulator. -/
structure Config.WF (cfg : Config) : Prop where
  start_pos : 0 < cfg.start
  start_even : cfg.start % 2 = 0
  size_even : cfg.pageSize % 2 = 0
  size_min : 4 ≤ cfg.pageSize
  area32 : cfg.start + 2 * cfg.pageSize + 16 ≤ 4294967296
  area16 : 2 * cfg.pageSize < 65536
  count_bound : 10 * cfg.varCount + 12 ≤ 65536

def EEPROM_PAGE0 (cfg : Config) : Nat := cfg.start
def EEPROM_PAGE1 (cfg : Config) : Nat := cfg.start + cfg.pageSize
def EEPROM_PAGE_NONE : Nat := 0

def EEPROM_ERASED : Nat := 0xFFFF
def EEPROM_RECEIVING : Nat := 0xEEEE
def EEPROM_VALID : Nat := 0x0000

def EEPROM_SIZE_DELETED : Nat := 0
def EEPROM_SIZE16 : Nat := 1
def EEPROM_SIZE32 : Nat := 2
def EEPROM_SIZE64 : Nat := 3

/-- Status returned by a HAL flash primitive. -/
inductive HAL_Status
  | HAL_OK
  | HAL_ERROR
  | HAL_BUSY
  | HAL_TIMEOUT
deriving DecidableEq, Repr

/-- The result codes of `eeprom.h`, in the order of their numeric values 0..7. -/
inductive EEPROM_Result
  | EEPROM_SUCCESS
  | EEPROM_ERROR
  | EEPROM_BUSY
  | EEPROM_TIMEOUT
  | EEPROM_NO_VALID_PAGE
  | EEPROM_NOT_ASSIGNED
  | EEPROM_INVALID_NAME
  | EEPROM_FULL
deriving DecidableEq, Repr

open HAL_Status EEPROM_Result

/-- The implicit conversion `result = HAL_...(...)`: the HAL codes 0..3 are the first four
result codes. -/
def ofHAL : HAL_Status → EEPROM_Result
  | HAL_OK => EEPROM_SUCCESS
  | HAL_ERROR => EEPROM_ERROR
  | HAL_BUSY => EEPROM_BUSY
  | HAL_TIMEOUT => EEPROM_TIMEOUT

/-! ## Flash and the HAL primitives -/

/-- One call of a flash primitive, as issued by the library. -/
inductive FlashOp
  | program (typeProgram addr data : Nat)
  | erase (pageAddress nbPages : Nat)
deriving DecidableEq, Repr

/-- The state of the device: flash contents, the library globals, the outcome the HAL will
report for its k-th call, and the calls issued so far. The two arrays `EEPROM_SizeTable` and
`EEPROM_Index` have `EEPROM_VARIABLE_COUNT` elements in C and are total maps here, so the
embedding is faithful to a store `EEPROM_Index[n] = ...` only for `n` below
`EEPROM_VARIABLE_COUNT`: in C a store at a larger position lands in whatever follows the
array. Statements about what a write leaves unchanged are therefore made for names below
`EEPROM_VARIABLE_COUNT`. -/
structure State where
  flash : Nat → Nat
  EEPROM_SizeTable : Nat → Nat
  EEPROM_Index : Nat → Nat
  EEPROM_ValidPage : Nat
  EEPROM_ReceivingPage : Nat
  EEPROM_ErasedPage : Nat
  EEPROM_NextIndex : Nat
  hal : Nat → HAL_Status
  log : List FlashOp

/-- Memory-mapped 16-bit read `*((__IO uint16_t*) a)`. -/
def read16 (flash : Nat → Nat) (a : Nat) : Nat := flash a % 65536

/-- Memory-mapped 32-bit read `*((__IO uint32_t*) a)` (little endian). -/
def read32 (flash : Nat → Nat) (a : Nat) : Nat :=
  read16 flash a + 65536 * read16 flash (a + 2)

/-- Number of halfwords a program call of the given type writes (1, 2, else 4). -/
def nbHalfwords (typeProgram : Nat) : Nat :=
  if typeProgram = 1 then 1 else if typeProgram = 2 then 2 else 4

/-- The i-th halfword of the 64-bit datum, `(uint16_t)(Data >> (16 * i))`. -/
def halfwordOf (data i : Nat) : Nat := (data >>> (16 * i)) % 65536

/-- Modelled from the spec: the effect of a completed program call of the external flash
adapter ("program can only clear bits"): each target halfword becomes the bitwise AND of
its old content and the datum halfword. -/
def programFlash (flash : Nat → Nat) (typeProgram addr data : Nat) : Nat → Nat :=
  fun a =>
    if addr ≤ a ∧ a < addr + 2 * nbHalfwords typeProgram ∧ (a - addr) % 2 = 0 then
      (flash a % 65536) &&& halfwordOf data ((a - addr) / 2)
    else flash a

/-- Modelled from the spec: the effect of a completed erase call of the external flash
adapter ("erase sets all bits of a page to the erased value"), for `nbPages` consecutive
pages from `pageAddress`. -/
def eraseFlash (cfg : Config) (flash : Nat → Nat) (pageAddress nbPages : Nat) : Nat → Nat :=
  fun a => if pageAddress ≤ a ∧ a < pageAddress + nbPages * cfg.pageSize then 0xFFFF else flash a

/-- Effect of one completed primitive on flash. -/
def applyOp (cfg : Config) (flash : Nat → Nat) : FlashOp → (Nat → Nat)
  | FlashOp.program t a d => programFlash flash t a d
  | FlashOp.erase p n => eraseFlash cfg flash p n

/-- Flash after a sequence of completed primitives (used to cut a run after a number of
primitive calls). -/
def applyOps (cfg : Config) (flash : Nat → Nat) (ops : List FlashOp) : Nat → Nat :=
  ops.foldl (applyOp cfg) flash

/-- Modelled from the spec: issuing a primitive of the external flash adapter. The call is
logged; it reports the scheduled outcome; the flash changes only when the outcome is
`HAL_OK`. -/
def halCall (cfg : Config) (op : FlashOp) (s : State) : HAL_Status × State :=
  let r := s.hal s.log.length
  (r, { s with flash := if r = HAL_OK then applyOp cfg s.flash op else s.flash,
               log := s.log ++ [op] })

/-- Modelled from the spec: `HAL_FLASH_Program(TypeProgram, Address, Data)`. -/
def HAL_FLASH_Program (cfg : Config) (typeProgram addr data : Nat) (s : State) :
    HAL_Status × State :=
  halCall cfg (FlashOp.program typeProgram addr data) s

/-- Modelled from the spec: `HAL_FLASHEx_Erase` with `PageAddress` and `NbPages`. -/
def HAL_FLASHEx_Erase (cfg : Config) (pageAddress nbPages : Nat) (s : State) :
    HAL_Status × State :=
  halCall cfg (FlashOp.erase pageAddress nbPages) s

/-! ## `EEPROM_SetPageStatus` -/

/-- `uint16_t StartAddress = Page - EEPROM_START_ADDRESS` (eeprom.c 249, 299). -/
def startOffset (cfg : Config) (Page : Nat) : Nat :=
  (Page + 4294967296 - cfg.start) % 4294967296 % 65536

/-- `uint16_t EndAddress = Page - EEPROM_START_ADDRESS + FLASH_PAGE_SIZE` (eeprom.c 250, 300). -/
def endOffset (cfg : Config) (Page : Nat) : Nat :=
  ((Page + 4294967296 - cfg.start) % 4294967296 + cfg.pageSize) % 65536

/-- The test `StartAddress < EEPROM_Index[i] && EEPROM_Index[i] < EndAddress`: the index
entry `idx` points into `Page`. -/
def onPage (cfg : Config) (Page idx : Nat) : Prop :=
  startOffset cfg Page < idx ∧ idx < endOffset cfg Page

instance (cfg : Config) (Page idx : Nat) : Decidable (onPage cfg Page idx) := by
  unfold onPage; infer_instance

/-- The purge loop of `EEPROM_SetPageStatus` (eeprom.c 301-304): every index entry that
points into `Page` is set to 0. The size table is not touched. -/
def purgeIndex (cfg : Config) (Page : Nat) (index : Nat → Nat) : Nat → Nat :=
  (List.range cfg.varCount).foldl
    (fun idx i => if onPage cfg Page (idx i) then (fun m => if m = i then 0 else idx m) else idx)
    index

/-- The update of the three page-role globals at the end of `EEPROM_SetPageStatus`. -/
def updateRoles (Page PageStatus : Nat) (s : State) : State :=
  let s1 :=
    if s.EEPROM_ValidPage = Page then { s with EEPROM_ValidPage := EEPROM_PAGE_NONE }
    else if s.EEPROM_ReceivingPage = Page then { s with EEPROM_ReceivingPage := EEPROM_PAGE_NONE }
    else if s.EEPROM_ErasedPage = Page then { s with EEPROM_ErasedPage := EEPROM_PAGE_NONE }
    else s
  if PageStatus = EEPROM_VALID then { s1 with EEPROM_ValidPage := Page }
  else if PageStatus = EEPROM_RECEIVING then { s1 with EEPROM_ReceivingPage := Page }
  else if PageStatus = EEPROM_ERASED then { s1 with EEPROM_ErasedPage := Page }
  else s1

/-- `EEPROM_SetPageStatus(Page, PageStatus)` (eeprom.c 291-336). -/
def EEPROM_SetPageStatus (cfg : Config) (Page PageStatus : Nat) (s : State) :
    EEPROM_Result × State :=
  if PageStatus = EEPROM_ERASED then
    let s1 := { s with EEPROM_Index := purgeIndex cfg Page s.EEPROM_Index }
    match HAL_FLASHEx_Erase cfg Page 1 s1 with
    | (HAL_OK, s2) => (EEPROM_SUCCESS, updateRoles Page PageStatus s2)
    | (r, s2) => (ofHAL r, s2)
  else
    match HAL_FLASH_Program cfg 1 Page PageStatus s with
    | (HAL_OK, s2) => (EEPROM_SUCCESS, updateRoles Page PageStatus s2)
    | (r, s2) => (ofHAL r, s2)

/-! ## `EEPROM_ReadVariable` -/

/-- `EEPROM_ReadVariable(VariableName, &Value)` (eeprom.c 110-129). `Value` is the prior
content of the caller's 8-byte union (as its `uInt64` view); the second component is its
content afterwards: a read of 16 (32) bits overwrites the low 16 (32) bits only. The
function assigns no global and issues no primitive, so it has no state output. -/
def EEPROM_ReadVariable (cfg : Config) (VariableName Value : Nat) (s : State) :
    EEPROM_Result × Nat :=
  if VariableName ≥ cfg.varCount then (EEPROM_INVALID_NAME, Value) else
  let Address := (cfg.start + s.EEPROM_Index VariableName) % 4294967296
  if Address = EEPROM_PAGE0 cfg then (EEPROM_NOT_ASSIGNED, Value) else
  if s.EEPROM_SizeTable VariableName = EEPROM_SIZE16 then
    (EEPROM_SUCCESS, Value / 65536 * 65536 + read16 s.flash Address)
  else if s.EEPROM_SizeTable VariableName = EEPROM_SIZE32 then
    (EEPROM_SUCCESS, Value / 4294967296 * 4294967296 + read32 s.flash Address)
  else if s.EEPROM_SizeTable VariableName = EEPROM_SIZE64 then
    (EEPROM_SUCCESS,
      read32 s.flash Address ||| (read32 s.flash ((Address + 4) % 4294967296) <<< 32))
  else (EEPROM_NOT_ASSIGNED, Value)

/-! ## `EEPROM_WriteVariable`, `EEPROM_DeleteVariable`, `EEPROM_PageTransfer` -/

/-- The capacity loop of `EEPROM_WriteVariable` (eeprom.c 169-174): a 16-bit accumulator
starting at 2, adding `2 + (1 << Size)` for the written name and `2 + (1 << SizeTable[i])`
for every other name whose size entry is not `EEPROM_SIZE_DELETED`. -/
def requiredMemory (cfg : Config) (sizeTable : Nat → Nat) (VariableName Size : Nat) : Nat :=
  (List.range cfg.varCount).foldl
    (fun acc i =>
      if i = VariableName then (acc + (2 + (1 <<< Size))) % 65536
      else if sizeTable i ≠ EEPROM_SIZE_DELETED then (acc + (2 + (1 <<< sizeTable i))) % 65536
      else acc)
    2

/-- `uint8_t Bytes = 2 + (1 << Size); if (Size == EEPROM_SIZE_DELETED) Bytes = 2;` -/
def recordBytes (Size : Nat) : Nat :=
  if Size = EEPROM_SIZE_DELETED then 2 else (2 + (1 <<< Size)) % 256

/-- The writing page chosen by `EEPROM_WriteVariable` (receiving page preferred). -/
def writingPage (s : State) : Nat :=
  if s.EEPROM_ReceivingPage ≠ EEPROM_PAGE_NONE then s.EEPROM_ReceivingPage else s.EEPROM_ValidPage

/-- The test `EEPROM_NextIndex == 0 || PageEndAddress - EEPROM_NextIndex < Bytes` of
`EEPROM_WriteVariable` (32-bit unsigned subtraction). -/
def noRoom (cfg : Config) (s : State) (Size : Nat) : Prop :=
  s.EEPROM_NextIndex = 0 ∨
    (((writingPage s + cfg.pageSize) % 4294967296 + 4294967296 - s.EEPROM_NextIndex) % 4294967296
      < recordBytes Size)

instance (cfg : Config) (s : State) (Size : Nat) : Decidable (noRoom cfg s Size) := by
  unfold noRoom; infer_instance

/-- The else-branch of `EEPROM_WriteVariable` (eeprom.c 194-216): program the payload
(unless deleted), program the header, then update index, size table and cursor. -/
def appendRecord (cfg : Config) (VariableName Value Size : Nat) (s : State) :
    EEPROM_Result × State :=
  let PageEndAddress := (writingPage s + cfg.pageSize) % 4294967296
  let afterValue : HAL_Status × State :=
    if Size ≠ EEPROM_SIZE_DELETED then
      HAL_FLASH_Program cfg Size ((s.EEPROM_NextIndex + 2) % 4294967296) Value s
    else (HAL_OK, s)
  match afterValue with
  | (HAL_OK, s1) =>
    let VariableHeader := (VariableName + (Size <<< 14)) % 65536
    match HAL_FLASH_Program cfg 1 s1.EEPROM_NextIndex VariableHeader s1 with
    | (HAL_OK, s2) =>
      let newIndex :=
        if Size = EEPROM_SIZE_DELETED then 0
        else ((s2.EEPROM_NextIndex + 2 + 4294967296 - cfg.start) % 4294967296) % 65536
      let next := (s2.EEPROM_NextIndex + recordBytes Size) % 4294967296
      (EEPROM_SUCCESS,
        { s2 with
          EEPROM_Index := fun m => if m = VariableName then newIndex else s2.EEPROM_Index m,
          EEPROM_SizeTable := fun m => if m = VariableName then Size % 256 else s2.EEPROM_SizeTable m,
          EEPROM_NextIndex := if next ≥ PageEndAddress then 0 else next })
    | (r, s2) => (ofHAL r, s2)
  | (r, s1) => (ofHAL r, s1)

/-- One iteration of the copy loop of `EEPROM_PageTransfer` (eeprom.c 253-266), given the
write function of the current nesting level and the source page (whose offsets
`StartAddress`, `EndAddress` are computed before the loop). The accumulator carries the
pending result, the local `Value` union and the state; once the result is not success the
loop has returned. -/
def transferStep (cfg : Config)
    (write : Nat → Nat → Nat → State → Option EEPROM_Result × State)
    (Source : Nat)
    (acc : Option EEPROM_Result × Nat × State) (i : Nat) : Option EEPROM_Result × Nat × State :=
  match acc with
  | (some EEPROM_SUCCESS, Value, s) =>
    if onPage cfg Source (s.EEPROM_Index i) then
      match EEPROM_ReadVariable cfg i Value s with
      | (EEPROM_SUCCESS, Value1) =>
        match write i Value1 (s.EEPROM_SizeTable i) s with
        | (r, s1) => (r, Value1, s1)
      | (_, Value1) => (some EEPROM_SUCCESS, Value1, s)
    else (some EEPROM_SUCCESS, Value, s)
  | other => other

/-- `EEPROM_PageTransfer()` (eeprom.c 243-277) over a given write function. The local
`Value` is uninitialised in C; its initial content `Value0` is a parameter. -/
def pageTransferWith (cfg : Config)
    (write : Nat → Nat → Nat → State → Option EEPROM_Result × State)
    (Value0 : Nat) (s : State) : Option EEPROM_Result × State :=
  match (List.range cfg.varCount).foldl (transferStep cfg write s.EEPROM_ValidPage)
      (some EEPROM_SUCCESS, Value0, s) with
  | (some EEPROM_SUCCESS, _, s1) =>
    match EEPROM_SetPageStatus cfg s1.EEPROM_ValidPage EEPROM_ERASED s1 with
    | (EEPROM_SUCCESS, s2) =>
      match EEPROM_SetPageStatus cfg s2.EEPROM_ReceivingPage EEPROM_VALID s2 with
      | (EEPROM_SUCCESS, s3) => (some EEPROM_SUCCESS, s3)
      | (r, s3) => (some r, s3)
    | (r, s2) => (some r, s2)
  | (r, _, s1) => (r, s1)

/-- `EEPROM_WriteVariable(VariableName, Value, Size)` (eeprom.c 151-219). The first
argument bounds the nesting of the recursion through the compaction branch; `none` means
the bound was reached. `Value` is the `uInt64` view of the union. -/
def EEPROM_WriteVariable (cfg : Config) :
    Nat → Nat → Nat → Nat → State → Option EEPROM_Result × State
  | 0, _, _, _, s => (none, s)
  | fuel + 1, VariableName, Value, Size, s =>
    if writingPage s = EEPROM_PAGE_NONE then (some EEPROM_NO_VALID_PAGE, s)
    else if noRoom cfg s Size then
      if requiredMemory cfg s.EEPROM_SizeTable VariableName Size > cfg.pageSize then
        (some EEPROM_FULL, s)
      else
        match EEPROM_SetPageStatus cfg s.EEPROM_ErasedPage EEPROM_RECEIVING s with
        | (EEPROM_SUCCESS, s1) =>
          let s2 := { s1 with EEPROM_NextIndex := (s1.EEPROM_ReceivingPage + 2) % 4294967296 }
          match EEPROM_WriteVariable cfg fuel VariableName Value Size s2 with
          | (some EEPROM_SUCCESS, s3) =>
            pageTransferWith cfg (EEPROM_WriteVariable cfg fuel) Value s3
          | (r, s3) => (r, s3)
        | (r, s1) => (some r, s1)
    else
      match appendRecord cfg VariableName Value Size s with
      | (r, s1) => (some r, s1)

/-- `EEPROM_PageTransfer()` at a given nesting budget. -/
def EEPROM_PageTransfer (cfg : Config) (fuel : Nat) (Value0 : Nat) (s : State) :
    Option EEPROM_Result × State :=
  pageTransferWith cfg (EEPROM_WriteVariable cfg fuel) Value0 s

/-- `EEPROM_DeleteVariable(VariableName)` (eeprom.c 227-230). -/
def EEPROM_DeleteVariable (cfg : Config) (fuel VariableName : Nat) (s : State) :
    Option EEPROM_Result × State :=
  EEPROM_WriteVariable cfg fuel VariableName 0 EEPROM_SIZE_DELETED s

/-! ## `EEPROM_PageToIndex` and `EEPROM_Init` -/

/-- The look-ahead of `EEPROM_PageToIndex` (eeprom.c 385-391): over the offsets still to
visit (2, 4, 6, 8), stop at the page end, and remember the last offset whose halfword is
not erased. -/
def lookAhead (flash : Nat → Nat) (Address PageEndAddress : Nat) : List Nat → Nat → Nat
  | [], Size => Size
  | i :: rest, Size =>
    if (Address + i) % 4294967296 ≥ PageEndAddress then Size
    else lookAhead flash Address PageEndAddress rest
      (if read16 flash ((Address + i) % 4294967296) ≠ 0xFFFF then i else Size)

/-- The index / size-table update of the scanner for a header found at `Address`
(eeprom.c 400-410). -/
def scanRecord (cfg : Config) (Address VariableHeader : Nat)
    (tables : (Nat → Nat) × (Nat → Nat)) : (Nat → Nat) × (Nat → Nat) :=
  let SizeCode := VariableHeader >>> 14
  let Name := VariableHeader &&& 0x3FFF
  if Name < cfg.varCount then
    let newIndex :=
      if SizeCode = EEPROM_SIZE_DELETED then 0
      else ((Address + 2 + 4294967296 - cfg.start) % 4294967296) % 65536
    (fun m => if m = Name then newIndex else tables.1 m,
     fun m => if m = Name then SizeCode else tables.2 m)
  else tables

/-- Payload length the scanner skips for a size code (`1 << SizeCode`, 0 for deleted). -/
def scanSize (SizeCode : Nat) : Nat :=
  if SizeCode = EEPROM_SIZE_DELETED then 0 else (1 <<< SizeCode) % 256

/-- The while loop of `EEPROM_PageToIndex` (eeprom.c 376-419) on (Address, Index,
SizeTable). Every iteration that continues advances `Address` by at least 2, so a budget
of `FLASH_PAGE_SIZE` iterations is never exhausted (`scanLoop_budget`). -/
def scanLoop (cfg : Config) (flash : Nat → Nat) (PageEndAddress : Nat) :
    Nat → Nat → (Nat → Nat) × (Nat → Nat) → Nat × (Nat → Nat) × (Nat → Nat)
  | 0, Address, tables => (Address, tables)
  | fuel + 1, Address, tables =>
    if Address < PageEndAddress then
      let VariableHeader := read16 flash Address
      if VariableHeader = 0xFFFF then
        let Size := lookAhead flash Address PageEndAddress [2, 4, 6, 8] 0
        if Size = 0 then (Address, tables)
        else scanLoop cfg flash PageEndAddress fuel ((Address + 2 + Size) % 4294967296) tables
      else
        scanLoop cfg flash PageEndAddress fuel
          ((Address + 2 + scanSize (VariableHeader >>> 14)) % 4294967296)
          (scanRecord cfg Address VariableHeader tables)
    else (Address, tables)

/-- `EEPROM_PageToIndex(Page)` (eeprom.c 360-427). It always returns `EEPROM_SUCCESS`, so
only the state is returned. -/
def EEPROM_PageToIndex (cfg : Config) (Page : Nat) (s : State) : State :=
  if Page = EEPROM_PAGE_NONE then s else
  let PageEndAddress := (Page + cfg.pageSize) % 4294967296
  match scanLoop cfg s.flash PageEndAddress cfg.pageSize ((Page + 2) % 4294967296)
      (s.EEPROM_Index, s.EEPROM_SizeTable) with
  | (Address, index, sizeTable) =>
    { s with EEPROM_Index := index, EEPROM_SizeTable := sizeTable,
             EEPROM_NextIndex := if Address ≥ PageEndAddress then 0 else Address }

/-- The header test of `EEPROM_Init` (eeprom.c 46-49). -/
def invalidState (PageStatus0 PageStatus1 : Nat) : Prop :=
  (PageStatus0 ≠ EEPROM_VALID ∧ PageStatus0 ≠ EEPROM_RECEIVING ∧ PageStatus0 ≠ EEPROM_ERASED) ∨
  (PageStatus1 ≠ EEPROM_VALID ∧ PageStatus1 ≠ EEPROM_RECEIVING ∧ PageStatus1 ≠ EEPROM_ERASED) ∨
  PageStatus0 = PageStatus1

instance (a b : Nat) : Decidable (invalidState a b) := by
  unfold invalidState; infer_instance

/-- The six assignments of eeprom.c 72-77. -/
def assignRoles (cfg : Config) (PageStatus0 PageStatus1 : Nat) (s : State) : State :=
  let s1 := if PageStatus0 = EEPROM_VALID then { s with EEPROM_ValidPage := EEPROM_PAGE0 cfg } else s
  let s2 := if PageStatus1 = EEPROM_VALID then { s1 with EEPROM_ValidPage := EEPROM_PAGE1 cfg } else s1
  let s3 := if PageStatus0 = EEPROM_RECEIVING then
    { s2 with EEPROM_ReceivingPage := EEPROM_PAGE0 cfg } else s2
  let s4 := if PageStatus1 = EEPROM_RECEIVING then
    { s3 with EEPROM_ReceivingPage := EEPROM_PAGE1 cfg } else s3
  let s5 := if PageStatus0 = EEPROM_ERASED then { s4 with EEPROM_ErasedPage := EEPROM_PAGE0 cfg } else s4
  if PageStatus1 = EEPROM_ERASED then { s5 with EEPROM_ErasedPage := EEPROM_PAGE1 cfg } else s5

/-- The part of `EEPROM_Init` after the header check (eeprom.c 71-98), given the two
page statuses it works with. -/
def initTail (cfg : Config) (fuel Value0 PageStatus0 PageStatus1 : Nat) (s : State) :
    Option EEPROM_Result × State :=
  let s1 := assignRoles cfg PageStatus0 PageStatus1 s
  let s2 := EEPROM_PageToIndex cfg s1.EEPROM_ValidPage s1
  let s3 := EEPROM_PageToIndex cfg s2.EEPROM_ReceivingPage s2
  if s3.EEPROM_ReceivingPage ≠ EEPROM_PAGE_NONE then
    if s3.EEPROM_ValidPage = EEPROM_PAGE_NONE then
      match EEPROM_SetPageStatus cfg s3.EEPROM_ReceivingPage EEPROM_VALID s3 with
      | (EEPROM_SUCCESS, s4) => (some EEPROM_SUCCESS, s4)
      | (r, s4) => (some r, s4)
    else EEPROM_PageTransfer cfg fuel Value0 s3
  else (some EEPROM_SUCCESS, s3)

/-- `EEPROM_Init()` (eeprom.c 36-99). `fuel` bounds the nesting of writes inside a resumed
page transfer, `Value0` is the uninitialised local of that transfer. -/
def EEPROM_Init (cfg : Config) (fuel Value0 : Nat) (s : State) : Option EEPROM_Result × State :=
  let PageStatus0 := read16 s.flash (EEPROM_PAGE0 cfg)
  let PageStatus1 := read16 s.flash (EEPROM_PAGE1 cfg)
  if invalidState PageStatus0 PageStatus1 then
    match HAL_FLASHEx_Erase cfg (EEPROM_PAGE0 cfg) 2 s with
    | (HAL_OK, s1) =>
      match HAL_FLASH_Program cfg EEPROM_SIZE16 (EEPROM_PAGE0 cfg) EEPROM_VALID s1 with
      | (HAL_OK, s2) => initTail cfg fuel Value0 EEPROM_VALID EEPROM_ERASED s2
      | (r, s2) => (some (ofHAL r), s2)
    | (r, s1) => (some (ofHAL r), s1)
  else initTail cfg fuel Value0 PageStatus0 PageStatus1 s

/-- The in-memory state at power-on (zero-initialised statics, no page roles, cursor 0) on
a given flash image, with a HAL outcome schedule and an empty call log. -/
def powerOn (flash : Nat → Nat) (hal : Nat → HAL_Status) : State :=
  { flash := flash, EEPROM_SizeTable := fun _ => 0, EEPROM_Index := fun _ => 0,
    EEPROM_ValidPage := EEPROM_PAGE_NONE, EEPROM_ReceivingPage := EEPROM_PAGE_NONE,
    EEPROM_ErasedPage := EEPROM_PAGE_NONE, EEPROM_NextIndex := 0, hal := hal, log := [] }

/-- The schedule in which every primitive call succeeds. -/
def halOk : Nat → HAL_Status := fun _ => HAL_OK

/-! ## Invariants used by the proofs -/

/-- Effective write cursor in the writing page `W`: the page end when the cursor is the
"no room" value 0. -/
def cursorOf (cfg : Config) (W : Nat) (s : State) : Nat :=
  if s.EEPROM_NextIndex = 0 then W + cfg.pageSize else s.EEPROM_NextIndex

/-- `W` and `O` are the two pages of the emulation area, in either order. -/
def IsPagePair (cfg : Config) (W O : Nat) : Prop :=
  (W = EEPROM_PAGE0 cfg ∧ O = EEPROM_PAGE1 cfg) ∨ (W = EEPROM_PAGE1 cfg ∧ O = EEPROM_PAGE0 cfg)

/-- One entry of the two tables is sound: a size class, index and size in lock-step, and a
non-zero index addresses a payload that lies in the written part of the writing page `W`
or inside the other page `O`. -/
structure EntryOK (cfg : Config) (W O cur idx sz : Nat) : Prop where
  size_le : sz ≤ 3
  lockstep : idx = 0 ↔ sz = 0
  idx_lt : idx < 65536
  place : idx ≠ 0 →
    (W + 4 ≤ cfg.start + idx ∧ cfg.start + idx + scanSize sz ≤ cur) ∨
    (O + 4 ≤ cfg.start + idx ∧ cfg.start + idx + scanSize sz ≤ O + cfg.pageSize)

/-- The part of the invariant shared by steady states and states in the middle of a page
transfer: the writing page is `W`, the cursor lies in it, everything from the cursor to
the page end is erased, and every table entry is sound. -/
structure Core (cfg : Config) (W O : Nat) (s : State) : Prop where
  pair : IsPagePair cfg W O
  writing : writingPage s = W
  cursor : s.EEPROM_NextIndex = 0 ∨
    (W + 2 ≤ s.EEPROM_NextIndex ∧ s.EEPROM_NextIndex < W + cfg.pageSize)
  free : ∀ a, cursorOf cfg W s ≤ a → a < W + cfg.pageSize → read16 s.flash a = 0xFFFF
  entries : ∀ m, m < cfg.varCount →
    EntryOK cfg W O (cursorOf cfg W s) (s.EEPROM_Index m) (s.EEPROM_SizeTable m)

/-- The state `appendRecord` produces when both program calls succeed. -/
def appendState (cfg : Config) (VariableName Value Size : Nat) (s : State) : State :=
  let c := s.EEPROM_NextIndex
  let f1 := if Size ≠ EEPROM_SIZE_DELETED then
      programFlash s.flash Size ((c + 2) % 4294967296) Value else s.flash
  let l1 := if Size ≠ EEPROM_SIZE_DELETED then
      s.log ++ [FlashOp.program Size ((c + 2) % 4294967296) Value] else s.log
  let VariableHeader := (VariableName + (Size <<< 14)) % 65536
  let next := (c + recordBytes Size) % 4294967296
  { s with
    flash := programFlash f1 1 c VariableHeader,
    log := l1 ++ [FlashOp.program 1 c VariableHeader],
    EEPROM_Index := fun m => if m = VariableName then
        (if Size = EEPROM_SIZE_DELETED then 0
         else ((c + 2 + 4294967296 - cfg.start) % 4294967296) % 65536)
      else s.EEPROM_Index m,
    EEPROM_SizeTable := fun m => if m = VariableName then Size % 256 else s.EEPROM_SizeTable m,
    EEPROM_NextIndex :=
      if next ≥ (writingPage s + cfg.pageSize) % 4294967296 then 0 else next }

/-- The content of the caller's union after a successful read of size class `sz`, given
its prior content `Value` and the payload halfwords `h 0 .. h 3`. -/
def assemble (sz Value : Nat) (h : Nat → Nat) : Nat :=
  if sz = EEPROM_SIZE16 then Value / 65536 * 65536 + h 0
  else if sz = EEPROM_SIZE32 then Value / 4294967296 * 4294967296 + (h 0 + 65536 * h 1)
  else (h 0 + 65536 * h 1) ||| ((h 2 + 65536 * h 3) <<< 32)

/-- The modulus of a size class: 2^16, 2^32, 2^64 for SIZE16, SIZE32, SIZE64. -/
def valueMod (Size : Nat) : Nat := 2 ^ (8 * scanSize Size)

/-- The state `EEPROM_SetPageStatus` produces for a status other than erased when its
program call succeeds. -/
def markState (Page PageStatus : Nat) (s : State) : State :=
  updateRoles Page PageStatus
    { s with flash := programFlash s.flash 1 Page PageStatus,
             log := s.log ++ [FlashOp.program 1 Page PageStatus] }

/-- The state `EEPROM_SetPageStatus(Page, EEPROM_ERASED)` produces when its erase call
succeeds. -/
def eraseState (cfg : Config) (Page : Nat) (s : State) : State :=
  updateRoles Page EEPROM_ERASED
    { s with EEPROM_Index := purgeIndex cfg Page s.EEPROM_Index,
             flash := eraseFlash cfg s.flash Page 1,
             log := s.log ++ [FlashOp.erase Page 1] }

/-- Bytes the capacity loop charges for a stored size entry: `2 + (1 << size)` unless the
entry is `EEPROM_SIZE_DELETED`. -/
def liveBytes (sz : Nat) : Nat := if sz ≠ EEPROM_SIZE_DELETED then 2 + (1 <<< sz) else 0

/-- Total footprint of the names with a live size entry. -/
def liveSum (cfg : Config) (s : State) : Nat :=
  ∑ m in Finset.range cfg.varCount, liveBytes (s.EEPROM_SizeTable m)

/-- Total footprint of the names whose index entry still points into page `P`. -/
def pendingBytes (cfg : Config) (P : Nat) (s : State) : Nat :=
  ∑ m in Finset.range cfg.varCount,
    if onPage cfg P (s.EEPROM_Index m) then liveBytes (s.EEPROM_SizeTable m) else 0

/-- Steady state: one valid page holding every live record, one erased page that is
blank, no receiving page, and the live records fit below the cursor. This is a predicate on
the state alone, whatever its history, HAL schedule and call log. It holds after a
formatting `EEPROM_Init` (`formatted_steady`), is kept by every successful write and delete
(`write_ok`), and holds after an `EEPROM_Init` from power-on memory that does not format,
on every image whose pages hold committed records followed by erased space: Valid next to
Erased (`init_valid_erased`, in particular after a reboot, `reboot_steady`), Receiving next
to Valid (`replay_steady`) and Receiving next to Erased (`init_receiving_erased`). Every
state in normal operation (`Operating`) is steady (`operating_steady`). -/
structure Steady (cfg : Config) (s : State) : Prop where
  core : Core cfg s.EEPROM_ValidPage s.EEPROM_ErasedPage s
  receiving : s.EEPROM_ReceivingPage = EEPROM_PAGE_NONE
  header : read16 s.flash s.EEPROM_ValidPage = EEPROM_VALID
  blank : ∀ a, s.EEPROM_ErasedPage ≤ a → a < s.EEPROM_ErasedPage + cfg.pageSize →
    read16 s.flash a = 0xFFFF
  home : ∀ m, m < cfg.varCount → s.EEPROM_Index m ≠ 0 →
    s.EEPROM_ValidPage + 4 ≤ cfg.start + s.EEPROM_Index m ∧
    cfg.start + s.EEPROM_Index m + scanSize (s.EEPROM_SizeTable m) ≤
      cursorOf cfg s.EEPROM_ValidPage s
  sum : 2 + liveSum cfg s ≤ cursorOf cfg s.EEPROM_ValidPage s - s.EEPROM_ValidPage

/-- State in the middle of a page transfer from `V` into the receiving page `R`: the
records still to be copied fit into what is left of `R`. -/
structure Mid (cfg : Config) (V R : Nat) (s : State) : Prop where
  core : Core cfg R V s
  valid : s.EEPROM_ValidPage = V
  receiving : s.EEPROM_ReceivingPage = R
  erased : s.EEPROM_ErasedPage = EEPROM_PAGE_NONE
  fits : cursorOf cfg R s - R + pendingBytes cfg V s ≤ cfg.pageSize
  packed : 2 + pendingBytes cfg R s ≤ cursorOf cfg R s - R

/-- The records of page `P` from its first record slot up to address `a` are all committed
(their headers are programmed), and scanning them from empty tables yields `tables`. -/
inductive Committed (cfg : Config) (flash : Nat → Nat) (P : Nat) :
    Nat → (Nat → Nat) × (Nat → Nat) → Prop
  | nil : Committed cfg flash P (P + 2) (fun _ => 0, fun _ => 0)
  | snoc {a : Nat} {tables : (Nat → Nat) × (Nat → Nat)} :
      Committed cfg flash P a tables → a < P + cfg.pageSize → read16 flash a ≠ 0xFFFF →
      Committed cfg flash P (a + 2 + scanSize (read16 flash a >>> 14))
        (scanRecord cfg a (read16 flash a) tables)

/-- The tables with every entry that points into page `P` blanked. -/
def restrictTables (cfg : Config) (P : Nat) (tables : (Nat → Nat) × (Nat → Nat)) :
    (Nat → Nat) × (Nat → Nat) :=
  (fun m => if onPage cfg P (tables.1 m) then 0 else tables.1 m,
   fun m => if onPage cfg P (tables.1 m) then 0 else tables.2 m)

/-- What one iteration of the copy loop does to (`Value`, state) when its write succeeds
by appending. -/
def copyStep (cfg : Config) (Source : Nat) (acc : Nat × State) (i : Nat) : Nat × State :=
  if onPage cfg Source (acc.2.EEPROM_Index i) then
    match EEPROM_ReadVariable cfg i acc.1 acc.2 with
    | (EEPROM_SUCCESS, Value1) =>
      (Value1, appendState cfg i Value1 (acc.2.EEPROM_SizeTable i) acc.2)
    | (_, Value1) => (Value1, acc.2)
  else acc

/-- States reached from a store formatted by `EEPROM_Init` (any flash image whose page
headers are inconsistent, the fresh device included) through writes and deletes of valid
names that return `EEPROM_SUCCESS`, under any schedule of HAL outcomes. -/
inductive Reachable (cfg : Config) : State → Prop
  | init (flash : Nat → Nat) (hal : Nat → HAL_Status) (fuel Value0 : Nat) :
      invalidState (read16 flash (EEPROM_PAGE0 cfg)) (read16 flash (EEPROM_PAGE1 cfg)) →
      (EEPROM_Init cfg fuel Value0 (powerOn flash hal)).1 = some EEPROM_SUCCESS →
      Reachable cfg (EEPROM_Init cfg fuel Value0 (powerOn flash hal)).2
  | write (s : State) (fuel VariableName Value Size : Nat) :
      Reachable cfg s → VariableName < cfg.varCount →
      Size = EEPROM_SIZE16 ∨ Size = EEPROM_SIZE32 ∨ Size = EEPROM_SIZE64 →
      (EEPROM_WriteVariable cfg fuel VariableName Value Size s).1 = some EEPROM_SUCCESS →
      Reachable cfg (EEPROM_WriteVariable cfg fuel VariableName Value Size s).2
  | delete (s : State) (fuel VariableName : Nat) :
      Reachable cfg s → VariableName < cfg.varCount →
      (EEPROM_DeleteVariable cfg fuel VariableName s).1 = some EEPROM_SUCCESS →
      Reachable cfg (EEPROM_DeleteVariable cfg fuel VariableName s).2

/-- Relation between a mid-transfer state `s` and a later state `t` of the same transfer:
size entries are unchanged, names not on the source page keep their index entry, every
name still reads the same, and flash has only changed in what was free space of `R`. -/
structure Drained (cfg : Config) (V R : Nat) (s t : State) : Prop where
  mid : Mid cfg V R t
  sizes : ∀ m, t.EEPROM_SizeTable m = s.EEPROM_SizeTable m
  keep : ∀ m, ¬ onPage cfg V (s.EEPROM_Index m) → t.EEPROM_Index m = s.EEPROM_Index m
  stay : ∀ m, onPage cfg V (t.EEPROM_Index m) → t.EEPROM_Index m = s.EEPROM_Index m
  reads : ∀ m, m < cfg.varCount → ∀ Value,
    EEPROM_ReadVariable cfg m Value t = EEPROM_ReadVariable cfg m Value s
  hal : t.hal = s.hal
  mono : cursorOf cfg R s ≤ cursorOf cfg R t
  frame : ∀ a, a < cursorOf cfg R s ∨ R + cfg.pageSize ≤ a → read16 t.flash a = read16 s.flash a

/-- The state at the start of a compaction, after the erased page has been marked
receiving and the cursor moved to its first record slot (eeprom.c 178-182). -/
def beginState (s : State) : State :=
  { markState s.EEPROM_ErasedPage EEPROM_RECEIVING s with
    EEPROM_NextIndex :=
      ((markState s.EEPROM_ErasedPage EEPROM_RECEIVING s).EEPROM_ReceivingPage + 2) % 4294967296 }

/-- The state `EEPROM_Init` produces from power-on when it formats the store and both
primitive calls succeed: both pages erased, page 0 marked valid and given the valid role,
page 1 the erased role, empty tables, cursor at the first record slot of page 0. -/
def formattedState (cfg : Config) (flash : Nat → Nat) (hal : Nat → HAL_Status) : State :=
  { flash := programFlash (eraseFlash cfg flash (EEPROM_PAGE0 cfg) 2) 1 (EEPROM_PAGE0 cfg)
      EEPROM_VALID,
    EEPROM_SizeTable := fun _ => 0, EEPROM_Index := fun _ => 0,
    EEPROM_ValidPage := EEPROM_PAGE0 cfg, EEPROM_ReceivingPage := EEPROM_PAGE_NONE,
    EEPROM_ErasedPage := EEPROM_PAGE1 cfg, EEPROM_NextIndex := EEPROM_PAGE0 cfg + 2,
    hal := hal,
    log := [FlashOp.erase (EEPROM_PAGE0 cfg) 2,
      FlashOp.program EEPROM_SIZE16 (EEPROM_PAGE0 cfg) EEPROM_VALID] }

/-! ## Concrete configurations and states used as examples -/

/-- A configuration whose page holds exactly the page header and three halfword records
(Scenario C of the specification): `FLASH_PAGE_SIZE = 14`, four variables. -/
def tinyConfig : Config := { start := 0x0800F800, pageSize := 14, varCount := 4 }

/-- A factory-fresh flash image: every halfword erased. -/
def freshFlash : Nat → Nat := fun _ => 0xFFFF

/-- The standard configuration after `EEPROM_Init` on a fresh device. -/
def stdBoot : State := (EEPROM_Init stdConfig 2 0 (powerOn freshFlash halOk)).2

/-- The tiny configuration after `EEPROM_Init` on a fresh device. -/
def tinyBoot : State := (EEPROM_Init tinyConfig 2 0 (powerOn freshFlash halOk)).2

/-- Scenario C after the halfword writes of names 0, 1 and 2: the page is exactly full. -/
def tinyFull : State :=
  (EEPROM_WriteVariable tinyConfig 2 2 0x3333 EEPROM_SIZE16
    (EEPROM_WriteVariable tinyConfig 2 1 0x2222 EEPROM_SIZE16
      (EEPROM_WriteVariable tinyConfig 2 0 0x1111 EEPROM_SIZE16 tinyBoot).2).2).2

/-- Footprint claimed by the specification for the live records of all names other than
`n`: `2 + payload bytes` for every name with a current record (non-zero index entry). -/
def othersFootprint (cfg : Config) (s : State) (n : Nat) : Nat :=
  ∑ m in Finset.range cfg.varCount,
    if m ≠ n ∧ s.EEPROM_Index m ≠ 0 then 2 + scanSize (s.EEPROM_SizeTable m) else 0

/-- The result `r` of a step started in state `s` stems from a HAL status, and is
`EEPROM_SUCCESS` when the HAL never reports a failure. -/
def HalResult (s : State) (r : EEPROM_Result) : Prop :=
  (∃ h, r = ofHAL h) ∧ ((∀ k, s.hal k = HAL_OK) → r = EEPROM_SUCCESS)

/-- Flash content after a power cut `k` primitive calls into the run that led from state
`s` to state `t` (a run in which every primitive call completed). -/
def cutFlash (cfg : Config) (s t : State) (k : Nat) : Nat → Nat :=
  applyOps cfg s.flash ((t.log.drop s.log.length).take k)

/-- Scenario C, power cut `k` primitive calls into the compacting rewrite of name 1. -/
def tinyCut (k : Nat) : Nat → Nat :=
  cutFlash tinyConfig tinyFull
    (EEPROM_WriteVariable tinyConfig 2 1 0x5555 EEPROM_SIZE16 tinyFull).2 k

/-- The shipped configuration after a power cut between the payload program and the header
program of `write(0, 0x1111, Half)` on the freshly initialised store. -/
def tornFlash : Nat → Nat :=
  cutFlash stdConfig stdBoot (EEPROM_WriteVariable stdConfig 2 0 0x1111 EEPROM_SIZE16 stdBoot).2 1

/-- The tiny configuration after `write(0, v, SIZE64)` and `delete(1)` on the freshly
initialised store: the page (14 bytes) is exactly full. -/
def tinyWide : State :=
  (EEPROM_DeleteVariable tinyConfig 2 1
    (EEPROM_WriteVariable tinyConfig 2 0 0x1122334455667788 EEPROM_SIZE64 tinyBoot).2).2

/-- Error propagation from state `s` to state `t` with result `r`: the HAL schedule is the
same, the call log has only grown, and if a primitive call issued in between reported a
failure, it was the last call issued and `r` is exactly its status. -/
def Propagated (s : State) (r : Option EEPROM_Result) (t : State) : Prop :=
  t.hal = s.hal ∧ (∃ ops, t.log = s.log ++ ops) ∧
  ∀ j, s.log.length ≤ j → j < t.log.length → s.hal j ≠ HAL_OK →
    j + 1 = t.log.length ∧ r = some (ofHAL (s.hal j))

/-- No format between `s` and `t`: no call issued in between is a two-page erase. -/
def NoFormat (s t : State) : Prop :=
  ∃ ops, t.log = s.log ++ ops ∧ ∀ op ∈ ops, ∀ p, op ≠ FlashOp.erase p 2

/-- Error propagation without a format. -/
def Traced (s : State) (r : Option EEPROM_Result) (t : State) : Prop :=
  Propagated s r t ∧ NoFormat s t

/-- The tables of a steady state are exactly what a scan of the valid page from empty
tables yields: every record up to the cursor is committed. -/
def Scanned (cfg : Config) (s : State) : Prop :=
  Committed cfg s.flash s.EEPROM_ValidPage (cursorOf cfg s.EEPROM_ValidPage s)
    (s.EEPROM_Index, s.EEPROM_SizeTable)

/-- The same during a page transfer from `V` into `R`: the records of `R` up to the cursor
account for every table entry that does not point into `V`, and positions at or beyond
`EEPROM_VARIABLE_COUNT` are untouched. -/
def MidScanned (cfg : Config) (V R : Nat) (s : State) : Prop :=
  Committed cfg s.flash R (cursorOf cfg R s)
    (restrictTables cfg V (s.EEPROM_Index, s.EEPROM_SizeTable)) ∧
  ∀ m, cfg.varCount ≤ m → s.EEPROM_Index m = 0 ∧ s.EEPROM_SizeTable m = 0

/-- The records of page `P` from its first record slot up to address `a` are all committed,
and scanning them from the tables `T0` yields `tables`: each record overrides the entry of
its name, so the last record of a name wins and untouched names keep their entry of `T0`. -/
inductive CommittedFrom (cfg : Config) (flash : Nat → Nat) (P : Nat)
    (T0 : (Nat → Nat) × (Nat → Nat)) : Nat → (Nat → Nat) × (Nat → Nat) → Prop
  | nil : CommittedFrom cfg flash P T0 (P + 2) T0
  | snoc {a : Nat} {tables : (Nat → Nat) × (Nat → Nat)} :
      CommittedFrom cfg flash P T0 a tables → a < P + cfg.pageSize → read16 flash a ≠ 0xFFFF →
      CommittedFrom cfg flash P T0 (a + 2 + scanSize (read16 flash a >>> 14))
        (scanRecord cfg a (read16 flash a) tables)

/-- An entry (index, size) is empty or addresses a payload inside `[lo + 4, hi]`. -/
def EntryIn (cfg : Config) (lo hi idx sz : Nat) : Prop :=
  sz ≤ 3 ∧ (idx = 0 ↔ sz = 0) ∧ idx < 65536 ∧
  (idx ≠ 0 → lo + 4 ≤ cfg.start + idx ∧ cfg.start + idx + scanSize sz ≤ hi)

/-- Payload bytes of a size class as the specification states them: Deleted 0, Half 2,
Word 4, Double 8. -/
def payloadBytes (c : Nat) : Nat :=
  if c = EEPROM_SIZE_DELETED then 0
  else if c = EEPROM_SIZE16 then 2
  else if c = EEPROM_SIZE32 then 4
  else 8

/-- Index and size table are in lock-step for every configured name: the index entry is 0
exactly when the size entry is `EEPROM_SIZE_DELETED`. -/
def LockStep (cfg : Config) (s : State) : Prop :=
  ∀ m, m < cfg.varCount → (s.EEPROM_Index m = 0 ↔ s.EEPROM_SizeTable m = EEPROM_SIZE_DELETED)

instance (cfg : Config) (s : State) : Decidable (LockStep cfg s) := by
  unfold LockStep; infer_instance

/-- The shipped configuration after `EEPROM_Init` on a fresh device and
`write(0, 0x1111, Half)`. -/
def stdOne : State := (EEPROM_WriteVariable stdConfig 2 0 0x1111 EEPROM_SIZE16 stdBoot).2

/-- The records of a page as (header address, header) pairs, for a list of headers laid out
from `Address`: each record takes 2 bytes of header and the payload bytes of its size class
(bits 15-14 of the header). -/
def layout : Nat → List Nat → List (Nat × Nat)
  | _, [] => []
  | Address, h :: hs => (Address, h) :: layout (Address + 2 + payloadBytes (h >>> 14)) hs

/-- The address just past the last record of `layout`. -/
def layoutEnd : Nat → List Nat → Nat
  | Address, [] => Address
  | Address, h :: hs => layoutEnd (Address + 2 + payloadBytes (h >>> 14)) hs

/-- The last record of name `m` (bits 13-0 of the header) in a sequence of records. -/
def lastRecord (m : Nat) (recs : List (Nat × Nat)) : Option (Nat × Nat) :=
  recs.reverse.find? (fun p => decide (p.2 &&& 0x3FFF = m))

/-- The tiny configuration after `write(0, 0x1111, Half)`, `delete(0)` and
`write(0, 0x22223333, Word)` on the freshly initialised store: three records of name 0
fill the page exactly. -/
def tinyThrice : State :=
  (EEPROM_WriteVariable tinyConfig 2 0 0x22223333 EEPROM_SIZE32
    (EEPROM_DeleteVariable tinyConfig 2 0
      (EEPROM_WriteVariable tinyConfig 2 0 0x1111 EEPROM_SIZE16 tinyBoot).2).2).2

/-- The halfword addresses the look-ahead of `EEPROM_PageToIndex` dereferences (eeprom.c
386-391): `Address + i` for every offset visited before the loop breaks at the page end. -/
def lookAheadReads (Address PageEndAddress : Nat) : List Nat → List Nat
  | [] => []
  | i :: rest =>
    if (Address + i) % 4294967296 ≥ PageEndAddress then []
    else (Address + i) % 4294967296 :: lookAheadReads Address PageEndAddress rest

/-- The while loop of `EEPROM_PageToIndex` with the tables dropped and the memory reads
recorded: one entry per execution of the loop body (in order), listing the halfword
addresses that execution dereferences: the header, and the look-ahead when the header is
erased. The control flow is that of `scanLoop`. -/
def scanReads (flash : Nat → Nat) (PageEndAddress : Nat) : Nat → Nat → List (List Nat)
  | 0, _ => []
  | fuel + 1, Address =>
    if Address < PageEndAddress then
      let VariableHeader := read16 flash Address
      if VariableHeader = 0xFFFF then
        let Size := lookAhead flash Address PageEndAddress [2, 4, 6, 8] 0
        (Address :: lookAheadReads Address PageEndAddress [2, 4, 6, 8]) ::
          (if Size = 0 then []
           else scanReads flash PageEndAddress fuel ((Address + 2 + Size) % 4294967296))
      else
        [Address] ::
          scanReads flash PageEndAddress fuel
            ((Address + 2 + scanSize (VariableHeader >>> 14)) % 4294967296)
    else []

/-- A primitive call targets the emulation area `[EEPROM_PAGE0, EEPROM_PAGE1 +
FLASH_PAGE_SIZE)`: the programmed address, or every erased page, lies inside it. -/
def inArea (cfg : Config) (op : FlashOp) : Bool :=
  match op with
  | FlashOp.program _ a _ =>
    decide (EEPROM_PAGE0 cfg ≤ a ∧ a < EEPROM_PAGE1 cfg + cfg.pageSize)
  | FlashOp.erase p n =>
    decide (EEPROM_PAGE0 cfg ≤ p ∧ p + n * cfg.pageSize ≤ EEPROM_PAGE1 cfg + cfg.pageSize)

/-- The record header `VariableHeader = VariableName + (Size << 14)` (eeprom.c 204) as a
16-bit value. -/
def recordHeader (VariableName Size : Nat) : Nat := (VariableName + (Size <<< 14)) % 65536

/-- Page `P` holds, from its first record slot, exactly the records with the headers `hs`:
each header is programmed at its place in the layout, and the last record ends at `cur`. -/
def Listed (flash : Nat → Nat) (P : Nat) (hs : List Nat) (cur : Nat) : Prop :=
  (∀ p ∈ layout (P + 2) hs, read16 flash p.1 = p.2) ∧ layoutEnd (P + 2) hs = cur

/-- The conditions under which `EEPROM_WriteVariable` reaches its append branch, the final
else of the chain at eeprom.c 158-194: there is a writing page, and the test
`EEPROM_NextIndex == 0 || PageEndAddress - EEPROM_NextIndex < Bytes` is false. -/
def takesAppend (cfg : Config) (s : State) (Size : Nat) : Prop :=
  writingPage s ≠ EEPROM_PAGE_NONE ∧ ¬ noRoom cfg s Size

instance (cfg : Config) (s : State) (Size : Nat) : Decidable (takesAppend cfg s Size) := by
  unfold takesAppend; infer_instance

/-- A primitive call that marks a page receiving: a program call at the base address of
one of the two pages whose first halfword is `EEPROM_RECEIVING`. -/
def marksReceiving (cfg : Config) (op : FlashOp) : Bool :=
  match op with
  | FlashOp.program _ a d =>
    decide ((a = EEPROM_PAGE0 cfg ∨ a = EEPROM_PAGE1 cfg) ∧ d % 65536 = EEPROM_RECEIVING)
  | FlashOp.erase _ _ => false

/-- Between `s` and `t` the call log has only grown, and none of the calls issued in
between marks a page receiving. -/
def Quiet (cfg : Config) (s t : State) : Prop :=
  ∃ ops, t.log = s.log ++ ops ∧ ∀ op ∈ ops, marksReceiving cfg op = false

/-- The shipped configuration restarted: after `EEPROM_Init` on a fresh device and
`write(0, 0x1111, Half)`, the memory is reset to power-on and `EEPROM_Init` runs again on
the same flash. It finds the header pair Valid / Erased and does not format. -/
def stdRestart : State := (EEPROM_Init stdConfig 2 0 (powerOn stdOne.flash halOk)).2

/-- Scenario C restarted: after the three halfword writes that fill page 0 of the tiny
configuration, the memory is reset to power-on and `EEPROM_Init` runs again on the same
flash. It finds the header pair Valid / Erased and does not format. -/
def tinyRestart : State := (EEPROM_Init tinyConfig 2 0 (powerOn tinyFull.flash halOk)).2

/-- States in normal operation. The store is started by an `EEPROM_Init` from power-on
memory that formats (inconsistent headers, the fresh device included), or that finds a
Valid / Erased header pair on an image whose Valid page holds committed records followed by
erased space and whose Erased page is blank. It is then used through writes and deletes of
configured names that return `EEPROM_SUCCESS` and restarted (memory reset to power-on,
`EEPROM_Init` on the same flash) any number of times, in any order, under any schedules of
HAL outcomes. -/
inductive Operating (cfg : Config) : State → Prop
  | format (flash : Nat → Nat) (hal : Nat → HAL_Status) (fuel Value0 : Nat) :
      invalidState (read16 flash (EEPROM_PAGE0 cfg)) (read16 flash (EEPROM_PAGE1 cfg)) →
      (EEPROM_Init cfg fuel Value0 (powerOn flash hal)).1 = some EEPROM_SUCCESS →
      Operating cfg (EEPROM_Init cfg fuel Value0 (powerOn flash hal)).2
  | start (flash : Nat → Nat) (hal : Nat → HAL_Status) (fuel Value0 : Nat) (V O aV : Nat)
      (T : (Nat → Nat) × (Nat → Nat)) :
      IsPagePair cfg V O → read16 flash V = EEPROM_VALID →
      (∀ x, O ≤ x → x < O + cfg.pageSize → read16 flash x = 0xFFFF) →
      CommittedFrom cfg flash V (fun _ => 0, fun _ => 0) aV T → aV ≤ V + cfg.pageSize →
      (∀ x, aV ≤ x → x < V + cfg.pageSize → read16 flash x = 0xFFFF) →
      Operating cfg (EEPROM_Init cfg fuel Value0 (powerOn flash hal)).2
  | restart (s : State) (hal : Nat → HAL_Status) (fuel Value0 : Nat) :
      Operating cfg s → Operating cfg (EEPROM_Init cfg fuel Value0 (powerOn s.flash hal)).2
  | write (s : State) (fuel VariableName Value Size : Nat) :
      Operating cfg s → VariableName < cfg.varCount →
      Size = EEPROM_SIZE16 ∨ Size = EEPROM_SIZE32 ∨ Size = EEPROM_SIZE64 →
      (EEPROM_WriteVariable cfg fuel VariableName Value Size s).1 = some EEPROM_SUCCESS →
      Operating cfg (EEPROM_WriteVariable cfg fuel VariableName Value Size s).2
  | delete (s : State) (fuel VariableName : Nat) :
      Operating cfg s → VariableName < cfg.varCount →
      (EEPROM_DeleteVariable cfg fuel VariableName s).1 = some EEPROM_SUCCESS →
      Operating cfg (EEPROM_DeleteVariable cfg fuel VariableName s).2

end EEPROM

/-! # EEPROM emulation library V1.0 (`src/V1.0/eeprom.c`)

The first version of the library stores 16-bit variables in fixed records of four bytes
(value halfword, then name halfword) from offset 4 of a page, and keeps only the index in
memory; page roles are read from the page headers on every access. The configuration,
the flash model and the HAL primitives are those of the V2.0 embedding. -/

namespace EEPROMV1

open EEPROM (Config FlashOp HAL_Status read16 read32 applyOp onPage purgeIndex
  EEPROM_PAGE0 EEPROM_PAGE1 EEPROM_PAGE_NONE EEPROM_ERASED EEPROM_RECEIVING EEPROM_VALID)
open EEPROM.HAL_Status

/-- The result codes of V1.0 `eeprom.h`, in the order of their numeric values 0..8. -/
inductive EEPROM_Result
  | EEPROM_SUCCESS
  | EEPROM_ERROR
  | EEPROM_BUSY
  | EEPROM_TIMEOUT
  | EEPROM_NO_VALID_PAGE
  | EEPROM_PAGE_FULL
  | EEPROM_NOT_ASSIGNED
  | EEPROM_INVALID_NAME
  | EEPROM_UNKNOWN_ERROR
deriving DecidableEq, Repr

/-- The argument of `EEPROM_FindValidPage`. -/
inductive EEPROM_Operation
  | EEPROM_READ
  | EEPROM_WRITE
deriving DecidableEq, Repr

open EEPROM_Result EEPROM_Operation

/-- The implicit conversion `result = HAL_...(...)`. -/
def ofHAL : HAL_Status → EEPROM_Result
  | HAL_OK => EEPROM_SUCCESS
  | HAL_ERROR => EEPROM_ERROR
  | HAL_BUSY => EEPROM_BUSY
  | HAL_TIMEOUT => EEPROM_TIMEOUT

/-- The state of the device under V1.0: flash contents, the index (the only global), the
outcome the HAL will report for its k-th call, and the calls issued so far. -/
structure State where
  flash : Nat → Nat
  EEPROM_Index : Nat → Nat
  hal : Nat → HAL_Status
  log : List FlashOp

/-- Modelled from the spec: issuing a primitive of the external flash adapter (logged;
reports the scheduled outcome; flash changes only when the outcome is `HAL_OK`). -/
def halCall (cfg : Config) (op : FlashOp) (s : State) : HAL_Status × State :=
  let r := s.hal s.log.length
  (r, { s with flash := if r = HAL_OK then applyOp cfg s.flash op else s.flash,
               log := s.log ++ [op] })

/-- Modelled from the spec: `HAL_FLASH_Program(TypeProgram, Address, Data)`. -/
def HAL_FLASH_Program (cfg : Config) (typeProgram addr data : Nat) (s : State) :
    HAL_Status × State :=
  halCall cfg (FlashOp.program typeProgram addr data) s

/-- Modelled from the spec: `HAL_FLASHEx_Erase` with `PageAddress` and `NbPages`. -/
def HAL_FLASHEx_Erase (cfg : Config) (pageAddress nbPages : Nat) (s : State) :
    HAL_Status × State :=
  halCall cfg (FlashOp.erase pageAddress nbPages) s

/-- `EEPROM_FindValidPage(Operation)` (V1.0 eeprom.c 213-231). -/
def EEPROM_FindValidPage (cfg : Config) (Operation : EEPROM_Operation) (s : State) : Nat :=
  let PageStatus0 := read16 s.flash (EEPROM_PAGE0 cfg)
  let PageStatus1 := read16 s.flash (EEPROM_PAGE1 cfg)
  if PageStatus0 = EEPROM_VALID ∨ PageStatus1 = EEPROM_VALID then
    let ValidPage := if PageStatus0 = EEPROM_VALID then EEPROM_PAGE0 cfg else EEPROM_PAGE1 cfg
    if Operation = EEPROM_WRITE then
      if PageStatus0 = EEPROM_RECEIVING then EEPROM_PAGE0 cfg
      else if PageStatus1 = EEPROM_RECEIVING then EEPROM_PAGE1 cfg
      else ValidPage
    else ValidPage
  else EEPROM_PAGE_NONE

/-- `EEPROM_PageErase(Page)` (V1.0 eeprom.c 266-285): purge the index entries that point
into `Page`, then erase it. -/
def EEPROM_PageErase (cfg : Config) (Page : Nat) (s : State) : EEPROM_Result × State :=
  match HAL_FLASHEx_Erase cfg Page 1
      { s with EEPROM_Index := purgeIndex cfg Page s.EEPROM_Index } with
  | (r, s1) => (ofHAL r, s1)

/-- `EEPROM_SetValidPage(Page)` (V1.0 eeprom.c 234-263). -/
def EEPROM_SetValidPage (cfg : Config) (Page : Nat) (s : State) : EEPROM_Result × State :=
  if Page = EEPROM_PAGE1 cfg then
    match EEPROM_PageErase cfg (EEPROM_PAGE0 cfg) s with
    | (EEPROM_SUCCESS, s1) =>
      match HAL_FLASH_Program cfg 1 Page EEPROM_VALID s1 with
      | (r, s2) => (ofHAL r, s2)
    | (r, s1) => (r, s1)
  else if Page = EEPROM_PAGE0 cfg then
    match EEPROM_PageErase cfg (EEPROM_PAGE1 cfg) s with
    | (EEPROM_SUCCESS, s1) =>
      match HAL_FLASH_Program cfg 1 Page EEPROM_VALID s1 with
      | (r, s2) => (ofHAL r, s2)
    | (r, s1) => (r, s1)
  else if Page = EEPROM_PAGE_NONE then
    match EEPROM_PageErase cfg (EEPROM_PAGE0 cfg) s with
    | (EEPROM_SUCCESS, s1) => EEPROM_PageErase cfg (EEPROM_PAGE1 cfg) s1
    | (r, s1) => (r, s1)
  else
    match HAL_FLASH_Program cfg 1 Page EEPROM_VALID s with
    | (r, s2) => (ofHAL r, s2)

/-- `EEPROM_Format()` (V1.0 eeprom.c 137-148). -/
def EEPROM_Format (cfg : Config) (s : State) : EEPROM_Result × State :=
  match EEPROM_PageErase cfg (EEPROM_PAGE0 cfg) s with
  | (EEPROM_SUCCESS, s1) => EEPROM_SetValidPage cfg (EEPROM_PAGE0 cfg) s1
  | (r, s1) => (r, s1)

/-- The assignment `EEPROM_Index[VariableName] = (uint16_t) (Address - EEPROM_START_ADDRESS)`
(V1.0 eeprom.c 172, 304). -/
def setIndex (cfg : Config) (VariableName Address : Nat) (index : Nat → Nat) : Nat → Nat :=
  fun m => if m = VariableName then (Address + 4294967296 - cfg.start) % 4294967296 % 65536
    else index m

/-- The search loop of `EEPROM_TryWriteVariable` (V1.0 eeprom.c 163-176): the first record
slot from `Address` whose 32 bits are all erased, `none` when the loop runs out. Every
iteration advances `Address` by 4, so a budget of `FLASH_PAGE_SIZE` iterations is never
exhausted. -/
def findSlot (flash : Nat → Nat) (PageEndAddress : Nat) : Nat → Nat → Option Nat
  | 0, _ => none
  | fuel + 1, Address =>
    if Address < PageEndAddress then
      if read32 flash Address = 0xFFFFFFFF then some Address
      else findSlot flash PageEndAddress fuel ((Address + 4) % 4294967296)
    else none

/-- `EEPROM_TryWriteVariable(VariableName, Value)` (V1.0 eeprom.c 153-179). -/
def EEPROM_TryWriteVariable (cfg : Config) (VariableName Value : Nat) (s : State) :
    EEPROM_Result × State :=
  let ValidPage := EEPROM_FindValidPage cfg EEPROM_WRITE s
  if ValidPage = EEPROM_PAGE_NONE then (EEPROM_NO_VALID_PAGE, s) else
  let PageEndAddress := (ValidPage + cfg.pageSize + 4294967296 - 2) % 4294967296
  match findSlot s.flash PageEndAddress cfg.pageSize ((ValidPage + 4) % 4294967296) with
  | none => (EEPROM_PAGE_FULL, s)
  | some Address =>
    match HAL_FLASH_Program cfg 1 Address Value s with
    | (HAL_OK, s1) =>
      match HAL_FLASH_Program cfg 1 ((Address + 2) % 4294967296) VariableName s1 with
      | (HAL_OK, s2) =>
        (EEPROM_SUCCESS,
          { s2 with EEPROM_Index := setIndex cfg VariableName Address s2.EEPROM_Index })
      | (r, s2) => (ofHAL r, s2)
    | (r, s1) => (ofHAL r, s1)

/-- `EEPROM_ReadVariable(VariableName, &Value)` (V1.0 eeprom.c 92-102); `Value` is the
prior content of the caller's variable, the second component its content afterwards. -/
def EEPROM_ReadVariable (cfg : Config) (VariableName Value : Nat) (s : State) :
    EEPROM_Result × Nat :=
  if VariableName ≥ cfg.varCount then (EEPROM_INVALID_NAME, Value) else
  let Address := (cfg.start + s.EEPROM_Index VariableName) % 4294967296
  if Address = EEPROM_PAGE0 cfg then (EEPROM_NOT_ASSIGNED, Value)
  else if Address = EEPROM_PAGE1 cfg then (EEPROM_INVALID_NAME, Value)
  else (EEPROM_SUCCESS, read16 s.flash Address)

/-- One iteration of the copy loop of `EEPROM_PageTransfer` (V1.0 eeprom.c 194-204). The
accumulator carries the result of a failed write (after which the function has returned),
the local `Value` and the state. -/
def transferStep (cfg : Config) (SourcePage : Nat)
    (acc : Option EEPROM_Result × Nat × State) (i : Nat) : Option EEPROM_Result × Nat × State :=
  match acc with
  | (none, Value, s) =>
    if onPage cfg SourcePage (s.EEPROM_Index i) then
      match EEPROM_ReadVariable cfg i Value s with
      | (EEPROM_SUCCESS, Value1) =>
        match EEPROM_TryWriteVariable cfg i Value1 s with
        | (EEPROM_SUCCESS, s1) => (none, Value1, s1)
        | (r, s1) => (some r, Value1, s1)
      | (_, Value1) => (none, Value1, s)
    else (none, Value, s)
  | other => other

/-- `EEPROM_PageTransfer(SourcePage, TargetPage)` (V1.0 eeprom.c 185-208). -/
def EEPROM_PageTransfer (cfg : Config) (SourcePage TargetPage : Nat) (s : State) :
    EEPROM_Result × State :=
  match (List.range cfg.varCount).foldl (transferStep cfg SourcePage) (none, 0xFFFF, s) with
  | (some r, _, s1) => (r, s1)
  | (none, _, s1) => EEPROM_SetValidPage cfg TargetPage s1

/-- `EEPROM_WriteVariable(VariableName, Value)` (V1.0 eeprom.c 107-134). -/
def EEPROM_WriteVariable (cfg : Config) (VariableName Value : Nat) (s : State) :
    EEPROM_Result × State :=
  match EEPROM_TryWriteVariable cfg VariableName Value s with
  | (EEPROM_PAGE_FULL, s1) =>
    let SourcePage := EEPROM_FindValidPage cfg EEPROM_READ s1
    if SourcePage = EEPROM_PAGE_NONE then (EEPROM_NO_VALID_PAGE, s1) else
    let TargetPage :=
      if SourcePage = EEPROM_PAGE1 cfg then EEPROM_PAGE0 cfg
      else if SourcePage = EEPROM_PAGE0 cfg then EEPROM_PAGE1 cfg
      else EEPROM_PAGE_NONE
    match HAL_FLASH_Program cfg 1 TargetPage EEPROM_RECEIVING s1 with
    | (HAL_OK, s2) =>
      match EEPROM_TryWriteVariable cfg VariableName Value s2 with
      | (EEPROM_SUCCESS, s3) => EEPROM_PageTransfer cfg SourcePage TargetPage s3
      | (r, s3) => (r, s3)
    | (r, s2) => (ofHAL r, s2)
  | (r, s1) => (r, s1)

/-- The loop of `EEPROM_PageToIndex` (V1.0 eeprom.c 296-308) on (Address, Index). -/
def indexLoop (cfg : Config) (flash : Nat → Nat) (PageEndAddress : Nat) :
    Nat → Nat → (Nat → Nat) → (Nat → Nat)
  | 0, _, index => index
  | fuel + 1, Address, index =>
    if Address < PageEndAddress then
      let VariableName := read16 flash ((Address + 2) % 4294967296)
      let Value := read16 flash Address
      if VariableName = 0xFFFF ∧ Value = 0xFFFF then index
      else
        indexLoop cfg flash PageEndAddress fuel ((Address + 4) % 4294967296)
          (if VariableName < cfg.varCount then setIndex cfg VariableName Address index
           else index)
    else index

/-- `EEPROM_PageToIndex(Page)` (V1.0 eeprom.c 289-309). -/
def EEPROM_PageToIndex (cfg : Config) (Page : Nat) (s : State) : State :=
  let PageEndAddress := (Page + cfg.pageSize + 4294967296 - 2) % 4294967296
  let index := indexLoop cfg s.flash PageEndAddress cfg.pageSize ((Page + 4) % 4294967296)
    s.EEPROM_Index
  { s with EEPROM_Index := index }

/-- `EEPROM_Init()` (V1.0 eeprom.c 31-87). -/
def EEPROM_Init (cfg : Config) (s : State) : EEPROM_Result × State :=
  let PageStatus0 := read16 s.flash (EEPROM_PAGE0 cfg)
  let PageStatus1 := read16 s.flash (EEPROM_PAGE1 cfg)
  let s1 :=
    if PageStatus0 = EEPROM_VALID then
      let t := EEPROM_PageToIndex cfg (EEPROM_PAGE0 cfg) s
      if PageStatus1 = EEPROM_RECEIVING then EEPROM_PageToIndex cfg (EEPROM_PAGE1 cfg) t else t
    else if PageStatus1 = EEPROM_VALID then
      let t := EEPROM_PageToIndex cfg (EEPROM_PAGE1 cfg) s
      if PageStatus0 = EEPROM_RECEIVING then EEPROM_PageToIndex cfg (EEPROM_PAGE0 cfg) t else t
    else s
  if PageStatus0 = EEPROM_ERASED then
    if PageStatus1 = EEPROM_VALID then (EEPROM_SUCCESS, s1)
    else if PageStatus1 = EEPROM_RECEIVING then EEPROM_SetValidPage cfg (EEPROM_PAGE1 cfg) s1
    else EEPROM_Format cfg s1
  else if PageStatus0 = EEPROM_RECEIVING then
    if PageStatus1 = EEPROM_VALID then
      EEPROM_PageTransfer cfg (EEPROM_PAGE1 cfg) (EEPROM_PAGE0 cfg) s1
    else if PageStatus1 = EEPROM_ERASED then EEPROM_SetValidPage cfg (EEPROM_PAGE0 cfg) s1
    else EEPROM_Format cfg s1
  else if PageStatus0 = EEPROM_VALID then
    if PageStatus1 = EEPROM_RECEIVING then
      EEPROM_PageTransfer cfg (EEPROM_PAGE0 cfg) (EEPROM_PAGE1 cfg) s1
    else if PageStatus1 = EEPROM_ERASED then (EEPROM_SUCCESS, s1)
    else EEPROM_Format cfg s1
  else EEPROM_Format cfg s1

/-- The configuration of V1.0 `eeprom.h` as shipped: 64 KByte medium-density device
(1 KByte pages), three variables, emulation area in the last two pages. -/
def stdConfig : Config :=
  { start := 0x08000000 + 1024 * 64 - 2 * 1024, pageSize := 1024, varCount := 3 }

/-- The in-memory state at power-on (zero-initialised index) on a given flash image. -/
def powerOn (flash : Nat → Nat) (hal : Nat → HAL_Status) : State :=
  { flash := flash, EEPROM_Index := fun _ => 0, hal := hal, log := [] }

/-- States the V1.0 library can be in: from power-on on any flash image, through
`EEPROM_Init`, `EEPROM_Format` and `EEPROM_WriteVariable` of names below
`EEPROM_VARIABLE_COUNT`, whatever they return and under any schedule of HAL outcomes. -/
inductive Reachable (cfg : Config) : State → Prop
  | boot (flash : Nat → Nat) (hal : Nat → HAL_Status) : Reachable cfg (powerOn flash hal)
  | init (s : State) : Reachable cfg s → Reachable cfg (EEPROM_Init cfg s).2
  | format (s : State) : Reachable cfg s → Reachable cfg (EEPROM_Format cfg s).2
  | write (s : State) (VariableName Value : Nat) : Reachable cfg s →
      VariableName < cfg.varCount → Reachable cfg (EEPROM_WriteVariable cfg VariableName Value s).2

/-- Every index entry of a valid name is 0 or points into one of the two pages. -/
def IndexOK (cfg : Config) (s : State) : Prop :=
  ∀ m, m < cfg.varCount → s.EEPROM_Index m = 0 ∨
    onPage cfg (EEPROM_PAGE0 cfg) (s.EEPROM_Index m) ∨
    onPage cfg (EEPROM_PAGE1 cfg) (s.EEPROM_Index m)

/-! ## V1.0: record slots and the states between writes -/

/-- The number of records the claim attributes to a page of size P: `(P - 4) / 4`. -/
def slotCount (cfg : Config) : Nat := (cfg.pageSize - 4) / 4

/-- The address of record slot `j` of `Page`: four bytes per record after the four-byte
page header. -/
def slotAddr (Page j : Nat) : Nat := Page + 4 + 4 * j

/-- The first `u` record slots of `Page` are written and the remaining ones are erased. -/
def PageUsed (cfg : Config) (flash : Nat → Nat) (Page u : Nat) : Prop :=
  u ≤ slotCount cfg ∧
  (∀ j, j < u → read32 flash (slotAddr Page j) ≠ 0xFFFFFFFF) ∧
  (∀ j, u ≤ j → j < slotCount cfg →
    read16 flash (slotAddr Page j) = 0xFFFF ∧ read16 flash (slotAddr Page j + 2) = 0xFFFF)

/-- Writes go to page `W` (the page `EEPROM_FindValidPage(EEPROM_WRITE)` selects), whose
first `u` record slots are written and whose remaining slots are erased. -/
def WritePage (cfg : Config) (W u : Nat) (s : State) : Prop :=
  (W = EEPROM_PAGE0 cfg ∨ W = EEPROM_PAGE1 cfg) ∧
  EEPROM_FindValidPage cfg EEPROM_WRITE s = W ∧ PageUsed cfg s.flash W u

/-- The HAL reports success for every call. -/
def NoHardwareError (s : State) : Prop := ∀ k, s.hal k = HAL_OK

/-- The results of successive calls of `EEPROM_TryWriteVariable` with the given
(name, value) pairs. -/
def tryWrites (cfg : Config) : List (Nat × Nat) → State → List EEPROM_Result
  | [], _ => []
  | p :: l, s =>
    (EEPROM_TryWriteVariable cfg p.1 p.2 s).1 ::
      tryWrites cfg l (EEPROM_TryWriteVariable cfg p.1 p.2 s).2

/-- A formatted store: page 0 marked Valid, everything else in both pages erased, and an
index without entries. -/
def Formatted (cfg : Config) (s : State) : Prop :=
  read16 s.flash (EEPROM_PAGE0 cfg) = EEPROM_VALID ∧
  (∀ a, EEPROM_PAGE0 cfg + 2 ≤ a → a < EEPROM_PAGE0 cfg + 2 * cfg.pageSize →
    read16 s.flash a = 0xFFFF) ∧
  ∀ m, m < cfg.varCount → s.EEPROM_Index m = 0

/-- States reachable from a formatted store without hardware errors, by writes of names
below `EEPROM_VARIABLE_COUNT`. -/
inductive Stored (cfg : Config) : State → Prop
  | formatted (s : State) : Formatted cfg s → NoHardwareError s → Stored cfg s
  | write (s : State) (VariableName Value : Nat) : Stored cfg s →
      VariableName < cfg.varCount → Stored cfg (EEPROM_WriteVariable cfg VariableName Value s).2

/-- The state between two writes: `V` is marked Valid with its first `u` slots written,
the other page `O` is erased, and every index entry is 0 or points into `V`. -/
def Steady (cfg : Config) (V O u : Nat) (s : State) : Prop :=
  EEPROM.IsPagePair cfg V O ∧ read16 s.flash V = EEPROM_VALID ∧
  (∀ a, O ≤ a → a < O + cfg.pageSize → read16 s.flash a = 0xFFFF) ∧
  PageUsed cfg s.flash V u ∧
  ∀ m, m < cfg.varCount → s.EEPROM_Index m = 0 ∨ onPage cfg V (s.EEPROM_Index m)

/-- The state during a page transfer from `S` (marked Valid) to `T` (marked Receiving,
first `w` slots written). -/
def Mid (cfg : Config) (S T w : Nat) (s : State) : Prop :=
  EEPROM.IsPagePair cfg S T ∧ read16 s.flash S = EEPROM_VALID ∧
  read16 s.flash T = EEPROM_RECEIVING ∧ PageUsed cfg s.flash T w ∧
  ∀ m, m < cfg.varCount → s.EEPROM_Index m = 0 ∨ onPage cfg S (s.EEPROM_Index m) ∨
    onPage cfg T (s.EEPROM_Index m)

/-- The formatted store on a device whose HAL never fails: page 0 marked Valid, everything
else erased, empty index. -/
def formattedStore (cfg : Config) : State :=
  { flash := fun a => if a = EEPROM_PAGE0 cfg then EEPROM_VALID else 0xFFFF,
    EEPROM_Index := fun _ => 0, hal := fun _ => HAL_OK, log := [] }

/-- The store after writing value 0 to the names 0, 1, ..., k-1 in turn. -/
def fillStore (cfg : Config) : Nat → State → State
  | 0, s => s
  | k + 1, s => (EEPROM_WriteVariable cfg k 0 (fillStore cfg k s)).2

/-- A small configuration with one variable more than a page has record slots
(16-byte pages hold three records). -/
def tinyConfig : Config := { start := 0x0800F800, pageSize := 16, varCount := 4 }

/-- A small configuration: 16-byte pages (three record slots) and three variables. -/
def smallConfig : Config := { start := 0x0800F800, pageSize := 16, varCount := 3 }

/-- The small configuration formatted on a fresh device, then names 0, 1 and 2 written with
0x1111, 0x2222 and 0x3333: page 0 is Valid and full. -/
def smallFull : State :=
  (EEPROM_WriteVariable smallConfig 2 0x3333
    (EEPROM_WriteVariable smallConfig 1 0x2222
      (EEPROM_WriteVariable smallConfig 0 0x1111
        (EEPROM_Init smallConfig (powerOn EEPROM.freshFlash EEPROM.halOk)).2).2).2).2

/-- Flash content after a power cut `k` primitive calls into the rewrite of name 0 with
0x5555 in `smallFull` (a write that transfers to page 1). -/
def smallCut (k : Nat) : Nat → Nat :=
  EEPROM.applyOps smallConfig smallFull.flash
    (((EEPROM_WriteVariable smallConfig 0 0x5555 smallFull).2.log.drop
      smallFull.log.length).take k)

end EEPROMV1

/-! # Theorems -/

namespace EEPROM

open HAL_Status EEPROM_Result

/-! ## Arithmetic of record headers and sizes -/

theorem recordBytes_eq (Size : Nat) (h : Size ≤ 3) : recordBytes Size = 2 + scanSize Size := by
  interval_cases Size <;> decide

theorem scanSize_le (Size : Nat) (h : Size ≤ 3) : scanSize Size ≤ 8 := by
  interval_cases Size <;> decide

theorem scanSize_eq (Size : Nat) (h : Size ≤ 3) :
    (Size = 0 ∧ scanSize Size = 0) ∨ (Size = 1 ∧ scanSize Size = 2) ∨
    (Size = 2 ∧ scanSize Size = 4) ∨ (Size = 3 ∧ scanSize Size = 8) := by
  interval_cases Size <;> decide

theorem scanSize_nb (Size : Nat) (h : Size ≤ 3) (h0 : Size ≠ 0) :
    scanSize Size = 2 * nbHalfwords Size := by
  interval_cases Size <;> first | contradiction | decide

theorem header_lt (n Size : Nat) : (n + (Size <<< 14)) % 65536 < 65536 :=
  Nat.mod_lt _ (by decide)

theorem header_code (n Size : Nat) (hn : n < 16384) (hs : Size ≤ 3) :
    ((n + (Size <<< 14)) % 65536) >>> 14 = Size := by
  rw [Nat.shiftLeft_eq, Nat.shiftRight_eq_div_pow]; omega

theorem header_name (n Size : Nat) (hn : n < 16384) :
    ((n + (Size <<< 14)) % 65536) &&& 0x3FFF = n := by
  rw [Nat.shiftLeft_eq]
  have h := Nat.and_pow_two_sub_one_eq_mod ((n + Size * 2 ^ 14) % 65536) 14
  simp at h ⊢
  rw [h]; omega

theorem header_ne_erased (n Size : Nat) (hn : n < 16383) :
    (n + (Size <<< 14)) % 65536 ≠ 0xFFFF := by
  rw [Nat.shiftLeft_eq]; omega

theorem erased_and (h : Nat) (hh : h < 65536) : 65535 &&& h = h := by
  rw [Nat.and_comm]
  exact (Nat.and_pow_two_sub_one_eq_mod h 16).trans (Nat.mod_eq_of_lt hh)

theorem halfwordOf_lt (d i : Nat) : halfwordOf d i < 65536 := Nat.mod_lt _ (by decide)

/-! ## The flash primitives -/

theorem read16_lt (f : Nat → Nat) (a : Nat) : read16 f a < 65536 := Nat.mod_lt _ (by decide)

theorem read16_programFlash_out (f : Nat → Nat) (t addr d a : Nat)
    (h : a < addr ∨ addr + 2 * nbHalfwords t ≤ a) :
    read16 (programFlash f t addr d) a = read16 f a := by
  unfold read16 programFlash
  rw [if_neg]; omega

theorem read16_programFlash_erased (f : Nat → Nat) (t addr d i : Nat)
    (hi : i < nbHalfwords t) (he : read16 f (addr + 2 * i) = 0xFFFF) :
    read16 (programFlash f t addr d) (addr + 2 * i) = halfwordOf d i := by
  unfold read16 at he
  unfold read16 programFlash
  rw [if_pos (by omega), he]
  have h1 : (addr + 2 * i - addr) / 2 = i := by omega
  rw [h1, erased_and _ (halfwordOf_lt d i)]
  exact Nat.mod_eq_of_lt (halfwordOf_lt d i)

theorem read16_eraseFlash_in (cfg : Config) (f : Nat → Nat) (p n a : Nat)
    (h : p ≤ a ∧ a < p + n * cfg.pageSize) : read16 (eraseFlash cfg f p n) a = 0xFFFF := by
  unfold read16 eraseFlash
  rw [if_pos h]

theorem read16_eraseFlash_out (cfg : Config) (f : Nat → Nat) (p n a : Nat)
    (h : a < p ∨ p + n * cfg.pageSize ≤ a) : read16 (eraseFlash cfg f p n) a = read16 f a := by
  unfold read16 eraseFlash
  rw [if_neg]; omega

theorem appendRecord_success (cfg : Config) (n v size : Nat) (s : State)
    (h : (appendRecord cfg n v size s).1 = EEPROM_SUCCESS) :
    (appendRecord cfg n v size s).2 = appendState cfg n v size s := by
  unfold appendRecord HAL_FLASH_Program halCall at *
  by_cases hs : size = EEPROM_SIZE_DELETED
  · cases h2 : s.hal s.log.length <;> simp [hs, h2, ofHAL] at h ⊢
    simp [appendState, applyOp]
  · cases h1 : s.hal s.log.length <;> simp [hs, h1, ofHAL] at h ⊢
    cases h2 : s.hal (s.log.length + 1) <;> simp [hs, h2, ofHAL] at h ⊢
    simp [appendState, hs, applyOp]
theorem pair_bounds {cfg : Config} (hwf : cfg.WF) {W O : Nat} (hp : IsPagePair cfg W O) :
    cfg.start ≤ W ∧ W + cfg.pageSize ≤ cfg.start + 2 * cfg.pageSize ∧
    cfg.start ≤ O ∧ O + cfg.pageSize ≤ cfg.start + 2 * cfg.pageSize ∧
    (W + cfg.pageSize ≤ O ∨ O + cfg.pageSize ≤ W) ∧ 0 < W ∧ 0 < O := by
  have := hwf.start_pos
  have := hwf.size_min
  rcases hp with ⟨h1, h2⟩ | ⟨h1, h2⟩ <;> simp only [EEPROM_PAGE0, EEPROM_PAGE1] at h1 h2 <;> omega

theorem room_facts {cfg : Config} (hwf : cfg.WF) {W O : Nat} {s : State} (hc : Core cfg W O s)
    {size : Nat} (hroom : ¬ noRoom cfg s size) :
    s.EEPROM_NextIndex ≠ 0 ∧ (W + 2 ≤ s.EEPROM_NextIndex ∧ s.EEPROM_NextIndex < W + cfg.pageSize) ∧
    s.EEPROM_NextIndex + recordBytes size ≤ W + cfg.pageSize ∧
    cursorOf cfg W s = s.EEPROM_NextIndex := by
  have hb := pair_bounds hwf hc.pair
  have h32 := hwf.area32
  unfold noRoom at hroom
  rw [hc.writing] at hroom
  push_neg at hroom
  obtain ⟨h0, h1⟩ := hroom
  rcases hc.cursor with h | ⟨h2, h3⟩
  · exact absurd h h0
  · refine ⟨h0, ⟨h2, h3⟩, ?_, by simp [cursorOf, h0]⟩
    omega

theorem noRoom_facts {cfg : Config} (hwf : cfg.WF) {W O : Nat} {s : State} (hc : Core cfg W O s)
    {size : Nat} (hsz : size ≤ 3) (hroom : noRoom cfg s size) :
    W + cfg.pageSize < cursorOf cfg W s + recordBytes size := by
  have hb := pair_bounds hwf hc.pair
  have h32 := hwf.area32
  unfold noRoom at hroom
  rw [hc.writing] at hroom
  unfold cursorOf
  have hpos : 0 < recordBytes size := by
    have := recordBytes_eq size hsz
    omega
  rcases hc.cursor with h | ⟨h2, h3⟩
  · simp [h]; omega
  · have h0 : s.EEPROM_NextIndex ≠ 0 := by omega
    simp only [h0, if_false]
    rcases hroom with h | h
    · exact absurd h h0
    · omega
@[simp] theorem appendState_valid (cfg : Config) (n v size : Nat) (s : State) :
    (appendState cfg n v size s).EEPROM_ValidPage = s.EEPROM_ValidPage := rfl
@[simp] theorem appendState_receiving (cfg : Config) (n v size : Nat) (s : State) :
    (appendState cfg n v size s).EEPROM_ReceivingPage = s.EEPROM_ReceivingPage := rfl
@[simp] theorem appendState_erased (cfg : Config) (n v size : Nat) (s : State) :
    (appendState cfg n v size s).EEPROM_ErasedPage = s.EEPROM_ErasedPage := rfl
@[simp] theorem appendState_hal (cfg : Config) (n v size : Nat) (s : State) :
    (appendState cfg n v size s).hal = s.hal := rfl
@[simp] theorem appendState_writing (cfg : Config) (n v size : Nat) (s : State) :
    writingPage (appendState cfg n v size s) = writingPage s := rfl

theorem appendState_index (cfg : Config) (n v size : Nat) (s : State) (m : Nat) :
    (appendState cfg n v size s).EEPROM_Index m =
      if m = n then (if size = EEPROM_SIZE_DELETED then 0
        else ((s.EEPROM_NextIndex + 2 + 4294967296 - cfg.start) % 4294967296) % 65536)
      else s.EEPROM_Index m := rfl

theorem appendState_sizeTable (cfg : Config) (n v size : Nat) (s : State) (m : Nat) :
    (appendState cfg n v size s).EEPROM_SizeTable m =
      if m = n then size % 256 else s.EEPROM_SizeTable m := rfl

theorem appendState_cursor {cfg : Config} (hwf : cfg.WF) {W O : Nat} {s : State}
    (hc : Core cfg W O s) {size : Nat} (hroom : ¬ noRoom cfg s size) (n v : Nat) :
    cursorOf cfg W (appendState cfg n v size s) = s.EEPROM_NextIndex + recordBytes size ∧
    ((appendState cfg n v size s).EEPROM_NextIndex = 0 ∨
      (appendState cfg n v size s).EEPROM_NextIndex = s.EEPROM_NextIndex + recordBytes size) := by
  obtain ⟨h0, ⟨h1, h1'⟩, h2, _⟩ := room_facts hwf hc hroom
  have hb := pair_bounds hwf hc.pair
  have h32 := hwf.area32
  have hnext : (appendState cfg n v size s).EEPROM_NextIndex =
      if (s.EEPROM_NextIndex + recordBytes size) % 4294967296 ≥
          (writingPage s + cfg.pageSize) % 4294967296 then 0
      else (s.EEPROM_NextIndex + recordBytes size) % 4294967296 := rfl
  rw [hc.writing] at hnext
  have e1 : (s.EEPROM_NextIndex + recordBytes size) % 4294967296 =
      s.EEPROM_NextIndex + recordBytes size := Nat.mod_eq_of_lt (by omega)
  have e2 : (W + cfg.pageSize) % 4294967296 = W + cfg.pageSize := Nat.mod_eq_of_lt (by omega)
  rw [e1, e2] at hnext
  unfold cursorOf
  rw [hnext]
  split <;> simp <;> omega

theorem appendState_flash_out {cfg : Config} (hwf : cfg.WF) {W O : Nat} {s : State}
    (hc : Core cfg W O s) {size : Nat} (hsz : size ≤ 3) (hroom : ¬ noRoom cfg s size) (n v a : Nat)
    (ha : a < s.EEPROM_NextIndex ∨ s.EEPROM_NextIndex + recordBytes size ≤ a) :
    read16 (appendState cfg n v size s).flash a = read16 s.flash a := by
  obtain ⟨h0, ⟨h1, h1'⟩, h2, _⟩ := room_facts hwf hc hroom
  have hb := pair_bounds hwf hc.pair
  have h32 := hwf.area32
  have hB := recordBytes_eq size hsz
  have e1 : (s.EEPROM_NextIndex + 2) % 4294967296 = s.EEPROM_NextIndex + 2 :=
    Nat.mod_eq_of_lt (by omega)
  show read16 (programFlash _ 1 s.EEPROM_NextIndex _) a = _
  rw [read16_programFlash_out _ _ _ _ _ (by have : nbHalfwords 1 = 1 := rfl; omega)]
  split
  · rename_i hs
    have := scanSize_nb size hsz hs
    rw [e1, read16_programFlash_out _ _ _ _ _ (by omega)]
  · rfl

theorem appendState_header {cfg : Config} (hwf : cfg.WF) {W O : Nat} {s : State}
    (hc : Core cfg W O s) {size : Nat} (hsz : size ≤ 3) (hroom : ¬ noRoom cfg s size) (n v : Nat) :
    read16 (appendState cfg n v size s).flash s.EEPROM_NextIndex =
      (n + (size <<< 14)) % 65536 := by
  obtain ⟨h0, ⟨h1, h1'⟩, h2, hcur⟩ := room_facts hwf hc hroom
  have hb := pair_bounds hwf hc.pair
  have h32 := hwf.area32
  have hB := recordBytes_eq size hsz
  have e1 : (s.EEPROM_NextIndex + 2) % 4294967296 = s.EEPROM_NextIndex + 2 :=
    Nat.mod_eq_of_lt (by omega)
  have hfree : read16 s.flash s.EEPROM_NextIndex = 0xFFFF :=
    hc.free _ (by omega) (by omega)
  show read16 (programFlash _ 1 s.EEPROM_NextIndex _) _ = _
  have key := read16_programFlash_erased
    (if size ≠ EEPROM_SIZE_DELETED then
      programFlash s.flash size ((s.EEPROM_NextIndex + 2) % 4294967296) v else s.flash)
    1 s.EEPROM_NextIndex ((n + (size <<< 14)) % 65536) 0 (by decide)
    (by
      split
      · rw [e1, read16_programFlash_out _ _ _ _ _ (by omega)]; simpa using hfree
      · simpa using hfree)
  simp only [Nat.mul_zero, Nat.add_zero] at key
  rw [key]
  simp [halfwordOf]

theorem appendState_payload {cfg : Config} (hwf : cfg.WF) {W O : Nat} {s : State}
    (hc : Core cfg W O s) {size : Nat} (hsz : size ≤ 3) (hs0 : size ≠ 0)
    (hroom : ¬ noRoom cfg s size) (n v i : Nat) (hi : i < nbHalfwords size) :
    read16 (appendState cfg n v size s).flash (s.EEPROM_NextIndex + 2 + 2 * i) =
      halfwordOf v i := by
  obtain ⟨h0, ⟨h1, h1'⟩, h2, hcur⟩ := room_facts hwf hc hroom
  have hb := pair_bounds hwf hc.pair
  have h32 := hwf.area32
  have hB := recordBytes_eq size hsz
  have hnb := scanSize_nb size hsz hs0
  have e1 : (s.EEPROM_NextIndex + 2) % 4294967296 = s.EEPROM_NextIndex + 2 :=
    Nat.mod_eq_of_lt (by omega)
  have hfree : read16 s.flash (s.EEPROM_NextIndex + 2 + 2 * i) = 0xFFFF :=
    hc.free _ (by omega) (by omega)
  show read16 (programFlash _ 1 s.EEPROM_NextIndex _) _ = _
  rw [read16_programFlash_out _ _ _ _ _ (by have : nbHalfwords 1 = 1 := rfl; omega)]
  have hs0' : size ≠ EEPROM_SIZE_DELETED := hs0
  rw [if_pos hs0', e1]
  exact read16_programFlash_erased _ _ _ _ _ hi hfree

theorem appendState_cursor' {cfg : Config} (hwf : cfg.WF) {W O : Nat} {s : State}
    (hc : Core cfg W O s) {size : Nat} (hroom : ¬ noRoom cfg s size) (n v : Nat) :
    ((appendState cfg n v size s).EEPROM_NextIndex = 0 ∧
      s.EEPROM_NextIndex + recordBytes size = W + cfg.pageSize) ∨
    ((appendState cfg n v size s).EEPROM_NextIndex = s.EEPROM_NextIndex + recordBytes size ∧
      s.EEPROM_NextIndex + recordBytes size < W + cfg.pageSize) := by
  obtain ⟨h0, ⟨h1, h1'⟩, h2, _⟩ := room_facts hwf hc hroom
  have hb := pair_bounds hwf hc.pair
  have h32 := hwf.area32
  have hnext : (appendState cfg n v size s).EEPROM_NextIndex =
      if (s.EEPROM_NextIndex + recordBytes size) % 4294967296 ≥
          (writingPage s + cfg.pageSize) % 4294967296 then 0
      else (s.EEPROM_NextIndex + recordBytes size) % 4294967296 := rfl
  rw [hc.writing] at hnext
  have e1 : (s.EEPROM_NextIndex + recordBytes size) % 4294967296 =
      s.EEPROM_NextIndex + recordBytes size := Nat.mod_eq_of_lt (by omega)
  have e2 : (W + cfg.pageSize) % 4294967296 = W + cfg.pageSize := Nat.mod_eq_of_lt (by omega)
  rw [e1, e2] at hnext
  rw [hnext]
  split <;> omega

theorem appendState_newIndex {cfg : Config} (hwf : cfg.WF) {W O : Nat} {s : State}
    (hc : Core cfg W O s) {size : Nat} (hroom : ¬ noRoom cfg s size) :
    ((s.EEPROM_NextIndex + 2 + 4294967296 - cfg.start) % 4294967296) % 65536 =
      s.EEPROM_NextIndex + 2 - cfg.start ∧ cfg.start ≤ s.EEPROM_NextIndex := by
  obtain ⟨h0, ⟨h1, h1'⟩, h2, _⟩ := room_facts hwf hc hroom
  have hb := pair_bounds hwf hc.pair
  have h32 := hwf.area32
  have h16 := hwf.area16
  have e : s.EEPROM_NextIndex + 2 + 4294967296 - cfg.start =
      (s.EEPROM_NextIndex + 2 - cfg.start) + 4294967296 := by omega
  rw [e, Nat.add_mod_right]
  have hlt : s.EEPROM_NextIndex + 2 - cfg.start < 65536 := by omega
  rw [Nat.mod_eq_of_lt (Nat.lt_trans hlt (by decide)), Nat.mod_eq_of_lt hlt]
  exact ⟨rfl, by omega⟩

theorem appendState_core {cfg : Config} (hwf : cfg.WF) {W O : Nat} {s : State}
    (hc : Core cfg W O s) {n size : Nat} (hsz : size ≤ 3)
    (hroom : ¬ noRoom cfg s size) (v : Nat) :
    Core cfg W O (appendState cfg n v size s) := by
  obtain ⟨h0, ⟨h1, h1'⟩, h2, hcur⟩ := room_facts hwf hc hroom
  have hb := pair_bounds hwf hc.pair
  have h32 := hwf.area32
  have h16 := hwf.area16
  have hB := recordBytes_eq size hsz
  have hcur' := (appendState_cursor hwf hc hroom n v).1
  obtain ⟨hidx, hst⟩ := appendState_newIndex hwf hc hroom
  refine ⟨hc.pair, hc.writing, ?_, ?_, ?_⟩
  · rcases appendState_cursor' hwf hc hroom n v with ⟨h, _⟩ | ⟨h, h'⟩
    · exact Or.inl h
    · right; omega
  · intro a ha1 ha2
    rw [hcur'] at ha1
    rw [appendState_flash_out hwf hc hsz hroom n v a (Or.inr ha1)]
    exact hc.free a (by omega) ha2
  · intro m hm
    rw [hcur', appendState_index, appendState_sizeTable]
    by_cases hmn : m = n
    · simp only [hmn, if_true]
      have hmod : size % 256 = size := Nat.mod_eq_of_lt (by omega)
      rw [hmod, hidx]
      by_cases hs0 : size = EEPROM_SIZE_DELETED
      · simp only [hs0, if_true]
        exact ⟨by decide, by simp [EEPROM_SIZE_DELETED], by decide, fun h => absurd rfl h⟩
      · simp only [hs0, if_false]
        have hs0' : size ≠ 0 := hs0
        refine ⟨hsz, ?_, by omega, fun _ => Or.inl ⟨by omega, by omega⟩⟩
        constructor
        · intro h; omega
        · intro h; exact absurd h hs0'
    · simp only [hmn, if_false]
      have he := hc.entries m hm
      rw [hcur] at he
      refine ⟨he.size_le, he.lockstep, he.idx_lt, fun h => ?_⟩
      rcases he.place h with ⟨p1, p2⟩ | p
      · exact Or.inl ⟨p1, by omega⟩
      · exact Or.inr p
theorem entry_address {cfg : Config} (hwf : cfg.WF) {W O : Nat} (hp : IsPagePair cfg W O)
    {cur idx sz : Nat} (hcur : cur ≤ W + cfg.pageSize) (he : EntryOK cfg W O cur idx sz) :
    (cfg.start + idx) % 4294967296 = cfg.start + idx ∧
    cfg.start + idx + scanSize sz + 16 ≤ 4294967296 ∧
    (cfg.start + idx = EEPROM_PAGE0 cfg ↔ idx = 0) := by
  have hb := pair_bounds hwf hp
  have h32 := hwf.area32
  have hs := scanSize_le sz he.size_le
  have hlt : cfg.start + idx + scanSize sz + 16 ≤ 4294967296 := by
    by_cases h0 : idx = 0
    · have := hwf.size_min
      omega
    · rcases he.place h0 with ⟨_, p⟩ | ⟨_, p⟩ <;> omega
  refine ⟨Nat.mod_eq_of_lt (by omega), hlt, ?_⟩
  unfold EEPROM_PAGE0
  omega

theorem read_spec {cfg : Config} (hwf : cfg.WF) {W O : Nat} (hp : IsPagePair cfg W O)
    {cur : Nat} (hcur : cur ≤ W + cfg.pageSize) {s : State} {m : Nat} (hm : m < cfg.varCount)
    (he : EntryOK cfg W O cur (s.EEPROM_Index m) (s.EEPROM_SizeTable m)) (Value : Nat) :
    EEPROM_ReadVariable cfg m Value s =
      if s.EEPROM_SizeTable m = 0 then (EEPROM_NOT_ASSIGNED, Value)
      else (EEPROM_SUCCESS, assemble (s.EEPROM_SizeTable m) Value
        (fun i => read16 s.flash (cfg.start + s.EEPROM_Index m + 2 * i))) := by
  obtain ⟨hA, hlt, h0⟩ := entry_address hwf hp hcur he
  unfold EEPROM_ReadVariable
  rw [if_neg (by omega), hA]
  simp only []
  by_cases hs0 : s.EEPROM_SizeTable m = 0
  · have hi0 : s.EEPROM_Index m = 0 := he.lockstep.mpr hs0
    rw [if_pos (h0.mpr hi0), if_pos hs0]
  · have hi0 : s.EEPROM_Index m ≠ 0 := fun h => hs0 (he.lockstep.mp h)
    rw [if_neg (fun h => hi0 (h0.mp h)), if_neg hs0]
    have hsz := he.size_le
    have h4 : (cfg.start + s.EEPROM_Index m + 4) % 4294967296 = cfg.start + s.EEPROM_Index m + 4 :=
      Nat.mod_eq_of_lt (by omega)
    rcases scanSize_eq _ hsz with ⟨h, _⟩ | ⟨h, _⟩ | ⟨h, _⟩ | ⟨h, _⟩
    · exact absurd h hs0
    · simp [h, assemble, EEPROM_SIZE16]
    · simp [h, assemble, EEPROM_SIZE16, EEPROM_SIZE32, read32]
    · simp [h, assemble, EEPROM_SIZE16, EEPROM_SIZE32, EEPROM_SIZE64, read32, h4]
theorem or_shift32 (lo hi : Nat) (h : lo < 4294967296) :
    lo ||| (hi <<< 32) = lo + 4294967296 * hi := by
  have := Nat.mul_add_lt_is_or (i := 32) (b := lo) (by simpa using h) hi
  rw [Nat.shiftLeft_eq, Nat.lor_comm, Nat.mul_comm hi]
  simp at this ⊢
  omega

theorem halfwordOf_eq (d i : Nat) : halfwordOf d i = d / 2 ^ (16 * i) % 65536 := by
  unfold halfwordOf
  rw [Nat.shiftRight_eq_div_pow]

theorem halfwordOf_assemble (sz Value : Nat) (h : Nat → Nat) (i : Nat) (hsz : sz ≤ 3)
    (h0 : sz ≠ 0) (hh : ∀ j, h j < 65536) (hi : i < nbHalfwords sz) :
    halfwordOf (assemble sz Value h) i = h i := by
  have a0 := hh 0
  have a1 := hh 1
  have a2 := hh 2
  have a3 := hh 3
  rw [halfwordOf_eq]
  rcases scanSize_eq _ hsz with ⟨e, _⟩ | ⟨e, _⟩ | ⟨e, _⟩ | ⟨e, _⟩
  · exact absurd e h0
  · subst e
    have : i = 0 := by simp [nbHalfwords] at hi; omega
    subst this
    simp only [assemble, EEPROM_SIZE16, if_true]
    norm_num
    omega
  · subst e
    have : i = 0 ∨ i = 1 := by simp [nbHalfwords] at hi; omega
    simp only [assemble, EEPROM_SIZE16, EEPROM_SIZE32, if_true]
    norm_num
    rcases this with rfl | rfl <;> norm_num <;> omega
  · subst e
    have : i = 0 ∨ i = 1 ∨ i = 2 ∨ i = 3 := by simp [nbHalfwords] at hi; omega
    simp only [assemble, EEPROM_SIZE16, EEPROM_SIZE32]
    norm_num
    rw [or_shift32 _ _ (by omega)]
    rcases this with rfl | rfl | rfl | rfl <;> norm_num <;> omega

theorem assemble_halfwordOf (sz Value v : Nat) (hsz : sz ≤ 3) (h0 : sz ≠ 0) :
    assemble sz Value (halfwordOf v) % valueMod sz = v % valueMod sz := by
  have e0 := halfwordOf_eq v 0
  have e1 := halfwordOf_eq v 1
  have e2 := halfwordOf_eq v 2
  have e3 := halfwordOf_eq v 3
  norm_num at e0 e1 e2 e3
  have m1 : valueMod 1 = 65536 := by decide
  have m2 : valueMod 2 = 4294967296 := by decide
  have m3 : valueMod 3 = 18446744073709551616 := by decide
  rcases scanSize_eq _ hsz with ⟨e, _⟩ | ⟨e, _⟩ | ⟨e, _⟩ | ⟨e, _⟩
  · exact absurd e h0
  · subst e
    simp only [assemble, EEPROM_SIZE16, if_true]
    rw [e0, m1]; omega
  · subst e
    simp only [assemble, EEPROM_SIZE16, EEPROM_SIZE32, if_true]
    norm_num
    rw [e0, e1, m2]; omega
  · subst e
    simp only [assemble, EEPROM_SIZE16, EEPROM_SIZE32]
    norm_num
    rw [e0, e1, e2, e3, m3]
    rw [or_shift32 _ _ (by omega)]
    omega
theorem assemble_congr (sz Value : Nat) (h h' : Nat → Nat) (hsz : sz ≤ 3)
    (heq : ∀ i, i < nbHalfwords sz → h i = h' i) :
    assemble sz Value h = assemble sz Value h' := by
  rcases scanSize_eq _ hsz with ⟨e, _⟩ | ⟨e, _⟩ | ⟨e, _⟩ | ⟨e, _⟩ <;> subst e
  · have a0 := heq 0 (by decide)
    have a1 := heq 1 (by decide)
    have a2 := heq 2 (by decide)
    have a3 := heq 3 (by decide)
    simp [assemble, EEPROM_SIZE16, EEPROM_SIZE32, a0, a1, a2, a3]
  · have a0 := heq 0 (by decide)
    simp [assemble, EEPROM_SIZE16, a0]
  · have a0 := heq 0 (by decide)
    have a1 := heq 1 (by decide)
    simp [assemble, EEPROM_SIZE16, EEPROM_SIZE32, a0, a1]
  · have a0 := heq 0 (by decide)
    have a1 := heq 1 (by decide)
    have a2 := heq 2 (by decide)
    have a3 := heq 3 (by decide)
    simp [assemble, EEPROM_SIZE16, EEPROM_SIZE32, a0, a1, a2, a3]

theorem cursorOf_le {cfg : Config} (hwf : cfg.WF) {W O : Nat} {s : State}
    (hc : Core cfg W O s) :
    W + 2 ≤ cursorOf cfg W s ∧ cursorOf cfg W s ≤ W + cfg.pageSize := by
  unfold cursorOf
  rcases hc.cursor with h | ⟨h1, h2⟩
  · have := hwf.size_min
    simp [h]; omega
  · have : s.EEPROM_NextIndex ≠ 0 := by omega
    simp [this]; omega

theorem read_appendState_same {cfg : Config} (hwf : cfg.WF) {W O : Nat} {s : State}
    (hc : Core cfg W O s) {n size : Nat} (hn : n < cfg.varCount) (hsz : size ≤ 3)
    (hs0 : size ≠ 0) (hroom : ¬ noRoom cfg s size) (v Value : Nat) :
    EEPROM_ReadVariable cfg n Value (appendState cfg n v size s) =
      (EEPROM_SUCCESS, assemble size Value (halfwordOf v)) := by
  have hc' := appendState_core hwf hc (n := n) hsz hroom v
  obtain ⟨hidx, hst⟩ := appendState_newIndex hwf hc hroom
  obtain ⟨h0, ⟨h1, h1'⟩, h2, hcur⟩ := room_facts hwf hc hroom
  have hmod : size % 256 = size := Nat.mod_eq_of_lt (by omega)
  have hs0' : ¬ size = EEPROM_SIZE_DELETED := hs0
  have hi : (appendState cfg n v size s).EEPROM_Index n = s.EEPROM_NextIndex + 2 - cfg.start := by
    rw [appendState_index, if_pos rfl, if_neg hs0', hidx]
  have hs : (appendState cfg n v size s).EEPROM_SizeTable n = size := by
    rw [appendState_sizeTable, if_pos rfl, hmod]
  rw [read_spec hwf hc'.pair (cursorOf_le hwf hc').2 hn (hc'.entries n hn), hs, if_neg hs0, hi]
  congr 1
  apply assemble_congr _ _ _ _ hsz
  intro i hi'
  have e : cfg.start + (s.EEPROM_NextIndex + 2 - cfg.start) + 2 * i =
      s.EEPROM_NextIndex + 2 + 2 * i := by omega
  simp only [e]
  exact appendState_payload hwf hc hsz hs0 hroom n v i hi'

theorem read_appendState_other {cfg : Config} (hwf : cfg.WF) {W O : Nat} {s : State}
    (hc : Core cfg W O s) {n size m : Nat} (hm : m < cfg.varCount) (hmn : m ≠ n)
    (hsz : size ≤ 3) (hroom : ¬ noRoom cfg s size) (v Value : Nat) :
    EEPROM_ReadVariable cfg m Value (appendState cfg n v size s) =
      EEPROM_ReadVariable cfg m Value s := by
  have hc' := appendState_core hwf hc (n := n) hsz hroom v
  obtain ⟨h0, ⟨h1, h1'⟩, h2, hcur⟩ := room_facts hwf hc hroom
  have hb := pair_bounds hwf hc.pair
  have hi : (appendState cfg n v size s).EEPROM_Index m = s.EEPROM_Index m := by
    rw [appendState_index, if_neg hmn]
  have hs : (appendState cfg n v size s).EEPROM_SizeTable m = s.EEPROM_SizeTable m := by
    rw [appendState_sizeTable, if_neg hmn]
  have he := hc.entries m hm
  rw [read_spec hwf hc'.pair (cursorOf_le hwf hc').2 hm (hc'.entries m hm),
      read_spec hwf hc.pair (cursorOf_le hwf hc).2 hm he, hs, hi]
  by_cases hz : s.EEPROM_SizeTable m = 0
  · simp [hz]
  · simp only [hz, if_false]
    congr 1
    apply assemble_congr _ _ _ _ he.size_le
    intro i hi'
    have hnb := scanSize_nb _ he.size_le hz
    have hidx0 : s.EEPROM_Index m ≠ 0 := fun h => hz (he.lockstep.mp h)
    apply appendState_flash_out hwf hc hsz hroom
    rw [hcur] at he
    rcases he.place hidx0 with ⟨p1, p2⟩ | ⟨p1, p2⟩ <;> omega

theorem sum_range_change (k i : Nat) (f g : Nat → Nat) (hi : i < k)
    (h : ∀ m, m < k → m ≠ i → f m = g m) :
    (∑ m in Finset.range k, f m) + g i = (∑ m in Finset.range k, g m) + f i := by
  have hmem : i ∈ Finset.range k := Finset.mem_range.mpr hi
  rw [← Finset.add_sum_erase _ f hmem, ← Finset.add_sum_erase _ g hmem]
  have : ∑ x in (Finset.range k).erase i, f x = ∑ x in (Finset.range k).erase i, g x := by
    apply Finset.sum_congr rfl
    intro x hx
    rw [Finset.mem_erase, Finset.mem_range] at hx
    exact h x hx.2 hx.1
  omega

theorem SetPageStatus_mark (cfg : Config) (Page PageStatus : Nat) (s : State)
    (hne : PageStatus ≠ EEPROM_ERASED) :
    (EEPROM_SetPageStatus cfg Page PageStatus s).1 = ofHAL (s.hal s.log.length) ∧
    ((EEPROM_SetPageStatus cfg Page PageStatus s).1 = EEPROM_SUCCESS →
      (EEPROM_SetPageStatus cfg Page PageStatus s).2 = markState Page PageStatus s) := by
  unfold EEPROM_SetPageStatus HAL_FLASH_Program halCall
  rw [if_neg hne]
  cases h : s.hal s.log.length <;> simp [h, ofHAL, markState, applyOp]

theorem SetPageStatus_erase (cfg : Config) (Page : Nat) (s : State) :
    (EEPROM_SetPageStatus cfg Page EEPROM_ERASED s).1 = ofHAL (s.hal s.log.length) ∧
    ((EEPROM_SetPageStatus cfg Page EEPROM_ERASED s).1 = EEPROM_SUCCESS →
      (EEPROM_SetPageStatus cfg Page EEPROM_ERASED s).2 = eraseState cfg Page s) := by
  unfold EEPROM_SetPageStatus HAL_FLASHEx_Erase halCall
  rw [if_pos rfl]
  cases h : s.hal s.log.length <;> simp [h, ofHAL, eraseState, applyOp]

theorem write_append (cfg : Config) (fuel n v size : Nat) (s : State)
    (hw : writingPage s ≠ EEPROM_PAGE_NONE) (hroom : ¬ noRoom cfg s size) :
    EEPROM_WriteVariable cfg (fuel + 1) n v size s =
      (some (appendRecord cfg n v size s).1, (appendRecord cfg n v size s).2) := by
  rw [EEPROM_WriteVariable]
  rw [if_neg hw, if_neg hroom]

theorem offsets_of_pair {cfg : Config} (hwf : cfg.WF) {W O : Nat} (hp : IsPagePair cfg W O) :
    startOffset cfg W = W - cfg.start ∧ endOffset cfg W = W - cfg.start + cfg.pageSize ∧
    startOffset cfg O = O - cfg.start ∧ endOffset cfg O = O - cfg.start + cfg.pageSize := by
  have h32 := hwf.area32
  have h16 := hwf.area16
  unfold startOffset endOffset
  rcases hp with ⟨h1, h2⟩ | ⟨h1, h2⟩ <;> simp only [EEPROM_PAGE0, EEPROM_PAGE1] at h1 h2 <;>
    subst h1 <;> subst h2
  · have e1 : cfg.start + 4294967296 - cfg.start = 4294967296 := by omega
    have e2 : cfg.start + cfg.pageSize + 4294967296 - cfg.start = cfg.pageSize + 4294967296 := by
      omega
    rw [e1, e2]
    norm_num
    omega
  · have e1 : cfg.start + 4294967296 - cfg.start = 4294967296 := by omega
    have e2 : cfg.start + cfg.pageSize + 4294967296 - cfg.start = cfg.pageSize + 4294967296 := by
      omega
    rw [e1, e2]
    norm_num
    omega

theorem onPage_other {cfg : Config} (hwf : cfg.WF) {W O : Nat} (hp : IsPagePair cfg W O)
    {cur idx sz : Nat} (hcur : cur ≤ W + cfg.pageSize) (he : EntryOK cfg W O cur idx sz) :
    (onPage cfg O idx ↔ idx ≠ 0 ∧ O + 4 ≤ cfg.start + idx ∧
        cfg.start + idx + scanSize sz ≤ O + cfg.pageSize) ∧
    (onPage cfg W idx ↔ idx ≠ 0 ∧ W + 4 ≤ cfg.start + idx ∧
        cfg.start + idx + scanSize sz ≤ cur) := by
  obtain ⟨e1, e2, e3, e4⟩ := offsets_of_pair hwf hp
  have hb := pair_bounds hwf hp
  unfold onPage
  rw [e1, e2, e3, e4]
  by_cases h0 : idx = 0
  · subst h0; simp
  · have hs0 : sz ≠ 0 := fun h => h0 (he.lockstep.mpr h)
    have hnb := scanSize_nb sz he.size_le hs0
    have : 0 < nbHalfwords sz := by unfold nbHalfwords; split <;> [decide; (split <;> decide)]
    rcases he.place h0 with ⟨p1, p2⟩ | ⟨p1, p2⟩ <;> constructor <;> constructor <;>
      intro h <;> omega
theorem liveBytes_eq (sz : Nat) (hsz : sz ≤ 3) (h0 : sz ≠ 0) : liveBytes sz = recordBytes sz := by
  interval_cases sz <;> first | contradiction | decide

theorem pending_term_le (cfg : Config) (P : Nat) (s : State) (i : Nat) (hi : i < cfg.varCount)
    (hon : onPage cfg P (s.EEPROM_Index i)) :
    liveBytes (s.EEPROM_SizeTable i) ≤ pendingBytes cfg P s := by
  unfold pendingBytes
  have h := Finset.single_le_sum (f := fun m =>
      if onPage cfg P (s.EEPROM_Index m) then liveBytes (s.EEPROM_SizeTable m) else 0)
    (fun _ _ => Nat.zero_le _) (Finset.mem_range.mpr hi)
  simpa [hon] using h

/-- Facts about one copy step that finds the name on the source page. -/
theorem copy_facts {cfg : Config} (hwf : cfg.WF) {V R : Nat} {s : State} (hm : Mid cfg V R s)
    {i : Nat} (hi : i < cfg.varCount) (hon : onPage cfg V (s.EEPROM_Index i)) (Value : Nat) :
    s.EEPROM_SizeTable i ≠ 0 ∧ s.EEPROM_SizeTable i ≤ 3 ∧
    ¬ noRoom cfg s (s.EEPROM_SizeTable i) ∧
    EEPROM_ReadVariable cfg i Value s = (EEPROM_SUCCESS, assemble (s.EEPROM_SizeTable i) Value
        (fun j => read16 s.flash (cfg.start + s.EEPROM_Index i + 2 * j))) := by
  have he := hm.core.entries i hi
  have hcl := cursorOf_le hwf hm.core
  have hon' := ((onPage_other hwf hm.core.pair hcl.2 he).1.mp hon)
  have hs0 : s.EEPROM_SizeTable i ≠ 0 := fun h => hon'.1 (he.lockstep.mpr h)
  refine ⟨hs0, he.size_le, ?_, ?_⟩
  · intro hno
    have h1 := noRoom_facts hwf hm.core he.size_le hno
    have h2 := pending_term_le cfg V s i hi hon
    have h3 := hm.fits
    rw [liveBytes_eq _ he.size_le hs0] at h2
    omega
  · rw [read_spec hwf hm.core.pair hcl.2 hi he, if_neg hs0]
theorem Drained.refl {cfg : Config} {V R : Nat} {s : State} (hm : Mid cfg V R s) :
    Drained cfg V R s s :=
  ⟨hm, fun _ => rfl, fun _ _ => rfl, fun _ _ => rfl, fun _ _ _ => rfl, rfl, Nat.le_refl _,
    fun _ _ => rfl⟩

theorem Drained.trans {cfg : Config} {V R : Nat} {s t u : State}
    (h1 : Drained cfg V R s t) (h2 : Drained cfg V R t u) : Drained cfg V R s u := by
  refine ⟨h2.mid, fun m => (h2.sizes m).trans (h1.sizes m), ?_, ?_, ?_, h2.hal.trans h1.hal,
    Nat.le_trans h1.mono h2.mono, ?_⟩
  · intro m hm
    have e := h1.keep m hm
    rw [h2.keep m (by rw [e]; exact hm), e]
  · intro m hm
    have e := h2.stay m hm
    rw [e] at hm ⊢
    exact h1.stay m hm
  · intro m hm Value
    rw [h2.reads m hm, h1.reads m hm]
  · intro a ha
    have := h1.mono
    rw [h2.frame a (by omega), h1.frame a ha]

theorem copyStep_drained {cfg : Config} (hwf : cfg.WF) {V R : Nat} {s : State}
    (hm : Mid cfg V R s) {i : Nat} (hi : i < cfg.varCount) (Value : Nat) :
    Drained cfg V R s (copyStep cfg V (Value, s) i).2 ∧
    ¬ onPage cfg V ((copyStep cfg V (Value, s) i).2.EEPROM_Index i) := by
  by_cases hon : onPage cfg V (s.EEPROM_Index i)
  · obtain ⟨hs0, hsz, hroom, hread⟩ := copy_facts hwf hm hi hon Value
    have hstep : copyStep cfg V (Value, s) i =
        (assemble (s.EEPROM_SizeTable i) Value
          (fun j => read16 s.flash (cfg.start + s.EEPROM_Index i + 2 * j)),
         appendState cfg i (assemble (s.EEPROM_SizeTable i) Value
          (fun j => read16 s.flash (cfg.start + s.EEPROM_Index i + 2 * j)))
          (s.EEPROM_SizeTable i) s) := by
      unfold copyStep
      simp only [hon, if_true, hread]
    rw [hstep]
    simp only []
    generalize hv : assemble (s.EEPROM_SizeTable i) Value
          (fun j => read16 s.flash (cfg.start + s.EEPROM_Index i + 2 * j)) = v1
    have hc' := appendState_core hwf hm.core (n := i) hsz hroom v1
    have hcl := cursorOf_le hwf hm.core
    have hcl' := cursorOf_le hwf hc'
    obtain ⟨h0, ⟨h1, h1'⟩, h2, hcur⟩ := room_facts hwf hm.core hroom
    have hcur' := (appendState_cursor hwf hm.core hroom i v1).1
    obtain ⟨hidx, hst⟩ := appendState_newIndex hwf hm.core hroom
    have hb := pair_bounds hwf hm.core.pair
    have hB := recordBytes_eq _ hsz
    have hmod : s.EEPROM_SizeTable i % 256 = s.EEPROM_SizeTable i := Nat.mod_eq_of_lt (by omega)
    have hs0' : ¬ s.EEPROM_SizeTable i = EEPROM_SIZE_DELETED := hs0
    have hnew : (appendState cfg i v1 (s.EEPROM_SizeTable i) s).EEPROM_Index i =
        s.EEPROM_NextIndex + 2 - cfg.start := by
      rw [appendState_index, if_pos rfl, if_neg hs0', hidx]
    have hsame : ∀ m, (appendState cfg i v1 (s.EEPROM_SizeTable i) s).EEPROM_SizeTable m =
        s.EEPROM_SizeTable m := by
      intro m
      rw [appendState_sizeTable]
      split
      · rename_i h; rw [h, hmod]
      · rfl
    have hoff : ¬ onPage cfg V ((appendState cfg i v1 (s.EEPROM_SizeTable i) s).EEPROM_Index i) := by
      intro h
      have := ((onPage_other hwf hc'.pair hcl'.2 (hc'.entries i hi)).1.mp h)
      rw [hnew] at this
      omega
    have honR : onPage cfg R ((appendState cfg i v1 (s.EEPROM_SizeTable i) s).EEPROM_Index i) := by
      have he' := hc'.entries i hi
      apply (onPage_other hwf hc'.pair hcl'.2 he').2.mpr
      rw [hsame] at he' ⊢
      rw [hnew, hcur']
      omega
    have hnotR : ¬ onPage cfg R (s.EEPROM_Index i) := by
      intro h
      have a1 := ((onPage_other hwf hm.core.pair hcl.2 (hm.core.entries i hi)).2.mp h)
      have a2 := ((onPage_other hwf hm.core.pair hcl.2 (hm.core.entries i hi)).1.mp hon)
      omega
    have hlive := liveBytes_eq _ hsz hs0
    refine ⟨⟨⟨hc', hm.valid, hm.receiving, hm.erased, ?_, ?_⟩, hsame, ?_, ?_, ?_, rfl, ?_, ?_⟩,
      hoff⟩
    · have key : pendingBytes cfg V (appendState cfg i v1 (s.EEPROM_SizeTable i) s) +
          liveBytes (s.EEPROM_SizeTable i) = pendingBytes cfg V s + 0 := by
        have := sum_range_change cfg.varCount i
          (fun m => if onPage cfg V ((appendState cfg i v1 (s.EEPROM_SizeTable i) s).EEPROM_Index m)
            then liveBytes ((appendState cfg i v1 (s.EEPROM_SizeTable i) s).EEPROM_SizeTable m)
            else 0)
          (fun m => if onPage cfg V (s.EEPROM_Index m) then liveBytes (s.EEPROM_SizeTable m) else 0)
          hi (by
            intro m _ hmi
            simp only [hsame, appendState_index, hmi, if_false])
        simp only [] at this
        rw [if_pos hon, if_neg hoff] at this
        exact this
      have hf := hm.fits
      rw [hcur] at hf
      rw [hcur']
      omega
    · have key : pendingBytes cfg R (appendState cfg i v1 (s.EEPROM_SizeTable i) s) + 0 =
          pendingBytes cfg R s + liveBytes (s.EEPROM_SizeTable i) := by
        have := sum_range_change cfg.varCount i
          (fun m => if onPage cfg R ((appendState cfg i v1 (s.EEPROM_SizeTable i) s).EEPROM_Index m)
            then liveBytes ((appendState cfg i v1 (s.EEPROM_SizeTable i) s).EEPROM_SizeTable m)
            else 0)
          (fun m => if onPage cfg R (s.EEPROM_Index m) then liveBytes (s.EEPROM_SizeTable m) else 0)
          hi (by
            intro m _ hmi
            simp only [hsame, appendState_index, hmi, if_false])
        simp only [] at this
        rw [if_neg hnotR, if_pos honR, hsame] at this
        exact this
      have hf := hm.packed
      rw [hcur] at hf
      rw [hcur']
      omega
    · intro m hmo
      rw [appendState_index, if_neg (by intro h; subst h; exact hmo hon)]
    · intro m hmo
      by_cases hmi : m = i
      · subst hmi; exact absurd hmo hoff
      · rw [appendState_index, if_neg hmi]
    · intro m hmv Val
      by_cases hmi : m = i
      · subst hmi
        rw [read_appendState_same hwf hm.core hmv hsz hs0 hroom,
          (copy_facts hwf hm hmv hon Val).2.2.2]
        apply congrArg
        rw [← hv]
        apply assemble_congr _ _ _ _ hsz
        intro j hj
        exact halfwordOf_assemble _ _ _ _ hsz hs0 (fun _ => read16_lt _ _) hj
      · exact read_appendState_other hwf hm.core hmv hmi hsz hroom v1 Val
    · rw [hcur', hcur]; omega
    · intro a ha
      apply appendState_flash_out hwf hm.core hsz hroom
      rw [hcur] at ha
      omega
  · have hstep : copyStep cfg V (Value, s) i = (Value, s) := by
      unfold copyStep
      simp only [hon, if_false]
    rw [hstep]
    exact ⟨Drained.refl hm, hon⟩
theorem copyLoop_drained {cfg : Config} (hwf : cfg.WF) {V R : Nat} {s : State}
    (hm : Mid cfg V R s) (Value : Nat) (k : Nat) (hk : k ≤ cfg.varCount) :
    Drained cfg V R s ((List.range k).foldl (copyStep cfg V) (Value, s)).2 ∧
    ∀ m, m < k →
      ¬ onPage cfg V (((List.range k).foldl (copyStep cfg V) (Value, s)).2.EEPROM_Index m) := by
  induction k with
  | zero => exact ⟨Drained.refl hm, fun m h => absurd h (Nat.not_lt_zero m)⟩
  | succ k ih =>
    obtain ⟨hd, hoff⟩ := ih (by omega)
    rw [List.range_succ, List.foldl_append]
    simp only [List.foldl_cons, List.foldl_nil]
    generalize (List.range k).foldl (copyStep cfg V) (Value, s) = acc at hd hoff
    obtain ⟨vk, sk⟩ := acc
    obtain ⟨hd', hoff'⟩ := copyStep_drained hwf hd.mid (i := k) (by omega) vk
    refine ⟨hd.trans hd', ?_⟩
    intro m hmk
    by_cases hmk' : m = k
    · subst hmk'; exact hoff'
    · rw [hd'.keep m (hoff m (by omega))]
      exact hoff m (by omega)

theorem mid_writing {cfg : Config} (hwf : cfg.WF) {V R : Nat} {s : State}
    (hm : Mid cfg V R s) : writingPage s ≠ EEPROM_PAGE_NONE := by
  have hb := pair_bounds hwf hm.core.pair
  rw [hm.core.writing]
  unfold EEPROM_PAGE_NONE
  omega

theorem appendRecord_hal (cfg : Config) (n v size : Nat) (s : State) :
    ∃ h, (appendRecord cfg n v size s).1 = ofHAL h := by
  unfold appendRecord HAL_FLASH_Program halCall
  by_cases hs : size = EEPROM_SIZE_DELETED
  · cases h2 : s.hal s.log.length with
    | HAL_OK => simp [hs, h2]; exact ⟨HAL_OK, rfl⟩
    | _ => simp [hs, h2]
  · cases h1 : s.hal s.log.length with
    | HAL_OK =>
      cases h2 : s.hal (s.log.length + 1) with
      | HAL_OK => simp [hs, h1, h2]; exact ⟨HAL_OK, rfl⟩
      | _ => simp [hs, h1, h2]
    | _ => simp [hs, h1]

theorem HalResult.success (s : State) : HalResult s EEPROM_SUCCESS :=
  ⟨⟨HAL_OK, rfl⟩, fun _ => rfl⟩

theorem HalResult.of_hal {s : State} {r : EEPROM_Result} (k : Nat)
    (h : r = ofHAL (s.hal k)) : HalResult s r :=
  ⟨⟨_, h⟩, fun hall => by rw [h, hall k]; rfl⟩

theorem HalResult.of_eq {s t : State} {r : EEPROM_Result} (he : t.hal = s.hal)
    (h : HalResult t r) : HalResult s r :=
  ⟨h.1, fun hall => h.2 (by rw [he]; exact hall)⟩

theorem HalResult.ne_full {s : State} {r : EEPROM_Result} (h : HalResult s r) :
    r ≠ EEPROM_FULL := by
  obtain ⟨⟨x, hx⟩, _⟩ := h
  rw [hx]
  cases x <;> decide

theorem appendRecord_ok (cfg : Config) (n v size : Nat) (s : State)
    (hall : ∀ k, s.hal k = HAL_OK) : (appendRecord cfg n v size s).1 = EEPROM_SUCCESS := by
  unfold appendRecord HAL_FLASH_Program halCall
  by_cases hs : size = EEPROM_SIZE_DELETED
  · simp [hs, hall]
  · simp [hs, hall]

theorem appendRecord_halResult (cfg : Config) (n v size : Nat) (s : State) :
    HalResult s (appendRecord cfg n v size s).1 :=
  ⟨appendRecord_hal cfg n v size s, appendRecord_ok cfg n v size s⟩

theorem transferStep_mid {cfg : Config} (hwf : cfg.WF) {V R : Nat} {s : State}
    (hm : Mid cfg V R s) {i : Nat} (hi : i < cfg.varCount) (Value fuel : Nat) :
    ∃ r x, transferStep cfg (EEPROM_WriteVariable cfg (fuel + 1)) V
        (some EEPROM_SUCCESS, Value, s) i = (some r, x) ∧ HalResult s r ∧
      (r = EEPROM_SUCCESS → x = copyStep cfg V (Value, s) i) := by
  by_cases hon : onPage cfg V (s.EEPROM_Index i)
  · obtain ⟨hs0, hsz, hroom, hread⟩ := copy_facts hwf hm hi hon Value
    unfold transferStep copyStep
    simp only [hon, if_true, hread]
    rw [write_append cfg fuel _ _ _ s (mid_writing hwf hm) hroom]
    refine ⟨_, _, rfl, appendRecord_halResult _ _ _ _ _, ?_⟩
    intro hr
    rw [appendRecord_success cfg _ _ _ s hr]
  · unfold transferStep copyStep
    simp only [hon, if_false]
    exact ⟨_, _, rfl, HalResult.success s, fun _ => rfl⟩

theorem transferStep_stuck (cfg : Config)
    (write : Nat → Nat → Nat → State → Option EEPROM_Result × State) (V : Nat)
    (r : Option EEPROM_Result) (x : Nat × State) (i : Nat) (hr : r ≠ some EEPROM_SUCCESS) :
    transferStep cfg write V (r, x) i = (r, x) := by
  unfold transferStep
  split
  · rename_i h
    simp only [Prod.mk.injEq] at h
    exact absurd h.1 hr
  · rfl

theorem transferLoop_mid {cfg : Config} (hwf : cfg.WF) {V R : Nat} {s : State}
    (hm : Mid cfg V R s) (Value fuel : Nat) (k : Nat) (hk : k ≤ cfg.varCount) :
    ∃ r x, (List.range k).foldl (transferStep cfg (EEPROM_WriteVariable cfg (fuel + 1)) V)
        (some EEPROM_SUCCESS, Value, s) = (some r, x) ∧ HalResult s r ∧
      (r = EEPROM_SUCCESS → x = (List.range k).foldl (copyStep cfg V) (Value, s)) := by
  induction k with
  | zero => exact ⟨_, _, rfl, HalResult.success s, fun _ => rfl⟩
  | succ k ih =>
    obtain ⟨r, x, h1, h3, h2⟩ := ih (by omega)
    rw [List.range_succ, List.foldl_append, List.foldl_append, h1]
    simp only [List.foldl_cons, List.foldl_nil]
    by_cases hr : r = EEPROM_SUCCESS
    · subst hr
      rw [h2 rfl]
      have hd := (copyLoop_drained hwf hm Value k (by omega)).1
      generalize (List.range k).foldl (copyStep cfg V) (Value, s) = acc at hd
      obtain ⟨vk, sk⟩ := acc
      obtain ⟨r', x', e1, e2, e3⟩ := transferStep_mid hwf hd.mid (show k < cfg.varCount by omega) vk fuel
      exact ⟨r', x', e1, HalResult.of_eq hd.hal e2, e3⟩
    · refine ⟨r, x, transferStep_stuck _ _ _ _ _ _ (by simpa using hr), h3, fun h => absurd h hr⟩

theorem purgeIndex_fold_noop (cfg : Config) (P : Nat) (idx : Nat → Nat) (k : Nat)
    (h : ∀ m, m < k → ¬ onPage cfg P (idx m)) :
    (List.range k).foldl
      (fun idx i => if onPage cfg P (idx i) then (fun m => if m = i then 0 else idx m) else idx)
      idx = idx := by
  induction k with
  | zero => rfl
  | succ k ih =>
    rw [List.range_succ, List.foldl_append, ih (fun m hm => h m (by omega))]
    simp only [List.foldl_cons, List.foldl_nil]
    rw [if_neg (h k (by omega))]

theorem purgeIndex_noop (cfg : Config) (P : Nat) (idx : Nat → Nat)
    (h : ∀ m, m < cfg.varCount → ¬ onPage cfg P (idx m)) : purgeIndex cfg P idx = idx :=
  purgeIndex_fold_noop cfg P idx cfg.varCount h

/-- The state at the end of a page transfer whose copy loop left nothing on the source page:
the source page erased and given the erased role, the receiving page marked valid. -/
theorem finish_fields {cfg : Config} (hwf : cfg.WF) {V R : Nat} {t : State}
    (hm : Mid cfg V R t) (hdone : ∀ m, m < cfg.varCount → ¬ onPage cfg V (t.EEPROM_Index m)) :
    (markState R EEPROM_VALID (eraseState cfg V t)).EEPROM_ValidPage = R ∧
    (markState R EEPROM_VALID (eraseState cfg V t)).EEPROM_ErasedPage = V ∧
    (markState R EEPROM_VALID (eraseState cfg V t)).EEPROM_ReceivingPage = EEPROM_PAGE_NONE ∧
    (markState R EEPROM_VALID (eraseState cfg V t)).EEPROM_Index = t.EEPROM_Index ∧
    (markState R EEPROM_VALID (eraseState cfg V t)).EEPROM_SizeTable = t.EEPROM_SizeTable ∧
    (markState R EEPROM_VALID (eraseState cfg V t)).EEPROM_NextIndex = t.EEPROM_NextIndex ∧
    (markState R EEPROM_VALID (eraseState cfg V t)).hal = t.hal ∧
    (markState R EEPROM_VALID (eraseState cfg V t)).flash =
      programFlash (eraseFlash cfg t.flash V 1) 1 R EEPROM_VALID ∧
    (markState R EEPROM_VALID (eraseState cfg V t)).log =
      t.log ++ [FlashOp.erase V 1] ++ [FlashOp.program 1 R EEPROM_VALID] := by
  have hb := pair_bounds hwf hm.core.pair
  have hmin := hwf.size_min
  have hV : t.EEPROM_ValidPage = V := hm.valid
  have hR : t.EEPROM_ReceivingPage = R := hm.receiving
  have hE : t.EEPROM_ErasedPage = EEPROM_PAGE_NONE := hm.erased
  have hRV : R ≠ V := by omega
  have hR0 : ¬ EEPROM_PAGE_NONE = R := by unfold EEPROM_PAGE_NONE; omega
  have hp := purgeIndex_noop cfg V t.EEPROM_Index hdone
  have e1 : ¬ EEPROM_ERASED = EEPROM_VALID := by decide
  have e2 : ¬ EEPROM_ERASED = EEPROM_RECEIVING := by decide
  simp [markState, eraseState, updateRoles, hV, hR, hE, hRV, hR0, hp, e1, e2]
theorem liveSum_eq_pending {cfg : Config} (hwf : cfg.WF) {W O : Nat} {s : State}
    (hc : Core cfg W O s) (hdone : ∀ m, m < cfg.varCount → ¬ onPage cfg O (s.EEPROM_Index m)) :
    liveSum cfg s = pendingBytes cfg W s := by
  unfold liveSum pendingBytes
  apply Finset.sum_congr rfl
  intro m hm
  rw [Finset.mem_range] at hm
  have he := hc.entries m hm
  have hcl := cursorOf_le hwf hc
  have ho := onPage_other hwf hc.pair hcl.2 he
  by_cases h0 : s.EEPROM_Index m = 0
  · have : s.EEPROM_SizeTable m = 0 := he.lockstep.mp h0
    simp [this, liveBytes, EEPROM_SIZE_DELETED]
  · have hon : onPage cfg W (s.EEPROM_Index m) := by
      apply ho.2.mpr
      rcases he.place h0 with p | p
      · exact ⟨h0, p⟩
      · exact absurd (ho.1.mpr ⟨h0, p⟩) (hdone m hm)
    rw [if_pos hon]

theorem finish_steady {cfg : Config} (hwf : cfg.WF) {V R : Nat} {t : State}
    (hm : Mid cfg V R t) (hdone : ∀ m, m < cfg.varCount → ¬ onPage cfg V (t.EEPROM_Index m)) :
    Steady cfg (markState R EEPROM_VALID (eraseState cfg V t)) ∧
    (∀ m, m < cfg.varCount → ∀ Value,
      EEPROM_ReadVariable cfg m Value (markState R EEPROM_VALID (eraseState cfg V t)) =
        EEPROM_ReadVariable cfg m Value t) ∧
    (∀ a, R + 2 ≤ a → a < R + cfg.pageSize →
      read16 (markState R EEPROM_VALID (eraseState cfg V t)).flash a = read16 t.flash a) := by
  obtain ⟨fV, fE, fR, fI, fS, fN, fH, fF, fL⟩ := finish_fields hwf hm hdone
  generalize markState R EEPROM_VALID (eraseState cfg V t) = u at *
  have hb := pair_bounds hwf hm.core.pair
  have hmin := hwf.size_min
  have hcl := cursorOf_le hwf hm.core
  have hcur : cursorOf cfg R u = cursorOf cfg R t := by unfold cursorOf; rw [fN]
  have hframe : ∀ a, R + 2 ≤ a → a < R + cfg.pageSize → read16 u.flash a = read16 t.flash a := by
    intro a h1 h2
    rw [fF, read16_programFlash_out _ _ _ _ _ (by have : nbHalfwords 1 = 1 := rfl; omega),
      read16_eraseFlash_out _ _ _ _ _ (by omega)]
  have hcore : Core cfg R V u := by
    refine ⟨hm.core.pair, ?_, ?_, ?_, ?_⟩
    · unfold writingPage; rw [fR, fV]; simp
    · rw [fN]; exact hm.core.cursor
    · intro a h1 h2
      rw [hcur] at h1
      rw [hframe a (by omega) h2]
      exact hm.core.free a h1 h2
    · intro m hmv
      rw [hcur, fI, fS]
      exact hm.core.entries m hmv
  have hdone' : ∀ m, m < cfg.varCount → ¬ onPage cfg V (u.EEPROM_Index m) := by
    rw [fI]; exact hdone
  refine ⟨⟨by rw [fV, fE]; exact hcore, fR, ?_, ?_, ?_, ?_⟩, ?_, hframe⟩
  · rw [fV, fF]
    unfold read16 programFlash
    rw [if_pos (by have : nbHalfwords 1 = 1 := rfl; omega)]
    simp [halfwordOf, EEPROM_VALID]
  · intro a h1 h2
    rw [fE] at h1 h2
    rw [fF, read16_programFlash_out _ _ _ _ _ (by have : nbHalfwords 1 = 1 := rfl; omega)]
    exact read16_eraseFlash_in _ _ _ _ _ (by omega)
  · intro m hmv h0
    rw [fV]
    have he := hcore.entries m hmv
    have ho := onPage_other hwf hcore.pair (cursorOf_le hwf hcore).2 he
    rcases he.place h0 with p | p
    · exact p
    · exact absurd (ho.1.mpr ⟨h0, p⟩) (hdone' m hmv)
  · rw [fV, liveSum_eq_pending hwf hcore hdone', hcur]
    have hp := hm.packed
    have : pendingBytes cfg R u = pendingBytes cfg R t := by
      unfold pendingBytes; rw [fI, fS]
    omega
  · intro m hmv Value
    have he := hm.core.entries m hmv
    have he' := hcore.entries m hmv
    rw [read_spec hwf hcore.pair (cursorOf_le hwf hcore).2 hmv he',
      read_spec hwf hm.core.pair hcl.2 hmv he, fI, fS]
    by_cases hz : t.EEPROM_SizeTable m = 0
    · simp [hz]
    · simp only [hz, if_false]
      apply congrArg
      apply assemble_congr _ _ _ _ he.size_le
      intro j hj
      have hnb := scanSize_nb _ he.size_le hz
      have hidx0 : t.EEPROM_Index m ≠ 0 := fun h => hz (he.lockstep.mp h)
      have ho := onPage_other hwf hm.core.pair hcl.2 he
      apply hframe
      · rcases he.place hidx0 with p | p
        · omega
        · exact absurd (ho.1.mpr ⟨hidx0, p⟩) (hdone m hmv)
      · rcases he.place hidx0 with p | p
        · omega
        · exact absurd (ho.1.mpr ⟨hidx0, p⟩) (hdone m hmv)
theorem eraseState_receiving {cfg : Config} {V R : Nat} {t : State}
    (hm : Mid cfg V R t) : (eraseState cfg V t).EEPROM_ReceivingPage = R := by
  have hV : t.EEPROM_ValidPage = V := hm.valid
  have hR : t.EEPROM_ReceivingPage = R := hm.receiving
  have e1 : ¬ EEPROM_ERASED = EEPROM_VALID := by decide
  have e2 : ¬ EEPROM_ERASED = EEPROM_RECEIVING := by decide
  simp [eraseState, updateRoles, hV, hR, e1, e2]

theorem pageTransfer_mid {cfg : Config} (hwf : cfg.WF) {V R : Nat} {s : State}
    (hm : Mid cfg V R s) (Value fuel : Nat) :
    ∃ r, (pageTransferWith cfg (EEPROM_WriteVariable cfg (fuel + 1)) Value s).1 = some r ∧
      HalResult s r ∧
      (r = EEPROM_SUCCESS → ∃ t, Drained cfg V R s t ∧
        (∀ m, m < cfg.varCount → ¬ onPage cfg V (t.EEPROM_Index m)) ∧
        (pageTransferWith cfg (EEPROM_WriteVariable cfg (fuel + 1)) Value s).2 =
          markState R EEPROM_VALID (eraseState cfg V t)) := by
  obtain ⟨r, x, h1, h3, h2⟩ := transferLoop_mid hwf hm Value fuel cfg.varCount (Nat.le_refl _)
  unfold pageTransferWith
  rw [hm.valid, h1]
  by_cases hr : r = EEPROM_SUCCESS
  · subst hr
    obtain ⟨hd, hoff⟩ := copyLoop_drained hwf hm Value cfg.varCount (Nat.le_refl _)
    rw [← h2 rfl] at hd hoff
    obtain ⟨vk, t⟩ := x
    simp only at hd hoff ⊢
    rw [hd.mid.valid]
    obtain ⟨a1, a2⟩ := SetPageStatus_erase cfg V t
    split
    · rename_i s2 hE
      rw [hE] at a2
      have hs2 := a2 rfl
      simp only at hs2
      subst hs2
      rw [eraseState_receiving hd.mid]
      obtain ⟨b1, b2⟩ := SetPageStatus_mark cfg R EEPROM_VALID (eraseState cfg V t) (by decide)
      split
      · rename_i s3 hM
        rw [hM] at b2
        exact ⟨EEPROM_SUCCESS, rfl, HalResult.success s, fun _ => ⟨t, hd, hoff, b2 rfl⟩⟩
      · rename_i r2 s3 hne hM
        rw [hM] at b1
        exact ⟨r2, rfl, HalResult.of_eq (t := eraseState cfg V t)
          (by rw [← hd.hal]; simp [eraseState, updateRoles]; split_ifs <;> rfl)
          (HalResult.of_hal _ b1), fun h => (hne h).elim⟩
    · rename_i r1 s2 hne hE
      rw [hE] at a1
      exact ⟨r1, rfl, HalResult.of_eq hd.hal (HalResult.of_hal _ a1), fun h => (hne h).elim⟩
  · obtain ⟨vk, t⟩ := x
    cases r <;> first | exact absurd rfl hr | exact ⟨_, rfl, h3, fun h => by cases h⟩

theorem shift_le (sz : Nat) (h : sz ≤ 3) : 2 + (1 <<< sz) ≤ 10 ∧ recordBytes sz ≤ 2 + (1 <<< sz) := by
  interval_cases sz <;> decide

theorem liveBytes_le (sz : Nat) (h : sz ≤ 3) : liveBytes sz ≤ 10 := by
  interval_cases sz <;> decide

theorem requiredMemory_fold (sizeTable : Nat → Nat) (n size : Nat)
    (hsz : size ≤ 3) (k : Nat) (hk : 10 * k + 12 ≤ 65536) (hall : ∀ m, m < k → sizeTable m ≤ 3) :
    (List.range k).foldl
      (fun acc i =>
        if i = n then (acc + (2 + (1 <<< size))) % 65536
        else if sizeTable i ≠ EEPROM_SIZE_DELETED then (acc + (2 + (1 <<< sizeTable i))) % 65536
        else acc) 2 =
      2 + ∑ m in Finset.range k, (if m = n then 2 + (1 <<< size) else liveBytes (sizeTable m)) ∧
    (∑ m in Finset.range k, (if m = n then 2 + (1 <<< size) else liveBytes (sizeTable m)))
      ≤ 10 * k := by
  induction k with
  | zero => simp
  | succ k ih =>
    obtain ⟨h1, h2⟩ := ih (by omega) (fun m hm => hall m (by omega))
    rw [List.range_succ, List.foldl_append, h1, Finset.sum_range_succ]
    simp only [List.foldl_cons, List.foldl_nil]
    have a1 := (shift_le size hsz).1
    have a2 := liveBytes_le (sizeTable k) (hall k (by omega))
    by_cases hkn : k = n
    · rw [if_pos hkn, if_pos hkn]
      constructor
      · rw [Nat.mod_eq_of_lt (by omega)]; omega
      · omega
    · rw [if_neg hkn, if_neg hkn]
      by_cases hd : sizeTable k = EEPROM_SIZE_DELETED
      · have hl : liveBytes (sizeTable k) = 0 := by simp [liveBytes, hd]
        rw [if_neg (by simpa using hd), hl]
        omega
      · have hl : liveBytes (sizeTable k) = 2 + (1 <<< sizeTable k) := by
          simp [liveBytes, hd]
        rw [hl] at a2 ⊢
        rw [if_pos hd]
        constructor
        · rw [Nat.mod_eq_of_lt (by omega)]; omega
        · omega

theorem requiredMemory_eq {cfg : Config} (hwf : cfg.WF) (sizeTable : Nat → Nat) (n size : Nat)
    (hsz : size ≤ 3) (hall : ∀ m, m < cfg.varCount → sizeTable m ≤ 3) :
    requiredMemory cfg sizeTable n size =
      2 + ∑ m in Finset.range cfg.varCount,
        (if m = n then 2 + (1 <<< size) else liveBytes (sizeTable m)) :=
  (requiredMemory_fold sizeTable n size hsz cfg.varCount hwf.count_bound hall).1
theorem steady_append {cfg : Config} (hwf : cfg.WF) {s : State} (hs : Steady cfg s)
    {n size : Nat} (hn : n < cfg.varCount) (hsz : size ≤ 3) (hroom : ¬ noRoom cfg s size)
    (v : Nat) : Steady cfg (appendState cfg n v size s) := by
  have hc := hs.core
  have hc' := appendState_core hwf hc (n := n) hsz hroom v
  obtain ⟨h0, ⟨h1, h1'⟩, h2, hcur⟩ := room_facts hwf hc hroom
  have hcur' := (appendState_cursor hwf hc hroom n v).1
  obtain ⟨hidx, hst⟩ := appendState_newIndex hwf hc hroom
  have hb := pair_bounds hwf hc.pair
  have hB := recordBytes_eq _ hsz
  have hmod : size % 256 = size := Nat.mod_eq_of_lt (by omega)
  refine ⟨hc', hs.receiving, ?_, ?_, ?_, ?_⟩
  · show read16 (appendState cfg n v size s).flash s.EEPROM_ValidPage = _
    rw [appendState_flash_out hwf hc hsz hroom n v _ (by omega)]
    exact hs.header
  · intro a ha1 ha2
    show read16 (appendState cfg n v size s).flash a = _
    have ha1' : s.EEPROM_ErasedPage ≤ a := ha1
    have ha2' : a < s.EEPROM_ErasedPage + cfg.pageSize := ha2
    rw [appendState_flash_out hwf hc hsz hroom n v _ (by omega)]
    exact hs.blank a ha1' ha2'
  · intro m hm
    show (appendState cfg n v size s).EEPROM_Index m ≠ 0 →
      s.EEPROM_ValidPage + 4 ≤ cfg.start + (appendState cfg n v size s).EEPROM_Index m ∧
      cfg.start + (appendState cfg n v size s).EEPROM_Index m +
        scanSize ((appendState cfg n v size s).EEPROM_SizeTable m) ≤
        cursorOf cfg s.EEPROM_ValidPage (appendState cfg n v size s)
    rw [appendState_index, appendState_sizeTable, hcur']
    by_cases hmn : m = n
    · rw [if_pos hmn, if_pos hmn, hmod]
      by_cases hd : size = EEPROM_SIZE_DELETED
      · rw [if_pos hd]; intro h; exact absurd rfl h
      · rw [if_neg hd, hidx]; intro _; omega
    · rw [if_neg hmn, if_neg hmn]
      intro h0
      have := hs.home m hm h0
      rw [hcur] at this
      omega
  · show 2 + liveSum cfg (appendState cfg n v size s) ≤
      cursorOf cfg s.EEPROM_ValidPage (appendState cfg n v size s) - s.EEPROM_ValidPage
    rw [hcur']
    have key := sum_range_change cfg.varCount n
      (fun m => liveBytes ((appendState cfg n v size s).EEPROM_SizeTable m))
      (fun m => liveBytes (s.EEPROM_SizeTable m)) hn (by
        intro m _ hmn
        simp only [appendState_sizeTable, hmn, if_false])
    beta_reduce at key
    have hnew : liveBytes ((appendState cfg n v size s).EEPROM_SizeTable n) = liveBytes size := by
      rw [appendState_sizeTable, if_pos rfl, hmod]
    rw [hnew] at key
    have hsum := hs.sum
    rw [hcur] at hsum
    have hl : liveBytes size ≤ recordBytes size := by
      interval_cases size <;> decide
    unfold liveSum at hsum ⊢
    omega
theorem steady_pair {cfg : Config} (hwf : cfg.WF) {s : State} (hs : Steady cfg s) :
    IsPagePair cfg s.EEPROM_ErasedPage s.EEPROM_ValidPage ∧
    s.EEPROM_ValidPage ≠ s.EEPROM_ErasedPage ∧ s.EEPROM_ErasedPage ≠ 0 ∧
    s.EEPROM_ValidPage ≠ 0 := by
  have hb := pair_bounds hwf hs.core.pair
  have hmin := hwf.size_min
  refine ⟨?_, by omega, by omega, by omega⟩
  rcases hs.core.pair with h | h
  · exact Or.inr ⟨h.2, h.1⟩
  · exact Or.inl ⟨h.2, h.1⟩

theorem begin_fields {cfg : Config} (hwf : cfg.WF) {s : State} (hs : Steady cfg s) :
    (beginState s).EEPROM_ValidPage = s.EEPROM_ValidPage ∧
    (beginState s).EEPROM_ReceivingPage = s.EEPROM_ErasedPage ∧
    (beginState s).EEPROM_ErasedPage = EEPROM_PAGE_NONE ∧
    (beginState s).EEPROM_NextIndex = s.EEPROM_ErasedPage + 2 ∧
    (beginState s).EEPROM_Index = s.EEPROM_Index ∧
    (beginState s).EEPROM_SizeTable = s.EEPROM_SizeTable ∧
    (beginState s).hal = s.hal ∧
    (beginState s).flash = programFlash s.flash 1 s.EEPROM_ErasedPage EEPROM_RECEIVING ∧
    (beginState s).log = s.log ++ [FlashOp.program 1 s.EEPROM_ErasedPage EEPROM_RECEIVING] := by
  obtain ⟨_, hVE, hE0, hV0⟩ := steady_pair hwf hs
  have hb := pair_bounds hwf hs.core.pair
  have h32 := hwf.area32
  have hR : s.EEPROM_ReceivingPage = EEPROM_PAGE_NONE := hs.receiving
  have hE0' : ¬ EEPROM_PAGE_NONE = s.EEPROM_ErasedPage := fun h => hE0 h.symm
  have e1 : ¬ EEPROM_RECEIVING = EEPROM_VALID := by decide
  have hmod : (s.EEPROM_ErasedPage + 2) % 4294967296 = s.EEPROM_ErasedPage + 2 :=
    Nat.mod_eq_of_lt (by omega)
  simp [beginState, markState, updateRoles, hVE, hR, hE0', e1, hmod]

theorem begin_core {cfg : Config} (hwf : cfg.WF) {s : State} (hs : Steady cfg s) :
    Core cfg s.EEPROM_ErasedPage s.EEPROM_ValidPage (beginState s) ∧
    cursorOf cfg s.EEPROM_ErasedPage (beginState s) = s.EEPROM_ErasedPage + 2 := by
  obtain ⟨fV, fR, fE, fN, fI, fS, fH, fF, fL⟩ := begin_fields hwf hs
  obtain ⟨hpair, hVE, hE0, hV0⟩ := steady_pair hwf hs
  have hb := pair_bounds hwf hs.core.pair
  have hmin := hwf.size_min
  have hcur : cursorOf cfg s.EEPROM_ErasedPage (beginState s) = s.EEPROM_ErasedPage + 2 := by
    unfold cursorOf; rw [fN]; simp
  have hcl := cursorOf_le hwf hs.core
  refine ⟨⟨hpair, ?_, ?_, ?_, ?_⟩, hcur⟩
  · unfold writingPage; rw [fR]; simp [EEPROM_PAGE_NONE, hE0]
  · rw [fN]; right; omega
  · intro a h1 h2
    rw [hcur] at h1
    rw [fF, read16_programFlash_out _ _ _ _ _ (by have : nbHalfwords 1 = 1 := rfl; omega)]
    exact hs.blank a (by omega) h2
  · intro m hm
    rw [hcur, fI, fS]
    have he := hs.core.entries m hm
    refine ⟨he.size_le, he.lockstep, he.idx_lt, fun h0 => Or.inr ⟨(hs.home m hm h0).1, ?_⟩⟩
    have := (hs.home m hm h0).2
    omega
theorem steady_onPage {cfg : Config} (hwf : cfg.WF) {s : State} (hs : Steady cfg s)
    {m : Nat} (hm : m < cfg.varCount) :
    (onPage cfg s.EEPROM_ValidPage (s.EEPROM_Index m) ↔ s.EEPROM_Index m ≠ 0) ∧
    ¬ onPage cfg s.EEPROM_ErasedPage (s.EEPROM_Index m) := by
  have he := hs.core.entries m hm
  have hcl := cursorOf_le hwf hs.core
  have ho := onPage_other hwf hs.core.pair hcl.2 he
  have hb := pair_bounds hwf hs.core.pair
  constructor
  · rw [ho.2]
    constructor
    · exact fun h => h.1
    · exact fun h => ⟨h, hs.home m hm h⟩
  · rw [ho.1]
    intro ⟨h0, p1, p2⟩
    have := hs.home m hm h0
    omega

theorem compact_room {cfg : Config} (hwf : cfg.WF) {s : State} (hs : Steady cfg s)
    {n size : Nat} (hn : n < cfg.varCount) (hsz : size ≤ 3)
    (hreq : requiredMemory cfg s.EEPROM_SizeTable n size ≤ cfg.pageSize) :
    ¬ noRoom cfg (beginState s) size := by
  obtain ⟨hc2, hcur2⟩ := begin_core hwf hs
  intro hno
  have h1 := noRoom_facts hwf hc2 hsz hno
  rw [hcur2] at h1
  rw [requiredMemory_eq hwf _ _ _ hsz (fun m hm => (hs.core.entries m hm).size_le)] at hreq
  have h2 := Finset.single_le_sum (f := fun m =>
      if m = n then 2 + (1 <<< size) else liveBytes (s.EEPROM_SizeTable m))
    (fun _ _ => Nat.zero_le _) (Finset.mem_range.mpr hn)
  simp only [if_true] at h2
  have h3 := (shift_le size hsz).2
  omega

theorem compact_mid {cfg : Config} (hwf : cfg.WF) {s : State} (hs : Steady cfg s)
    {n size : Nat} (hn : n < cfg.varCount) (hsz : size ≤ 3)
    (hreq : requiredMemory cfg s.EEPROM_SizeTable n size ≤ cfg.pageSize) (v : Nat) :
    Mid cfg s.EEPROM_ValidPage s.EEPROM_ErasedPage (appendState cfg n v size (beginState s)) := by
  obtain ⟨fV, fR, fE, fN, fI, fS, fH, fF, fL⟩ := begin_fields hwf hs
  obtain ⟨hc2, hcur2⟩ := begin_core hwf hs
  have hroom := compact_room hwf hs hn hsz hreq
  have hc3 := appendState_core hwf hc2 (n := n) hsz hroom v
  have hcur3 := (appendState_cursor hwf hc2 hroom n v).1
  obtain ⟨hidx, hst⟩ := appendState_newIndex hwf hc2 hroom
  rw [fN] at hcur3 hidx
  have hcl3 := cursorOf_le hwf hc3
  have hb := pair_bounds hwf hs.core.pair
  have hB := recordBytes_eq _ hsz
  have hmod : size % 256 = size := Nat.mod_eq_of_lt (by omega)
  have hother : ∀ m, m ≠ n →
      (appendState cfg n v size (beginState s)).EEPROM_Index m = s.EEPROM_Index m ∧
      (appendState cfg n v size (beginState s)).EEPROM_SizeTable m = s.EEPROM_SizeTable m := by
    intro m hmn
    rw [appendState_index, appendState_sizeTable, if_neg hmn, if_neg hmn, fI, fS]
    exact ⟨rfl, rfl⟩
  have hnV : ¬ onPage cfg s.EEPROM_ValidPage
      ((appendState cfg n v size (beginState s)).EEPROM_Index n) := by
    intro h
    have := (onPage_other hwf hc3.pair hcl3.2 (hc3.entries n hn)).1.mp h
    rw [appendState_index, if_pos rfl] at this
    by_cases hd : size = EEPROM_SIZE_DELETED
    · rw [if_pos hd] at this; exact this.1 rfl
    · rw [if_neg hd, fN, hidx] at this; omega
  refine ⟨hc3, ?_, ?_, ?_, ?_, ?_⟩
  · show (beginState s).EEPROM_ValidPage = _
    exact fV
  · show (beginState s).EEPROM_ReceivingPage = _
    exact fR
  · show (beginState s).EEPROM_ErasedPage = _
    exact fE
  · rw [hcur3]
    rw [requiredMemory_eq hwf _ _ _ hsz (fun m hm => (hs.core.entries m hm).size_le)] at hreq
    have key := sum_range_change cfg.varCount n
      (fun m => if onPage cfg s.EEPROM_ValidPage
          ((appendState cfg n v size (beginState s)).EEPROM_Index m)
        then liveBytes ((appendState cfg n v size (beginState s)).EEPROM_SizeTable m) else 0)
      (fun m => if m = n then 2 + (1 <<< size) else liveBytes (s.EEPROM_SizeTable m)) hn (by
        intro m hm hmn
        beta_reduce
        rw [(hother m hmn).1, (hother m hmn).2, if_neg hmn]
        by_cases h0 : s.EEPROM_Index m = 0
        · have : s.EEPROM_SizeTable m = 0 := (hs.core.entries m hm).lockstep.mp h0
          rw [this]; simp [liveBytes, EEPROM_SIZE_DELETED]
        · rw [if_pos ((steady_onPage hwf hs hm).1.mpr h0)])
    beta_reduce at key
    rw [if_neg hnV, if_pos rfl] at key
    have h3 := (shift_le size hsz).2
    unfold pendingBytes
    omega
  · rw [hcur3]
    have key := sum_range_change cfg.varCount n
      (fun m => if onPage cfg s.EEPROM_ErasedPage
          ((appendState cfg n v size (beginState s)).EEPROM_Index m)
        then liveBytes ((appendState cfg n v size (beginState s)).EEPROM_SizeTable m) else 0)
      (fun _ => 0) hn (by
        intro m hm hmn
        beta_reduce
        rw [(hother m hmn).1, if_neg (steady_onPage hwf hs hm).2])
    beta_reduce at key
    rw [Finset.sum_const_zero] at key
    have hl : liveBytes size ≤ recordBytes size := by
      interval_cases size <;> decide
    have hterm : (if onPage cfg s.EEPROM_ErasedPage
          ((appendState cfg n v size (beginState s)).EEPROM_Index n)
        then liveBytes ((appendState cfg n v size (beginState s)).EEPROM_SizeTable n) else 0)
        ≤ liveBytes size := by
      rw [appendState_sizeTable, if_pos rfl, hmod]
      split
      · exact Nat.le_refl _
      · exact Nat.zero_le _
    unfold pendingBytes
    omega
theorem steady_writing {cfg : Config} (hwf : cfg.WF) {s : State} (hs : Steady cfg s) :
    writingPage s ≠ EEPROM_PAGE_NONE := by
  obtain ⟨_, _, _, hV0⟩ := steady_pair hwf hs
  rw [hs.core.writing]
  exact hV0

theorem write_full {cfg : Config} (hwf : cfg.WF) {s : State} (hs : Steady cfg s)
    {n size : Nat} (hno : noRoom cfg s size)
    (hreq : requiredMemory cfg s.EEPROM_SizeTable n size > cfg.pageSize) (v fuel : Nat) :
    EEPROM_WriteVariable cfg (fuel + 1) n v size s = (some EEPROM_FULL, s) := by
  rw [EEPROM_WriteVariable, if_neg (steady_writing hwf hs), if_pos hno, if_pos hreq]

theorem write_compact {cfg : Config} (hwf : cfg.WF) {s : State} (hs : Steady cfg s)
    {n size : Nat} (hn : n < cfg.varCount) (hsz : size ≤ 3) (hno : noRoom cfg s size)
    (hreq : requiredMemory cfg s.EEPROM_SizeTable n size ≤ cfg.pageSize) (v fuel : Nat) :
    ∃ r, (EEPROM_WriteVariable cfg (fuel + 2) n v size s).1 = some r ∧ HalResult s r ∧
      (r = EEPROM_SUCCESS → ∃ t,
        Drained cfg s.EEPROM_ValidPage s.EEPROM_ErasedPage
          (appendState cfg n v size (beginState s)) t ∧
        (∀ m, m < cfg.varCount → ¬ onPage cfg s.EEPROM_ValidPage (t.EEPROM_Index m)) ∧
        (EEPROM_WriteVariable cfg (fuel + 2) n v size s).2 =
          markState s.EEPROM_ErasedPage EEPROM_VALID (eraseState cfg s.EEPROM_ValidPage t)) := by
  obtain ⟨hc2, hcur2⟩ := begin_core hwf hs
  have hroom := compact_room hwf hs hn hsz hreq
  have hmid := compact_mid hwf hs hn hsz hreq v
  rw [EEPROM_WriteVariable, if_neg (steady_writing hwf hs), if_pos hno, if_neg (by omega)]
  obtain ⟨a1, a2⟩ := SetPageStatus_mark cfg s.EEPROM_ErasedPage EEPROM_RECEIVING s (by decide)
  split
  · rename_i s1 hM
    rw [hM] at a2
    have hs1 := a2 rfl
    simp only at hs1
    subst hs1
    show ∃ r, (match EEPROM_WriteVariable cfg (fuel + 1) n v size (beginState s) with
        | (some EEPROM_SUCCESS, s3) =>
          pageTransferWith cfg (EEPROM_WriteVariable cfg (fuel + 1)) v s3
        | (r, s3) => (r, s3)).1 = some r ∧ HalResult s r ∧ (r = EEPROM_SUCCESS → ∃ t,
        Drained cfg s.EEPROM_ValidPage s.EEPROM_ErasedPage
          (appendState cfg n v size (beginState s)) t ∧
        (∀ m, m < cfg.varCount → ¬ onPage cfg s.EEPROM_ValidPage (t.EEPROM_Index m)) ∧
        (match EEPROM_WriteVariable cfg (fuel + 1) n v size (beginState s) with
        | (some EEPROM_SUCCESS, s3) =>
          pageTransferWith cfg (EEPROM_WriteVariable cfg (fuel + 1)) v s3
        | (r, s3) => (r, s3)).2 =
          markState s.EEPROM_ErasedPage EEPROM_VALID (eraseState cfg s.EEPROM_ValidPage t))
    have hw : writingPage (beginState s) ≠ EEPROM_PAGE_NONE := by
      have hb := pair_bounds hwf hc2.pair
      rw [hc2.writing]; unfold EEPROM_PAGE_NONE; omega
    rw [write_append cfg fuel n v size _ hw hroom]
    have hhal : (beginState s).hal = s.hal := (begin_fields hwf hs).2.2.2.2.2.2.1
    have hres := HalResult.of_eq hhal (appendRecord_halResult cfg n v size (beginState s))
    obtain ⟨⟨h, hh⟩, _⟩ := hres
    by_cases hr : (appendRecord cfg n v size (beginState s)).1 = EEPROM_SUCCESS
    · rw [hr, appendRecord_success cfg n v size _ hr]
      obtain ⟨r', e1, e2, e3⟩ := pageTransfer_mid hwf hmid v fuel
      exact ⟨r', e1, HalResult.of_eq (t := appendState cfg n v size (beginState s)) hhal e2, e3⟩
    · refine ⟨(appendRecord cfg n v size (beginState s)).1, ?_,
        HalResult.of_eq hhal (appendRecord_halResult cfg n v size (beginState s)),
        fun e => absurd e hr⟩
      rw [hh] at hr ⊢
      cases h <;> first | exact absurd rfl hr | rfl
  · rename_i r1 s1 hne hM
    rw [hM] at a1
    exact ⟨r1, rfl, HalResult.of_hal _ a1, fun h => (hne h).elim⟩
theorem read_deleted {cfg : Config} (hwf : cfg.WF) {W O : Nat} {s : State}
    (hc : Core cfg W O s) {m : Nat} (hm : m < cfg.varCount)
    (hz : s.EEPROM_SizeTable m = 0) (Value : Nat) :
    EEPROM_ReadVariable cfg m Value s = (EEPROM_NOT_ASSIGNED, Value) := by
  rw [read_spec hwf hc.pair (cursorOf_le hwf hc).2 hm (hc.entries m hm), if_pos hz]

theorem read_begin {cfg : Config} (hwf : cfg.WF) {s : State} (hs : Steady cfg s)
    {m : Nat} (hm : m < cfg.varCount) (Value : Nat) :
    EEPROM_ReadVariable cfg m Value (beginState s) = EEPROM_ReadVariable cfg m Value s := by
  obtain ⟨fV, fR, fE, fN, fI, fS, fH, fF, fL⟩ := begin_fields hwf hs
  obtain ⟨hc2, hcur2⟩ := begin_core hwf hs
  have he := hs.core.entries m hm
  have hb := pair_bounds hwf hs.core.pair
  rw [read_spec hwf hc2.pair (cursorOf_le hwf hc2).2 hm (hc2.entries m hm),
    read_spec hwf hs.core.pair (cursorOf_le hwf hs.core).2 hm he, fI, fS]
  by_cases hz : s.EEPROM_SizeTable m = 0
  · simp [hz]
  · simp only [hz, if_false]
    apply congrArg
    apply assemble_congr _ _ _ _ he.size_le
    intro j hj
    have hnb := scanSize_nb _ he.size_le hz
    have hidx0 : s.EEPROM_Index m ≠ 0 := fun h => hz (he.lockstep.mp h)
    have hh := hs.home m hm hidx0
    have hcl := cursorOf_le hwf hs.core
    rw [fF]
    apply read16_programFlash_out
    have : nbHalfwords 1 = 1 := rfl
    omega

/-- What a write or delete of a valid name does in a steady state, for any nesting budget of
at least 2: it returns a result; `EEPROM_FULL` leaves the state untouched; on
`EEPROM_SUCCESS` the state is steady again, every other name reads as before and the
written name reads the written payload (nothing when deleted). -/
theorem write_steady {cfg : Config} (hwf : cfg.WF) {s : State} (hs : Steady cfg s)
    {n size : Nat} (hn : n < cfg.varCount) (hsz : size ≤ 3) (v fuel : Nat) :
    ∃ r, (EEPROM_WriteVariable cfg (fuel + 2) n v size s).1 = some r ∧
      (r = EEPROM_FULL → (EEPROM_WriteVariable cfg (fuel + 2) n v size s).2 = s ∧
        noRoom cfg s size ∧ requiredMemory cfg s.EEPROM_SizeTable n size > cfg.pageSize) ∧
      (r = EEPROM_SUCCESS →
        Steady cfg (EEPROM_WriteVariable cfg (fuel + 2) n v size s).2 ∧
        (∀ m, m < cfg.varCount → m ≠ n → ∀ Value,
          EEPROM_ReadVariable cfg m Value (EEPROM_WriteVariable cfg (fuel + 2) n v size s).2 =
            EEPROM_ReadVariable cfg m Value s) ∧
        (∀ Value,
          EEPROM_ReadVariable cfg n Value (EEPROM_WriteVariable cfg (fuel + 2) n v size s).2 =
            if size = 0 then (EEPROM_NOT_ASSIGNED, Value)
            else (EEPROM_SUCCESS, assemble size Value (halfwordOf v))) ∧
        (EEPROM_WriteVariable cfg (fuel + 2) n v size s).2.EEPROM_SizeTable n = size ∧
        (size = 0 → (EEPROM_WriteVariable cfg (fuel + 2) n v size s).2.EEPROM_Index n = 0)) ∧
      ((∀ k, s.hal k = HAL_OK) → r = EEPROM_SUCCESS ∨ r = EEPROM_FULL) := by
  have hmod : size % 256 = size := Nat.mod_eq_of_lt (by omega)
  by_cases hno : noRoom cfg s size
  · by_cases hreq : requiredMemory cfg s.EEPROM_SizeTable n size > cfg.pageSize
    · rw [write_full hwf hs hno hreq]
      exact ⟨EEPROM_FULL, rfl, fun _ => ⟨rfl, hno, hreq⟩, fun h => absurd h (by decide), fun _ => Or.inr rfl⟩
    · have hreq' : requiredMemory cfg s.EEPROM_SizeTable n size ≤ cfg.pageSize := by omega
      obtain ⟨r, h1, hres, h2⟩ := write_compact hwf hs hn hsz hno hreq' v fuel
      refine ⟨r, h1, fun e => absurd e hres.ne_full, ?_, fun hall => Or.inl (hres.2 hall)⟩
      intro hr
      obtain ⟨t, hd, hoff, hfin⟩ := h2 hr
      rw [hfin]
      obtain ⟨hst, hrd, _⟩ := finish_steady hwf hd.mid hoff
      obtain ⟨fV, fE, fR, fI, fS, fN, fH, fF, fL⟩ := finish_fields hwf hd.mid hoff
      obtain ⟨hc2, hcur2⟩ := begin_core hwf hs
      have hroom := compact_room hwf hs hn hsz hreq'
      have hc3 := appendState_core hwf hc2 (n := n) hsz hroom v
      have hs3n : (appendState cfg n v size (beginState s)).EEPROM_SizeTable n = size := by
        rw [appendState_sizeTable, if_pos rfl, hmod]
      refine ⟨hst, ?_, ?_, ?_, ?_⟩
      · intro m hm hmn Value
        rw [hrd m hm, hd.reads m hm, read_appendState_other hwf hc2 hm hmn hsz hroom,
          read_begin hwf hs hm]
      · intro Value
        rw [hrd n hn, hd.reads n hn]
        by_cases hz : size = 0
        · rw [if_pos hz]
          exact read_deleted hwf hc3 hn (by rw [hs3n]; exact hz) Value
        · rw [if_neg hz]
          exact read_appendState_same hwf hc2 hn hsz hz hroom v Value
      · rw [fS, hd.sizes, hs3n]
      · intro hz
        rw [fI]
        have hz' : size = EEPROM_SIZE_DELETED := hz
        have hi3 : (appendState cfg n v size (beginState s)).EEPROM_Index n = 0 := by
          rw [appendState_index, if_pos rfl, if_pos hz']
        have hk := hd.keep n (by
          rw [hi3]
          intro h
          exact absurd h.1 (Nat.not_lt_zero _))
        rw [hk, hi3]
  · have hw := steady_writing hwf hs
    rw [write_append cfg (fuel + 1) n v size s hw hno]
    have hres := appendRecord_halResult cfg n v size s
    refine ⟨_, rfl, fun e => absurd e hres.ne_full, ?_, fun hall => Or.inl (hres.2 hall)⟩
    intro hr
    simp only
    rw [appendRecord_success cfg n v size s hr]
    have hc := hs.core
    have hc' := appendState_core hwf hc (n := n) hsz hno v
    have hsn : (appendState cfg n v size s).EEPROM_SizeTable n = size := by
      rw [appendState_sizeTable, if_pos rfl, hmod]
    refine ⟨steady_append hwf hs hn hsz hno v, ?_, ?_, hsn, ?_⟩
    · intro m hm hmn Value
      exact read_appendState_other hwf hc hm hmn hsz hno v Value
    · intro Value
      by_cases hz : size = 0
      · rw [if_pos hz]
        exact read_deleted hwf hc' hn (by rw [hsn]; exact hz) Value
      · rw [if_neg hz]
        exact read_appendState_same hwf hc hn hsz hz hno v Value
    · intro hz
      have hz' : size = EEPROM_SIZE_DELETED := hz
      rw [appendState_index, if_pos rfl, if_pos hz']

theorem lookAhead_erased (flash : Nat → Nat) (a e : Nat) (l : List Nat) (sz : Nat)
    (h : ∀ i, i ∈ l → (a + i) % 4294967296 < e → read16 flash ((a + i) % 4294967296) = 0xFFFF) :
    lookAhead flash a e l sz = sz := by
  induction l generalizing sz with
  | nil => rfl
  | cons i rest ih =>
    unfold lookAhead
    split
    · rfl
    · rename_i hlt
      rw [h i (List.mem_cons_self _ _) (by omega)]
      simp only [ne_eq, not_true_eq_false, if_false]
      exact ih sz (fun j hj => h j (List.mem_cons_of_mem _ hj))

/-- At an address from which the rest of the page is erased the scanner stops at once. -/
theorem scanLoop_stop (cfg : Config) (flash : Nat → Nat) (e fuel a : Nat)
    (tables : (Nat → Nat) × (Nat → Nat))
    (h : ∀ b, a ≤ b → b < e → read16 flash b = 0xFFFF) (h32 : e + 16 ≤ 4294967296) :
    scanLoop cfg flash e fuel a tables = (a, tables) := by
  cases fuel with
  | zero => rfl
  | succ f =>
    unfold scanLoop
    by_cases hlt : a < e
    · rw [if_pos hlt]
      simp only [h a (Nat.le_refl _) hlt, if_true]
      rw [lookAhead_erased]
      · simp
      · intro i hi hlt'
        have hi' : i ≤ 8 := by
          simp only [List.mem_cons, List.mem_singleton, List.not_mem_nil, or_false] at hi
          omega
        have hm : (a + i) % 4294967296 = a + i := Nat.mod_eq_of_lt (by omega)
        rw [hm] at hlt' ⊢
        exact h _ (by omega) hlt'
    · rw [if_neg hlt]
theorem pageToIndex_none (cfg : Config) (s : State) :
    EEPROM_PageToIndex cfg EEPROM_PAGE_NONE s = s := by
  unfold EEPROM_PageToIndex
  rw [if_pos rfl]

/-- Scanning a page whose record area is entirely erased leaves the tables alone and puts
the cursor on the first record slot. -/
theorem pageToIndex_blank {cfg : Config} (hwf : cfg.WF) (P : Nat) (s : State)
    (hP : P = EEPROM_PAGE0 cfg ∨ P = EEPROM_PAGE1 cfg)
    (h : ∀ b, P + 2 ≤ b → b < P + cfg.pageSize → read16 s.flash b = 0xFFFF) :
    EEPROM_PageToIndex cfg P s = { s with EEPROM_NextIndex := P + 2 } := by
  have h32 := hwf.area32
  have hmin := hwf.size_min
  have hpos := hwf.start_pos
  have hb : cfg.start ≤ P ∧ P + cfg.pageSize ≤ cfg.start + 2 * cfg.pageSize := by
    rcases hP with h | h <;> simp only [EEPROM_PAGE0, EEPROM_PAGE1] at h <;> omega
  unfold EEPROM_PageToIndex
  rw [if_neg (by unfold EEPROM_PAGE_NONE; omega)]
  have e1 : (P + cfg.pageSize) % 4294967296 = P + cfg.pageSize := Nat.mod_eq_of_lt (by omega)
  have e2 : (P + 2) % 4294967296 = P + 2 := Nat.mod_eq_of_lt (by omega)
  simp only [e1, e2]
  rw [scanLoop_stop cfg s.flash _ _ _ _ h (by omega)]
  simp only
  rw [if_neg (by omega)]

theorem assignRoles_valid_erased (cfg : Config) (s : State) :
    assignRoles cfg EEPROM_VALID EEPROM_ERASED s =
      { s with EEPROM_ValidPage := EEPROM_PAGE0 cfg, EEPROM_ErasedPage := EEPROM_PAGE1 cfg } := by
  simp [assignRoles, EEPROM_VALID, EEPROM_ERASED, EEPROM_RECEIVING]

theorem initTail_blank {cfg : Config} (hwf : cfg.WF) (fuel Value0 : Nat) (s : State)
    (hR : s.EEPROM_ReceivingPage = EEPROM_PAGE_NONE)
    (h : ∀ b, EEPROM_PAGE0 cfg + 2 ≤ b → b < EEPROM_PAGE0 cfg + cfg.pageSize →
      read16 s.flash b = 0xFFFF) :
    initTail cfg fuel Value0 EEPROM_VALID EEPROM_ERASED s =
      (some EEPROM_SUCCESS,
        { s with EEPROM_ValidPage := EEPROM_PAGE0 cfg, EEPROM_ErasedPage := EEPROM_PAGE1 cfg,
                 EEPROM_NextIndex := EEPROM_PAGE0 cfg + 2 }) := by
  have e2 := pageToIndex_blank hwf (EEPROM_PAGE0 cfg)
    { s with EEPROM_ValidPage := EEPROM_PAGE0 cfg, EEPROM_ErasedPage := EEPROM_PAGE1 cfg }
    (Or.inl rfl) h
  unfold initTail
  rw [assignRoles_valid_erased]
  simp only []
  rw [e2]
  simp only [hR, pageToIndex_none]
  simp

theorem init_format {cfg : Config} (hwf : cfg.WF) (flash : Nat → Nat) (hal : Nat → HAL_Status)
    (fuel Value0 : Nat)
    (hinv : invalidState (read16 flash (EEPROM_PAGE0 cfg)) (read16 flash (EEPROM_PAGE1 cfg))) :
    (∃ h, (EEPROM_Init cfg fuel Value0 (powerOn flash hal)).1 = some (ofHAL h)) ∧
    ((EEPROM_Init cfg fuel Value0 (powerOn flash hal)).1 = some EEPROM_SUCCESS →
      (EEPROM_Init cfg fuel Value0 (powerOn flash hal)).2 = formattedState cfg flash hal) ∧
    (hal 0 = HAL_OK → hal 1 = HAL_OK →
      (EEPROM_Init cfg fuel Value0 (powerOn flash hal)).1 = some EEPROM_SUCCESS) := by
  have h32 := hwf.area32
  have hmin := hwf.size_min
  have hpos := hwf.start_pos
  have hunf : EEPROM_Init cfg fuel Value0 (powerOn flash hal) =
      match HAL_FLASHEx_Erase cfg (EEPROM_PAGE0 cfg) 2 (powerOn flash hal) with
      | (HAL_OK, s1) =>
        match HAL_FLASH_Program cfg EEPROM_SIZE16 (EEPROM_PAGE0 cfg) EEPROM_VALID s1 with
        | (HAL_OK, s2) => initTail cfg fuel Value0 EEPROM_VALID EEPROM_ERASED s2
        | (r, s2) => (some (ofHAL r), s2)
      | (r, s1) => (some (ofHAL r), s1) := by
    unfold EEPROM_Init
    simp only [powerOn] at hinv ⊢
    rw [if_pos hinv]
  have key : hal 0 = HAL_OK → hal 1 = HAL_OK →
      EEPROM_Init cfg fuel Value0 (powerOn flash hal) =
        (some EEPROM_SUCCESS, formattedState cfg flash hal) := by
    intro h0 h1
    rw [hunf]
    simp only [HAL_FLASHEx_Erase, HAL_FLASH_Program, halCall, powerOn, List.length_nil, h0,
      List.nil_append, List.length_singleton, h1, if_true, applyOp]
    rw [initTail_blank hwf]
    · simp [formattedState, EEPROM_SIZE16]
    · rfl
    · intro b hb1 hb2
      simp only [EEPROM_PAGE0] at hb1 hb2 ⊢
      rw [read16_programFlash_out _ _ _ _ _ (by
        have : nbHalfwords EEPROM_SIZE16 = 1 := rfl
        omega)]
      exact read16_eraseFlash_in _ _ _ _ _ (by omega)
  refine ⟨?_, ?_, fun h0 h1 => by rw [key h0 h1]⟩
  · cases h0 : hal 0 with
    | HAL_OK =>
      cases h1 : hal 1 with
      | HAL_OK => rw [key h0 h1]; exact ⟨HAL_OK, rfl⟩
      | _ =>
        rw [hunf]
        simp [HAL_FLASHEx_Erase, HAL_FLASH_Program, halCall, powerOn, h0, h1]
    | _ =>
      rw [hunf]
      simp [HAL_FLASHEx_Erase, HAL_FLASH_Program, halCall, powerOn, h0]
  · intro hsucc
    cases h0 : hal 0 with
    | HAL_OK =>
      cases h1 : hal 1 with
      | HAL_OK => rw [key h0 h1]
      | _ =>
        exfalso
        rw [hunf] at hsucc
        simp [HAL_FLASHEx_Erase, HAL_FLASH_Program, halCall, powerOn, h0, h1, ofHAL] at hsucc
    | _ =>
      exfalso
      rw [hunf] at hsucc
      simp [HAL_FLASHEx_Erase, HAL_FLASH_Program, halCall, powerOn, h0, ofHAL] at hsucc
theorem transferStep_none (cfg : Config)
    (w : Nat → Nat → Nat → State → Option EEPROM_Result × State) (V : Nat) (x : Nat × State)
    (i : Nat) : transferStep cfg w V (none, x) i = (none, x) :=
  transferStep_stuck cfg w V none x i (by simp)

theorem transferFold_none (cfg : Config)
    (w : Nat → Nat → Nat → State → Option EEPROM_Result × State) (V : Nat) (x : Nat × State)
    (l : List Nat) : l.foldl (transferStep cfg w V) (none, x) = (none, x) := by
  induction l with
  | nil => rfl
  | cons i rest ih => rw [List.foldl_cons, transferStep_none, ih]

theorem transferStep_mono (cfg : Config)
    (w w' : Nat → Nat → Nat → State → Option EEPROM_Result × State)
    (hw : ∀ i v sz s r s', w i v sz s = (some r, s') → w' i v sz s = (some r, s'))
    (V : Nat) (acc : Option EEPROM_Result × Nat × State) (i : Nat) (r : EEPROM_Result)
    (x : Nat × State) (h : transferStep cfg w V acc i = (some r, x)) :
    transferStep cfg w' V acc i = (some r, x) := by
  unfold transferStep at h ⊢
  split
  · rename_i Value s
    simp only at h
    split
    · rename_i hon
      rw [if_pos hon] at h
      split
      · rename_i Value1 hread
        rw [hread] at h
        simp only at h
        cases hwr : w i Value1 (s.EEPROM_SizeTable i) s with
        | mk r1 s1 =>
          rw [hwr] at h
          simp only [Prod.mk.injEq] at h
          obtain ⟨h1, h2⟩ := h
          subst h1
          rw [hw _ _ _ _ _ _ hwr]
          simp only [Prod.mk.injEq, true_and]
          exact h2
      · rename_i r0 Value1 hne hread
        rw [hread] at h
        simp only at h
        exact h
    · rename_i hon
      rw [if_neg hon] at h
      exact h
  · rename_i hne
    split at h
    · rename_i Value s
      exact absurd rfl (hne Value s)
    · exact h

theorem transferFold_mono (cfg : Config)
    (w w' : Nat → Nat → Nat → State → Option EEPROM_Result × State)
    (hw : ∀ i v sz s r s', w i v sz s = (some r, s') → w' i v sz s = (some r, s'))
    (V : Nat) (acc : Option EEPROM_Result × Nat × State) (k : Nat) (r : EEPROM_Result)
    (x : Nat × State)
    (h : (List.range k).foldl (transferStep cfg w V) acc = (some r, x)) :
    (List.range k).foldl (transferStep cfg w' V) acc = (some r, x) := by
  induction k generalizing r x with
  | zero => exact h
  | succ k ih =>
    rw [List.range_succ, List.foldl_append] at h ⊢
    simp only [List.foldl_cons, List.foldl_nil] at h ⊢
    cases hk : (List.range k).foldl (transferStep cfg w V) acc with
    | mk r0 x0 =>
      rw [hk] at h
      cases r0 with
      | none =>
        rw [transferStep_none] at h
        simp at h
      | some r0 =>
        rw [ih r0 x0 hk]
        exact transferStep_mono cfg w w' hw V _ k r x h
theorem pageTransferWith_mono (cfg : Config)
    (w w' : Nat → Nat → Nat → State → Option EEPROM_Result × State)
    (hw : ∀ i v sz s r s', w i v sz s = (some r, s') → w' i v sz s = (some r, s'))
    (Value0 : Nat) (s : State) (r : EEPROM_Result) (s' : State)
    (h : pageTransferWith cfg w Value0 s = (some r, s')) :
    pageTransferWith cfg w' Value0 s = (some r, s') := by
  unfold pageTransferWith at h ⊢
  cases hk : (List.range cfg.varCount).foldl (transferStep cfg w s.EEPROM_ValidPage)
      (some EEPROM_SUCCESS, Value0, s) with
  | mk r0 x0 =>
    rw [hk] at h
    cases r0 with
    | none =>
      obtain ⟨v0, t0⟩ := x0
      simp at h
    | some r0 =>
      rw [transferFold_mono cfg w w' hw _ _ _ r0 x0 hk]
      exact h

/-- A larger nesting budget does not change a result that was produced. -/
theorem write_fuel_succ (cfg : Config) (fuel : Nat) :
    ∀ n v size s r s', EEPROM_WriteVariable cfg fuel n v size s = (some r, s') →
      EEPROM_WriteVariable cfg (fuel + 1) n v size s = (some r, s') := by
  induction fuel with
  | zero =>
    intro n v size s r s' h
    rw [EEPROM_WriteVariable] at h
    simp at h
  | succ f ih =>
    intro n v size s r s' h
    rw [EEPROM_WriteVariable] at h ⊢
    split
    · rename_i hw
      rw [if_pos hw] at h
      exact h
    · rename_i hw
      rw [if_neg hw] at h
      split
      · rename_i hno
        rw [if_pos hno] at h
        split
        · rename_i hreq
          rw [if_pos hreq] at h
          exact h
        · rename_i hreq
          rw [if_neg hreq] at h
          split
          · rename_i s1 hM
            rw [hM] at h
            simp only at h
            cases hn : EEPROM_WriteVariable cfg f n v size
                { s1 with EEPROM_NextIndex := (s1.EEPROM_ReceivingPage + 2) % 4294967296 } with
            | mk r1 s3 =>
              rw [hn] at h
              cases r1 with
              | none => simp at h
              | some r1 =>
                simp only []
                rw [ih _ _ _ _ _ _ hn]
                by_cases hr1 : r1 = EEPROM_SUCCESS
                · subst hr1
                  simp only at h ⊢
                  exact pageTransferWith_mono cfg _ _ (ih) v s3 r s' h
                · cases r1 <;> first | exact absurd rfl hr1 | exact h
          · rename_i r1 s1 hne hM
            rw [hM] at h
            cases r1 <;> first | exact (hne rfl).elim | exact h
      · rename_i hno
        rw [if_neg hno] at h
        exact h

theorem write_fuel_mono (cfg : Config) (fuel k : Nat) (n v size : Nat) (s : State)
    (r : EEPROM_Result) (h : (EEPROM_WriteVariable cfg fuel n v size s).1 = some r) :
    EEPROM_WriteVariable cfg (fuel + k) n v size s = EEPROM_WriteVariable cfg fuel n v size s := by
  induction k with
  | zero => rfl
  | succ k ih =>
    have e : EEPROM_WriteVariable cfg fuel n v size s =
        (some r, (EEPROM_WriteVariable cfg fuel n v size s).2) := by
      rw [← h]
    rw [← Nat.add_assoc, write_fuel_succ cfg (fuel + k) n v size s r _ (ih.trans e), ← e]

theorem formatted_steady {cfg : Config} (hwf : cfg.WF) (flash : Nat → Nat)
    (hal : Nat → HAL_Status) : Steady cfg (formattedState cfg flash hal) := by
  have h32 := hwf.area32
  have hmin := hwf.size_min
  have hpos := hwf.start_pos
  have hcur : cursorOf cfg (EEPROM_PAGE0 cfg) (formattedState cfg flash hal) =
      EEPROM_PAGE0 cfg + 2 := by
    simp [cursorOf, formattedState]
  have hflash : ∀ a, EEPROM_PAGE0 cfg + 2 ≤ a → a < EEPROM_PAGE0 cfg + 2 * cfg.pageSize →
      read16 (formattedState cfg flash hal).flash a = 0xFFFF := by
    intro a h1 h2
    simp only [formattedState]
    rw [read16_programFlash_out _ _ _ _ _ (by have : nbHalfwords 1 = 1 := rfl; omega)]
    exact read16_eraseFlash_in _ _ _ _ _ (by omega)
  refine ⟨⟨Or.inl ⟨rfl, rfl⟩, rfl, Or.inr ?_, ?_, ?_⟩, rfl, ?_, ?_, ?_, ?_⟩
  · simp only [formattedState]; omega
  · intro a h1 h2
    have h1' : cursorOf cfg (EEPROM_PAGE0 cfg) (formattedState cfg flash hal) ≤ a := h1
    have h2' : a < EEPROM_PAGE0 cfg + cfg.pageSize := h2
    rw [hcur] at h1'
    exact hflash a h1' (by omega)
  · intro m _
    exact ⟨by simp [formattedState], by simp [formattedState], by simp [formattedState],
      fun h => absurd rfl h⟩
  · simp only [formattedState]
    unfold read16 programFlash
    rw [if_pos (by have : nbHalfwords 1 = 1 := rfl; omega)]
    simp [halfwordOf, EEPROM_VALID]
  · intro a h1 h2
    have h1' : cfg.start + cfg.pageSize ≤ a := h1
    have h2' : a < cfg.start + cfg.pageSize + cfg.pageSize := h2
    exact hflash a (by simp only [EEPROM_PAGE0]; omega) (by simp only [EEPROM_PAGE0]; omega)
  · intro m _ h
    exact absurd rfl h
  · show 2 + liveSum cfg (formattedState cfg flash hal) ≤
      cursorOf cfg (EEPROM_PAGE0 cfg) (formattedState cfg flash hal) - EEPROM_PAGE0 cfg
    rw [hcur]
    have : liveSum cfg (formattedState cfg flash hal) = 0 := by
      unfold liveSum
      apply Finset.sum_eq_zero
      intro m _
      simp [formattedState, liveBytes, EEPROM_SIZE_DELETED]
    omega

/-- Consequences of a successful write or delete in a steady state, for whatever nesting
budget produced the result. -/
theorem write_ok {cfg : Config} (hwf : cfg.WF) {s : State} (hs : Steady cfg s)
    {n size : Nat} (hn : n < cfg.varCount) (hsz : size ≤ 3) (v fuel : Nat)
    (h : (EEPROM_WriteVariable cfg fuel n v size s).1 = some EEPROM_SUCCESS) :
    Steady cfg (EEPROM_WriteVariable cfg fuel n v size s).2 ∧
    (∀ m, m < cfg.varCount → m ≠ n → ∀ Value,
      EEPROM_ReadVariable cfg m Value (EEPROM_WriteVariable cfg fuel n v size s).2 =
        EEPROM_ReadVariable cfg m Value s) ∧
    (∀ Value,
      EEPROM_ReadVariable cfg n Value (EEPROM_WriteVariable cfg fuel n v size s).2 =
        if size = 0 then (EEPROM_NOT_ASSIGNED, Value)
        else (EEPROM_SUCCESS, assemble size Value (halfwordOf v))) ∧
    (EEPROM_WriteVariable cfg fuel n v size s).2.EEPROM_SizeTable n = size ∧
    (size = 0 → (EEPROM_WriteVariable cfg fuel n v size s).2.EEPROM_Index n = 0) := by
  have hm := write_fuel_mono cfg fuel 2 n v size s _ h
  obtain ⟨r, h1, _, h3, _⟩ := write_steady hwf hs hn hsz v fuel
  rw [hm] at h1 h3
  rw [h] at h1
  simp only [Option.some.injEq] at h1
  exact h3 h1.symm

theorem write_returns {cfg : Config} (hwf : cfg.WF) {s : State} (hs : Steady cfg s)
    {n size : Nat} (hn : n < cfg.varCount) (hsz : size ≤ 3) (v fuel : Nat) (hf : 2 ≤ fuel) :
    ∃ r, (EEPROM_WriteVariable cfg fuel n v size s).1 = some r := by
  obtain ⟨k, rfl⟩ : ∃ k, fuel = k + 2 := ⟨fuel - 2, by omega⟩
  obtain ⟨r, h1, _⟩ := write_steady hwf hs hn hsz v k
  exact ⟨r, h1⟩

theorem reachable_steady {cfg : Config} (hwf : cfg.WF) {s : State} (h : Reachable cfg s) :
    Steady cfg s := by
  induction h with
  | init flash hal fuel Value0 hinv hok =>
    rw [(init_format hwf flash hal fuel Value0 hinv).2.1 hok]
    exact formatted_steady hwf flash hal
  | write s fuel n v size _ hn hsize hok ih =>
    have hsz : size ≤ 3 := by
      rcases hsize with h | h | h <;> rw [h] <;> decide
    exact (write_ok hwf ih hn hsz v fuel hok).1
  | delete s fuel n _ hn hok ih =>
    exact (write_ok hwf ih hn (by decide) 0 fuel hok).1

theorem stdConfig_wf : stdConfig.WF := by
  constructor <;> decide

theorem tinyConfig_wf : tinyConfig.WF := by
  constructor <;> decide

theorem stdBoot_reachable : Reachable stdConfig stdBoot :=
  Reachable.init freshFlash halOk 2 0 (by decide) (by decide)

theorem tinyBoot_reachable : Reachable tinyConfig tinyBoot :=
  Reachable.init freshFlash halOk 2 0 (by decide) (by decide)

theorem tinyFull_reachable : Reachable tinyConfig tinyFull :=
  Reachable.write _ 2 2 0x3333 EEPROM_SIZE16
    (Reachable.write _ 2 1 0x2222 EEPROM_SIZE16
      (Reachable.write _ 2 0 0x1111 EEPROM_SIZE16 tinyBoot_reachable (by decide) (Or.inl rfl)
        (by decide))
      (by decide) (Or.inl rfl) (by decide))
    (by decide) (Or.inl rfl) (by decide)

theorem write_compact_roles {cfg : Config} (hwf : cfg.WF) {s : State} (hs : Steady cfg s)
    {n size : Nat} (hn : n < cfg.varCount) (hsz : size ≤ 3) (v fuel : Nat)
    (hno : noRoom cfg s size)
    (hok : (EEPROM_WriteVariable cfg fuel n v size s).1 = some EEPROM_SUCCESS) :
    (EEPROM_WriteVariable cfg fuel n v size s).2.EEPROM_ValidPage = s.EEPROM_ErasedPage ∧
    (EEPROM_WriteVariable cfg fuel n v size s).2.EEPROM_ErasedPage = s.EEPROM_ValidPage := by
  have hm := write_fuel_mono cfg fuel 2 n v size s _ hok
  by_cases hreq : requiredMemory cfg s.EEPROM_SizeTable n size > cfg.pageSize
  · have hf := write_full hwf hs hno hreq v (fuel + 1)
    rw [hm] at hf
    rw [hf] at hok
    simp at hok
  · obtain ⟨r, h1, _, h2⟩ := write_compact hwf hs hn hsz hno (by omega) v fuel
    rw [hm] at h1 h2
    rw [hok] at h1
    simp only [Option.some.injEq] at h1
    obtain ⟨t, hd, hoff, hfin⟩ := h2 h1.symm
    obtain ⟨fV, fE, _⟩ := finish_fields hwf hd.mid hoff
    rw [hfin]
    exact ⟨fV, fE⟩

theorem liveBytes_footprint (sz : Nat) (hsz : sz ≤ 3) (h0 : sz ≠ 0) :
    liveBytes sz = 2 + scanSize sz := by
  interval_cases sz <;> first | contradiction | decide

theorem othersFootprint_eq {cfg : Config} {s : State} (hs : Steady cfg s)
    {n : Nat} (hn : n < cfg.varCount) (size : Nat) :
    othersFootprint cfg s n + liveBytes (s.EEPROM_SizeTable n) = liveSum cfg s ∧
    othersFootprint cfg s n + (2 + (1 <<< size)) =
      ∑ m in Finset.range cfg.varCount,
        (if m = n then 2 + (1 <<< size) else liveBytes (s.EEPROM_SizeTable m)) := by
  have hterm : ∀ m, m < cfg.varCount → m ≠ n →
      (if m ≠ n ∧ s.EEPROM_Index m ≠ 0 then 2 + scanSize (s.EEPROM_SizeTable m) else 0) =
        liveBytes (s.EEPROM_SizeTable m) := by
    intro m hm hmn
    have he := hs.core.entries m hm
    by_cases h0 : s.EEPROM_Index m = 0
    · have : s.EEPROM_SizeTable m = 0 := he.lockstep.mp h0
      rw [if_neg (by simp [h0]), this]
      rfl
    · have hz : s.EEPROM_SizeTable m ≠ 0 := fun h => h0 (he.lockstep.mpr h)
      rw [if_pos ⟨hmn, h0⟩, liveBytes_footprint _ he.size_le hz]
  constructor
  · have key := sum_range_change cfg.varCount n
      (fun m => if m ≠ n ∧ s.EEPROM_Index m ≠ 0 then 2 + scanSize (s.EEPROM_SizeTable m) else 0)
      (fun m => liveBytes (s.EEPROM_SizeTable m)) hn hterm
    beta_reduce at key
    rw [if_neg (show ¬ (n ≠ n ∧ s.EEPROM_Index n ≠ 0) by simp)] at key
    unfold othersFootprint liveSum
    omega
  · have key := sum_range_change cfg.varCount n
      (fun m => if m ≠ n ∧ s.EEPROM_Index m ≠ 0 then 2 + scanSize (s.EEPROM_SizeTable m) else 0)
      (fun m => if m = n then 2 + (1 <<< size) else liveBytes (s.EEPROM_SizeTable m)) hn (by
        intro m hm hmn
        beta_reduce
        rw [hterm m hm hmn, if_neg hmn])
    beta_reduce at key
    rw [if_pos (rfl : n = n), if_neg (show ¬ (n ≠ n ∧ s.EEPROM_Index n ≠ 0) by simp)] at key
    unfold othersFootprint
    omega

theorem write_append_ok (cfg : Config) (fuel n v size : Nat) (s : State)
    (hw : writingPage s ≠ EEPROM_PAGE_NONE) (hroom : ¬ noRoom cfg s size)
    (hall : ∀ k, s.hal k = HAL_OK) :
    EEPROM_WriteVariable cfg (fuel + 1) n v size s =
      (some EEPROM_SUCCESS, appendState cfg n v size s) := by
  rw [write_append cfg fuel n v size s hw hroom,
    ← appendRecord_success cfg n v size s (appendRecord_ok cfg n v size s hall),
    appendRecord_ok cfg n v size s hall]

theorem appendState_next (cfg : Config) (n v size : Nat) (s : State) :
    (appendState cfg n v size s).EEPROM_NextIndex =
      if (s.EEPROM_NextIndex + recordBytes size) % 4294967296 ≥
          (writingPage s + cfg.pageSize) % 4294967296 then 0
      else (s.EEPROM_NextIndex + recordBytes size) % 4294967296 := rfl

theorem tinyBoot_eq : tinyBoot = formattedState tinyConfig freshFlash halOk :=
  (init_format tinyConfig_wf freshFlash halOk 2 0 (by decide)).2.1 (by decide)

theorem tinyBoot_hal (k : Nat) : tinyBoot.hal k = HAL_OK := by
  rw [tinyBoot_eq]; rfl

/-- A successful halfword write in the tiny configuration while the cursor is `c < 3`
records past the page header: it is an append, and moves the cursor one record on. -/
theorem tiny_append (fuel n v c : Nat) (s t : State)
    (hc : s.EEPROM_NextIndex = 134281218 + 4 * c)
    (hw : writingPage s = 134281216) (hall : ∀ k, s.hal k = HAL_OK) (hlt : c < 3)
    (h : EEPROM_WriteVariable tinyConfig fuel n v EEPROM_SIZE16 s = (some EEPROM_SUCCESS, t)) :
    t = appendState tinyConfig n v 1 s ∧
    t.EEPROM_NextIndex = (if c = 2 then 0 else 134281218 + 4 * (c + 1)) ∧
    writingPage t = 134281216 ∧ (∀ k, t.hal k = HAL_OK) ∧
    (∀ m, t.EEPROM_SizeTable m = if m = n then 1 else s.EEPROM_SizeTable m) := by
  have hp : tinyConfig.pageSize = 14 := rfl
  have hb : recordBytes 1 = 4 := rfl
  have hroom : ¬ noRoom tinyConfig s 1 := by
    unfold noRoom
    rw [hc, hw, hp, hb]
    omega
  have ht : t = appendState tinyConfig n v 1 s := by
    cases fuel with
    | zero => simp [EEPROM_WriteVariable] at h
    | succ f =>
      have e := write_append_ok tinyConfig f n v 1 s (by rw [hw]; decide) hroom hall
      rw [show EEPROM_SIZE16 = 1 from rfl, e] at h
      exact (congrArg Prod.snd h).symm
  subst ht
  refine ⟨rfl, ?_, ?_, ?_, ?_⟩
  · rw [appendState_next, hc, hw, hp, hb]
    split_ifs <;> omega
  · rw [appendState_writing]; exact hw
  · intro k; rw [appendState_hal]; exact hall k
  · intro m; rw [appendState_sizeTable]

theorem tiny_assemble (v Value : Nat) :
    assemble 1 Value (halfwordOf v) = Value / 65536 * 65536 + v % 65536 := by
  simp [assemble, halfwordOf, EEPROM_SIZE16]

theorem scenarioC_facts {v0 v1 v2 f0 f1 f2 : Nat} {s1 s2 s3 : State}
    (h0 : EEPROM_WriteVariable tinyConfig f0 0 v0 EEPROM_SIZE16 tinyBoot =
      (some EEPROM_SUCCESS, s1))
    (h1 : EEPROM_WriteVariable tinyConfig f1 1 v1 EEPROM_SIZE16 s1 = (some EEPROM_SUCCESS, s2))
    (h2 : EEPROM_WriteVariable tinyConfig f2 2 v2 EEPROM_SIZE16 s2 = (some EEPROM_SUCCESS, s3)) :
    Reachable tinyConfig s3 ∧ noRoom tinyConfig s3 EEPROM_SIZE16 ∧
    (∀ k, s3.hal k = HAL_OK) ∧ s3.EEPROM_ErasedPage = EEPROM_PAGE1 tinyConfig ∧
    (∀ n, n < 3 → requiredMemory tinyConfig s3.EEPROM_SizeTable n EEPROM_SIZE16 ≤
      tinyConfig.pageSize) ∧
    requiredMemory tinyConfig s3.EEPROM_SizeTable 3 EEPROM_SIZE16 > tinyConfig.pageSize ∧
    (∀ Value, EEPROM_ReadVariable tinyConfig 0 Value s3 =
      (EEPROM_SUCCESS, Value / 65536 * 65536 + v0 % 65536)) ∧
    (∀ Value, EEPROM_ReadVariable tinyConfig 1 Value s3 =
      (EEPROM_SUCCESS, Value / 65536 * 65536 + v1 % 65536)) ∧
    (∀ Value, EEPROM_ReadVariable tinyConfig 2 Value s3 =
      (EEPROM_SUCCESS, Value / 65536 * 65536 + v2 % 65536)) ∧
    (∀ Value, EEPROM_ReadVariable tinyConfig 3 Value s3 = (EEPROM_NOT_ASSIGNED, Value)) := by
  have hw := tinyConfig_wf
  have h16 : EEPROM_SIZE16 ≤ 3 := by decide
  obtain ⟨e1, c1, w1, l1, t1⟩ := tiny_append f0 0 v0 0 tinyBoot s1 (by decide) (by decide)
    tinyBoot_hal (by decide) h0
  obtain ⟨e2, c2, w2, l2, t2⟩ := tiny_append f1 1 v1 1 s1 s2 (by rw [c1]; decide) w1 l1
    (by decide) h1
  obtain ⟨e3, c3, w3, l3, t3⟩ := tiny_append f2 2 v2 2 s2 s3 (by rw [c2]; decide) w2 l2
    (by decide) h2
  have k0 := congrArg Prod.fst h0
  have k1 := congrArg Prod.fst h1
  have k2 := congrArg Prod.fst h2
  have j0 := congrArg Prod.snd h0
  have j1 := congrArg Prod.snd h1
  have j2 := congrArg Prod.snd h2
  simp only at k0 k1 k2 j0 j1 j2
  have r0 := tinyBoot_reachable
  have r1 := Reachable.write _ f0 0 v0 EEPROM_SIZE16 r0 (by decide) (Or.inl rfl) k0
  obtain ⟨_, p0, q0, _⟩ := write_ok hw (reachable_steady hw r0)
    (show 0 < tinyConfig.varCount by decide) h16 v0 f0 k0
  rw [j0] at r1 p0 q0
  have r2 := Reachable.write _ f1 1 v1 EEPROM_SIZE16 r1 (by decide) (Or.inl rfl) k1
  obtain ⟨_, p1, q1, _⟩ := write_ok hw (reachable_steady hw r1)
    (show 1 < tinyConfig.varCount by decide) h16 v1 f1 k1
  rw [j1] at r2 p1 q1
  have r3 := Reachable.write _ f2 2 v2 EEPROM_SIZE16 r2 (by decide) (Or.inl rfl) k2
  obtain ⟨_, p2, q2, _⟩ := write_ok hw (reachable_steady hw r2)
    (show 2 < tinyConfig.varCount by decide) h16 v2 f2 k2
  rw [j2] at r3 p2 q2
  have hb : ∀ m, tinyBoot.EEPROM_SizeTable m = 0 := by
    intro m; rw [tinyBoot_eq]; rfl
  have ht : s3.EEPROM_SizeTable =
      fun m => if m = 2 then 1 else if m = 1 then 1 else if m = 0 then 1 else 0 := by
    funext m
    rw [t3, t2, t1, hb]
  have hE : s3.EEPROM_ErasedPage = EEPROM_PAGE1 tinyConfig := by
    rw [e3, e2, e1, tinyBoot_eq]; rfl
  refine ⟨r3, Or.inl (by rw [c3]; decide), l3, hE, ?_, ?_, ?_, ?_, ?_, ?_⟩
  · intro n hn
    rw [ht]
    interval_cases n <;> decide
  · rw [ht]; decide
  · intro Value
    rw [p2 0 (by decide) (by decide), p1 0 (by decide) (by decide), q0,
      if_neg (by decide), ← tiny_assemble]
    rfl
  · intro Value
    rw [p2 1 (by decide) (by decide), q1, if_neg (by decide), ← tiny_assemble]
    rfl
  · intro Value
    rw [q2, if_neg (by decide), ← tiny_assemble]
    rfl
  · intro Value
    rw [p2 3 (by decide) (by decide), p1 3 (by decide) (by decide),
      p0 3 (by decide) (by decide), tinyBoot_eq]
    rfl

/-- C7 (V2.0 Scenario C, amended): with `FLASH_PAGE_SIZE = 14` and four names, after init
on a fresh device and successful halfword writes of names 0, 1, 2 with any values (which
fill the page exactly), a fourth halfword write of a stored name `n < 3` compacts into the
other page and returns `EEPROM_SUCCESS`, after which `n` reads the new value, the other
two stored names read their values and name 3 reads `EEPROM_NOT_ASSIGNED`; a fourth
halfword write of the new name 3 returns `EEPROM_FULL` and changes nothing. -/
theorem C7_scenario_C (v0 v1 v2 f0 f1 f2 : Nat) (s1 s2 s3 : State)
    (h0 : EEPROM_WriteVariable tinyConfig f0 0 v0 EEPROM_SIZE16 tinyBoot =
      (some EEPROM_SUCCESS, s1))
    (h1 : EEPROM_WriteVariable tinyConfig f1 1 v1 EEPROM_SIZE16 s1 = (some EEPROM_SUCCESS, s2))
    (h2 : EEPROM_WriteVariable tinyConfig f2 2 v2 EEPROM_SIZE16 s2 = (some EEPROM_SUCCESS, s3))
    (v : Nat) {n : Nat} (hn : n < 3) (fuel : Nat) :
    EEPROM_WriteVariable tinyConfig (fuel + 1) 3 v EEPROM_SIZE16 s3 = (some EEPROM_FULL, s3) ∧
    (EEPROM_WriteVariable tinyConfig (fuel + 2) n v EEPROM_SIZE16 s3).1 =
      some EEPROM_SUCCESS ∧
    (EEPROM_WriteVariable tinyConfig (fuel + 2) n v EEPROM_SIZE16 s3).2.EEPROM_ValidPage =
      EEPROM_PAGE1 tinyConfig ∧
    (∀ m, m < 4 → ∀ Value,
      EEPROM_ReadVariable tinyConfig m Value
        (EEPROM_WriteVariable tinyConfig (fuel + 2) n v EEPROM_SIZE16 s3).2 =
      if m = 3 then (EEPROM_NOT_ASSIGNED, Value)
      else (EEPROM_SUCCESS, Value / 65536 * 65536 +
        (if m = n then v else if m = 0 then v0 else if m = 1 then v1 else v2) % 65536)) := by
  obtain ⟨hreach, hno, hall, hE, hle, hgt, g0, g1, g2, g3⟩ := scenarioC_facts h0 h1 h2
  have hw := tinyConfig_wf
  have hs := reachable_steady hw hreach
  have hn4 : n < tinyConfig.varCount := by
    have : tinyConfig.varCount = 4 := rfl
    omega
  have h16 : EEPROM_SIZE16 ≤ 3 := by decide
  refine ⟨write_full hw hs hno hgt v fuel, ?_⟩
  obtain ⟨r, h1, h2, _, h4⟩ := write_steady hw hs hn4 h16 v fuel
  have hr : r = EEPROM_SUCCESS := by
    rcases h4 hall with h | h
    · exact h
    · have := (h2 h).2.2
      have := hle n hn
      omega
  rw [hr] at h1
  obtain ⟨_, p, q, _⟩ := write_ok hw hs hn4 h16 v (fuel + 2) h1
  refine ⟨h1, ?_, ?_⟩
  · rw [(write_compact_roles hw hs hn4 h16 v (fuel + 2) hno h1).1, hE]
  · intro m hm Value
    by_cases hmn : m = n
    · subst hmn
      rw [q, if_neg (by decide), if_neg (by omega), if_pos rfl, ← tiny_assemble]
      rfl
    · rw [p m hm hmn, if_neg hmn]
      interval_cases m
      · rw [g0]; rfl
      · rw [g1]; rfl
      · rw [g2]; rfl
      · rw [g3]; rfl

/-- Scenario C with a rewrite of the stored name 1: compaction succeeds and name 1 reads
the new value. -/
theorem C7_scenario_C_witness :
    (EEPROM_WriteVariable tinyConfig 2 0 0x1111 EEPROM_SIZE16 tinyBoot).1 =
      some EEPROM_SUCCESS ∧
    (EEPROM_WriteVariable tinyConfig 2 1 0x5555 EEPROM_SIZE16 tinyFull).1 =
      some EEPROM_SUCCESS ∧
    EEPROM_ReadVariable tinyConfig 1 0
      (EEPROM_WriteVariable tinyConfig 2 1 0x5555 EEPROM_SIZE16 tinyFull).2 =
        (EEPROM_SUCCESS, 0x5555) :=
  ⟨by decide,
    (C7_scenario_C 0x1111 0x2222 0x3333 2 2 2 _ _ _
      (Prod.ext (by decide) rfl) (Prod.ext (by decide) rfl) (Prod.ext (by decide) rfl)
      0x5555 (n := 1) (by decide) 0).2.1,
    (C7_scenario_C 0x1111 0x2222 0x3333 2 2 2 _ _ _
      (Prod.ext (by decide) rfl) (Prod.ext (by decide) rfl) (Prod.ext (by decide) rfl)
      0x5555 (n := 1) (by decide) 0).2.2.2 1 (by decide) 0⟩

/-- Scenario C as stated fails for the new name 3: after init on a fresh device with
`FLASH_PAGE_SIZE = 14` and successful halfword writes of names 0, 1, 2, the halfword write
of name 3 returns `EEPROM_FULL` and name 3 still reads `EEPROM_NOT_ASSIGNED`. -/
theorem C7_new_name_is_full :
    (EEPROM_Init tinyConfig 2 0 (powerOn freshFlash halOk)).1 = some EEPROM_SUCCESS ∧
    (EEPROM_WriteVariable tinyConfig 2 0 0x1111 EEPROM_SIZE16 tinyBoot).1 =
      some EEPROM_SUCCESS ∧
    (EEPROM_WriteVariable tinyConfig 2 1 0x2222 EEPROM_SIZE16
      (EEPROM_WriteVariable tinyConfig 2 0 0x1111 EEPROM_SIZE16 tinyBoot).2).1 =
      some EEPROM_SUCCESS ∧
    (EEPROM_WriteVariable tinyConfig 2 2 0x3333 EEPROM_SIZE16
      (EEPROM_WriteVariable tinyConfig 2 1 0x2222 EEPROM_SIZE16
        (EEPROM_WriteVariable tinyConfig 2 0 0x1111 EEPROM_SIZE16 tinyBoot).2).2).1 =
      some EEPROM_SUCCESS ∧
    (EEPROM_WriteVariable tinyConfig 2 3 0x4444 EEPROM_SIZE16 tinyFull).1 =
      some EEPROM_FULL ∧
    (EEPROM_ReadVariable tinyConfig 3 0
      (EEPROM_WriteVariable tinyConfig 2 3 0x4444 EEPROM_SIZE16 tinyFull).2).1 =
      EEPROM_NOT_ASSIGNED := by
  decide

/-! ## The read contract -/

/-- C9 (V2.0 read contract, amended): for every state whose index entry is a 16-bit value,
`EEPROM_ReadVariable(name)` returns `EEPROM_INVALID_NAME` exactly when
`name >= EEPROM_VARIABLE_COUNT`; for a name in range it returns `EEPROM_NOT_ASSIGNED`
exactly when the index entry is 0 or the size entry is none of SIZE16 / SIZE32 / SIZE64
(the `default` branch), leaving the caller's value untouched, and `EEPROM_SUCCESS`
otherwise; in a state reachable from a formatted store the index and size entries are in
lock-step, so there `EEPROM_NOT_ASSIGNED` is returned exactly when the index entry is 0.
The read is a pure function of the state. -/
theorem C9_read_contract {cfg : Config} (hwf : cfg.WF) (s : State) (name Value : Nat)
    (hidx : s.EEPROM_Index name < 65536) :
    ((EEPROM_ReadVariable cfg name Value s).1 = EEPROM_INVALID_NAME ↔ name ≥ cfg.varCount) ∧
    (name < cfg.varCount →
      ((EEPROM_ReadVariable cfg name Value s).1 = EEPROM_NOT_ASSIGNED ↔
        (s.EEPROM_Index name = 0 ∨
          ¬ (s.EEPROM_SizeTable name = EEPROM_SIZE16 ∨ s.EEPROM_SizeTable name = EEPROM_SIZE32 ∨
            s.EEPROM_SizeTable name = EEPROM_SIZE64))) ∧
      ((EEPROM_ReadVariable cfg name Value s).1 ≠ EEPROM_NOT_ASSIGNED →
        (EEPROM_ReadVariable cfg name Value s).1 = EEPROM_SUCCESS) ∧
      ((EEPROM_ReadVariable cfg name Value s).1 = EEPROM_NOT_ASSIGNED →
        (EEPROM_ReadVariable cfg name Value s).2 = Value) ∧
      (Reachable cfg s →
        ((EEPROM_ReadVariable cfg name Value s).1 = EEPROM_NOT_ASSIGNED ↔
          s.EEPROM_Index name = 0))) := by
  have h32 := hwf.area32
  have hpos := hwf.start_pos
  have haddr : (cfg.start + s.EEPROM_Index name) % 4294967296 = EEPROM_PAGE0 cfg ↔
      s.EEPROM_Index name = 0 := by
    have h232 : cfg.start < 4294967296 := by omega
    unfold EEPROM_PAGE0
    omega
  have key : name < cfg.varCount →
      ((EEPROM_ReadVariable cfg name Value s).1 = EEPROM_NOT_ASSIGNED ↔
        (s.EEPROM_Index name = 0 ∨
          ¬ (s.EEPROM_SizeTable name = EEPROM_SIZE16 ∨ s.EEPROM_SizeTable name = EEPROM_SIZE32 ∨
            s.EEPROM_SizeTable name = EEPROM_SIZE64))) ∧
      ((EEPROM_ReadVariable cfg name Value s).1 ≠ EEPROM_NOT_ASSIGNED →
        (EEPROM_ReadVariable cfg name Value s).1 = EEPROM_SUCCESS) ∧
      ((EEPROM_ReadVariable cfg name Value s).1 = EEPROM_NOT_ASSIGNED →
        (EEPROM_ReadVariable cfg name Value s).2 = Value) := by
    intro hn
    unfold EEPROM_ReadVariable
    rw [if_neg (by omega)]
    simp only []
    by_cases h0 : s.EEPROM_Index name = 0
    · rw [if_pos (haddr.2 h0)]
      simp [h0]
    · rw [if_neg (fun h => h0 (haddr.1 h))]
      by_cases h1 : s.EEPROM_SizeTable name = EEPROM_SIZE16
      · rw [if_pos h1]
        simp [h0, h1]
      · rw [if_neg h1]
        by_cases h2 : s.EEPROM_SizeTable name = EEPROM_SIZE32
        · rw [if_pos h2]
          simp [h0, h2]
        · rw [if_neg h2]
          by_cases h3 : s.EEPROM_SizeTable name = EEPROM_SIZE64
          · rw [if_pos h3]
            simp [h0, h3]
          · rw [if_neg h3]
            simp [h0, h1, h2, h3]
  refine ⟨?_, fun hn => ⟨(key hn).1, (key hn).2.1, (key hn).2.2, fun hr => ?_⟩⟩
  · unfold EEPROM_ReadVariable
    by_cases hn : name ≥ cfg.varCount
    · simp [hn]
    · rw [if_neg hn]
      simp only []
      constructor
      · intro h
        exfalso
        revert h
        split_ifs <;> simp
      · intro h; exact absurd h hn
  · rw [(key hn).1]
    have he := (reachable_steady hwf hr).core.entries name hn
    constructor
    · rintro (h | h)
      · exact h
      · have hsz := he.size_le
        by_contra h0
        have := mt he.lockstep.2 h0
        apply h
        unfold EEPROM_SIZE16 EEPROM_SIZE32 EEPROM_SIZE64
        omega
    · intro h; exact Or.inl h

/-- Scenario A on the shipped configuration: after init on a fresh device name 0 has index
entry 0 and reads `EEPROM_NOT_ASSIGNED`. -/
theorem C9_read_contract_witness :
    stdBoot.EEPROM_Index 0 < 65536 ∧
    ((EEPROM_ReadVariable stdConfig 0 7 stdBoot).1 = EEPROM_NOT_ASSIGNED ↔
      stdBoot.EEPROM_Index 0 = 0) :=
  ⟨by decide,
    (C9_read_contract stdConfig_wf stdBoot 0 7 (by decide)).2 (by decide) |>.2.2.2
      stdBoot_reachable⟩

/-- The claim as stated fails for a state whose index entry is non-zero while the size
entry is not a size class: the read takes the `default` branch and returns
`EEPROM_NOT_ASSIGNED` although the index entry is 4. -/
theorem C9_default_branch :
    ({ stdBoot with EEPROM_Index := fun _ => 4,
                    EEPROM_SizeTable := fun _ => EEPROM_SIZE_DELETED } : State).EEPROM_Index 0 ≠ 0 ∧
    (0 : Nat) < stdConfig.varCount ∧
    (EEPROM_ReadVariable stdConfig 0 7
      { stdBoot with EEPROM_Index := fun _ => 4,
                     EEPROM_SizeTable := fun _ => EEPROM_SIZE_DELETED }).1 =
      EEPROM_NOT_ASSIGNED := by
  decide

/-! ## Header-last commit in the append branch -/

/-- C19 (V2.0 header-last commit): in the room-available branch of `EEPROM_WriteVariable`
the payload program call (absent for `EEPROM_SIZE_DELETED`) is issued strictly before the
header program call; if the payload program fails the header is never programmed and the
failure is returned; and whenever the write does not return `EEPROM_SUCCESS`, `Index`,
`SizeTable` and `EEPROM_NextIndex` are exactly what they were before the call. -/
theorem C19_header_last (cfg : Config) (fuel n v size : Nat) (s : State)
    (hw : writingPage s ≠ EEPROM_PAGE_NONE) (hroom : ¬ noRoom cfg s size) :
    (size ≠ EEPROM_SIZE_DELETED → s.hal s.log.length ≠ HAL_OK →
      (EEPROM_WriteVariable cfg (fuel + 1) n v size s).1 = some (ofHAL (s.hal s.log.length)) ∧
      (EEPROM_WriteVariable cfg (fuel + 1) n v size s).2.log =
        s.log ++ [FlashOp.program size ((s.EEPROM_NextIndex + 2) % 4294967296) v]) ∧
    (size ≠ EEPROM_SIZE_DELETED → s.hal s.log.length = HAL_OK →
      (EEPROM_WriteVariable cfg (fuel + 1) n v size s).1 =
        some (ofHAL (s.hal (s.log.length + 1))) ∧
      (EEPROM_WriteVariable cfg (fuel + 1) n v size s).2.log =
        s.log ++ [FlashOp.program size ((s.EEPROM_NextIndex + 2) % 4294967296) v,
          FlashOp.program 1 s.EEPROM_NextIndex ((n + (size <<< 14)) % 65536)]) ∧
    (size = EEPROM_SIZE_DELETED →
      (EEPROM_WriteVariable cfg (fuel + 1) n v size s).1 = some (ofHAL (s.hal s.log.length)) ∧
      (EEPROM_WriteVariable cfg (fuel + 1) n v size s).2.log =
        s.log ++ [FlashOp.program 1 s.EEPROM_NextIndex ((n + (size <<< 14)) % 65536)]) ∧
    ((EEPROM_WriteVariable cfg (fuel + 1) n v size s).1 ≠ some EEPROM_SUCCESS →
      (EEPROM_WriteVariable cfg (fuel + 1) n v size s).2.EEPROM_Index = s.EEPROM_Index ∧
      (EEPROM_WriteVariable cfg (fuel + 1) n v size s).2.EEPROM_SizeTable =
        s.EEPROM_SizeTable ∧
      (EEPROM_WriteVariable cfg (fuel + 1) n v size s).2.EEPROM_NextIndex =
        s.EEPROM_NextIndex) := by
  rw [write_append cfg fuel n v size s hw hroom]
  unfold appendRecord HAL_FLASH_Program halCall
  by_cases hs : size = EEPROM_SIZE_DELETED
  · cases h1 : s.hal s.log.length <;> simp [hs, h1, ofHAL]
  · cases h1 : s.hal s.log.length <;> cases h2 : s.hal (s.log.length + 1) <;>
      simp [hs, h1, h2, ofHAL]

/-- A failing payload program on the freshly initialised shipped configuration: the write
returns the HAL error, only the payload call was issued, and the tables are untouched. -/
theorem C19_header_last_witness :
    writingPage { stdBoot with hal := fun _ => HAL_ERROR } ≠ EEPROM_PAGE_NONE ∧
    ¬ noRoom stdConfig { stdBoot with hal := fun _ => HAL_ERROR } EEPROM_SIZE16 ∧
    (EEPROM_WriteVariable stdConfig 1 0 0x1234 EEPROM_SIZE16
      { stdBoot with hal := fun _ => HAL_ERROR }).1 = some EEPROM_ERROR ∧
    (EEPROM_WriteVariable stdConfig 1 0 0x1234 EEPROM_SIZE16
      { stdBoot with hal := fun _ => HAL_ERROR }).2.log =
      stdBoot.log ++ [FlashOp.program EEPROM_SIZE16 (stdBoot.EEPROM_NextIndex + 2) 0x1234] :=
  ⟨by decide, by decide,
    (C19_header_last stdConfig 0 0 0x1234 EEPROM_SIZE16
      { stdBoot with hal := fun _ => HAL_ERROR } (by decide) (by decide)).1 (by decide)
      (by decide)⟩
/-! ## Result of the auto-format; names out of range on the write path -/

/-- C14 (V2.0 recovery outcome of init, amended): when `EEPROM_Init` finds an inconsistent
page-header pair and both primitives of the format succeed, it returns the plain
`EEPROM_SUCCESS` (the same result as a normal start-up), having issued exactly the two-page
erase and the program of page0's header. -/
theorem C14_format_result {cfg : Config} (hwf : cfg.WF) (flash : Nat → Nat)
    (hal : Nat → HAL_Status) (fuel Value0 : Nat)
    (hinv : invalidState (read16 flash (EEPROM_PAGE0 cfg)) (read16 flash (EEPROM_PAGE1 cfg)))
    (h0 : hal 0 = HAL_OK) (h1 : hal 1 = HAL_OK) :
    (EEPROM_Init cfg fuel Value0 (powerOn flash hal)).1 = some EEPROM_SUCCESS ∧
    (EEPROM_Init cfg fuel Value0 (powerOn flash hal)).2.log =
      [FlashOp.erase (EEPROM_PAGE0 cfg) 2,
        FlashOp.program EEPROM_SIZE16 (EEPROM_PAGE0 cfg) EEPROM_VALID] := by
  obtain ⟨_, hst, hok⟩ := init_format hwf flash hal fuel Value0 hinv
  refine ⟨hok h0 h1, ?_⟩
  rw [hst (hok h0 h1)]
  rfl

/-- The fresh device (both headers erased, hence inconsistent) on the shipped
configuration: init formats and returns `EEPROM_SUCCESS`. -/
theorem C14_format_result_witness :
    invalidState (read16 freshFlash (EEPROM_PAGE0 stdConfig))
      (read16 freshFlash (EEPROM_PAGE1 stdConfig)) ∧
    (EEPROM_Init stdConfig 2 0 (powerOn freshFlash halOk)).1 = some EEPROM_SUCCESS :=
  ⟨by decide,
    (C14_format_result stdConfig_wf freshFlash halOk 2 0 (by decide) (by decide)
      (by decide)).1⟩

/-- The claim as stated fails: init on a fresh device auto-formats (the two-page erase is
in its call log) and init on the consistent store left behind issues no primitive at all,
yet both return the same result `EEPROM_SUCCESS`. -/
theorem C14_format_not_distinct :
    invalidState (read16 freshFlash (EEPROM_PAGE0 stdConfig))
      (read16 freshFlash (EEPROM_PAGE1 stdConfig)) ∧
    (EEPROM_Init stdConfig 2 0 (powerOn freshFlash halOk)).2.log =
      [FlashOp.erase (EEPROM_PAGE0 stdConfig) 2,
        FlashOp.program EEPROM_SIZE16 (EEPROM_PAGE0 stdConfig) EEPROM_VALID] ∧
    ¬ invalidState (read16 stdBoot.flash (EEPROM_PAGE0 stdConfig))
      (read16 stdBoot.flash (EEPROM_PAGE1 stdConfig)) ∧
    (EEPROM_Init stdConfig 2 0 (powerOn stdBoot.flash halOk)).2.log = [] ∧
    (EEPROM_Init stdConfig 2 0 (powerOn freshFlash halOk)).1 =
      (EEPROM_Init stdConfig 2 0 (powerOn stdBoot.flash halOk)).1 ∧
    (EEPROM_Init stdConfig 2 0 (powerOn freshFlash halOk)).1 = some EEPROM_SUCCESS := by
  decide

/-- C15 (V2.0 name validation on write): `EEPROM_WriteVariable` and `EEPROM_DeleteVariable`
have no name check. On the shipped configuration (`EEPROM_VARIABLE_COUNT = 4`) after init
on a fresh device, `EEPROM_WriteVariable(4, 0x1234, EEPROM_SIZE16)` returns
`EEPROM_SUCCESS`, programs a payload and a header, stores into `EEPROM_Index[4]` and
`EEPROM_SizeTable[4]` and advances the cursor, while `EEPROM_ReadVariable(4)` rejects the
same name; `EEPROM_DeleteVariable(4)` likewise returns `EEPROM_SUCCESS` and programs a
header. -/
theorem C15_invalid_name_accepted :
    4 ≥ stdConfig.varCount ∧
    (EEPROM_WriteVariable stdConfig 2 4 0x1234 EEPROM_SIZE16 stdBoot).1 =
      some EEPROM_SUCCESS ∧
    (EEPROM_WriteVariable stdConfig 2 4 0x1234 EEPROM_SIZE16 stdBoot).2.log =
      stdBoot.log ++ [FlashOp.program EEPROM_SIZE16 (EEPROM_PAGE0 stdConfig + 4) 0x1234,
        FlashOp.program 1 (EEPROM_PAGE0 stdConfig + 2) 0x4004] ∧
    (EEPROM_WriteVariable stdConfig 2 4 0x1234 EEPROM_SIZE16 stdBoot).2.EEPROM_Index 4 = 4 ∧
    (EEPROM_WriteVariable stdConfig 2 4 0x1234 EEPROM_SIZE16 stdBoot).2.EEPROM_SizeTable 4 =
      EEPROM_SIZE16 ∧
    (EEPROM_WriteVariable stdConfig 2 4 0x1234 EEPROM_SIZE16 stdBoot).2.EEPROM_NextIndex =
      stdBoot.EEPROM_NextIndex + 4 ∧
    (EEPROM_ReadVariable stdConfig 4 0
      (EEPROM_WriteVariable stdConfig 2 4 0x1234 EEPROM_SIZE16 stdBoot).2).1 =
      EEPROM_INVALID_NAME ∧
    (EEPROM_DeleteVariable stdConfig 2 4 stdBoot).1 = some EEPROM_SUCCESS ∧
    (EEPROM_DeleteVariable stdConfig 2 4 stdBoot).2.log =
      stdBoot.log ++ [FlashOp.program 1 (EEPROM_PAGE0 stdConfig + 2) 0x0004] := by
  decide

/-! ## Evaluations on concrete runs -/

/-- C10 (V2.0 page-role invariant): the image left in the tiny configuration by a power cut
two primitive calls into a compaction has page0 Valid and page1 Receiving (a consistent
header pair). `EEPROM_Init` on it returns `EEPROM_SUCCESS`, but afterwards no page role is
assigned, page0's header is Erased and page1's header is still Receiving: the resumed
transfer ran out of room, and the nested compaction called
`EEPROM_SetPageStatus(EEPROM_ErasedPage, EEPROM_RECEIVING)` with
`EEPROM_ErasedPage = EEPROM_PAGE_NONE`, programming address 0. -/
theorem C10_init_without_valid_page :
    read16 (tinyCut 2) (EEPROM_PAGE0 tinyConfig) = EEPROM_VALID ∧
    read16 (tinyCut 2) (EEPROM_PAGE1 tinyConfig) = EEPROM_RECEIVING ∧
    (EEPROM_Init tinyConfig 3 0 (powerOn (tinyCut 2) halOk)).1 = some EEPROM_SUCCESS ∧
    (EEPROM_Init tinyConfig 3 0 (powerOn (tinyCut 2) halOk)).2.EEPROM_ValidPage =
      EEPROM_PAGE_NONE ∧
    (EEPROM_Init tinyConfig 3 0 (powerOn (tinyCut 2) halOk)).2.EEPROM_ReceivingPage =
      EEPROM_PAGE_NONE ∧
    (EEPROM_Init tinyConfig 3 0 (powerOn (tinyCut 2) halOk)).2.EEPROM_ErasedPage =
      EEPROM_PAGE_NONE ∧
    read16 (EEPROM_Init tinyConfig 3 0 (powerOn (tinyCut 2) halOk)).2.flash
      (EEPROM_PAGE0 tinyConfig) = EEPROM_ERASED ∧
    read16 (EEPROM_Init tinyConfig 3 0 (powerOn (tinyCut 2) halOk)).2.flash
      (EEPROM_PAGE1 tinyConfig) = EEPROM_RECEIVING ∧
    FlashOp.program 1 EEPROM_PAGE_NONE EEPROM_RECEIVING ∈
      (EEPROM_Init tinyConfig 3 0 (powerOn (tinyCut 2) halOk)).2.log := by
  decide

/-- C4 (V2.0 crash idempotence): in the reachable state of Scenario C (names 0, 1, 2 hold
0x1111, 0x2222, 0x3333, page full) the rewrite of name 1 compacts and issues nine primitive
calls. Cutting after the second one and running `EEPROM_Init` on the image returns
`EEPROM_SUCCESS`, but name 2, whose committed value is 0x3333, reads
`EEPROM_NOT_ASSIGNED`. -/
theorem C4_committed_value_lost :
    EEPROM_ReadVariable tinyConfig 2 0 tinyFull = (EEPROM_SUCCESS, 0x3333) ∧
    (EEPROM_WriteVariable tinyConfig 2 1 0x5555 EEPROM_SIZE16 tinyFull).1 =
      some EEPROM_SUCCESS ∧
    ((EEPROM_WriteVariable tinyConfig 2 1 0x5555 EEPROM_SIZE16 tinyFull).2.log.drop
      tinyFull.log.length).take 2 =
      [FlashOp.program 1 (EEPROM_PAGE1 tinyConfig) EEPROM_RECEIVING,
        FlashOp.program EEPROM_SIZE16 (EEPROM_PAGE1 tinyConfig + 4) 0x5555] ∧
    (EEPROM_Init tinyConfig 3 0 (powerOn (tinyCut 2) halOk)).1 = some EEPROM_SUCCESS ∧
    EEPROM_ReadVariable tinyConfig 2 0
      (EEPROM_Init tinyConfig 3 0 (powerOn (tinyCut 2) halOk)).2 = (EEPROM_NOT_ASSIGNED, 0) := by
  decide

/-- C18 (V2.0 torn fragments): on the shipped configuration, a power cut leaves the payload
of `write(0, 0x1111, Half)` without its header. `EEPROM_Init` recovers, `write(1, 0x2222,
Half)` then succeeds and reads back. After the next reboot `EEPROM_Init` returns
`EEPROM_SUCCESS` but name 1 reads `EEPROM_NOT_ASSIGNED`: the look-ahead of
`EEPROM_PageToIndex` counts the header and payload of the later record as part of the
fragment and skips them. -/
theorem C18_fragment_hides_record :
    (EEPROM_Init stdConfig 2 0 (powerOn tornFlash halOk)).1 = some EEPROM_SUCCESS ∧
    (EEPROM_WriteVariable stdConfig 2 1 0x2222 EEPROM_SIZE16
      (EEPROM_Init stdConfig 2 0 (powerOn tornFlash halOk)).2).1 = some EEPROM_SUCCESS ∧
    EEPROM_ReadVariable stdConfig 1 0
      (EEPROM_WriteVariable stdConfig 2 1 0x2222 EEPROM_SIZE16
        (EEPROM_Init stdConfig 2 0 (powerOn tornFlash halOk)).2).2 = (EEPROM_SUCCESS, 0x2222) ∧
    (EEPROM_Init stdConfig 2 0 (powerOn
      (EEPROM_WriteVariable stdConfig 2 1 0x2222 EEPROM_SIZE16
        (EEPROM_Init stdConfig 2 0 (powerOn tornFlash halOk)).2).2.flash halOk)).1 =
      some EEPROM_SUCCESS ∧
    EEPROM_ReadVariable stdConfig 1 0
      (EEPROM_Init stdConfig 2 0 (powerOn
        (EEPROM_WriteVariable stdConfig 2 1 0x2222 EEPROM_SIZE16
          (EEPROM_Init stdConfig 2 0 (powerOn tornFlash halOk)).2).2.flash halOk)).2 =
      (EEPROM_NOT_ASSIGNED, 0) := by
  decide

theorem tinyWide_reachable : Reachable tinyConfig tinyWide :=
  Reachable.delete _ 2 1
    (Reachable.write _ 2 0 0x1122334455667788 EEPROM_SIZE64 tinyBoot_reachable (by decide)
      (Or.inr (Or.inr rfl)) (by decide))
    (by decide) (by decide)

/-- C13 (V2.0 exact Full condition): in the tiny configuration with name 0 holding a
64-bit value and the page exactly full, `EEPROM_DeleteVariable(2)` finds no room; the page
header, the live record of name 0 (10 bytes) and a tombstone (2 bytes) are 14 bytes and fit
the page, but the capacity loop charges `2 + (1 << 0) = 3` bytes for the tombstone, gets
15 and returns `EEPROM_FULL`. -/
theorem C13_tombstone_charged_three :
    Reachable tinyConfig tinyWide ∧
    noRoom tinyConfig tinyWide EEPROM_SIZE_DELETED ∧
    2 + othersFootprint tinyConfig tinyWide 2 + recordBytes EEPROM_SIZE_DELETED = 14 ∧
    tinyConfig.pageSize = 14 ∧
    requiredMemory tinyConfig tinyWide.EEPROM_SizeTable 2 EEPROM_SIZE_DELETED = 15 ∧
    EEPROM_DeleteVariable tinyConfig 2 2 tinyWide = (some EEPROM_FULL, tinyWide) :=
  ⟨tinyWide_reachable, by decide, by decide, by decide, by decide,
    @write_full tinyConfig tinyConfig_wf tinyWide
      (reachable_steady tinyConfig_wf tinyWide_reachable) 2 EEPROM_SIZE_DELETED
      (by decide) (by decide) 0 1⟩

/-! ## The scanner: budget, independence of the tables, idempotence -/

theorem lookAhead_le (flash : Nat → Nat) (a E : Nat) :
    lookAhead flash a E [2, 4, 6, 8] 0 ≤ 8 ∧
    (lookAhead flash a E [2, 4, 6, 8] 0 ≠ 0 → 2 ≤ lookAhead flash a E [2, 4, 6, 8] 0) := by
  simp only [lookAhead]
  split_ifs <;> simp

theorem scanSize_le8 (h : Nat) (hh : h < 65536) : scanSize (h >>> 14) ≤ 8 := by
  have h3 : h >>> 14 ≤ 3 := by
    rw [Nat.shiftRight_eq_div_pow]
    have : h / 2 ^ 14 < 4 := Nat.div_lt_of_lt_mul (by norm_num; omega)
    omega
  have := scanSize_le (h >>> 14) h3
  omega

theorem scanLoop_succ (cfg : Config) (flash : Nat → Nat) (E f a : Nat)
    (T : (Nat → Nat) × (Nat → Nat)) :
    scanLoop cfg flash E (f + 1) a T =
      if a < E then
        if read16 flash a = 0xFFFF then
          if lookAhead flash a E [2, 4, 6, 8] 0 = 0 then (a, T)
          else scanLoop cfg flash E f
            ((a + 2 + lookAhead flash a E [2, 4, 6, 8] 0) % 4294967296) T
        else scanLoop cfg flash E f
          ((a + 2 + scanSize (read16 flash a >>> 14)) % 4294967296)
          (scanRecord cfg a (read16 flash a) T)
      else (a, T) := by
  rw [scanLoop]

/-- The budget of `FLASH_PAGE_SIZE` iterations is never exhausted: once the budget covers
the distance to the page end, a larger budget gives the same result. -/
theorem scanLoop_budget (cfg : Config) (flash : Nat → Nat) (E : Nat) (hE : E + 16 ≤ 4294967296)
    (fuel : Nat) : ∀ (a : Nat) (tables : (Nat → Nat) × (Nat → Nat)) (k : Nat),
    E ≤ a + 2 * fuel →
    scanLoop cfg flash E (fuel + k) a tables = scanLoop cfg flash E fuel a tables := by
  induction fuel with
  | zero =>
    intro a tables k h
    have hna : ¬ a < E := by omega
    cases k with
    | zero => rfl
    | succ k =>
      rw [show 0 + (k + 1) = k + 1 by omega, scanLoop_succ, if_neg hna]
      rfl
  | succ f ih =>
    intro a tables k h
    rw [show f + 1 + k = (f + k) + 1 by omega, scanLoop_succ, scanLoop_succ]
    by_cases ha : a < E
    · rw [if_pos ha, if_pos ha]
      by_cases hh : read16 flash a = 0xFFFF
      · rw [if_pos hh, if_pos hh]
        by_cases hl : lookAhead flash a E [2, 4, 6, 8] 0 = 0
        · rw [if_pos hl, if_pos hl]
        · rw [if_neg hl, if_neg hl]
          obtain ⟨l8, l2⟩ := lookAhead_le flash a E
          have := l2 hl
          apply ih
          rw [Nat.mod_eq_of_lt (by omega)]
          omega
      · rw [if_neg hh, if_neg hh]
        have := scanSize_le8 (read16 flash a) (read16_lt flash a)
        apply ih
        rw [Nat.mod_eq_of_lt (by omega)]
        omega
    · rw [if_neg ha, if_neg ha]

theorem scanLoop_addr (cfg : Config) (flash : Nat → Nat) (E : Nat) (fuel : Nat) :
    ∀ (a : Nat) (T T' : (Nat → Nat) × (Nat → Nat)),
    (scanLoop cfg flash E fuel a T).1 = (scanLoop cfg flash E fuel a T').1 := by
  induction fuel with
  | zero => intro a T T'; rfl
  | succ f ih =>
    intro a T T'
    rw [scanLoop_succ, scanLoop_succ]
    split_ifs
    · rfl
    · exact ih _ _ _
    · exact ih _ _ _
    · rfl

theorem scanRecord_point (cfg : Config) (a h m : Nat) :
    (∀ T T' : (Nat → Nat) × (Nat → Nat),
      (scanRecord cfg a h T).1 m = (scanRecord cfg a h T').1 m ∧
      (scanRecord cfg a h T).2 m = (scanRecord cfg a h T').2 m) ∨
    (∀ T : (Nat → Nat) × (Nat → Nat),
      (scanRecord cfg a h T).1 m = T.1 m ∧ (scanRecord cfg a h T).2 m = T.2 m) := by
  unfold scanRecord
  by_cases hn : h &&& 0x3FFF < cfg.varCount
  · by_cases hm : m = h &&& 0x3FFF
    · left; intro T T'; simp [hn, hm]
    · right; intro T; simp [hn, hm]
  · right; intro T; simp [hn]

/-- Every table entry is either overwritten by the scan with a value that does not depend
on the tables it started from, or left as it was. -/
theorem scanLoop_point (cfg : Config) (flash : Nat → Nat) (E m : Nat) (fuel : Nat) :
    ∀ (a : Nat),
    (∀ T T' : (Nat → Nat) × (Nat → Nat),
      (scanLoop cfg flash E fuel a T).2.1 m = (scanLoop cfg flash E fuel a T').2.1 m ∧
      (scanLoop cfg flash E fuel a T).2.2 m = (scanLoop cfg flash E fuel a T').2.2 m) ∨
    (∀ T : (Nat → Nat) × (Nat → Nat),
      (scanLoop cfg flash E fuel a T).2.1 m = T.1 m ∧
      (scanLoop cfg flash E fuel a T).2.2 m = T.2 m) := by
  induction fuel with
  | zero => intro a; right; intro T; exact ⟨rfl, rfl⟩
  | succ f ih =>
    intro a
    by_cases ha : a < E
    · by_cases hh : read16 flash a = 0xFFFF
      · by_cases hl : lookAhead flash a E [2, 4, 6, 8] 0 = 0
        · right; intro T
          rw [scanLoop_succ, if_pos ha, if_pos hh, if_pos hl]
          exact ⟨rfl, rfl⟩
        · have e : ∀ T, scanLoop cfg flash E (f + 1) a T =
              scanLoop cfg flash E f
                ((a + 2 + lookAhead flash a E [2, 4, 6, 8] 0) % 4294967296) T := by
            intro T
            rw [scanLoop_succ, if_pos ha, if_pos hh, if_neg hl]
          rcases ih ((a + 2 + lookAhead flash a E [2, 4, 6, 8] 0) % 4294967296) with h | h
          · left; intro T T'; rw [e, e]; exact h T T'
          · right; intro T; rw [e]; exact h T
      · have e : ∀ T, scanLoop cfg flash E (f + 1) a T =
            scanLoop cfg flash E f
              ((a + 2 + scanSize (read16 flash a >>> 14)) % 4294967296)
              (scanRecord cfg a (read16 flash a) T) := by
          intro T
          rw [scanLoop_succ, if_pos ha, if_neg hh]
        rcases ih ((a + 2 + scanSize (read16 flash a >>> 14)) % 4294967296) with h | h
        · left; intro T T'; rw [e, e]; exact h _ _
        · rcases scanRecord_point cfg a (read16 flash a) m with g | g
          · left; intro T T'
            rw [e, e, (h _).1, (h _).2, (h _).1, (h _).2]
            exact g T T'
          · right; intro T
            rw [e, (h _).1, (h _).2]
            exact g T
    · right; intro T
      rw [scanLoop_succ, if_neg ha]
      exact ⟨rfl, rfl⟩

theorem scanLoop_idem (cfg : Config) (flash : Nat → Nat) (E fuel a : Nat)
    (T : (Nat → Nat) × (Nat → Nat)) :
    scanLoop cfg flash E fuel a (scanLoop cfg flash E fuel a T).2 =
      scanLoop cfg flash E fuel a T := by
  apply Prod.ext
  · exact scanLoop_addr cfg flash E fuel a _ _
  · apply Prod.ext
    · funext m
      rcases scanLoop_point cfg flash E m fuel a with h | h
      · exact (h _ _).1
      · exact (h _).1
    · funext m
      rcases scanLoop_point cfg flash E m fuel a with h | h
      · exact (h _ _).2
      · exact (h _).2

/-- C20 (V2.0 scan idempotence): for every flash content, every page (`EEPROM_PAGE_NONE`
included) and every in-memory state, running `EEPROM_PageToIndex(page)` twice in a row
gives exactly the state of running it once (same `Index`, `SizeTable`, `EEPROM_NextIndex`),
and the scan changes neither flash, nor the page roles, nor issues a primitive call. -/
theorem C20_scan_idempotent (cfg : Config) (Page : Nat) (s : State) :
    EEPROM_PageToIndex cfg Page (EEPROM_PageToIndex cfg Page s) =
      EEPROM_PageToIndex cfg Page s ∧
    (EEPROM_PageToIndex cfg Page s).flash = s.flash ∧
    (EEPROM_PageToIndex cfg Page s).log = s.log ∧
    (EEPROM_PageToIndex cfg Page s).EEPROM_ValidPage = s.EEPROM_ValidPage ∧
    (EEPROM_PageToIndex cfg Page s).EEPROM_ReceivingPage = s.EEPROM_ReceivingPage ∧
    (EEPROM_PageToIndex cfg Page s).EEPROM_ErasedPage = s.EEPROM_ErasedPage := by
  by_cases hp : Page = EEPROM_PAGE_NONE
  · simp [EEPROM_PageToIndex, hp]
  · have e : ∀ t : State, EEPROM_PageToIndex cfg Page t =
        { t with
          EEPROM_Index := (scanLoop cfg t.flash ((Page + cfg.pageSize) % 4294967296)
            cfg.pageSize ((Page + 2) % 4294967296) (t.EEPROM_Index, t.EEPROM_SizeTable)).2.1,
          EEPROM_SizeTable := (scanLoop cfg t.flash ((Page + cfg.pageSize) % 4294967296)
            cfg.pageSize ((Page + 2) % 4294967296) (t.EEPROM_Index, t.EEPROM_SizeTable)).2.2,
          EEPROM_NextIndex :=
            if (scanLoop cfg t.flash ((Page + cfg.pageSize) % 4294967296)
              cfg.pageSize ((Page + 2) % 4294967296)
              (t.EEPROM_Index, t.EEPROM_SizeTable)).1 ≥ (Page + cfg.pageSize) % 4294967296
            then 0
            else (scanLoop cfg t.flash ((Page + cfg.pageSize) % 4294967296)
              cfg.pageSize ((Page + 2) % 4294967296)
              (t.EEPROM_Index, t.EEPROM_SizeTable)).1 } := by
      intro t
      unfold EEPROM_PageToIndex
      rw [if_neg hp]
    have h := scanLoop_idem cfg s.flash ((Page + cfg.pageSize) % 4294967296) cfg.pageSize
      ((Page + 2) % 4294967296) (s.EEPROM_Index, s.EEPROM_SizeTable)
    refine ⟨?_, ?_, ?_, ?_, ?_, ?_⟩
    · rw [e (EEPROM_PageToIndex cfg Page s), e s]
      simp only [h]
    all_goals rw [e s]

/-! ## Propagation of primitive failures; the call log -/

theorem ofHAL_success {h : HAL_Status} (e : ofHAL h = EEPROM_SUCCESS) : h = HAL_OK := by
  cases h <;> first | rfl | cases e

theorem propagated_refl (s : State) (r : Option EEPROM_Result) : Propagated s r s :=
  ⟨rfl, ⟨[], by simp⟩, fun j h1 h2 _ => absurd h2 (by omega)⟩

theorem propagated_of_eq {s t t' : State} {r : Option EEPROM_Result}
    (h : Propagated s r t) (hh : t'.hal = t.hal) (hl : t'.log = t.log) : Propagated s r t' := by
  unfold Propagated at *
  rw [hh, hl]
  exact h

theorem propagated_of_eq_left {s u t : State} {r : Option EEPROM_Result}
    (h : Propagated s r t) (hh : u.hal = s.hal) (hl : u.log = s.log) : Propagated u r t := by
  unfold Propagated at *
  rw [hh, hl]
  exact h

theorem propagated_trans {s t u : State} {r : Option EEPROM_Result}
    (h1 : Propagated s (some EEPROM_SUCCESS) t) (h2 : Propagated t r u) :
    Propagated s r u := by
  obtain ⟨a1, ⟨o1, b1⟩, c1⟩ := h1
  obtain ⟨a2, ⟨o2, b2⟩, c2⟩ := h2
  refine ⟨a2.trans a1, ⟨o1 ++ o2, by rw [b2, b1, List.append_assoc]⟩, ?_⟩
  intro j hj1 hj2 hne
  have hlen : s.log.length ≤ t.log.length := by rw [b1]; simp
  by_cases hjt : j < t.log.length
  · have := (c1 j hj1 hjt hne).2
    simp only [Option.some.injEq] at this
    exact absurd (ofHAL_success this.symm) hne
  · rw [← a1] at hne ⊢
    exact c2 j (by omega) hj2 hne

theorem noFormat_refl (s : State) : NoFormat s s := ⟨[], by simp, by simp⟩

theorem noFormat_of_eq {s t t' : State} (h : NoFormat s t) (hl : t'.log = t.log) :
    NoFormat s t' := by
  unfold NoFormat at *
  rw [hl]
  exact h

theorem noFormat_of_eq_left {s u t : State} (h : NoFormat s t) (hl : u.log = s.log) :
    NoFormat u t := by
  unfold NoFormat at *
  rw [hl]
  exact h

theorem noFormat_trans {s t u : State} (h1 : NoFormat s t) (h2 : NoFormat t u) :
    NoFormat s u := by
  obtain ⟨o1, b1, c1⟩ := h1
  obtain ⟨o2, b2, c2⟩ := h2
  refine ⟨o1 ++ o2, by rw [b2, b1, List.append_assoc], ?_⟩
  intro op hop
  rcases List.mem_append.1 hop with h | h
  · exact c1 op h
  · exact c2 op h

theorem traced_refl (s : State) (r : Option EEPROM_Result) : Traced s r s :=
  ⟨propagated_refl s r, noFormat_refl s⟩

theorem traced_of_eq {s t t' : State} {r : Option EEPROM_Result}
    (h : Traced s r t) (hh : t'.hal = t.hal) (hl : t'.log = t.log) : Traced s r t' :=
  ⟨propagated_of_eq h.1 hh hl, noFormat_of_eq h.2 hl⟩

theorem traced_of_eq_left {s u t : State} {r : Option EEPROM_Result}
    (h : Traced s r t) (hh : u.hal = s.hal) (hl : u.log = s.log) : Traced u r t :=
  ⟨propagated_of_eq_left h.1 hh hl, noFormat_of_eq_left h.2 hl⟩

theorem traced_trans {s t u : State} {r : Option EEPROM_Result}
    (h1 : Traced s (some EEPROM_SUCCESS) t) (h2 : Traced t r u) : Traced s r u :=
  ⟨propagated_trans h1.1 h2.1, noFormat_trans h1.2 h2.2⟩

theorem halCall_propagated (cfg : Config) (op : FlashOp) (s : State) :
    Propagated s (some (ofHAL (halCall cfg op s).1)) (halCall cfg op s).2 := by
  refine ⟨rfl, ⟨[op], rfl⟩, ?_⟩
  intro j h1 h2 _
  have hl : (halCall cfg op s).2.log.length = s.log.length + 1 := by
    simp [halCall]
  have hj : j = s.log.length := by omega
  subst hj
  exact ⟨hl.symm, rfl⟩

theorem halCall_noFormat (cfg : Config) (op : FlashOp) (s : State)
    (h : ∀ p, op ≠ FlashOp.erase p 2) : NoFormat s (halCall cfg op s).2 := by
  refine ⟨[op], rfl, ?_⟩
  intro o ho
  rw [List.mem_singleton] at ho
  subst ho
  exact h

theorem halCall_traced (cfg : Config) (op : FlashOp) (s : State)
    (h : ∀ p, op ≠ FlashOp.erase p 2) :
    Traced s (some (ofHAL (halCall cfg op s).1)) (halCall cfg op s).2 :=
  ⟨halCall_propagated cfg op s, halCall_noFormat cfg op s h⟩

theorem updateRoles_hal_log (Page st : Nat) (s : State) :
    (updateRoles Page st s).hal = s.hal ∧ (updateRoles Page st s).log = s.log := by
  unfold updateRoles
  constructor <;> (simp only []; split_ifs <;> rfl)

theorem SetPageStatus_traced (cfg : Config) (Page st : Nat) (s : State) :
    Traced s (some (EEPROM_SetPageStatus cfg Page st s).1) (EEPROM_SetPageStatus cfg Page st s).2 := by
  unfold EEPROM_SetPageStatus
  by_cases hst : st = EEPROM_ERASED
  · rw [if_pos hst]
    simp only []
    have h := halCall_traced cfg (FlashOp.erase Page 1)
      { s with EEPROM_Index := purgeIndex cfg Page s.EEPROM_Index } (by intro p; simp)
    have h' := traced_of_eq_left (u := s) h rfl rfl
    unfold HAL_FLASHEx_Erase
    cases hc : halCall cfg (FlashOp.erase Page 1)
        { s with EEPROM_Index := purgeIndex cfg Page s.EEPROM_Index } with
    | mk r1 s2 =>
      rw [hc] at h'
      cases r1 with
      | HAL_OK =>
        exact traced_of_eq h' (updateRoles_hal_log Page st s2).1 (updateRoles_hal_log Page st s2).2
      | _ => exact h'
  · rw [if_neg hst]
    have h := halCall_traced cfg (FlashOp.program 1 Page st) s (by intro p; simp)
    unfold HAL_FLASH_Program
    cases hc : halCall cfg (FlashOp.program 1 Page st) s with
    | mk r1 s2 =>
      rw [hc] at h
      cases r1 with
      | HAL_OK =>
        exact traced_of_eq h (updateRoles_hal_log Page st s2).1 (updateRoles_hal_log Page st s2).2
      | _ => exact h

theorem appendRecord_traced (cfg : Config) (n v size : Nat) (s : State) :
    Traced s (some (appendRecord cfg n v size s).1) (appendRecord cfg n v size s).2 := by
  unfold appendRecord
  have key : ∀ s1 : State, Traced s1
      (some (match HAL_FLASH_Program cfg 1 s1.EEPROM_NextIndex ((n + (size <<< 14)) % 65536) s1 with
        | (HAL_OK, s2) => (EEPROM_SUCCESS,
            ({ s2 with
              EEPROM_Index := fun m => if m = n then
                (if size = EEPROM_SIZE_DELETED then 0
                 else ((s2.EEPROM_NextIndex + 2 + 4294967296 - cfg.start) % 4294967296) % 65536)
                else s2.EEPROM_Index m,
              EEPROM_SizeTable := fun m => if m = n then size % 256 else s2.EEPROM_SizeTable m,
              EEPROM_NextIndex :=
                if (s2.EEPROM_NextIndex + recordBytes size) % 4294967296 ≥
                    (writingPage s + cfg.pageSize) % 4294967296 then 0
                else (s2.EEPROM_NextIndex + recordBytes size) % 4294967296 } : State))
        | (r, s2) => (ofHAL r, s2)).1)
      (match HAL_FLASH_Program cfg 1 s1.EEPROM_NextIndex ((n + (size <<< 14)) % 65536) s1 with
        | (HAL_OK, s2) => (EEPROM_SUCCESS,
            ({ s2 with
              EEPROM_Index := fun m => if m = n then
                (if size = EEPROM_SIZE_DELETED then 0
                 else ((s2.EEPROM_NextIndex + 2 + 4294967296 - cfg.start) % 4294967296) % 65536)
                else s2.EEPROM_Index m,
              EEPROM_SizeTable := fun m => if m = n then size % 256 else s2.EEPROM_SizeTable m,
              EEPROM_NextIndex :=
                if (s2.EEPROM_NextIndex + recordBytes size) % 4294967296 ≥
                    (writingPage s + cfg.pageSize) % 4294967296 then 0
                else (s2.EEPROM_NextIndex + recordBytes size) % 4294967296 } : State))
        | (r, s2) => (ofHAL r, s2)).2 := by
    intro s1
    have h := halCall_traced cfg
      (FlashOp.program 1 s1.EEPROM_NextIndex ((n + (size <<< 14)) % 65536)) s1
      (by intro p; simp)
    unfold HAL_FLASH_Program
    cases hc : halCall cfg
        (FlashOp.program 1 s1.EEPROM_NextIndex ((n + (size <<< 14)) % 65536)) s1 with
    | mk r1 s2 =>
      rw [hc] at h
      cases r1 with
      | HAL_OK => exact traced_of_eq h rfl rfl
      | _ => exact h
  by_cases hs : size = EEPROM_SIZE_DELETED
  · simp only [hs, ne_eq, not_true_eq_false, if_false]
    have := key s
    simp only [hs] at this
    exact this
  · simp only [ne_eq, hs, not_false_eq_true, if_true]
    have h := halCall_traced cfg
      (FlashOp.program size ((s.EEPROM_NextIndex + 2) % 4294967296) v) s (by intro p; simp)
    unfold HAL_FLASH_Program at key ⊢
    cases hc : halCall cfg
        (FlashOp.program size ((s.EEPROM_NextIndex + 2) % 4294967296) v) s with
    | mk r1 s1 =>
      rw [hc] at h
      cases r1 with
      | HAL_OK =>
        simp only []
        have k := key s1
        simp only [if_neg hs] at k
        exact traced_trans h k
      | _ => exact h

theorem transferStep_traced (cfg : Config)
    (write : Nat → Nat → Nat → State → Option EEPROM_Result × State)
    (hwrite : ∀ i v sz t, Traced t (write i v sz t).1 (write i v sz t).2)
    (s : State) (Source : Nat) (acc : Option EEPROM_Result × Nat × State) (i : Nat)
    (h : Traced s acc.1 acc.2.2) :
    Traced s (transferStep cfg write Source acc i).1 (transferStep cfg write Source acc i).2.2 := by
  obtain ⟨r, Value, t⟩ := acc
  unfold transferStep
  cases r with
  | none => exact h
  | some r =>
    by_cases hr : r = EEPROM_SUCCESS
    · subst hr
      simp only []
      by_cases hon : onPage cfg Source (t.EEPROM_Index i)
      · rw [if_pos hon]
        cases hrd : EEPROM_ReadVariable cfg i Value t with
        | mk rr Value1 =>
          by_cases hrr : rr = EEPROM_SUCCESS
          · subst hrr
            simp only []
            exact traced_trans h (hwrite i Value1 (t.EEPROM_SizeTable i) t)
          · cases rr <;> first | exact absurd rfl hrr | exact h
      · rw [if_neg hon]
        exact h
    · cases r <;> first | exact absurd rfl hr | exact h

theorem transferFold_traced (cfg : Config)
    (write : Nat → Nat → Nat → State → Option EEPROM_Result × State)
    (hwrite : ∀ i v sz t, Traced t (write i v sz t).1 (write i v sz t).2)
    (s : State) (Source : Nat) (l : List Nat) :
    ∀ acc : Option EEPROM_Result × Nat × State, Traced s acc.1 acc.2.2 →
      Traced s (l.foldl (transferStep cfg write Source) acc).1
        (l.foldl (transferStep cfg write Source) acc).2.2 := by
  induction l with
  | nil => intro acc h; exact h
  | cons i l ih =>
    intro acc h
    rw [List.foldl_cons]
    exact ih _ (transferStep_traced cfg write hwrite s Source acc i h)

theorem pageTransferWith_traced (cfg : Config)
    (write : Nat → Nat → Nat → State → Option EEPROM_Result × State)
    (hwrite : ∀ i v sz t, Traced t (write i v sz t).1 (write i v sz t).2)
    (Value0 : Nat) (s : State) :
    Traced s (pageTransferWith cfg write Value0 s).1 (pageTransferWith cfg write Value0 s).2 := by
  unfold pageTransferWith
  have hf := transferFold_traced cfg write hwrite s s.EEPROM_ValidPage
    (List.range cfg.varCount) (some EEPROM_SUCCESS, Value0, s) (traced_refl s _)
  cases hfold : (List.range cfg.varCount).foldl (transferStep cfg write s.EEPROM_ValidPage)
      (some EEPROM_SUCCESS, Value0, s) with
  | mk r rest =>
    obtain ⟨Value, s1⟩ := rest
    rw [hfold] at hf
    cases r with
    | none => exact hf
    | some r =>
      by_cases hr : r = EEPROM_SUCCESS
      · subst hr
        simp only []
        have h1 := SetPageStatus_traced cfg s1.EEPROM_ValidPage EEPROM_ERASED s1
        cases he : EEPROM_SetPageStatus cfg s1.EEPROM_ValidPage EEPROM_ERASED s1 with
        | mk r1 s2 =>
          rw [he] at h1
          by_cases hr1 : r1 = EEPROM_SUCCESS
          · subst hr1
            simp only []
            have h2 := SetPageStatus_traced cfg s2.EEPROM_ReceivingPage EEPROM_VALID s2
            cases hv : EEPROM_SetPageStatus cfg s2.EEPROM_ReceivingPage EEPROM_VALID s2 with
            | mk r2 s3 =>
              rw [hv] at h2
              have h3 := traced_trans hf (traced_trans h1 h2)
              cases r2 <;> exact h3
          · have h3 := traced_trans hf h1
            cases r1 <;> first | exact absurd rfl hr1 | exact h3
      · cases r <;> first | exact absurd rfl hr | exact hf

/-- Every call of `EEPROM_WriteVariable`, at every nesting budget and from every state,
propagates primitive failures and issues no two-page erase. -/
theorem write_traced (cfg : Config) (fuel : Nat) :
    ∀ n v size s, Traced s (EEPROM_WriteVariable cfg fuel n v size s).1
      (EEPROM_WriteVariable cfg fuel n v size s).2 := by
  induction fuel with
  | zero => intro n v size s; exact traced_refl s _
  | succ f ih =>
    intro n v size s
    rw [EEPROM_WriteVariable]
    by_cases hw : writingPage s = EEPROM_PAGE_NONE
    · rw [if_pos hw]; exact traced_refl s _
    · rw [if_neg hw]
      by_cases hno : noRoom cfg s size
      · rw [if_pos hno]
        by_cases hreq : requiredMemory cfg s.EEPROM_SizeTable n size > cfg.pageSize
        · rw [if_pos hreq]; exact traced_refl s _
        · rw [if_neg hreq]
          have h1 := SetPageStatus_traced cfg s.EEPROM_ErasedPage EEPROM_RECEIVING s
          cases he : EEPROM_SetPageStatus cfg s.EEPROM_ErasedPage EEPROM_RECEIVING s with
          | mk r1 s1 =>
            rw [he] at h1
            by_cases hr1 : r1 = EEPROM_SUCCESS
            · subst hr1
              simp only []
              have h2 := (ih n v size
                { s1 with EEPROM_NextIndex := (s1.EEPROM_ReceivingPage + 2) % 4294967296 })
              have h2' := traced_trans h1 (traced_of_eq_left (u := s1) h2 rfl rfl)
              cases hn : EEPROM_WriteVariable cfg f n v size
                  { s1 with EEPROM_NextIndex := (s1.EEPROM_ReceivingPage + 2) % 4294967296 } with
              | mk r2 s3 =>
                rw [hn] at h2'
                cases r2 with
                | none => exact h2'
                | some r2 =>
                  by_cases hr2 : r2 = EEPROM_SUCCESS
                  · subst hr2
                    simp only []
                    exact traced_trans h2' (pageTransferWith_traced cfg _ ih v s3)
                  · cases r2 <;> first | exact absurd rfl hr2 | exact h2'
            · cases r1 <;> first | exact absurd rfl hr1 | exact h1
      · rw [if_neg hno]
        exact appendRecord_traced cfg n v size s

theorem pageToIndex_hal_log (cfg : Config) (Page : Nat) (s : State) :
    (EEPROM_PageToIndex cfg Page s).hal = s.hal ∧ (EEPROM_PageToIndex cfg Page s).log = s.log := by
  unfold EEPROM_PageToIndex
  split_ifs
  · exact ⟨rfl, rfl⟩
  · exact ⟨rfl, rfl⟩

theorem assignRoles_hal_log (cfg : Config) (a b : Nat) (s : State) :
    (assignRoles cfg a b s).hal = s.hal ∧ (assignRoles cfg a b s).log = s.log := by
  unfold assignRoles
  constructor <;> (simp only []; split_ifs <;> rfl)

theorem initTail_traced (cfg : Config) (fuel Value0 a b : Nat) (s : State) :
    Traced s (initTail cfg fuel Value0 a b s).1 (initTail cfg fuel Value0 a b s).2 := by
  unfold initTail
  simp only []
  have e1 := assignRoles_hal_log cfg a b s
  have e2 := pageToIndex_hal_log cfg (assignRoles cfg a b s).EEPROM_ValidPage
    (assignRoles cfg a b s)
  have e3 := pageToIndex_hal_log cfg
    (EEPROM_PageToIndex cfg (assignRoles cfg a b s).EEPROM_ValidPage
      (assignRoles cfg a b s)).EEPROM_ReceivingPage
    (EEPROM_PageToIndex cfg (assignRoles cfg a b s).EEPROM_ValidPage (assignRoles cfg a b s))
  generalize EEPROM_PageToIndex cfg
    (EEPROM_PageToIndex cfg (assignRoles cfg a b s).EEPROM_ValidPage
      (assignRoles cfg a b s)).EEPROM_ReceivingPage
    (EEPROM_PageToIndex cfg (assignRoles cfg a b s).EEPROM_ValidPage (assignRoles cfg a b s))
    = s3 at e3 ⊢
  have hh : s3.hal = s.hal := e3.1.trans (e2.1.trans e1.1)
  have hl : s3.log = s.log := e3.2.trans (e2.2.trans e1.2)
  by_cases hR : s3.EEPROM_ReceivingPage ≠ EEPROM_PAGE_NONE
  · rw [if_pos hR]
    by_cases hV : s3.EEPROM_ValidPage = EEPROM_PAGE_NONE
    · rw [if_pos hV]
      have h1 := traced_of_eq_left (SetPageStatus_traced cfg s3.EEPROM_ReceivingPage EEPROM_VALID s3)
        (u := s) hh.symm hl.symm
      cases he : EEPROM_SetPageStatus cfg s3.EEPROM_ReceivingPage EEPROM_VALID s3 with
      | mk r1 s4 =>
        rw [he] at h1
        cases r1 <;> exact h1
    · rw [if_neg hV]
      exact traced_of_eq_left (pageTransferWith_traced cfg _ (write_traced cfg fuel) Value0 s3)
        (u := s) hh.symm hl.symm
  · rw [if_neg hR]
    exact traced_of_eq_left (u := s) (traced_refl s3 _) hh.symm hl.symm

theorem init_propagated (cfg : Config) (fuel Value0 : Nat) (s : State) :
    Propagated s (EEPROM_Init cfg fuel Value0 s).1 (EEPROM_Init cfg fuel Value0 s).2 := by
  unfold EEPROM_Init
  simp only []
  by_cases hinv : invalidState (read16 s.flash (EEPROM_PAGE0 cfg))
      (read16 s.flash (EEPROM_PAGE1 cfg))
  · rw [if_pos hinv]
    have h1 := halCall_propagated cfg (FlashOp.erase (EEPROM_PAGE0 cfg) 2) s
    unfold HAL_FLASHEx_Erase
    cases he : halCall cfg (FlashOp.erase (EEPROM_PAGE0 cfg) 2) s with
    | mk r1 s1 =>
      rw [he] at h1
      cases r1 with
      | HAL_OK =>
        simp only []
        have h2 := halCall_propagated cfg
          (FlashOp.program EEPROM_SIZE16 (EEPROM_PAGE0 cfg) EEPROM_VALID) s1
        unfold HAL_FLASH_Program
        cases hp : halCall cfg
            (FlashOp.program EEPROM_SIZE16 (EEPROM_PAGE0 cfg) EEPROM_VALID) s1 with
        | mk r2 s2 =>
          rw [hp] at h2
          cases r2 with
          | HAL_OK =>
            exact propagated_trans h1 (propagated_trans h2 (initTail_traced cfg fuel Value0 _ _ s2).1)
          | _ => exact propagated_trans h1 h2
      | _ => exact h1
  · rw [if_neg hinv]
    exact (initTail_traced cfg fuel Value0 _ _ s).1

theorem init_noFormat (cfg : Config) (fuel Value0 : Nat) (s : State)
    (hinv : ¬ invalidState (read16 s.flash (EEPROM_PAGE0 cfg))
      (read16 s.flash (EEPROM_PAGE1 cfg))) :
    NoFormat s (EEPROM_Init cfg fuel Value0 s).2 := by
  unfold EEPROM_Init
  simp only []
  rw [if_neg hinv]
  exact (initTail_traced cfg fuel Value0 _ _ s).2

/-- C12 (V2.0 hardware-error propagation): for every state, every nesting budget and
every HAL outcome schedule, `EEPROM_Init`, `EEPROM_WriteVariable` and
`EEPROM_DeleteVariable` (the nested page transfer included) only append to the call log,
and if a primitive call they issue reports a status other than `HAL_OK`, that call is the
last one issued and the operation returns exactly that status. -/
theorem C12_error_propagation (cfg : Config) (fuel n v size Value0 : Nat) (s : State) :
    Propagated s (EEPROM_Init cfg fuel Value0 s).1 (EEPROM_Init cfg fuel Value0 s).2 ∧
    Propagated s (EEPROM_WriteVariable cfg fuel n v size s).1
      (EEPROM_WriteVariable cfg fuel n v size s).2 ∧
    Propagated s (EEPROM_DeleteVariable cfg fuel n s).1 (EEPROM_DeleteVariable cfg fuel n s).2 :=
  ⟨init_propagated cfg fuel Value0 s, (write_traced cfg fuel n v size s).1,
    (write_traced cfg fuel n 0 EEPROM_SIZE_DELETED s).1⟩

/-- A timeout of the header program (the fourth primitive call since power-on) during
`write(0, 0x1234, Half)` on the shipped configuration: the write returns
`EEPROM_TIMEOUT` and no further call is issued. -/
theorem C12_error_propagation_witness :
    (EEPROM_WriteVariable stdConfig 2 0 0x1234 EEPROM_SIZE16
      { stdBoot with hal := fun k => if k = 3 then HAL_TIMEOUT else HAL_OK }).2.log.length = 4 ∧
    (EEPROM_WriteVariable stdConfig 2 0 0x1234 EEPROM_SIZE16
      { stdBoot with hal := fun k => if k = 3 then HAL_TIMEOUT else HAL_OK }).1 =
      some EEPROM_TIMEOUT :=
  (fun h => ⟨h.1.symm, h.2⟩)
    ((C12_error_propagation stdConfig 2 0 0x1234 EEPROM_SIZE16 0
      { stdBoot with hal := fun k => if k = 3 then HAL_TIMEOUT else HAL_OK }).2.1.2.2 3
      (by decide) (by decide) (by decide))

/-- C8 (V2.0 auto-format on inconsistent headers): starting from the power-on state, for
every flash image whose two status headers are inconsistent, `EEPROM_Init` with no error
of its two primitives returns `EEPROM_SUCCESS`, leaves page0 with header Valid and no
records, page1 entirely erased, the roles Valid = page0 and Erased = page1, and
`EEPROM_ReadVariable` returns `EEPROM_NOT_ASSIGNED` for every name below
`EEPROM_VARIABLE_COUNT`; for every consistent header pair, whatever the HAL outcomes, no
two-page erase is issued. -/
theorem C8_auto_format {cfg : Config} (hwf : cfg.WF) (flash : Nat → Nat)
    (hal : Nat → HAL_Status) (fuel Value0 : Nat) :
    (invalidState (read16 flash (EEPROM_PAGE0 cfg)) (read16 flash (EEPROM_PAGE1 cfg)) →
      hal 0 = HAL_OK → hal 1 = HAL_OK →
      (EEPROM_Init cfg fuel Value0 (powerOn flash hal)).1 = some EEPROM_SUCCESS ∧
      read16 (EEPROM_Init cfg fuel Value0 (powerOn flash hal)).2.flash (EEPROM_PAGE0 cfg) =
        EEPROM_VALID ∧
      (∀ a, EEPROM_PAGE0 cfg + 2 ≤ a → a < EEPROM_PAGE0 cfg + cfg.pageSize →
        read16 (EEPROM_Init cfg fuel Value0 (powerOn flash hal)).2.flash a = 0xFFFF) ∧
      (∀ a, EEPROM_PAGE1 cfg ≤ a → a < EEPROM_PAGE1 cfg + cfg.pageSize →
        read16 (EEPROM_Init cfg fuel Value0 (powerOn flash hal)).2.flash a = 0xFFFF) ∧
      (EEPROM_Init cfg fuel Value0 (powerOn flash hal)).2.EEPROM_ValidPage = EEPROM_PAGE0 cfg ∧
      (EEPROM_Init cfg fuel Value0 (powerOn flash hal)).2.EEPROM_ErasedPage =
        EEPROM_PAGE1 cfg ∧
      (EEPROM_Init cfg fuel Value0 (powerOn flash hal)).2.EEPROM_ReceivingPage =
        EEPROM_PAGE_NONE ∧
      (∀ m, m < cfg.varCount → ∀ Value,
        EEPROM_ReadVariable cfg m Value (EEPROM_Init cfg fuel Value0 (powerOn flash hal)).2 =
          (EEPROM_NOT_ASSIGNED, Value))) ∧
    (¬ invalidState (read16 flash (EEPROM_PAGE0 cfg)) (read16 flash (EEPROM_PAGE1 cfg)) →
      ∀ p, FlashOp.erase p 2 ∉ (EEPROM_Init cfg fuel Value0 (powerOn flash hal)).2.log) := by
  constructor
  · intro hinv h0 h1
    obtain ⟨_, hst, hok⟩ := init_format hwf flash hal fuel Value0 hinv
    have hs := formatted_steady hwf flash hal
    rw [hst (hok h0 h1)]
    refine ⟨hok h0 h1, hs.header, ?_, hs.blank, rfl, rfl, rfl, ?_⟩
    · intro a ha1 ha2
      apply hs.core.free a
      · have : cursorOf cfg (EEPROM_PAGE0 cfg) (formattedState cfg flash hal) =
            EEPROM_PAGE0 cfg + 2 := by
          unfold cursorOf formattedState
          have := hwf.start_pos
          simp only []
          rw [if_neg (by omega)]
        show cursorOf cfg (EEPROM_PAGE0 cfg) (formattedState cfg flash hal) ≤ a
        omega
      · exact ha2
    · intro m hm Value
      exact read_deleted hwf hs.core hm rfl Value
  · intro hinv p hmem
    obtain ⟨ops, e, hno⟩ := init_noFormat cfg fuel Value0 (powerOn flash hal) hinv
    rw [e] at hmem
    have : FlashOp.erase p 2 ∈ ops := by
      simpa [powerOn] using hmem
    exact hno _ this p rfl

/-- The fresh device on the shipped configuration (both headers erased): init returns
`EEPROM_SUCCESS` and name 0 reads `EEPROM_NOT_ASSIGNED` (Scenario A). -/
theorem C8_auto_format_witness :
    invalidState (read16 freshFlash (EEPROM_PAGE0 stdConfig))
      (read16 freshFlash (EEPROM_PAGE1 stdConfig)) ∧
    (EEPROM_Init stdConfig 2 0 (powerOn freshFlash halOk)).1 = some EEPROM_SUCCESS ∧
    EEPROM_ReadVariable stdConfig 0 0 (EEPROM_Init stdConfig 2 0 (powerOn freshFlash halOk)).2 =
      (EEPROM_NOT_ASSIGNED, 0) :=
  (fun h => ⟨by decide, h.1, h.2.2.2.2.2.2.2 0 (by decide) 0⟩)
    ((C8_auto_format stdConfig_wf freshFlash halOk 2 0).1 (by decide) rfl rfl)

/-! ## Rebuilding the tables from flash -/

theorem committed_ge {cfg : Config} {flash : Nat → Nat} {P a : Nat}
    {T : (Nat → Nat) × (Nat → Nat)} (h : Committed cfg flash P a T) : P + 2 ≤ a := by
  induction h with
  | nil => exact Nat.le_refl _
  | snoc _ _ _ ih => omega

theorem committed_frame {cfg : Config} {f g : Nat → Nat} {P a : Nat}
    {T : (Nat → Nat) × (Nat → Nat)} (h : Committed cfg f P a T)
    (hfg : ∀ x, P + 2 ≤ x → x < a → read16 g x = read16 f x) : Committed cfg g P a T := by
  induction h with
  | nil => exact Committed.nil
  | snoc hc hlt hne ih =>
    rename_i a0 T0
    have hge := committed_ge hc
    have e : read16 g a0 = read16 f a0 := hfg a0 hge (by omega)
    rw [← e]
    exact Committed.snoc (ih (fun x h1 h2 => hfg x h1 (by omega))) hlt (by rw [e]; exact hne)

theorem scanRecord_outside (cfg : Config) (a h : Nat) (T : (Nat → Nat) × (Nat → Nat))
    (m : Nat) (hm : cfg.varCount ≤ m) :
    (scanRecord cfg a h T).1 m = T.1 m ∧ (scanRecord cfg a h T).2 m = T.2 m := by
  unfold scanRecord
  by_cases hn : h &&& 0x3FFF < cfg.varCount
  · have : m ≠ h &&& 0x3FFF := by omega
    simp [hn, this]
  · simp [hn]

theorem committed_outside {cfg : Config} {flash : Nat → Nat} {P a : Nat}
    {T : (Nat → Nat) × (Nat → Nat)} (h : Committed cfg flash P a T)
    (m : Nat) (hm : cfg.varCount ≤ m) : T.1 m = 0 ∧ T.2 m = 0 := by
  induction h with
  | nil => exact ⟨rfl, rfl⟩
  | snoc _ _ _ ih =>
    obtain ⟨e1, e2⟩ := scanRecord_outside cfg _ _ _ m hm
    rw [e1, e2]
    exact ih

/-- Scanning a page whose records up to `a` are committed: after as many iterations as
there are records the scan stands at `a` with the tables of those records. -/
theorem committed_scan {cfg : Config} {flash : Nat → Nat} {P a : Nat}
    {T : (Nat → Nat) × (Nat → Nat)} (h : Committed cfg flash P a T)
    (hE : P + cfg.pageSize + 16 ≤ 4294967296) :
    ∃ k, 2 * k + (P + 2) ≤ a ∧ ∀ fuel,
      scanLoop cfg flash (P + cfg.pageSize) (fuel + k) (P + 2) (fun _ => 0, fun _ => 0) =
        scanLoop cfg flash (P + cfg.pageSize) fuel a T := by
  induction h with
  | nil => exact ⟨0, by omega, fun fuel => rfl⟩
  | snoc hc hlt hne ih =>
    rename_i a0 T0
    obtain ⟨k, hk, hscan⟩ := ih
    refine ⟨k + 1, by omega, ?_⟩
    intro fuel
    have := scanSize_le8 (read16 flash a0) (read16_lt flash a0)
    rw [show fuel + (k + 1) = (fuel + 1) + k by omega, hscan (fuel + 1), scanLoop_succ,
      if_pos hlt, if_neg hne, Nat.mod_eq_of_lt (by omega)]

/-- `EEPROM_PageToIndex` on a page whose committed records end at `a`, with erased space
from `a` to the page end, started from empty tables. -/
theorem pageToIndex_committed {cfg : Config} (hwf : cfg.WF) {s : State} {P a : Nat}
    {T : (Nat → Nat) × (Nat → Nat)}
    (hP : P = EEPROM_PAGE0 cfg ∨ P = EEPROM_PAGE1 cfg)
    (h : Committed cfg s.flash P a T) (ha : a ≤ P + cfg.pageSize)
    (hfree : ∀ x, a ≤ x → x < P + cfg.pageSize → read16 s.flash x = 0xFFFF)
    (h0 : s.EEPROM_Index = fun _ => 0) (h1 : s.EEPROM_SizeTable = fun _ => 0) :
    EEPROM_PageToIndex cfg P s =
      { s with EEPROM_Index := T.1, EEPROM_SizeTable := T.2,
               EEPROM_NextIndex := if a ≥ P + cfg.pageSize then 0 else a } := by
  have h32 := hwf.area32
  have hpos := hwf.start_pos
  have hmin := hwf.size_min
  have hPb : cfg.start ≤ P ∧ P + cfg.pageSize ≤ cfg.start + 2 * cfg.pageSize := by
    unfold EEPROM_PAGE0 EEPROM_PAGE1 at hP
    rcases hP with h | h <;> rw [h] <;> omega
  obtain ⟨k, hk, hscan⟩ := committed_scan h (by omega)
  have hkle : k ≤ cfg.pageSize := by omega
  have e := hscan (cfg.pageSize - k)
  rw [show cfg.pageSize - k + k = cfg.pageSize by omega,
    scanLoop_stop cfg s.flash (P + cfg.pageSize) _ a T hfree (by omega)] at e
  unfold EEPROM_PageToIndex
  rw [if_neg (by unfold EEPROM_PAGE_NONE; omega), Nat.mod_eq_of_lt (by omega),
    Nat.mod_eq_of_lt (by omega), h0, h1]
  simp only [e]

theorem scanRecord_header (cfg : Config) (c n size : Nat) (hn : n < cfg.varCount)
    (hc : cfg.varCount < 16383) (hsz : size ≤ 3) (T : (Nat → Nat) × (Nat → Nat)) :
    scanRecord cfg c ((n + (size <<< 14)) % 65536) T =
      (fun m => if m = n then
          (if size = EEPROM_SIZE_DELETED then 0
           else ((c + 2 + 4294967296 - cfg.start) % 4294967296) % 65536)
        else T.1 m,
       fun m => if m = n then size else T.2 m) := by
  unfold scanRecord
  rw [header_code n size (by omega) hsz, header_name n size (by omega)]
  simp only [hn, if_true]

/-- Appending a record at the cursor extends the committed records of the writing page by
that record. -/
theorem committed_append {cfg : Config} (hwf : cfg.WF) {W O : Nat} {s : State}
    (hc : Core cfg W O s) {n size : Nat} (hn : n < cfg.varCount) (hsz : size ≤ 3)
    (hroom : ¬ noRoom cfg s size) (v : Nat) {T : (Nat → Nat) × (Nat → Nat)}
    (h : Committed cfg s.flash W (cursorOf cfg W s) T) :
    Committed cfg (appendState cfg n v size s).flash W
      (cursorOf cfg W (appendState cfg n v size s))
      (fun m => if m = n then
          (if size = EEPROM_SIZE_DELETED then 0
           else ((s.EEPROM_NextIndex + 2 + 4294967296 - cfg.start) % 4294967296) % 65536)
        else T.1 m,
       fun m => if m = n then size else T.2 m) := by
  have hcb := hwf.count_bound
  obtain ⟨h0, ⟨h1, h1'⟩, h2, hcur⟩ := room_facts hwf hc hroom
  rw [hcur] at h
  have hfr := committed_frame (g := (appendState cfg n v size s).flash) h
    (fun x _ hx => appendState_flash_out hwf hc hsz hroom n v x (Or.inl hx))
  have hhd := appendState_header hwf hc hsz hroom n v
  have hne : read16 (appendState cfg n v size s).flash s.EEPROM_NextIndex ≠ 0xFFFF := by
    rw [hhd]; exact header_ne_erased n size (by omega)
  have hsn := Committed.snoc hfr h1' hne
  rw [hhd, header_code n size (by omega) hsz, scanRecord_header cfg _ n size hn (by omega) hsz]
    at hsn
  rw [(appendState_cursor hwf hc hroom n v).1, recordBytes_eq size hsz, ← Nat.add_assoc]
  exact hsn

theorem onPage_zero (cfg : Config) (P : Nat) : ¬ onPage cfg P 0 := by
  unfold onPage
  omega

theorem restrict_append {cfg : Config} (hwf : cfg.WF) {V R : Nat} {s : State}
    (hc : Core cfg R V s) {n size : Nat} (hn : n < cfg.varCount) (hsz : size ≤ 3)
    (hroom : ¬ noRoom cfg s size) (v : Nat) :
    restrictTables cfg V ((appendState cfg n v size s).EEPROM_Index,
        (appendState cfg n v size s).EEPROM_SizeTable) =
      (fun m => if m = n then
          (if size = EEPROM_SIZE_DELETED then 0
           else ((s.EEPROM_NextIndex + 2 + 4294967296 - cfg.start) % 4294967296) % 65536)
        else (restrictTables cfg V (s.EEPROM_Index, s.EEPROM_SizeTable)).1 m,
       fun m => if m = n then size
        else (restrictTables cfg V (s.EEPROM_Index, s.EEPROM_SizeTable)).2 m) := by
  have hc' := appendState_core hwf hc (n := n) hsz hroom v
  have hcl' := cursorOf_le hwf hc'
  obtain ⟨h0, ⟨h1, h1'⟩, h2, hcur⟩ := room_facts hwf hc hroom
  have hb := pair_bounds hwf hc.pair
  obtain ⟨hidx, hst⟩ := appendState_newIndex hwf hc hroom
  have hmod : size % 256 = size := Nat.mod_eq_of_lt (by omega)
  have hoff : ¬ onPage cfg V ((appendState cfg n v size s).EEPROM_Index n) := by
    rw [appendState_index, if_pos rfl]
    by_cases hs0 : size = EEPROM_SIZE_DELETED
    · rw [if_pos hs0]; exact onPage_zero cfg V
    · rw [if_neg hs0]
      intro h
      have he := hc'.entries n hn
      rw [appendState_index, if_pos rfl, if_neg hs0] at he
      have := ((onPage_other hwf hc'.pair hcl'.2 he).1.mp h)
      rw [hidx] at this
      omega
  unfold restrictTables
  apply Prod.ext
  · funext m
    simp only []
    by_cases hmn : m = n
    · subst hmn
      rw [if_neg hoff, if_pos rfl, appendState_index, if_pos rfl]
    · rw [if_neg hmn, appendState_index, if_neg hmn]
  · funext m
    simp only []
    by_cases hmn : m = n
    · subst hmn
      rw [if_neg hoff, if_pos rfl, appendState_sizeTable, if_pos rfl, hmod]
    · rw [if_neg hmn, appendState_index, if_neg hmn, appendState_sizeTable, if_neg hmn]

theorem mid_append_scanned {cfg : Config} (hwf : cfg.WF) {V R : Nat} {s : State}
    (hc : Core cfg R V s) {n size : Nat} (hn : n < cfg.varCount) (hsz : size ≤ 3)
    (hroom : ¬ noRoom cfg s size) (v : Nat) (h : MidScanned cfg V R s) :
    MidScanned cfg V R (appendState cfg n v size s) := by
  refine ⟨?_, ?_⟩
  · rw [restrict_append hwf hc hn hsz hroom v]
    exact committed_append hwf hc hn hsz hroom v h.1
  · intro m hm
    rw [appendState_index, appendState_sizeTable, if_neg (by omega), if_neg (by omega)]
    exact h.2 m hm

theorem copyLoop_scanned {cfg : Config} (hwf : cfg.WF) {V R : Nat} {s : State}
    (hm : Mid cfg V R s) (hsc : MidScanned cfg V R s) (Value : Nat) (k : Nat)
    (hk : k ≤ cfg.varCount) :
    MidScanned cfg V R ((List.range k).foldl (copyStep cfg V) (Value, s)).2 := by
  induction k with
  | zero => exact hsc
  | succ k ih =>
    have ih' := ih (by omega)
    obtain ⟨hd, _⟩ := copyLoop_drained hwf hm Value k (by omega)
    rw [List.range_succ, List.foldl_append]
    simp only [List.foldl_cons, List.foldl_nil]
    generalize (List.range k).foldl (copyStep cfg V) (Value, s) = acc at hd ih'
    obtain ⟨vk, sk⟩ := acc
    simp only [] at hd ih'
    by_cases hon : onPage cfg V (sk.EEPROM_Index k)
    · obtain ⟨hs0, hsz, hroom, hread⟩ := copy_facts hwf hd.mid (i := k) (by omega) hon vk
      have hstep : copyStep cfg V (vk, sk) k =
          (assemble (sk.EEPROM_SizeTable k) vk
            (fun j => read16 sk.flash (cfg.start + sk.EEPROM_Index k + 2 * j)),
           appendState cfg k (assemble (sk.EEPROM_SizeTable k) vk
            (fun j => read16 sk.flash (cfg.start + sk.EEPROM_Index k + 2 * j)))
            (sk.EEPROM_SizeTable k) sk) := by
        unfold copyStep
        simp only [hon, if_true, hread]
      rw [hstep]
      exact mid_append_scanned hwf hd.mid.core (by omega) hsz hroom _ ih'
    · have hstep : copyStep cfg V (vk, sk) k = (vk, sk) := by
        unfold copyStep
        simp only [hon, if_false]
      rw [hstep]
      exact ih'

theorem begin_scanned {cfg : Config} (hwf : cfg.WF) {s : State} (hs : Steady cfg s)
    (hsc : Scanned cfg s) :
    MidScanned cfg s.EEPROM_ValidPage s.EEPROM_ErasedPage (beginState s) := by
  obtain ⟨_, _, _, _, fI, fS, _⟩ := begin_fields hwf hs
  obtain ⟨_, hcur⟩ := begin_core hwf hs
  have hz : restrictTables cfg s.EEPROM_ValidPage (s.EEPROM_Index, s.EEPROM_SizeTable) =
      (fun _ => 0, fun _ => 0) := by
    have hout : ∀ m, cfg.varCount ≤ m → s.EEPROM_Index m = 0 ∧ s.EEPROM_SizeTable m = 0 :=
      fun m hm => committed_outside hsc m hm
    unfold restrictTables
    apply Prod.ext <;> funext m <;> simp only []
    · by_cases hm : m < cfg.varCount
      · by_cases h0 : s.EEPROM_Index m = 0
        · rw [h0, if_neg (onPage_zero cfg _)]
        · rw [if_pos ((steady_onPage hwf hs hm).1.2 h0)]
      · rw [(hout m (by omega)).1, if_neg (onPage_zero cfg _)]
    · by_cases hm : m < cfg.varCount
      · by_cases h0 : s.EEPROM_Index m = 0
        · rw [h0, if_neg (onPage_zero cfg _)]
          exact (hs.core.entries m hm).lockstep.1 h0
        · rw [if_pos ((steady_onPage hwf hs hm).1.2 h0)]
      · rw [(hout m (by omega)).1, if_neg (onPage_zero cfg _)]
        exact (hout m (by omega)).2
  refine ⟨?_, ?_⟩
  · rw [hcur, fI, fS, hz]
    exact Committed.nil
  · intro m hm
    rw [fI, fS]
    exact (committed_outside hsc m hm : _)

theorem finish_scanned {cfg : Config} (hwf : cfg.WF) {V R : Nat} {t : State}
    (hm : Mid cfg V R t) (hdone : ∀ m, m < cfg.varCount → ¬ onPage cfg V (t.EEPROM_Index m))
    (hsc : MidScanned cfg V R t) :
    Scanned cfg (markState R EEPROM_VALID (eraseState cfg V t)) := by
  obtain ⟨fV, _, _, fI, fS, fN, _⟩ := finish_fields hwf hm hdone
  obtain ⟨_, _, hfl⟩ := finish_steady hwf hm hdone
  have hcl := cursorOf_le hwf hm.core
  have hr : restrictTables cfg V (t.EEPROM_Index, t.EEPROM_SizeTable) =
      (t.EEPROM_Index, t.EEPROM_SizeTable) := by
    have hoff : ∀ m, ¬ onPage cfg V (t.EEPROM_Index m) := by
      intro m
      by_cases hmv : m < cfg.varCount
      · exact hdone m hmv
      · rw [(hsc.2 m (by omega)).1]; exact onPage_zero cfg V
    unfold restrictTables
    apply Prod.ext <;> funext m <;> simp only [] <;> rw [if_neg (hoff m)]
  have hcur : cursorOf cfg R (markState R EEPROM_VALID (eraseState cfg V t)) =
      cursorOf cfg R t := by
    unfold cursorOf
    rw [fN]
  unfold Scanned
  rw [fV, fI, fS, hcur, ← hr]
  exact committed_frame hsc.1 (fun x h1 h2 => hfl x h1 (by omega))

theorem pageTransfer_fold {cfg : Config} (hwf : cfg.WF) {V R : Nat} {s : State}
    (hm : Mid cfg V R s) (Value fuel : Nat)
    (hok : (pageTransferWith cfg (EEPROM_WriteVariable cfg (fuel + 1)) Value s).1 =
      some EEPROM_SUCCESS) :
    (pageTransferWith cfg (EEPROM_WriteVariable cfg (fuel + 1)) Value s).2 =
      markState R EEPROM_VALID
        (eraseState cfg V ((List.range cfg.varCount).foldl (copyStep cfg V) (Value, s)).2) := by
  obtain ⟨r, x, h1, h3, h2⟩ := transferLoop_mid hwf hm Value fuel cfg.varCount (Nat.le_refl _)
  unfold pageTransferWith at hok ⊢
  rw [hm.valid, h1] at hok ⊢
  by_cases hr : r = EEPROM_SUCCESS
  · subst hr
    obtain ⟨hd, hoff⟩ := copyLoop_drained hwf hm Value cfg.varCount (Nat.le_refl _)
    rw [← h2 rfl] at hd hoff ⊢
    obtain ⟨vk, t⟩ := x
    simp only at hd hoff hok ⊢
    rw [hd.mid.valid] at hok ⊢
    obtain ⟨a1, a2⟩ := SetPageStatus_erase cfg V t
    cases hE : EEPROM_SetPageStatus cfg V EEPROM_ERASED t with
    | mk r1 s2 =>
      rw [hE] at a1 a2 hok
      by_cases hr1 : r1 = EEPROM_SUCCESS
      · subst hr1
        have hs2 := a2 rfl
        simp only at hs2 hok ⊢
        subst hs2
        rw [eraseState_receiving hd.mid] at hok ⊢
        obtain ⟨b1, b2⟩ := SetPageStatus_mark cfg R EEPROM_VALID (eraseState cfg V t)
          (by decide)
        cases hM : EEPROM_SetPageStatus cfg R EEPROM_VALID (eraseState cfg V t) with
        | mk r2 s3 =>
          rw [hM] at b1 b2 hok
          by_cases hr2 : r2 = EEPROM_SUCCESS
          · subst hr2
            exact b2 rfl
          · exfalso
            cases r2 <;> first | exact hr2 rfl | simp at hok
      · exfalso
        cases r1 <;> first | exact hr1 rfl | simp at hok
  · exfalso
    obtain ⟨vk, t⟩ := x
    cases r <;> first | exact hr rfl | simp at hok

theorem write_compact_fold {cfg : Config} (hwf : cfg.WF) {s : State} (hs : Steady cfg s)
    {n size : Nat} (hn : n < cfg.varCount) (hsz : size ≤ 3) (hno : noRoom cfg s size)
    (hreq : requiredMemory cfg s.EEPROM_SizeTable n size ≤ cfg.pageSize) (v fuel : Nat)
    (hok : (EEPROM_WriteVariable cfg (fuel + 2) n v size s).1 = some EEPROM_SUCCESS) :
    (EEPROM_WriteVariable cfg (fuel + 2) n v size s).2 =
      markState s.EEPROM_ErasedPage EEPROM_VALID
        (eraseState cfg s.EEPROM_ValidPage
          ((List.range cfg.varCount).foldl (copyStep cfg s.EEPROM_ValidPage)
            (v, appendState cfg n v size (beginState s))).2) := by
  obtain ⟨hc2, hcur2⟩ := begin_core hwf hs
  have hroom := compact_room hwf hs hn hsz hreq
  have hmid := compact_mid hwf hs hn hsz hreq v
  rw [EEPROM_WriteVariable, if_neg (steady_writing hwf hs), if_pos hno, if_neg (by omega)]
    at hok ⊢
  obtain ⟨a1, a2⟩ := SetPageStatus_mark cfg s.EEPROM_ErasedPage EEPROM_RECEIVING s (by decide)
  cases hM : EEPROM_SetPageStatus cfg s.EEPROM_ErasedPage EEPROM_RECEIVING s with
  | mk r1 s1 =>
    rw [hM] at a1 a2 hok
    by_cases hr1 : r1 = EEPROM_SUCCESS
    · subst hr1
      have hs1 := a2 rfl
      simp only at hs1 hok ⊢
      subst hs1
      have hw : writingPage (beginState s) ≠ EEPROM_PAGE_NONE := by
        have hb := pair_bounds hwf hc2.pair
        rw [hc2.writing]; unfold EEPROM_PAGE_NONE; omega
      have hwa := write_append cfg fuel n v size _ hw hroom
      have hbs : ({ markState s.EEPROM_ErasedPage EEPROM_RECEIVING s with
          EEPROM_NextIndex :=
            ((markState s.EEPROM_ErasedPage EEPROM_RECEIVING s).EEPROM_ReceivingPage + 2) %
              4294967296 } : State) = beginState s := rfl
      rw [hbs, hwa] at hok ⊢
      by_cases hr : (appendRecord cfg n v size (beginState s)).1 = EEPROM_SUCCESS
      · rw [hr, appendRecord_success cfg n v size _ hr] at hok ⊢
        simp only at hok ⊢
        exact pageTransfer_fold hwf hmid v fuel hok
      · exfalso
        cases hres : (appendRecord cfg n v size (beginState s)).1 <;>
          first | exact hr hres | (rw [hres] at hok; simp at hok)
    · exfalso
      cases r1 <;> first | exact hr1 rfl | simp at hok

/-- A successful write or delete keeps the tables equal to what a scan would rebuild. -/
theorem write_scanned {cfg : Config} (hwf : cfg.WF) {s : State} (hs : Steady cfg s)
    (hsc : Scanned cfg s) {n size : Nat} (hn : n < cfg.varCount) (hsz : size ≤ 3)
    (v fuel : Nat)
    (hok : (EEPROM_WriteVariable cfg fuel n v size s).1 = some EEPROM_SUCCESS) :
    Scanned cfg (EEPROM_WriteVariable cfg fuel n v size s).2 := by
  have hm := write_fuel_mono cfg fuel 2 n v size s _ hok
  rw [← hm] at hok ⊢
  by_cases hno : noRoom cfg s size
  · by_cases hreq : requiredMemory cfg s.EEPROM_SizeTable n size > cfg.pageSize
    · have hf := write_full hwf hs hno hreq v (fuel + 1)
      rw [hf] at hok
      simp at hok
    · have hreq' : requiredMemory cfg s.EEPROM_SizeTable n size ≤ cfg.pageSize := by omega
      rw [write_compact_fold hwf hs hn hsz hno hreq' v fuel hok]
      have hmid := compact_mid hwf hs hn hsz hreq' v
      obtain ⟨hc2, _⟩ := begin_core hwf hs
      have hroom := compact_room hwf hs hn hsz hreq'
      have h1 := mid_append_scanned hwf hc2 hn hsz hroom v (begin_scanned hwf hs hsc)
      have h2 := copyLoop_scanned hwf hmid h1 v cfg.varCount (Nat.le_refl _)
      obtain ⟨hd, hoff⟩ := copyLoop_drained hwf hmid v cfg.varCount (Nat.le_refl _)
      exact finish_scanned hwf hd.mid hoff h2
  · rw [write_append cfg (fuel + 1) n v size s (steady_writing hwf hs) hno] at hok ⊢
    simp only [Option.some.injEq] at hok
    simp only []
    rw [appendRecord_success cfg n v size s hok]
    have hmod : size % 256 = size := Nat.mod_eq_of_lt (by omega)
    have h := committed_append hwf hs.core hn hsz hno v hsc
    unfold Scanned
    rw [appendState_valid]
    have e : ((appendState cfg n v size s).EEPROM_Index,
        (appendState cfg n v size s).EEPROM_SizeTable) =
        (fun m => if m = n then
            (if size = EEPROM_SIZE_DELETED then 0
             else ((s.EEPROM_NextIndex + 2 + 4294967296 - cfg.start) % 4294967296) % 65536)
          else s.EEPROM_Index m,
         fun m => if m = n then size else s.EEPROM_SizeTable m) := by
      apply Prod.ext
      · funext m; exact appendState_index cfg n v size s m
      · funext m
        simp only []
        rw [appendState_sizeTable, hmod]
    rw [e]
    exact h

theorem reachable_scanned {cfg : Config} (hwf : cfg.WF) {s : State} (h : Reachable cfg s) :
    Scanned cfg s := by
  induction h with
  | init flash hal fuel Value0 hinv hok =>
    rw [(init_format hwf flash hal fuel Value0 hinv).2.1 hok]
    have hpos := hwf.start_pos
    have hc : cursorOf cfg (EEPROM_PAGE0 cfg) (formattedState cfg flash hal) =
        EEPROM_PAGE0 cfg + 2 := by
      unfold cursorOf formattedState EEPROM_PAGE0
      simp only []
      rw [if_neg (by omega)]
    unfold Scanned
    rw [show (formattedState cfg flash hal).EEPROM_ValidPage = EEPROM_PAGE0 cfg from rfl, hc]
    exact Committed.nil
  | write s fuel n v size hr hn hsize hok ih =>
    have hsz : size ≤ 3 := by
      rcases hsize with h | h | h <;> rw [h] <;> decide
    exact write_scanned hwf (reachable_steady hwf hr) ih hn hsz v fuel hok
  | delete s fuel n hr hn hok ih =>
    exact write_scanned hwf (reachable_steady hwf hr) ih hn (by decide) 0 fuel hok

theorem assignRoles_erased_valid (cfg : Config) (s : State) :
    assignRoles cfg EEPROM_ERASED EEPROM_VALID s =
      { s with EEPROM_ValidPage := EEPROM_PAGE1 cfg, EEPROM_ErasedPage := EEPROM_PAGE0 cfg } := by
  unfold assignRoles EEPROM_ERASED EEPROM_VALID EEPROM_RECEIVING
  simp

/-- Rebooting a steady state whose tables match its valid page: `EEPROM_Init` from power-on
memory on the same flash returns `EEPROM_SUCCESS`, issues no primitive call, and rebuilds
exactly the tables, the cursor and the page roles. -/
theorem init_reboot {cfg : Config} (hwf : cfg.WF) {s : State} (hs : Steady cfg s)
    (hsc : Scanned cfg s) (hal : Nat → HAL_Status) (fuel Value0 : Nat) :
    EEPROM_Init cfg fuel Value0 (powerOn s.flash hal) =
      (some EEPROM_SUCCESS, { s with hal := hal, log := [] }) := by
  have hmin := hwf.size_min
  have hcl := cursorOf_le hwf hs.core
  have hV : read16 s.flash s.EEPROM_ValidPage = 0 := hs.header
  have hE : read16 s.flash s.EEPROM_ErasedPage = 0xFFFF :=
    hs.blank _ (Nat.le_refl _) (by omega)
  have hnext : (if cursorOf cfg s.EEPROM_ValidPage s ≥ s.EEPROM_ValidPage + cfg.pageSize
      then 0 else cursorOf cfg s.EEPROM_ValidPage s) = s.EEPROM_NextIndex := by
    unfold cursorOf at hcl ⊢
    rcases hs.core.cursor with h | h
    · rw [if_pos h, if_pos (Nat.le_refl _)]; exact h.symm
    · have hne : s.EEPROM_NextIndex ≠ 0 := by omega
      rw [if_neg hne, if_neg (by omega)]
  have hR := hs.receiving
  have key : ∀ (P : Nat) (t : State), P = s.EEPROM_ValidPage →
      (P = EEPROM_PAGE0 cfg ∨ P = EEPROM_PAGE1 cfg) →
      t.flash = s.flash → t.EEPROM_Index = (fun _ => 0) → t.EEPROM_SizeTable = (fun _ => 0) →
      EEPROM_PageToIndex cfg P t =
        { t with EEPROM_Index := s.EEPROM_Index, EEPROM_SizeTable := s.EEPROM_SizeTable,
                 EEPROM_NextIndex := s.EEPROM_NextIndex } := by
    intro P t hP hPP hf h0 h1
    subst hP
    have hc : Committed cfg t.flash s.EEPROM_ValidPage (cursorOf cfg s.EEPROM_ValidPage s)
        (s.EEPROM_Index, s.EEPROM_SizeTable) := by rw [hf]; exact hsc
    rw [pageToIndex_committed hwf hPP hc hcl.2 (by rw [hf]; exact hs.core.free) h0 h1, hnext]
  unfold EEPROM_Init
  simp only [powerOn]
  rcases hs.core.pair with ⟨p1, p2⟩ | ⟨p1, p2⟩
  · rw [← p1, ← p2, hV, hE, if_neg (by decide)]
    change initTail cfg fuel Value0 EEPROM_VALID EEPROM_ERASED _ = _
    unfold initTail
    simp only []
    rw [assignRoles_valid_erased]
    simp only []
    rw [key (EEPROM_PAGE0 cfg)
      { flash := s.flash, EEPROM_SizeTable := fun _ => 0, EEPROM_Index := fun _ => 0,
        EEPROM_ValidPage := EEPROM_PAGE0 cfg, EEPROM_ReceivingPage := EEPROM_PAGE_NONE,
        EEPROM_ErasedPage := EEPROM_PAGE1 cfg, EEPROM_NextIndex := 0, hal := hal, log := [] }
      p1.symm (Or.inl rfl) rfl rfl rfl]
    simp only [pageToIndex_none]
    rw [if_neg (by simp)]
    obtain ⟨fl, st, ix, vp, rp, ep, ni, hl, lg⟩ := s
    simp only at p1 p2 hR
    subst p1 p2 hR
    rfl
  · rw [← p1, ← p2, hV, hE, if_neg (by decide)]
    change initTail cfg fuel Value0 EEPROM_ERASED EEPROM_VALID _ = _
    unfold initTail
    simp only []
    rw [assignRoles_erased_valid]
    simp only []
    rw [key (EEPROM_PAGE1 cfg)
      { flash := s.flash, EEPROM_SizeTable := fun _ => 0, EEPROM_Index := fun _ => 0,
        EEPROM_ValidPage := EEPROM_PAGE1 cfg, EEPROM_ReceivingPage := EEPROM_PAGE_NONE,
        EEPROM_ErasedPage := EEPROM_PAGE0 cfg, EEPROM_NextIndex := 0, hal := hal, log := [] }
      p1.symm (Or.inr rfl) rfl rfl rfl]
    simp only [pageToIndex_none]
    rw [if_neg (by simp)]
    obtain ⟨fl, st, ix, vp, rp, ep, ni, hl, lg⟩ := s
    simp only at p1 p2 hR
    subst p1 p2 hR
    rfl

/-- C3 (V2.0 rebuild-on-boot round trip): for every state reached from a formatted store by
successful writes and deletes of names below `EEPROM_VARIABLE_COUNT` (page transfers
included), resetting the memory to power-on and running `EEPROM_Init` on the same flash
image returns `EEPROM_SUCCESS` and reconstructs the state: `Index`, `SizeTable`, the
cursor `EEPROM_NextIndex` and the page roles are the same and no primitive call is issued,
so `EEPROM_ReadVariable` gives for every name the same status and value as before the
reboot. -/
theorem C3_rebuild_on_boot {cfg : Config} (hwf : cfg.WF) {s : State} (hr : Reachable cfg s)
    (hal : Nat → HAL_Status) (fuel Value0 : Nat) :
    EEPROM_Init cfg fuel Value0 (powerOn s.flash hal) =
      (some EEPROM_SUCCESS, { s with hal := hal, log := [] }) ∧
    (∀ name Value,
      EEPROM_ReadVariable cfg name Value (EEPROM_Init cfg fuel Value0 (powerOn s.flash hal)).2 =
        EEPROM_ReadVariable cfg name Value s) ∧
    (EEPROM_Init cfg fuel Value0 (powerOn s.flash hal)).2.EEPROM_NextIndex =
      s.EEPROM_NextIndex := by
  have h := init_reboot hwf (reachable_steady hwf hr) (reachable_scanned hwf hr) hal fuel Value0
  rw [h]
  exact ⟨rfl, fun _ _ => rfl, rfl⟩

/-- Scenario D on the shipped configuration: `write(1, 0xAAAA, Half); delete(1); init()`
returns `EEPROM_SUCCESS` and `read(1)` is `EEPROM_NOT_ASSIGNED`, as before the reboot. -/
theorem C3_rebuild_on_boot_witness :
    (EEPROM_Init stdConfig 2 0 (powerOn
      (EEPROM_DeleteVariable stdConfig 2 1
        (EEPROM_WriteVariable stdConfig 2 1 0xAAAA EEPROM_SIZE16 stdBoot).2).2.flash halOk)).1 =
      some EEPROM_SUCCESS ∧
    EEPROM_ReadVariable stdConfig 1 0 (EEPROM_Init stdConfig 2 0 (powerOn
      (EEPROM_DeleteVariable stdConfig 2 1
        (EEPROM_WriteVariable stdConfig 2 1 0xAAAA EEPROM_SIZE16 stdBoot).2).2.flash halOk)).2 =
      (EEPROM_NOT_ASSIGNED, 0) :=
  (fun h => ⟨congrArg Prod.fst h.1, (h.2.1 1 0).trans (by decide)⟩)
    (C3_rebuild_on_boot stdConfig_wf
      (Reachable.delete _ 2 1
        (Reachable.write _ 2 1 0xAAAA EEPROM_SIZE16 stdBoot_reachable (by decide) (Or.inl rfl)
          (by decide))
        (by decide) (by decide)) halOk 2 0)

/-! ## Replay of an interrupted compaction -/

theorem committedFrom_ge {cfg : Config} {flash : Nat → Nat} {P a : Nat}
    {T0 T : (Nat → Nat) × (Nat → Nat)} (h : CommittedFrom cfg flash P T0 a T) : P + 2 ≤ a := by
  induction h with
  | nil => exact Nat.le_refl _
  | snoc _ _ _ ih => omega

theorem committedFrom_scan {cfg : Config} {flash : Nat → Nat} {P a : Nat}
    {T0 T : (Nat → Nat) × (Nat → Nat)} (h : CommittedFrom cfg flash P T0 a T)
    (hE : P + cfg.pageSize + 16 ≤ 4294967296) :
    ∃ k, 2 * k + (P + 2) ≤ a ∧ ∀ fuel,
      scanLoop cfg flash (P + cfg.pageSize) (fuel + k) (P + 2) T0 =
        scanLoop cfg flash (P + cfg.pageSize) fuel a T := by
  induction h with
  | nil => exact ⟨0, by omega, fun fuel => rfl⟩
  | snoc hc hlt hne ih =>
    rename_i a0 T1
    obtain ⟨k, hk, hscan⟩ := ih
    refine ⟨k + 1, by omega, ?_⟩
    intro fuel
    have := scanSize_le8 (read16 flash a0) (read16_lt flash a0)
    rw [show fuel + (k + 1) = (fuel + 1) + k by omega, hscan (fuel + 1), scanLoop_succ,
      if_pos hlt, if_neg hne, Nat.mod_eq_of_lt (by omega)]

theorem pageToIndex_from {cfg : Config} (hwf : cfg.WF) {s : State} {P a : Nat}
    {T : (Nat → Nat) × (Nat → Nat)}
    (hP : P = EEPROM_PAGE0 cfg ∨ P = EEPROM_PAGE1 cfg)
    (h : CommittedFrom cfg s.flash P (s.EEPROM_Index, s.EEPROM_SizeTable) a T)
    (ha : a ≤ P + cfg.pageSize)
    (hfree : ∀ x, a ≤ x → x < P + cfg.pageSize → read16 s.flash x = 0xFFFF) :
    EEPROM_PageToIndex cfg P s =
      { s with EEPROM_Index := T.1, EEPROM_SizeTable := T.2,
               EEPROM_NextIndex := if a ≥ P + cfg.pageSize then 0 else a } := by
  have h32 := hwf.area32
  have hpos := hwf.start_pos
  have hmin := hwf.size_min
  have hPb : cfg.start ≤ P ∧ P + cfg.pageSize ≤ cfg.start + 2 * cfg.pageSize := by
    unfold EEPROM_PAGE0 EEPROM_PAGE1 at hP
    rcases hP with h | h <;> rw [h] <;> omega
  obtain ⟨k, hk, hscan⟩ := committedFrom_scan h (by omega)
  have hkle : k ≤ cfg.pageSize := by omega
  have e := hscan (cfg.pageSize - k)
  rw [show cfg.pageSize - k + k = cfg.pageSize by omega,
    scanLoop_stop cfg s.flash (P + cfg.pageSize) _ a T hfree (by omega)] at e
  unfold EEPROM_PageToIndex
  rw [if_neg (by unfold EEPROM_PAGE_NONE; omega), Nat.mod_eq_of_lt (by omega),
    Nat.mod_eq_of_lt (by omega)]
  simp only [e]

theorem EntryIn.mono {cfg : Config} {lo hi hi2 idx sz : Nat} (h : EntryIn cfg lo hi idx sz)
    (hh : hi ≤ hi2) : EntryIn cfg lo hi2 idx sz :=
  ⟨h.1, h.2.1, h.2.2.1, fun h0 => ⟨(h.2.2.2 h0).1, Nat.le_trans (h.2.2.2 h0).2 hh⟩⟩

theorem shiftRight14_le (h : Nat) (hh : h < 65536) : h >>> 14 ≤ 3 := by
  rw [Nat.shiftRight_eq_div_pow]
  have : h / 2 ^ 14 < 4 := Nat.div_lt_of_lt_mul (by norm_num; omega)
  omega

/-- After scanning committed records of page `P`, every entry is either the one the scan
started with or a sound entry for a record of `P` below the end of the records. -/
theorem committedFrom_entry {cfg : Config} (hwf : cfg.WF) {flash : Nat → Nat} {P a : Nat}
    {T0 T : (Nat → Nat) × (Nat → Nat)} (h : CommittedFrom cfg flash P T0 a T)
    (hPb : cfg.start ≤ P ∧ P + cfg.pageSize ≤ cfg.start + 2 * cfg.pageSize) (m : Nat) :
    (T.1 m = T0.1 m ∧ T.2 m = T0.2 m) ∨ EntryIn cfg P a (T.1 m) (T.2 m) := by
  have h32 := hwf.area32
  have h16 := hwf.area16
  induction h with
  | nil => exact Or.inl ⟨rfl, rfl⟩
  | snoc hc hlt hne ih =>
    rename_i a0 T1
    have hge := committedFrom_ge hc
    have hsc := shiftRight14_le (read16 flash a0) (read16_lt flash a0)
    by_cases hn : read16 flash a0 &&& 0x3FFF < cfg.varCount ∧ m = read16 flash a0 &&& 0x3FFF
    · right
      obtain ⟨hn1, hn2⟩ := hn
      have e1 : (scanRecord cfg a0 (read16 flash a0) T1).1 m =
          if read16 flash a0 >>> 14 = EEPROM_SIZE_DELETED then 0
          else ((a0 + 2 + 4294967296 - cfg.start) % 4294967296) % 65536 := by
        unfold scanRecord
        simp only [hn1, if_true, hn2]
      have e2 : (scanRecord cfg a0 (read16 flash a0) T1).2 m = read16 flash a0 >>> 14 := by
        unfold scanRecord
        simp only [hn1, if_true, hn2]
      have hmod : ((a0 + 2 + 4294967296 - cfg.start) % 4294967296) % 65536 =
          a0 + 2 - cfg.start := by
        rw [show a0 + 2 + 4294967296 - cfg.start = (a0 + 2 - cfg.start) + 4294967296 by omega,
          Nat.add_mod_right, Nat.mod_eq_of_lt (by omega), Nat.mod_eq_of_lt (by omega)]
      rw [e1, e2]
      by_cases h0 : read16 flash a0 >>> 14 = EEPROM_SIZE_DELETED
      · rw [if_pos h0, h0]
        exact ⟨by decide, by simp [EEPROM_SIZE_DELETED], by omega, fun h => absurd rfl h⟩
      · rw [if_neg h0, hmod]
        have h0' : read16 flash a0 >>> 14 ≠ 0 := h0
        refine ⟨hsc, ?_, by omega, fun _ => ⟨by omega, by omega⟩⟩
        constructor
        · intro h; omega
        · intro h; exact absurd h h0'
    · have e : (scanRecord cfg a0 (read16 flash a0) T1).1 m = T1.1 m ∧
          (scanRecord cfg a0 (read16 flash a0) T1).2 m = T1.2 m := by
        unfold scanRecord
        by_cases hn1 : read16 flash a0 &&& 0x3FFF < cfg.varCount
        · have : m ≠ read16 flash a0 &&& 0x3FFF := fun hh => hn ⟨hn1, hh⟩
          simp [hn1, this]
        · simp [hn1]
      rw [e.1, e.2]
      rcases ih with h | h
      · exact Or.inl h
      · exact Or.inr (h.mono (by omega))

/-- The live records of the scanned page that the tables point to fit below the end of the
records. -/
theorem committedFrom_packed {cfg : Config} {flash : Nat → Nat} {P a : Nat}
    {T0 T : (Nat → Nat) × (Nat → Nat)} (h : CommittedFrom cfg flash P T0 a T)
    (h0 : ∀ m, ¬ onPage cfg P (T0.1 m)) :
    2 + (∑ m in Finset.range cfg.varCount,
      if onPage cfg P (T.1 m) then liveBytes (T.2 m) else 0) ≤ a - P := by
  induction h with
  | nil =>
    have : (∑ m in Finset.range cfg.varCount,
        if onPage cfg P (T0.1 m) then liveBytes (T0.2 m) else 0) = 0 := by
      apply Finset.sum_eq_zero
      intro m _
      rw [if_neg (h0 m)]
    rw [this]; omega
  | snoc hc hlt hne ih =>
    rename_i a0 T1
    have hge := committedFrom_ge hc
    have hsc := shiftRight14_le (read16 flash a0) (read16_lt flash a0)
    by_cases hn1 : read16 flash a0 &&& 0x3FFF < cfg.varCount
    · have key := sum_range_change cfg.varCount (read16 flash a0 &&& 0x3FFF)
        (fun m => if onPage cfg P ((scanRecord cfg a0 (read16 flash a0) T1).1 m)
          then liveBytes ((scanRecord cfg a0 (read16 flash a0) T1).2 m) else 0)
        (fun m => if onPage cfg P (T1.1 m) then liveBytes (T1.2 m) else 0)
        hn1 (by
          intro m _ hmi
          have e : (scanRecord cfg a0 (read16 flash a0) T1).1 m = T1.1 m ∧
              (scanRecord cfg a0 (read16 flash a0) T1).2 m = T1.2 m := by
            unfold scanRecord
            simp [hn1, hmi]
          beta_reduce
          rw [e.1, e.2])
      beta_reduce at key
      have hnew : (if onPage cfg P
            ((scanRecord cfg a0 (read16 flash a0) T1).1 (read16 flash a0 &&& 0x3FFF))
          then liveBytes ((scanRecord cfg a0 (read16 flash a0) T1).2 (read16 flash a0 &&& 0x3FFF))
          else 0) ≤ 2 + scanSize (read16 flash a0 >>> 14) := by
        have e2 : (scanRecord cfg a0 (read16 flash a0) T1).2 (read16 flash a0 &&& 0x3FFF) =
            read16 flash a0 >>> 14 := by
          unfold scanRecord
          simp only [hn1, if_true]
        rw [e2]
        split_ifs
        · rename_i hon
          have h9 : read16 flash a0 >>> 14 ≠ 0 := by
            intro h9
            have e1 : (scanRecord cfg a0 (read16 flash a0) T1).1 (read16 flash a0 &&& 0x3FFF)
                = 0 := by
              unfold scanRecord
              simp [hn1, h9, EEPROM_SIZE_DELETED]
            rw [e1] at hon
            exact onPage_zero cfg P hon
          rw [liveBytes_eq _ hsc h9, recordBytes_eq _ hsc]
        · omega
      omega
    · have e : scanRecord cfg a0 (read16 flash a0) T1 = T1 := by
        unfold scanRecord
        simp [hn1]
      rw [e]
      omega

theorem entryIn_zero (cfg : Config) (lo hi : Nat) : EntryIn cfg lo hi 0 0 :=
  ⟨by decide, by simp, by decide, fun h => absurd rfl h⟩

theorem entryIn_not_onPage {cfg : Config} (hwf : cfg.WF) {R V : Nat}
    (hp : IsPagePair cfg R V) {hi idx sz : Nat} (hhi : hi ≤ V + cfg.pageSize)
    (h : EntryIn cfg V hi idx sz) : ¬ onPage cfg R idx := by
  obtain ⟨o1, o2, _, _⟩ := offsets_of_pair hwf hp
  have hb := pair_bounds hwf hp
  unfold onPage
  rw [o1, o2]
  by_cases h0 : idx = 0
  · omega
  · have := h.2.2.2 h0
    omega

/-- The state after the two scans of `EEPROM_Init`, for a Valid page `V` and a Receiving
page `R` holding committed records with room in `R` for what is still on `V`, is a
mid-transfer state. -/
theorem scanned_mid {cfg : Config} (hwf : cfg.WF) {V R : Nat} (hp : IsPagePair cfg R V)
    {s : State} (hv : s.EEPROM_ValidPage = V) (hr : s.EEPROM_ReceivingPage = R)
    (he : s.EEPROM_ErasedPage = EEPROM_PAGE_NONE)
    {aO aR : Nat} {TO : (Nat → Nat) × (Nat → Nat)}
    (hVc : CommittedFrom cfg s.flash V (fun _ => 0, fun _ => 0) aO TO)
    (haO : aO ≤ V + cfg.pageSize)
    (hRc : CommittedFrom cfg s.flash R TO aR (s.EEPROM_Index, s.EEPROM_SizeTable))
    (haR : aR ≤ R + cfg.pageSize)
    (hnext : s.EEPROM_NextIndex = if aR ≥ R + cfg.pageSize then 0 else aR)
    (hRfree : ∀ x, aR ≤ x → x < R + cfg.pageSize → read16 s.flash x = 0xFFFF)
    (hroom : aR - R + (∑ m in Finset.range cfg.varCount,
      if onPage cfg V (s.EEPROM_Index m) then liveBytes (s.EEPROM_SizeTable m) else 0) ≤
        cfg.pageSize) :
    Mid cfg V R s ∧ cursorOf cfg R s = aR := by
  have hb := pair_bounds hwf hp
  have hgeR := committedFrom_ge hRc
  have hcur : cursorOf cfg R s = aR := by
    unfold cursorOf
    rw [hnext]
    by_cases h : aR ≥ R + cfg.pageSize
    · rw [if_pos h, if_pos rfl]; omega
    · rw [if_neg h, if_neg (by omega)]
  have hTO : ∀ m, EntryIn cfg V aO (TO.1 m) (TO.2 m) := by
    intro m
    rcases committedFrom_entry hwf hVc ⟨hb.2.2.1, hb.2.2.2.1⟩ m with h | h
    · rw [h.1, h.2]; exact entryIn_zero cfg V aO
    · exact h
  have hT : ∀ m, EntryIn cfg V aO (s.EEPROM_Index m) (s.EEPROM_SizeTable m) ∨
      EntryIn cfg R aR (s.EEPROM_Index m) (s.EEPROM_SizeTable m) := by
    intro m
    rcases committedFrom_entry hwf hRc ⟨hb.1, hb.2.1⟩ m with h | h
    · left
      simp only [] at h
      rw [h.1, h.2]; exact hTO m
    · exact Or.inr h
  refine ⟨⟨⟨hp, ?_, ?_, ?_, ?_⟩, hv, hr, he, ?_, ?_⟩, hcur⟩
  · unfold writingPage
    rw [hr, if_pos (by unfold EEPROM_PAGE_NONE; omega)]
  · rw [hnext]
    by_cases h : aR ≥ R + cfg.pageSize
    · left; rw [if_pos h]
    · right; rw [if_neg h]; omega
  · rw [hcur]; exact hRfree
  · intro m _
    rw [hcur]
    rcases hT m with h | h
    · exact ⟨h.1, h.2.1, h.2.2.1, fun h0 => Or.inr ⟨(h.2.2.2 h0).1, by
        have := (h.2.2.2 h0).2; omega⟩⟩
    · exact ⟨h.1, h.2.1, h.2.2.1, fun h0 => Or.inl (h.2.2.2 h0)⟩
  · rw [hcur]
    unfold pendingBytes
    exact hroom
  · rw [hcur]
    unfold pendingBytes
    exact committedFrom_packed hRc (fun m => entryIn_not_onPage hwf hp haO (hTO m))

theorem replay_transfer {cfg : Config} (hwf : cfg.WF) {V R : Nat} {s : State}
    (hm : Mid cfg V R s) (hal : ∀ k, s.hal k = HAL_OK) (fuel Value0 : Nat) :
    (pageTransferWith cfg (EEPROM_WriteVariable cfg (fuel + 1)) Value0 s).1 =
      some EEPROM_SUCCESS ∧
    (pageTransferWith cfg (EEPROM_WriteVariable cfg (fuel + 1)) Value0 s).2.EEPROM_ValidPage = R ∧
    (pageTransferWith cfg (EEPROM_WriteVariable cfg (fuel + 1)) Value0 s).2.EEPROM_ErasedPage = V ∧
    (pageTransferWith cfg (EEPROM_WriteVariable cfg (fuel + 1)) Value0 s).2.EEPROM_ReceivingPage =
      EEPROM_PAGE_NONE ∧
    read16 (pageTransferWith cfg (EEPROM_WriteVariable cfg (fuel + 1)) Value0 s).2.flash R =
      EEPROM_VALID ∧
    read16 (pageTransferWith cfg (EEPROM_WriteVariable cfg (fuel + 1)) Value0 s).2.flash V =
      EEPROM_ERASED ∧
    (∀ m, m < cfg.varCount → ∀ Value,
      EEPROM_ReadVariable cfg m Value
        (pageTransferWith cfg (EEPROM_WriteVariable cfg (fuel + 1)) Value0 s).2 =
      EEPROM_ReadVariable cfg m Value s) := by
  have hmin := hwf.size_min
  obtain ⟨r, h1, hres, h2⟩ := pageTransfer_mid hwf hm Value0 fuel
  have hr : r = EEPROM_SUCCESS := hres.2 hal
  obtain ⟨t, hd, hoff, hfin⟩ := h2 hr
  obtain ⟨fV, fE, fR, _⟩ := finish_fields hwf hd.mid hoff
  obtain ⟨hst, hrd, _⟩ := finish_steady hwf hd.mid hoff
  rw [hfin]
  rw [hr] at h1
  refine ⟨h1, fV, fE, fR, ?_, ?_, ?_⟩
  · have := hst.header
    rw [fV] at this
    exact this
  · have := hst.blank V
    rw [fE] at this
    exact this (Nat.le_refl _) (by omega)
  · intro m hmv Value
    rw [hrd m hmv, hd.reads m hmv]

theorem read16_mark_out (Page st : Nat) (s : State) (a : Nat) (h : a < Page ∨ Page + 2 ≤ a) :
    read16 (markState Page st s).flash a = read16 s.flash a := by
  have e : (markState Page st s).flash = programFlash s.flash 1 Page st := by
    unfold markState updateRoles
    simp only []
    split_ifs <;> rfl
  rw [e]
  exact read16_programFlash_out _ _ _ _ _ (by
    have : nbHalfwords 1 = 1 := rfl
    omega)

theorem markState_tables (Page st : Nat) (s : State) :
    (markState Page st s).EEPROM_Index = s.EEPROM_Index ∧
    (markState Page st s).EEPROM_SizeTable = s.EEPROM_SizeTable ∧
    (markState Page st s).flash = programFlash s.flash 1 Page st := by
  unfold markState updateRoles
  simp only []
  refine ⟨?_, ?_, ?_⟩ <;> split_ifs <;> rfl

/-- Reading through tables whose entries are sound for the page pair. -/
theorem read_entryIn {cfg : Config} (hwf : cfg.WF) {R V : Nat} (hp : IsPagePair cfg R V)
    {s : State} {aV aR : Nat} (haV : aV ≤ V + cfg.pageSize) (haR : aR ≤ R + cfg.pageSize)
    {m : Nat} (hm : m < cfg.varCount)
    (h : EntryIn cfg V aV (s.EEPROM_Index m) (s.EEPROM_SizeTable m) ∨
      EntryIn cfg R aR (s.EEPROM_Index m) (s.EEPROM_SizeTable m)) (Value : Nat) :
    EEPROM_ReadVariable cfg m Value s =
      if s.EEPROM_SizeTable m = 0 then (EEPROM_NOT_ASSIGNED, Value)
      else (EEPROM_SUCCESS, assemble (s.EEPROM_SizeTable m) Value
        (fun i => read16 s.flash (cfg.start + s.EEPROM_Index m + 2 * i))) := by
  apply read_spec hwf hp haR hm
  rcases h with h | h
  · exact ⟨h.1, h.2.1, h.2.2.1, fun h0 => Or.inr ⟨(h.2.2.2 h0).1, by
      have := (h.2.2.2 h0).2; omega⟩⟩
  · exact ⟨h.1, h.2.1, h.2.2.1, fun h0 => Or.inl (h.2.2.2 h0)⟩

theorem isPage_of_pair {cfg : Config} {R V : Nat} (hp : IsPagePair cfg R V) :
    (R = EEPROM_PAGE0 cfg ∨ R = EEPROM_PAGE1 cfg) ∧ (V = EEPROM_PAGE0 cfg ∨ V = EEPROM_PAGE1 cfg) := by
  rcases hp with ⟨h1, h2⟩ | ⟨h1, h2⟩
  · exact ⟨Or.inl h1, Or.inr h2⟩
  · exact ⟨Or.inr h1, Or.inl h2⟩

theorem initTail_replay {cfg : Config} (hwf : cfg.WF) {V R : Nat} (hp : IsPagePair cfg R V)
    (a b : Nat) (flash : Nat → Nat) (hal : Nat → HAL_Status) (hok : ∀ k, hal k = HAL_OK)
    (fuel Value0 : Nat)
    (hroles : assignRoles cfg a b (powerOn flash hal) =
      { powerOn flash hal with EEPROM_ValidPage := V, EEPROM_ReceivingPage := R })
    {aO aR : Nat} {TO T : (Nat → Nat) × (Nat → Nat)}
    (hVc : CommittedFrom cfg flash V (fun _ => 0, fun _ => 0) aO TO)
    (haO : aO ≤ V + cfg.pageSize)
    (hVfree : ∀ x, aO ≤ x → x < V + cfg.pageSize → read16 flash x = 0xFFFF)
    (hRc : CommittedFrom cfg flash R TO aR T) (haR : aR ≤ R + cfg.pageSize)
    (hRfree : ∀ x, aR ≤ x → x < R + cfg.pageSize → read16 flash x = 0xFFFF)
    (hroom : aR - R + (∑ m in Finset.range cfg.varCount,
      if onPage cfg V (T.1 m) then liveBytes (T.2 m) else 0) ≤ cfg.pageSize) :
    (initTail cfg (fuel + 1) Value0 a b (powerOn flash hal)).1 = some EEPROM_SUCCESS ∧
    (initTail cfg (fuel + 1) Value0 a b (powerOn flash hal)).2.EEPROM_ValidPage = R ∧
    (initTail cfg (fuel + 1) Value0 a b (powerOn flash hal)).2.EEPROM_ErasedPage = V ∧
    (initTail cfg (fuel + 1) Value0 a b (powerOn flash hal)).2.EEPROM_ReceivingPage =
      EEPROM_PAGE_NONE ∧
    read16 (initTail cfg (fuel + 1) Value0 a b (powerOn flash hal)).2.flash R = EEPROM_VALID ∧
    read16 (initTail cfg (fuel + 1) Value0 a b (powerOn flash hal)).2.flash V = EEPROM_ERASED ∧
    (∀ m, m < cfg.varCount → ∀ Value,
      EEPROM_ReadVariable cfg m Value
        (initTail cfg (fuel + 1) Value0 a b (powerOn flash hal)).2 =
      if T.2 m = 0 then (EEPROM_NOT_ASSIGNED, Value)
      else (EEPROM_SUCCESS, assemble (T.2 m) Value
        (fun i => read16 flash (cfg.start + T.1 m + 2 * i)))) := by
  have hb := pair_bounds hwf hp
  obtain ⟨hRp, hVp⟩ := isPage_of_pair hp
  have e2 := pageToIndex_from hwf (s := { powerOn flash hal with
      EEPROM_ValidPage := V, EEPROM_ReceivingPage := R }) hVp hVc haO hVfree
  have e3 := pageToIndex_from hwf (s := { powerOn flash hal with
      EEPROM_ValidPage := V, EEPROM_ReceivingPage := R,
      EEPROM_Index := TO.1, EEPROM_SizeTable := TO.2,
      EEPROM_NextIndex := if aO ≥ V + cfg.pageSize then 0 else aO }) hRp hRc haR hRfree
  have hunf : initTail cfg (fuel + 1) Value0 a b (powerOn flash hal) =
      pageTransferWith cfg (EEPROM_WriteVariable cfg (fuel + 1)) Value0
        { powerOn flash hal with
          EEPROM_ValidPage := V, EEPROM_ReceivingPage := R,
          EEPROM_Index := T.1, EEPROM_SizeTable := T.2,
          EEPROM_NextIndex := if aR ≥ R + cfg.pageSize then 0 else aR } := by
    unfold initTail
    simp only []
    rw [hroles]
    simp only []
    rw [e2]
    simp only []
    rw [e3]
    simp only []
    rw [if_pos (by unfold EEPROM_PAGE_NONE; omega), if_neg (by unfold EEPROM_PAGE_NONE; omega)]
    rfl
  rw [hunf]
  obtain ⟨hmid, hcur⟩ := scanned_mid hwf hp (s := { powerOn flash hal with
      EEPROM_ValidPage := V, EEPROM_ReceivingPage := R,
      EEPROM_Index := T.1, EEPROM_SizeTable := T.2,
      EEPROM_NextIndex := if aR ≥ R + cfg.pageSize then 0 else aR })
    rfl rfl rfl hVc haO hRc haR rfl hRfree hroom
  obtain ⟨r1, r2, r3, r4, r5, r6, r7⟩ := replay_transfer hwf hmid hok fuel Value0
  refine ⟨r1, r2, r3, r4, r5, r6, ?_⟩
  intro m hm Value
  rw [r7 m hm Value]
  have he := hmid.core.entries m hm
  exact read_spec hwf hp (cursorOf_le hwf hmid.core).2 hm he Value

theorem initTail_mark {cfg : Config} (hwf : cfg.WF) {O R : Nat} (hp : IsPagePair cfg R O)
    (a b : Nat) (flash : Nat → Nat) (hal : Nat → HAL_Status) (hok : ∀ k, hal k = HAL_OK)
    (fuel Value0 : Nat)
    (hroles : assignRoles cfg a b (powerOn flash hal) =
      { powerOn flash hal with EEPROM_ErasedPage := O, EEPROM_ReceivingPage := R })
    (hO : read16 flash O = EEPROM_ERASED)
    {aR : Nat} {T : (Nat → Nat) × (Nat → Nat)}
    (hRc : CommittedFrom cfg flash R (fun _ => 0, fun _ => 0) aR T)
    (haR : aR ≤ R + cfg.pageSize)
    (hRfree : ∀ x, aR ≤ x → x < R + cfg.pageSize → read16 flash x = 0xFFFF) :
    (initTail cfg fuel Value0 a b (powerOn flash hal)).1 = some EEPROM_SUCCESS ∧
    (initTail cfg fuel Value0 a b (powerOn flash hal)).2.EEPROM_ValidPage = R ∧
    (initTail cfg fuel Value0 a b (powerOn flash hal)).2.EEPROM_ErasedPage = O ∧
    (initTail cfg fuel Value0 a b (powerOn flash hal)).2.EEPROM_ReceivingPage =
      EEPROM_PAGE_NONE ∧
    read16 (initTail cfg fuel Value0 a b (powerOn flash hal)).2.flash R = EEPROM_VALID ∧
    read16 (initTail cfg fuel Value0 a b (powerOn flash hal)).2.flash O = EEPROM_ERASED ∧
    (∀ m, m < cfg.varCount → ∀ Value,
      EEPROM_ReadVariable cfg m Value (initTail cfg fuel Value0 a b (powerOn flash hal)).2 =
      if T.2 m = 0 then (EEPROM_NOT_ASSIGNED, Value)
      else (EEPROM_SUCCESS, assemble (T.2 m) Value
        (fun i => read16 flash (cfg.start + T.1 m + 2 * i)))) := by
  have hb := pair_bounds hwf hp
  obtain ⟨hRp, hOp⟩ := isPage_of_pair hp
  have hge := committedFrom_ge hRc
  have e3 := pageToIndex_from hwf (s := { powerOn flash hal with
      EEPROM_ErasedPage := O, EEPROM_ReceivingPage := R }) hRp hRc haR hRfree
  obtain ⟨a1, a2⟩ := SetPageStatus_mark cfg R EEPROM_VALID
    { powerOn flash hal with
      EEPROM_ErasedPage := O, EEPROM_ReceivingPage := R,
      EEPROM_Index := T.1, EEPROM_SizeTable := T.2,
      EEPROM_NextIndex := if aR ≥ R + cfg.pageSize then 0 else aR } (by decide)
  have a1' : (EEPROM_SetPageStatus cfg R EEPROM_VALID
      { powerOn flash hal with
        EEPROM_ErasedPage := O, EEPROM_ReceivingPage := R,
        EEPROM_Index := T.1, EEPROM_SizeTable := T.2,
        EEPROM_NextIndex := if aR ≥ R + cfg.pageSize then 0 else aR }).1 = EEPROM_SUCCESS := by
    rw [a1]
    show ofHAL (hal _) = EEPROM_SUCCESS
    rw [hok]; rfl
  have a2' := a2 a1'
  have hunf : initTail cfg fuel Value0 a b (powerOn flash hal) =
      (some EEPROM_SUCCESS, markState R EEPROM_VALID
        { powerOn flash hal with
          EEPROM_ErasedPage := O, EEPROM_ReceivingPage := R,
          EEPROM_Index := T.1, EEPROM_SizeTable := T.2,
          EEPROM_NextIndex := if aR ≥ R + cfg.pageSize then 0 else aR }) := by
    unfold initTail
    simp only []
    rw [hroles]
    simp only [powerOn, pageToIndex_none]
    simp only [powerOn] at e3
    rw [e3]
    simp only []
    rw [if_pos (by unfold EEPROM_PAGE_NONE; omega), if_pos trivial]
    simp only [powerOn] at a1' a2'
    rw [← a2']
    generalize EEPROM_SetPageStatus cfg R EEPROM_VALID _ = x at a1' ⊢
    obtain ⟨x1, x2⟩ := x
    simp only at a1'
    subst a1'
    rfl
  rw [hunf]
  obtain ⟨mI, mS, mF⟩ := markState_tables R EEPROM_VALID
    { powerOn flash hal with
      EEPROM_ErasedPage := O, EEPROM_ReceivingPage := R,
      EEPROM_Index := T.1, EEPROM_SizeTable := T.2,
      EEPROM_NextIndex := if aR ≥ R + cfg.pageSize then 0 else aR }
  have hRne : R ≠ EEPROM_PAGE_NONE := by unfold EEPROM_PAGE_NONE; omega
  have hROne : O ≠ R := by omega
  refine ⟨rfl, ?_, ?_, ?_, ?_, ?_, ?_⟩
  · simp [markState, updateRoles, powerOn, hRne.symm, EEPROM_VALID]
  · simp [markState, updateRoles, powerOn, hRne.symm, EEPROM_VALID]
  · simp [markState, updateRoles, powerOn, hRne.symm, EEPROM_VALID]
  · simp only []
    rw [mF]
    simp [read16, programFlash, nbHalfwords, halfwordOf, EEPROM_VALID]
  · simp only []
    rw [read16_mark_out R EEPROM_VALID _ O (by omega)]
    exact hO
  · intro m hm Value
    have hent : EntryIn cfg R aR (T.1 m) (T.2 m) := by
      rcases committedFrom_entry hwf hRc ⟨hb.1, hb.2.1⟩ m with h | h
      · rw [h.1, h.2]; exact entryIn_zero cfg R aR
      · exact h
    have hrd := read_entryIn hwf hp (s := markState R EEPROM_VALID
      { powerOn flash hal with
        EEPROM_ErasedPage := O, EEPROM_ReceivingPage := R,
        EEPROM_Index := T.1, EEPROM_SizeTable := T.2,
        EEPROM_NextIndex := if aR ≥ R + cfg.pageSize then 0 else aR })
      (show O + cfg.pageSize ≤ O + cfg.pageSize from Nat.le_refl _) haR hm
      (Or.inr (by rw [mI, mS]; exact hent)) Value
    rw [hrd, mI, mS]
    simp only []
    by_cases h0 : T.2 m = 0
    · rw [if_pos h0, if_pos h0]
    · rw [if_neg h0, if_neg h0]
      apply congrArg
      apply assemble_congr _ _ _ _ hent.1
      intro i _
      have hi0 : T.1 m ≠ 0 := fun h => h0 (hent.2.1.1 h)
      have := hent.2.2.2 hi0
      exact read16_mark_out R EEPROM_VALID _ _ (by omega)

theorem init_consistent (cfg : Config) (fuel Value0 : Nat) (s : State)
    (h : ¬ invalidState (read16 s.flash (EEPROM_PAGE0 cfg)) (read16 s.flash (EEPROM_PAGE1 cfg))) :
    EEPROM_Init cfg fuel Value0 s =
      initTail cfg fuel Value0 (read16 s.flash (EEPROM_PAGE0 cfg))
        (read16 s.flash (EEPROM_PAGE1 cfg)) s := by
  unfold EEPROM_Init
  simp only []
  rw [if_neg h]

theorem assignRoles_receiving_valid (cfg : Config) (s : State) :
    assignRoles cfg EEPROM_RECEIVING EEPROM_VALID s =
      { s with EEPROM_ValidPage := EEPROM_PAGE1 cfg, EEPROM_ReceivingPage := EEPROM_PAGE0 cfg } := by
  unfold assignRoles EEPROM_ERASED EEPROM_VALID EEPROM_RECEIVING
  simp

theorem assignRoles_valid_receiving (cfg : Config) (s : State) :
    assignRoles cfg EEPROM_VALID EEPROM_RECEIVING s =
      { s with EEPROM_ValidPage := EEPROM_PAGE0 cfg, EEPROM_ReceivingPage := EEPROM_PAGE1 cfg } := by
  unfold assignRoles EEPROM_ERASED EEPROM_VALID EEPROM_RECEIVING
  simp

theorem assignRoles_receiving_erased (cfg : Config) (s : State) :
    assignRoles cfg EEPROM_RECEIVING EEPROM_ERASED s =
      { s with EEPROM_ErasedPage := EEPROM_PAGE1 cfg, EEPROM_ReceivingPage := EEPROM_PAGE0 cfg } := by
  unfold assignRoles EEPROM_ERASED EEPROM_VALID EEPROM_RECEIVING
  simp

theorem assignRoles_erased_receiving (cfg : Config) (s : State) :
    assignRoles cfg EEPROM_ERASED EEPROM_RECEIVING s =
      { s with EEPROM_ErasedPage := EEPROM_PAGE0 cfg, EEPROM_ReceivingPage := EEPROM_PAGE1 cfg } := by
  unfold assignRoles EEPROM_ERASED EEPROM_VALID EEPROM_RECEIVING
  simp

/-- C11 (V2.0 replay of an interrupted compaction): starting from power-on memory and with
no primitive failure, for every flash image in which page `R` is Receiving and the other
page `O` is Valid or Erased, where `O` (if Valid) and `R` hold committed records followed
by erased space, `T` being the tables those records give (records of `R` overriding those
of `O`, the last record of a name winning), and `R` has room for the live records the
tables still locate on `O`: `EEPROM_Init` returns `EEPROM_SUCCESS`; afterwards `R` is the
Valid page (role and header), `O` is the Erased page (role and header), no page is
Receiving, and every name below `EEPROM_VARIABLE_COUNT` reads the value its entry of `T`
addresses in the original image, `EEPROM_NOT_ASSIGNED` if that entry is a tombstone or
empty. -/
theorem C11_replay {cfg : Config} (hwf : cfg.WF) (flash : Nat → Nat) (hal : Nat → HAL_Status)
    (hok : ∀ k, hal k = HAL_OK) (fuel Value0 : Nat) {R O : Nat} (hp : IsPagePair cfg R O)
    (hR : read16 flash R = EEPROM_RECEIVING)
    {aO aR : Nat} {TO T : (Nat → Nat) × (Nat → Nat)}
    (hO : (read16 flash O = EEPROM_VALID ∧
        CommittedFrom cfg flash O (fun _ => 0, fun _ => 0) aO TO ∧ aO ≤ O + cfg.pageSize ∧
        (∀ x, aO ≤ x → x < O + cfg.pageSize → read16 flash x = 0xFFFF)) ∨
      (read16 flash O = EEPROM_ERASED ∧ TO = (fun _ => 0, fun _ => 0)))
    (hRc : CommittedFrom cfg flash R TO aR T) (haR : aR ≤ R + cfg.pageSize)
    (hRfree : ∀ x, aR ≤ x → x < R + cfg.pageSize → read16 flash x = 0xFFFF)
    (hroom : aR - R + (∑ m in Finset.range cfg.varCount,
      if onPage cfg O (T.1 m) then liveBytes (T.2 m) else 0) ≤ cfg.pageSize) :
    (EEPROM_Init cfg (fuel + 1) Value0 (powerOn flash hal)).1 = some EEPROM_SUCCESS ∧
    (EEPROM_Init cfg (fuel + 1) Value0 (powerOn flash hal)).2.EEPROM_ValidPage = R ∧
    (EEPROM_Init cfg (fuel + 1) Value0 (powerOn flash hal)).2.EEPROM_ErasedPage = O ∧
    (EEPROM_Init cfg (fuel + 1) Value0 (powerOn flash hal)).2.EEPROM_ReceivingPage =
      EEPROM_PAGE_NONE ∧
    read16 (EEPROM_Init cfg (fuel + 1) Value0 (powerOn flash hal)).2.flash R = EEPROM_VALID ∧
    read16 (EEPROM_Init cfg (fuel + 1) Value0 (powerOn flash hal)).2.flash O = EEPROM_ERASED ∧
    (∀ m, m < cfg.varCount → ∀ Value,
      EEPROM_ReadVariable cfg m Value (EEPROM_Init cfg (fuel + 1) Value0 (powerOn flash hal)).2 =
      if T.2 m = 0 then (EEPROM_NOT_ASSIGNED, Value)
      else (EEPROM_SUCCESS, assemble (T.2 m) Value
        (fun i => read16 flash (cfg.start + T.1 m + 2 * i)))) := by
  have hf : (powerOn flash hal).flash = flash := rfl
  rcases hO with ⟨hOv, hVc, haO, hVfree⟩ | ⟨hOe, hTO⟩
  · rcases hp with ⟨p1, p2⟩ | ⟨p1, p2⟩
    · have hni : ¬ invalidState (read16 (powerOn flash hal).flash (EEPROM_PAGE0 cfg))
          (read16 (powerOn flash hal).flash (EEPROM_PAGE1 cfg)) := by
        rw [hf, ← p1, ← p2, hR, hOv]; decide
      rw [init_consistent cfg _ _ _ hni, hf, ← p1, ← p2, hR, hOv]
      exact initTail_replay hwf (Or.inl ⟨p1, p2⟩) _ _ flash hal hok fuel Value0
        (by rw [assignRoles_receiving_valid, p1, p2]) hVc haO hVfree hRc haR hRfree hroom
    · have hni : ¬ invalidState (read16 (powerOn flash hal).flash (EEPROM_PAGE0 cfg))
          (read16 (powerOn flash hal).flash (EEPROM_PAGE1 cfg)) := by
        rw [hf, ← p1, ← p2, hR, hOv]; decide
      rw [init_consistent cfg _ _ _ hni, hf, ← p1, ← p2, hR, hOv]
      exact initTail_replay hwf (Or.inr ⟨p1, p2⟩) _ _ flash hal hok fuel Value0
        (by rw [assignRoles_valid_receiving, p1, p2]) hVc haO hVfree hRc haR hRfree hroom
  · subst hTO
    rcases hp with ⟨p1, p2⟩ | ⟨p1, p2⟩
    · have hni : ¬ invalidState (read16 (powerOn flash hal).flash (EEPROM_PAGE0 cfg))
          (read16 (powerOn flash hal).flash (EEPROM_PAGE1 cfg)) := by
        rw [hf, ← p1, ← p2, hR, hOe]; decide
      rw [init_consistent cfg _ _ _ hni, hf, ← p1, ← p2, hR, hOe]
      exact initTail_mark hwf (Or.inl ⟨p1, p2⟩) _ _ flash hal hok (fuel + 1) Value0
        (by rw [assignRoles_receiving_erased, p1, p2]) hOe hRc haR hRfree
    · have hni : ¬ invalidState (read16 (powerOn flash hal).flash (EEPROM_PAGE0 cfg))
          (read16 (powerOn flash hal).flash (EEPROM_PAGE1 cfg)) := by
        rw [hf, ← p1, ← p2, hR, hOe]; decide
      rw [init_consistent cfg _ _ _ hni, hf, ← p1, ← p2, hR, hOe]
      exact initTail_mark hwf (Or.inr ⟨p1, p2⟩) _ _ flash hal hok (fuel + 1) Value0
        (by rw [assignRoles_erased_receiving, p1, p2]) hOe hRc haR hRfree

/-- The tiny configuration after a power cut right after the erased page was marked
Receiving at the start of a compaction (page0 Valid and full, page1 Receiving and blank):
init replays the transfer, page1 becomes the Valid page and name 2 reads its committed
value 0x3333. -/
theorem C11_replay_witness :
    read16 (tinyCut 1) (EEPROM_PAGE1 tinyConfig) = EEPROM_RECEIVING ∧
    read16 (tinyCut 1) (EEPROM_PAGE0 tinyConfig) = EEPROM_VALID ∧
    (EEPROM_Init tinyConfig 1 0 (powerOn (tinyCut 1) halOk)).1 = some EEPROM_SUCCESS ∧
    (EEPROM_Init tinyConfig 1 0 (powerOn (tinyCut 1) halOk)).2.EEPROM_ValidPage =
      EEPROM_PAGE1 tinyConfig ∧
    EEPROM_ReadVariable tinyConfig 2 0 (EEPROM_Init tinyConfig 1 0 (powerOn (tinyCut 1) halOk)).2 =
      (EEPROM_SUCCESS, 0x3333) :=
  (fun h => ⟨by decide, by decide, h.1, h.2.1, (h.2.2.2.2.2.2 2 (by decide) 0).trans (by decide)⟩)
    (C11_replay tinyConfig_wf (tinyCut 1) halOk (fun _ => rfl) 0 0
      (Or.inr ⟨rfl, rfl⟩) (by decide)
      (Or.inl ⟨by decide,
        CommittedFrom.snoc (CommittedFrom.snoc (CommittedFrom.snoc
          (@CommittedFrom.nil tinyConfig (tinyCut 1) (EEPROM_PAGE0 tinyConfig)
            (fun _ => 0, fun _ => 0))
          (by decide) (by decide)) (by decide) (by decide)) (by decide) (by decide),
        by decide, by decide⟩)
      CommittedFrom.nil (by decide) (by decide) (by decide))

/-! ## The purge loop of `EEPROM_SetPageStatus` -/

theorem purge_fold_apply (cfg : Config) (P : Nat) (idx : Nat → Nat) (k m : Nat) :
    (List.range k).foldl
      (fun idx i => if onPage cfg P (idx i) then (fun m => if m = i then 0 else idx m) else idx)
      idx m = if m < k ∧ onPage cfg P (idx m) then 0 else idx m := by
  induction k generalizing m with
  | zero => simp
  | succ k ih =>
    rw [List.range_succ, List.foldl_append]
    simp only [List.foldl_cons, List.foldl_nil]
    have hk := ih k
    rw [if_neg (fun h => Nat.lt_irrefl k h.1)] at hk
    rw [hk]
    by_cases hon : onPage cfg P (idx k)
    · rw [if_pos hon]
      by_cases hm : m = k
      · subst hm; simp [hon]
      · simp only [hm, if_false]
        rw [ih m]
        have : (m < k + 1) ↔ (m < k) :=
          ⟨fun h => Nat.lt_of_le_of_ne (Nat.lt_succ_iff.mp h) hm, fun h => Nat.lt_succ_of_lt h⟩
        simp only [this]
    · rw [if_neg hon, ih m]
      by_cases hm : m = k
      · subst hm
        rw [if_neg (fun h => Nat.lt_irrefl m h.1), if_neg (fun h => hon h.2)]
      · have : (m < k + 1) ↔ (m < k) :=
          ⟨fun h => Nat.lt_of_le_of_ne (Nat.lt_succ_iff.mp h) hm, fun h => Nat.lt_succ_of_lt h⟩
        simp only [this]

theorem purgeIndex_apply (cfg : Config) (P : Nat) (idx : Nat → Nat) (m : Nat) :
    purgeIndex cfg P idx m = if m < cfg.varCount ∧ onPage cfg P (idx m) then 0 else idx m :=
  purge_fold_apply cfg P idx cfg.varCount m

/-! ## Record headers; the frame of an append; the purge on erase -/

theorem payloadBytes_eq (c : Nat) (h : c ≤ 3) :
    scanSize c = payloadBytes c ∧ recordBytes c = 2 + payloadBytes c := by
  interval_cases c <;> decide

theorem appendState_log_last (cfg : Config) (n v size : Nat) (s : State) :
    (appendState cfg n v size s).log.getLast? =
      some (FlashOp.program 1 s.EEPROM_NextIndex ((n + (size <<< 14)) % 65536)) := by
  unfold appendState
  simp

/-- C24 (V2.0 record-header encoding). For every name below 2^14 and size class c in
0..3, the header `name + (c << 14)` (as a 16-bit value) has c in bits 15-14 and the name in
bits 13-0; the decoding of the scanner (`header >> 14`, `header & 0x3FFF`) returns c and
the name, so `scanRecord` files the record under that name with that size class and the
scanner skips `payloadBytes c` bytes; the header is the erased pattern 0xFFFF exactly for
c = 3 and name 0x3FFF, hence never for a name below `EEPROM_VARIABLE_COUNT <= 0x3FFF`; and
it is the halfword the last primitive call of a successful append programs at the cursor. -/
theorem C24_header_encoding (cfg : Config) (n c : Nat) (hn : n < 16384) (hc : c ≤ 3) :
    ((n + (c <<< 14)) % 65536) / 16384 = c ∧
    ((n + (c <<< 14)) % 65536) % 16384 = n ∧
    ((n + (c <<< 14)) % 65536) >>> 14 = c ∧
    ((n + (c <<< 14)) % 65536) &&& 0x3FFF = n ∧
    ((n + (c <<< 14)) % 65536 = 0xFFFF ↔ c = 3 ∧ n = 0x3FFF) ∧
    (cfg.varCount ≤ 0x3FFF → n < cfg.varCount → (n + (c <<< 14)) % 65536 ≠ 0xFFFF) ∧
    scanSize (((n + (c <<< 14)) % 65536) >>> 14) = payloadBytes c ∧
    (n < cfg.varCount → ∀ (a : Nat) (T : (Nat → Nat) × (Nat → Nat)),
      scanRecord cfg a ((n + (c <<< 14)) % 65536) T =
        (fun m => if m = n then
            (if c = EEPROM_SIZE_DELETED then 0
             else ((a + 2 + 4294967296 - cfg.start) % 4294967296) % 65536)
          else T.1 m,
         fun m => if m = n then c else T.2 m)) ∧
    (∀ (s : State) (fuel v : Nat), writingPage s ≠ EEPROM_PAGE_NONE → ¬ noRoom cfg s c →
      (EEPROM_WriteVariable cfg (fuel + 1) n v c s).1 = some EEPROM_SUCCESS →
      (EEPROM_WriteVariable cfg (fuel + 1) n v c s).2.log.getLast? =
        some (FlashOp.program 1 s.EEPROM_NextIndex ((n + (c <<< 14)) % 65536))) := by
  have e1 := header_code n c hn hc
  have e2 := header_name n c hn
  refine ⟨?_, ?_, e1, e2, ?_, ?_, ?_, ?_, ?_⟩
  · rw [Nat.shiftLeft_eq]; omega
  · rw [Nat.shiftLeft_eq]; omega
  · rw [Nat.shiftLeft_eq]; omega
  · intro h1 h2
    rw [Nat.shiftLeft_eq]; omega
  · rw [e1]; exact (payloadBytes_eq c hc).1
  · intro hlt a T
    unfold scanRecord
    rw [e1, e2]
    simp only [hlt, if_true]
  · intro s fuel v hw hroom hok
    rw [write_append cfg fuel n v c s hw hroom] at hok ⊢
    simp only [Option.some.injEq] at hok
    simp only
    rw [appendRecord_success cfg n v c s hok]
    exact appendState_log_last cfg n v c s

theorem C24_header_encoding_witness :
    5 < 16384 ∧ 2 ≤ 3 ∧ ((5 + (2 <<< 14)) % 65536) >>> 14 = 2 ∧
    ((5 + (2 <<< 14)) % 65536) &&& 0x3FFF = 5 :=
  ⟨by decide, by decide,
    (C24_header_encoding stdConfig 5 2 (by decide) (by decide)).2.2.1,
    (C24_header_encoding stdConfig 5 2 (by decide) (by decide)).2.2.2.1⟩

theorem programFlash_out (f : Nat → Nat) (t addr d a : Nat)
    (h : a < addr ∨ addr + 2 * nbHalfwords t ≤ a) : programFlash f t addr d a = f a := by
  unfold programFlash
  rw [if_neg]; omega

theorem appendState_flash_raw {cfg : Config} (hwf : cfg.WF) {W O : Nat} {s : State}
    (hc : Core cfg W O s) {size : Nat} (hsz : size ≤ 3) (hroom : ¬ noRoom cfg s size) (n v a : Nat)
    (ha : a < s.EEPROM_NextIndex ∨ s.EEPROM_NextIndex + recordBytes size ≤ a) :
    (appendState cfg n v size s).flash a = s.flash a := by
  obtain ⟨h0, ⟨h1, h1'⟩, h2, _⟩ := room_facts hwf hc hroom
  have hb := pair_bounds hwf hc.pair
  have h32 := hwf.area32
  have hB := recordBytes_eq size hsz
  have e1 : (s.EEPROM_NextIndex + 2) % 4294967296 = s.EEPROM_NextIndex + 2 :=
    Nat.mod_eq_of_lt (by omega)
  show programFlash _ 1 s.EEPROM_NextIndex _ a = _
  rw [programFlash_out _ _ _ _ _ (by have : nbHalfwords 1 = 1 := rfl; omega)]
  split
  · rename_i hs
    have := scanSize_nb size hsz hs
    rw [e1, programFlash_out _ _ _ _ _ (by omega)]
  · rfl

theorem updateRoles_tables (Page st : Nat) (s : State) :
    (updateRoles Page st s).EEPROM_Index = s.EEPROM_Index ∧
    (updateRoles Page st s).EEPROM_SizeTable = s.EEPROM_SizeTable := by
  unfold updateRoles
  simp only
  split_ifs <;> exact ⟨rfl, rfl⟩

/-- C25 (V2.0 purge on erase), as the code has it. After a successful
`EEPROM_SetPageStatus(P, EEPROM_ERASED)` the index entry of every configured name that
pointed into `P` is 0 while its size entry is left as it was; every other entry of both
tables is unchanged; so a lock-step between index and size table that held before holds
afterwards exactly when no configured name pointed into `P`. -/
theorem C25_purge_index_only (cfg : Config) (P : Nat) (s : State)
    (h : (EEPROM_SetPageStatus cfg P EEPROM_ERASED s).1 = EEPROM_SUCCESS) :
    (∀ m, m < cfg.varCount → onPage cfg P (s.EEPROM_Index m) →
      (EEPROM_SetPageStatus cfg P EEPROM_ERASED s).2.EEPROM_Index m = 0) ∧
    (∀ m, ¬ (m < cfg.varCount ∧ onPage cfg P (s.EEPROM_Index m)) →
      (EEPROM_SetPageStatus cfg P EEPROM_ERASED s).2.EEPROM_Index m = s.EEPROM_Index m) ∧
    (∀ m, (EEPROM_SetPageStatus cfg P EEPROM_ERASED s).2.EEPROM_SizeTable m
      = s.EEPROM_SizeTable m) ∧
    (LockStep cfg s →
      (LockStep cfg (EEPROM_SetPageStatus cfg P EEPROM_ERASED s).2 ↔
        ∀ m, m < cfg.varCount → ¬ onPage cfg P (s.EEPROM_Index m))) := by
  rw [(SetPageStatus_erase cfg P s).2 h]
  have eI : (eraseState cfg P s).EEPROM_Index = purgeIndex cfg P s.EEPROM_Index :=
    (updateRoles_tables _ _ _).1
  have eS : (eraseState cfg P s).EEPROM_SizeTable = s.EEPROM_SizeTable :=
    (updateRoles_tables _ _ _).2
  have a1 : ∀ m, m < cfg.varCount → onPage cfg P (s.EEPROM_Index m) →
      (eraseState cfg P s).EEPROM_Index m = 0 := by
    intro m hm hon
    rw [eI, purgeIndex_apply, if_pos ⟨hm, hon⟩]
  have a2 : ∀ m, ¬ (m < cfg.varCount ∧ onPage cfg P (s.EEPROM_Index m)) →
      (eraseState cfg P s).EEPROM_Index m = s.EEPROM_Index m := by
    intro m hm
    rw [eI, purgeIndex_apply, if_neg hm]
  refine ⟨a1, a2, fun m => by rw [eS], ?_⟩
  intro hl
  constructor
  · intro ht m hm hon
    have h0 : s.EEPROM_Index m ≠ 0 := fun e => onPage_zero cfg P (e ▸ hon)
    have h1 : s.EEPROM_SizeTable m ≠ EEPROM_SIZE_DELETED := fun e => h0 ((hl m hm).mpr e)
    have h2 := (ht m hm).mp (a1 m hm hon)
    rw [eS] at h2
    exact h1 h2
  · intro hno m hm
    rw [a2 m (fun hh => hno m hm hh.2), eS]
    exact hl m hm

theorem C25_purge_index_only_witness :
    (EEPROM_SetPageStatus stdConfig (EEPROM_PAGE1 stdConfig) EEPROM_ERASED stdOne).1
      = EEPROM_SUCCESS ∧
    LockStep stdConfig stdOne ∧
    (LockStep stdConfig
        (EEPROM_SetPageStatus stdConfig (EEPROM_PAGE1 stdConfig) EEPROM_ERASED stdOne).2 ↔
      ∀ m, m < stdConfig.varCount →
        ¬ onPage stdConfig (EEPROM_PAGE1 stdConfig) (stdOne.EEPROM_Index m)) :=
  ⟨by decide, by decide,
    (C25_purge_index_only stdConfig (EEPROM_PAGE1 stdConfig) stdOne (by decide)).2.2.2
      (by decide)⟩

/-- C25, the claim as stated: in the shipped configuration after `write(0, 0x1111, Half)`
the tables are in lock-step and name 0 is stored on page 0. A successful
`EEPROM_SetPageStatus(EEPROM_PAGE0, EEPROM_ERASED)` clears `EEPROM_Index[0]` but leaves
`EEPROM_SizeTable[0] = EEPROM_SIZE16`: the name is not removed from both tables and the
lock-step is broken. -/
theorem C25_size_entry_survives :
    LockStep stdConfig stdOne ∧
    onPage stdConfig (EEPROM_PAGE0 stdConfig) (stdOne.EEPROM_Index 0) ∧
    stdOne.EEPROM_SizeTable 0 = EEPROM_SIZE16 ∧
    (EEPROM_SetPageStatus stdConfig (EEPROM_PAGE0 stdConfig) EEPROM_ERASED stdOne).1
      = EEPROM_SUCCESS ∧
    (EEPROM_SetPageStatus stdConfig (EEPROM_PAGE0 stdConfig) EEPROM_ERASED
      stdOne).2.EEPROM_Index 0 = 0 ∧
    (EEPROM_SetPageStatus stdConfig (EEPROM_PAGE0 stdConfig) EEPROM_ERASED
      stdOne).2.EEPROM_SizeTable 0 = EEPROM_SIZE16 ∧
    ¬ LockStep stdConfig
      (EEPROM_SetPageStatus stdConfig (EEPROM_PAGE0 stdConfig) EEPROM_ERASED stdOne).2 := by
  decide

/-! ## The scanner: the last record of a name wins -/

theorem layout_append (a : Nat) (hs : List Nat) (h : Nat) :
    layout a (hs ++ [h]) = layout a hs ++ [(layoutEnd a hs, h)] ∧
    layoutEnd a (hs ++ [h]) = layoutEnd a hs + 2 + payloadBytes (h >>> 14) := by
  induction hs generalizing a with
  | nil => exact ⟨rfl, rfl⟩
  | cons x xs ih =>
    obtain ⟨e1, e2⟩ := ih (a + 2 + payloadBytes (x >>> 14))
    constructor
    · show (a, x) :: layout _ (xs ++ [h]) = (a, x) :: layout _ xs ++ _
      rw [e1]; rfl
    · exact e2

theorem layout_mem (a : Nat) (hs : List Nat) :
    ∀ p ∈ layout a hs, a ≤ p.1 ∧ p.1 + 2 ≤ layoutEnd a hs := by
  induction hs using List.reverseRecOn with
  | nil => intro p hp; exact absurd hp (List.not_mem_nil p)
  | append_singleton hs h ih =>
    intro p hp
    obtain ⟨e1, e2⟩ := layout_append a hs h
    rw [e1] at hp
    rw [e2]
    rcases List.mem_append.mp hp with hp' | hp'
    · have := ih p hp'
      omega
    · rw [List.mem_singleton] at hp'
      subst hp'
      have hge : a ≤ layoutEnd a hs := by
        clear ih hp e1 e2
        induction hs generalizing a with
        | nil => exact Nat.le_refl _
        | cons x xs ih2 =>
          have := ih2 (a + 2 + payloadBytes (x >>> 14))
          show a ≤ layoutEnd (a + 2 + payloadBytes (x >>> 14)) xs
          omega
      exact ⟨hge, by show layoutEnd a hs + 2 ≤ _; omega⟩

/-- A page laid out with committed headers is what the scanner's record relation
describes, with the tables obtained by filing the records in order. -/
theorem committedFrom_layout {cfg : Config} {flash : Nat → Nat} {P : Nat}
    (T0 : (Nat → Nat) × (Nat → Nat)) (hs : List Nat) :
    (∀ p ∈ layout (P + 2) hs, p.2 ≠ 0xFFFF ∧ read16 flash p.1 = p.2) →
    layoutEnd (P + 2) hs ≤ P + cfg.pageSize →
    CommittedFrom cfg flash P T0 (layoutEnd (P + 2) hs)
      ((layout (P + 2) hs).foldl (fun T p => scanRecord cfg p.1 p.2 T) T0) := by
  induction hs using List.reverseRecOn with
  | nil => intro _ _; exact CommittedFrom.nil
  | append_singleton hs h ih =>
    intro hrec hend
    obtain ⟨e1, e2⟩ := layout_append (P + 2) hs h
    rw [e1] at hrec
    rw [e2] at hend
    rw [e1, e2, List.foldl_append]
    simp only [List.foldl_cons, List.foldl_nil]
    have hc := ih (fun p hp => hrec p (List.mem_append_left _ hp)) (by omega)
    obtain ⟨hne, hrd⟩ := hrec (layoutEnd (P + 2) hs, h) (List.mem_append_right _ (by simp))
    simp only at hne hrd
    have hlt : h < 65536 := by rw [← hrd]; exact read16_lt _ _
    have hsn := CommittedFrom.snoc hc (by omega) (by rw [hrd]; exact hne)
    rw [hrd, (payloadBytes_eq (h >>> 14) (shiftRight14_le h hlt)).1] at hsn
    exact hsn

theorem lastRecord_append (m : Nat) (recs : List (Nat × Nat)) (p : Nat × Nat) :
    lastRecord m (recs ++ [p]) = if p.2 &&& 0x3FFF = m then some p else lastRecord m recs := by
  unfold lastRecord
  rw [List.reverse_append, List.reverse_singleton, List.singleton_append, List.find?_cons]
  by_cases h : p.2 &&& 0x3FFF = m
  · simp [h]
  · simp [h]

theorem lastRecord_mem {m : Nat} {recs : List (Nat × Nat)} {p : Nat × Nat}
    (h : lastRecord m recs = some p) : p ∈ recs ∧ p.2 &&& 0x3FFF = m := by
  unfold lastRecord at h
  have h1 := List.mem_of_find?_eq_some h
  have h2 := List.find?_some h
  exact ⟨List.mem_reverse.mp h1, by simpa using h2⟩

/-- Filing a sequence of records: for a configured name the last record of that name
decides the entry; other entries are those of the initial tables. -/
theorem fold_lastRecord (cfg : Config) (T0 : (Nat → Nat) × (Nat → Nat))
    (recs : List (Nat × Nat)) (m : Nat) :
    (m < cfg.varCount →
      (∀ p, lastRecord m recs = some p →
        (recs.foldl (fun T p => scanRecord cfg p.1 p.2 T) T0).2 m = p.2 >>> 14 ∧
        (recs.foldl (fun T p => scanRecord cfg p.1 p.2 T) T0).1 m =
          if p.2 >>> 14 = EEPROM_SIZE_DELETED then 0
          else ((p.1 + 2 + 4294967296 - cfg.start) % 4294967296) % 65536) ∧
      (lastRecord m recs = none →
        (recs.foldl (fun T p => scanRecord cfg p.1 p.2 T) T0).1 m = T0.1 m ∧
        (recs.foldl (fun T p => scanRecord cfg p.1 p.2 T) T0).2 m = T0.2 m)) ∧
    (cfg.varCount ≤ m →
      (recs.foldl (fun T p => scanRecord cfg p.1 p.2 T) T0).1 m = T0.1 m ∧
      (recs.foldl (fun T p => scanRecord cfg p.1 p.2 T) T0).2 m = T0.2 m) := by
  induction recs using List.reverseRecOn with
  | nil =>
    refine ⟨fun _ => ⟨fun p hp => ?_, fun _ => ⟨rfl, rfl⟩⟩, fun _ => ⟨rfl, rfl⟩⟩
    simp [lastRecord] at hp
  | append_singleton recs q ih =>
    obtain ⟨ih1, ih2⟩ := ih
    rw [List.foldl_append]
    simp only [List.foldl_cons, List.foldl_nil]
    rw [lastRecord_append]
    generalize recs.foldl (fun T p => scanRecord cfg p.1 p.2 T) T0 = T at ih1 ih2 ⊢
    unfold scanRecord
    simp only
    by_cases hq : q.2 &&& 0x3FFF < cfg.varCount
    · rw [if_pos hq]
      simp only
      constructor
      · intro hm
        by_cases hmq : q.2 &&& 0x3FFF = m
        · rw [if_pos hmq]
          refine ⟨fun p hp => ?_, fun hp => by cases hp⟩
          simp only [Option.some.injEq] at hp
          subst hp
          rw [if_pos hmq.symm, if_pos hmq.symm]
          exact ⟨rfl, rfl⟩
        · rw [if_neg hmq, if_neg (fun e => hmq e.symm), if_neg (fun e => hmq e.symm)]
          exact ih1 hm
      · intro hm
        rw [if_neg (by omega), if_neg (by omega)]
        exact ih2 hm
    · rw [if_neg hq]
      constructor
      · intro hm
        rw [if_neg (by omega)]
        exact ih1 hm
      · exact ih2

/-- C21 (V2.0 scanner semantics: last record wins). Let a page consist of committed
records with the headers `hs`, laid out from `Page + 2` with `2 + payloadBytes` bytes each,
followed by erased space up to the page end. Then `EEPROM_PageToIndex` sets, for every
configured name with a record in the page, the size entry to the size class of the name's
last record and the index entry to that record's payload offset (header address + 2,
relative to `EEPROM_START_ADDRESS`), or to 0 if that record is a tombstone; it leaves the
entries of configured names without a record, and all positions at or beyond
`EEPROM_VARIABLE_COUNT`, unchanged; and the cursor ends just past the last record (0 if
that is the page end), every record having been skipped by its full length. -/
theorem C21_last_record_wins {cfg : Config} (hwf : cfg.WF) {P : Nat}
    (hP : P = EEPROM_PAGE0 cfg ∨ P = EEPROM_PAGE1 cfg) (s : State) (hs : List Nat)
    (hrec : ∀ p ∈ layout (P + 2) hs, p.2 ≠ 0xFFFF ∧ read16 s.flash p.1 = p.2)
    (hend : layoutEnd (P + 2) hs ≤ P + cfg.pageSize)
    (hfree : ∀ x, layoutEnd (P + 2) hs ≤ x → x < P + cfg.pageSize → read16 s.flash x = 0xFFFF) :
    (∀ m, m < cfg.varCount →
      (∀ a h, lastRecord m (layout (P + 2) hs) = some (a, h) →
        (EEPROM_PageToIndex cfg P s).EEPROM_SizeTable m = h >>> 14 ∧
        (EEPROM_PageToIndex cfg P s).EEPROM_Index m =
          if h >>> 14 = EEPROM_SIZE_DELETED then 0 else a + 2 - cfg.start) ∧
      (lastRecord m (layout (P + 2) hs) = none →
        (EEPROM_PageToIndex cfg P s).EEPROM_Index m = s.EEPROM_Index m ∧
        (EEPROM_PageToIndex cfg P s).EEPROM_SizeTable m = s.EEPROM_SizeTable m)) ∧
    (∀ m, cfg.varCount ≤ m →
      (EEPROM_PageToIndex cfg P s).EEPROM_Index m = s.EEPROM_Index m ∧
      (EEPROM_PageToIndex cfg P s).EEPROM_SizeTable m = s.EEPROM_SizeTable m) ∧
    (EEPROM_PageToIndex cfg P s).EEPROM_NextIndex =
      (if layoutEnd (P + 2) hs = P + cfg.pageSize then 0 else layoutEnd (P + 2) hs) := by
  have h32 := hwf.area32
  have h16 := hwf.area16
  have hPb : cfg.start ≤ P ∧ P + cfg.pageSize ≤ cfg.start + 2 * cfg.pageSize := by
    unfold EEPROM_PAGE0 EEPROM_PAGE1 at hP
    rcases hP with h | h <;> rw [h] <;> omega
  have hC := @committedFrom_layout cfg s.flash P (s.EEPROM_Index, s.EEPROM_SizeTable) hs hrec hend
  rw [pageToIndex_from hwf hP hC hend hfree]
  simp only
  refine ⟨?_, ?_, ?_⟩
  · intro m hm
    obtain ⟨f1, f2⟩ := (fold_lastRecord cfg (s.EEPROM_Index, s.EEPROM_SizeTable)
      (layout (P + 2) hs) m).1 hm
    refine ⟨fun a h hl => ?_, f2⟩
    obtain ⟨g1, g2⟩ := f1 (a, h) hl
    refine ⟨g1, ?_⟩
    rw [g2]
    have hb := layout_mem (P + 2) hs (a, h) (lastRecord_mem hl).1
    simp only at hb
    have e : a + 2 + 4294967296 - cfg.start = (a + 2 - cfg.start) + 4294967296 := by omega
    rw [e, Nat.add_mod_right, Nat.mod_eq_of_lt (by omega), Nat.mod_eq_of_lt (by omega)]
  · intro m hm
    exact (fold_lastRecord cfg (s.EEPROM_Index, s.EEPROM_SizeTable) (layout (P + 2) hs) m).2 hm
  · by_cases he : layoutEnd (P + 2) hs = P + cfg.pageSize
    · rw [if_pos he, if_pos (by omega)]
    · rw [if_neg he, if_neg (by omega)]

theorem C21_last_record_wins_witness :
    lastRecord 0 (layout (EEPROM_PAGE0 tinyConfig + 2) [0x4000, 0x0000, 0x8000])
      = some (EEPROM_PAGE0 tinyConfig + 8, 0x8000) ∧
    (EEPROM_PageToIndex tinyConfig (EEPROM_PAGE0 tinyConfig)
        (powerOn tinyThrice.flash halOk)).EEPROM_SizeTable 0 = 0x8000 >>> 14 ∧
    (EEPROM_PageToIndex tinyConfig (EEPROM_PAGE0 tinyConfig)
        (powerOn tinyThrice.flash halOk)).EEPROM_Index 0 =
      if 0x8000 >>> 14 = EEPROM_SIZE_DELETED then 0
      else EEPROM_PAGE0 tinyConfig + 8 + 2 - tinyConfig.start :=
  ⟨by decide,
   ((C21_last_record_wins tinyConfig_wf (Or.inl rfl) (powerOn tinyThrice.flash halOk)
      [0x4000, 0x0000, 0x8000] (by decide) (by decide)
      (fun x h1 h2 => absurd (Nat.lt_of_le_of_lt h1 h2) (by decide))).1 0 (by decide)).1
      (EEPROM_PAGE0 tinyConfig + 8) 0x8000 (by decide)⟩

/-! ## The scanner: iterations, reads and cursor stay inside the page -/

theorem scanReads_succ (flash : Nat → Nat) (E f a : Nat) :
    scanReads flash E (f + 1) a =
      if a < E then
        if read16 flash a = 0xFFFF then
          (a :: lookAheadReads a E [2, 4, 6, 8]) ::
            (if lookAhead flash a E [2, 4, 6, 8] 0 = 0 then []
             else scanReads flash E f
              ((a + 2 + lookAhead flash a E [2, 4, 6, 8] 0) % 4294967296))
        else
          [a] :: scanReads flash E f ((a + 2 + scanSize (read16 flash a >>> 14)) % 4294967296)
      else [] := by
  rw [scanReads]

theorem lookAhead_even (flash : Nat → Nat) (a E : Nat) :
    lookAhead flash a E [2, 4, 6, 8] 0 % 2 = 0 := by
  simp only [lookAhead]
  split_ifs <;> rfl

theorem scanSize_even (h : Nat) (hh : h < 65536) : scanSize (h >>> 14) % 2 = 0 := by
  have h3 := shiftRight14_le h hh
  rcases scanSize_eq (h >>> 14) h3 with ⟨_, e⟩ | ⟨_, e⟩ | ⟨_, e⟩ | ⟨_, e⟩ <;> rw [e]

theorem lookAheadReads_mem (a E : Nat) (ha : a % 2 = 0) (hE : E + 16 ≤ 4294967296)
    (haE : a < E) : ∀ x ∈ lookAheadReads a E [2, 4, 6, 8], a ≤ x ∧ x < E ∧ x % 2 = 0 := by
  intro x hx
  simp only [lookAheadReads] at hx
  rw [Nat.mod_eq_of_lt (show a + 2 < 4294967296 by omega),
    Nat.mod_eq_of_lt (show a + 4 < 4294967296 by omega),
    Nat.mod_eq_of_lt (show a + 6 < 4294967296 by omega),
    Nat.mod_eq_of_lt (show a + 8 < 4294967296 by omega)] at hx
  split_ifs at hx <;> simp at hx <;> omega

/-- The loop has terminated after as many iterations as `scanReads` lists, provided the
budget covers the distance to the page end. -/
theorem scanLoop_iterations (cfg : Config) (flash : Nat → Nat) (E : Nat)
    (hE : E + 16 ≤ 4294967296) (fuel : Nat) :
    ∀ (a : Nat) (T : (Nat → Nat) × (Nat → Nat)) (k : Nat), E ≤ a + 2 * fuel →
      scanLoop cfg flash E ((scanReads flash E fuel a).length + k) a T =
        scanLoop cfg flash E fuel a T := by
  induction fuel with
  | zero =>
    intro a T k h
    have hna : ¬ a < E := by omega
    cases k with
    | zero => rfl
    | succ k =>
      show scanLoop cfg flash E (0 + (k + 1)) a T = _
      rw [show 0 + (k + 1) = k + 1 by omega, scanLoop_succ, if_neg hna]
      rfl
  | succ f ih =>
    intro a T k h
    rw [scanReads_succ, scanLoop_succ]
    by_cases ha : a < E
    · rw [if_pos ha, if_pos ha]
      by_cases hh : read16 flash a = 0xFFFF
      · rw [if_pos hh, if_pos hh]
        by_cases hl : lookAhead flash a E [2, 4, 6, 8] 0 = 0
        · rw [if_pos hl, if_pos hl]
          rw [List.length_cons, List.length_nil, show 0 + 1 + k = k + 1 by omega,
            scanLoop_succ, if_pos ha, if_pos hh, if_pos hl]
        · rw [if_neg hl, if_neg hl, List.length_cons]
          obtain ⟨l8, l2⟩ := lookAhead_le flash a E
          have := l2 hl
          rw [show (scanReads flash E f
              ((a + 2 + lookAhead flash a E [2, 4, 6, 8] 0) % 4294967296)).length + 1 + k =
            ((scanReads flash E f
              ((a + 2 + lookAhead flash a E [2, 4, 6, 8] 0) % 4294967296)).length + k) + 1
            by omega, scanLoop_succ, if_pos ha, if_pos hh, if_neg hl]
          apply ih
          rw [Nat.mod_eq_of_lt (by omega)]
          omega
      · rw [if_neg hh, if_neg hh, List.length_cons]
        have := scanSize_le8 (read16 flash a) (read16_lt flash a)
        rw [show (scanReads flash E f
            ((a + 2 + scanSize (read16 flash a >>> 14)) % 4294967296)).length + 1 + k =
          ((scanReads flash E f
            ((a + 2 + scanSize (read16 flash a >>> 14)) % 4294967296)).length + k) + 1
          by omega, scanLoop_succ, if_pos ha, if_neg hh]
        apply ih
        rw [Nat.mod_eq_of_lt (by omega)]
        omega
    · rw [if_neg ha, if_neg ha]
      cases k with
      | zero => rfl
      | succ k =>
        show scanLoop cfg flash E (0 + (k + 1)) a T = _
        rw [show 0 + (k + 1) = k + 1 by omega, scanLoop_succ, if_neg ha]

/-- Every iteration sits at its own even address below the page end, and reads only even
addresses from its own up to the page end. -/
theorem scanReads_bounds (flash : Nat → Nat) (E : Nat) (hE : E + 16 ≤ 4294967296)
    (hEe : E % 2 = 0) (fuel : Nat) :
    ∀ (a : Nat), a % 2 = 0 →
      2 * (scanReads flash E fuel a).length ≤ E - a ∧
      ∀ l ∈ scanReads flash E fuel a, ∀ x ∈ l, a ≤ x ∧ x < E ∧ x % 2 = 0 := by
  induction fuel with
  | zero =>
    intro a _
    exact ⟨Nat.zero_le _, fun l hl => absurd hl (List.not_mem_nil l)⟩
  | succ f ih =>
    intro a hae
    rw [scanReads_succ]
    by_cases ha : a < E
    · rw [if_pos ha]
      have hfirst : ∀ x ∈ a :: lookAheadReads a E [2, 4, 6, 8], a ≤ x ∧ x < E ∧ x % 2 = 0 := by
        intro x hx
        rcases List.mem_cons.mp hx with e | hx'
        · subst e; exact ⟨Nat.le_refl _, ha, hae⟩
        · exact lookAheadReads_mem a E hae hE ha x hx'
      by_cases hh : read16 flash a = 0xFFFF
      · rw [if_pos hh]
        by_cases hl : lookAhead flash a E [2, 4, 6, 8] 0 = 0
        · rw [if_pos hl]
          refine ⟨by rw [List.length_cons, List.length_nil]; omega, ?_⟩
          intro l hl' x hx
          rw [List.mem_singleton] at hl'
          subst hl'
          exact hfirst x hx
        · rw [if_neg hl]
          obtain ⟨l8, l2⟩ := lookAhead_le flash a E
          have h2 := l2 hl
          have hev := lookAhead_even flash a E
          have hmod : (a + 2 + lookAhead flash a E [2, 4, 6, 8] 0) % 4294967296 =
              a + 2 + lookAhead flash a E [2, 4, 6, 8] 0 := Nat.mod_eq_of_lt (by omega)
          rw [hmod]
          obtain ⟨i1, i2⟩ := ih (a + 2 + lookAhead flash a E [2, 4, 6, 8] 0) (by omega)
          refine ⟨by rw [List.length_cons]; omega, ?_⟩
          intro l hl' x hx
          rcases List.mem_cons.mp hl' with e | hl''
          · subst e; exact hfirst x hx
          · have := i2 l hl'' x hx
            omega
      · rw [if_neg hh]
        have h8 := scanSize_le8 (read16 flash a) (read16_lt flash a)
        have hev := scanSize_even (read16 flash a) (read16_lt flash a)
        have hmod : (a + 2 + scanSize (read16 flash a >>> 14)) % 4294967296 =
            a + 2 + scanSize (read16 flash a >>> 14) := Nat.mod_eq_of_lt (by omega)
        rw [hmod]
        obtain ⟨i1, i2⟩ := ih (a + 2 + scanSize (read16 flash a >>> 14)) (by omega)
        refine ⟨by rw [List.length_cons]; omega, ?_⟩
        intro l hl' x hx
        rcases List.mem_cons.mp hl' with e | hl''
        · subst e
          rw [List.mem_singleton] at hx
          subst hx
          exact ⟨Nat.le_refl _, ha, hae⟩
        · have := i2 l hl'' x hx
          omega
    · rw [if_neg ha]
      exact ⟨Nat.zero_le _, fun l hl => absurd hl (List.not_mem_nil l)⟩

/-- The address at which the loop stops is even and not below its start. -/
theorem scanLoop_even (cfg : Config) (flash : Nat → Nat) (E : Nat) (hE : E + 16 ≤ 4294967296)
    (fuel : Nat) :
    ∀ (a : Nat) (T : (Nat → Nat) × (Nat → Nat)), a % 2 = 0 →
      a ≤ (scanLoop cfg flash E fuel a T).1 ∧ (scanLoop cfg flash E fuel a T).1 % 2 = 0 := by
  induction fuel with
  | zero => intro a T h; exact ⟨Nat.le_refl _, h⟩
  | succ f ih =>
    intro a T hae
    rw [scanLoop_succ]
    by_cases ha : a < E
    · rw [if_pos ha]
      by_cases hh : read16 flash a = 0xFFFF
      · rw [if_pos hh]
        by_cases hl : lookAhead flash a E [2, 4, 6, 8] 0 = 0
        · rw [if_pos hl]; exact ⟨Nat.le_refl _, hae⟩
        · rw [if_neg hl]
          obtain ⟨l8, l2⟩ := lookAhead_le flash a E
          have hev := lookAhead_even flash a E
          rw [Nat.mod_eq_of_lt (show a + 2 + lookAhead flash a E [2, 4, 6, 8] 0 < 4294967296
            by omega)]
          obtain ⟨i1, i2⟩ := ih (a + 2 + lookAhead flash a E [2, 4, 6, 8] 0) T (by omega)
          exact ⟨by omega, i2⟩
      · rw [if_neg hh]
        have h8 := scanSize_le8 (read16 flash a) (read16_lt flash a)
        have hev := scanSize_even (read16 flash a) (read16_lt flash a)
        rw [Nat.mod_eq_of_lt (show a + 2 + scanSize (read16 flash a >>> 14) < 4294967296
          by omega)]
        obtain ⟨i1, i2⟩ := ih (a + 2 + scanSize (read16 flash a >>> 14))
          (scanRecord cfg a (read16 flash a) T) (by omega)
        exact ⟨by omega, i2⟩
    · rw [if_neg ha]; exact ⟨Nat.le_refl _, hae⟩

/-- C28 (V2.0 scanner bounds and termination). For either page and any flash content, the
loop of `EEPROM_PageToIndex` executes its body at most `(FLASH_PAGE_SIZE - 2) / 2` times
and has then terminated (a larger budget of iterations gives the result the function
uses); every halfword it dereferences, look-ahead included, has an even address in
`[Page + 2, Page + FLASH_PAGE_SIZE)`; and it leaves `EEPROM_NextIndex` equal to 0 or to an
even address in `[Page + 2, Page + FLASH_PAGE_SIZE)`. -/
theorem C28_scanner_bounds {cfg : Config} (hwf : cfg.WF) {P : Nat}
    (hP : P = EEPROM_PAGE0 cfg ∨ P = EEPROM_PAGE1 cfg) (s : State) :
    (scanReads s.flash (P + cfg.pageSize) cfg.pageSize (P + 2)).length
      ≤ (cfg.pageSize - 2) / 2 ∧
    (∀ k, scanLoop cfg s.flash (P + cfg.pageSize)
        ((scanReads s.flash (P + cfg.pageSize) cfg.pageSize (P + 2)).length + k) (P + 2)
        (s.EEPROM_Index, s.EEPROM_SizeTable) =
      scanLoop cfg s.flash (P + cfg.pageSize) cfg.pageSize (P + 2)
        (s.EEPROM_Index, s.EEPROM_SizeTable)) ∧
    (∀ l ∈ scanReads s.flash (P + cfg.pageSize) cfg.pageSize (P + 2), ∀ x ∈ l,
      P + 2 ≤ x ∧ x < P + cfg.pageSize ∧ x % 2 = 0) ∧
    (EEPROM_PageToIndex cfg P s).EEPROM_NextIndex =
      (if (scanLoop cfg s.flash (P + cfg.pageSize) cfg.pageSize (P + 2)
            (s.EEPROM_Index, s.EEPROM_SizeTable)).1 ≥ P + cfg.pageSize then 0
       else (scanLoop cfg s.flash (P + cfg.pageSize) cfg.pageSize (P + 2)
            (s.EEPROM_Index, s.EEPROM_SizeTable)).1) ∧
    ((EEPROM_PageToIndex cfg P s).EEPROM_NextIndex = 0 ∨
      (P + 2 ≤ (EEPROM_PageToIndex cfg P s).EEPROM_NextIndex ∧
        (EEPROM_PageToIndex cfg P s).EEPROM_NextIndex < P + cfg.pageSize ∧
        (EEPROM_PageToIndex cfg P s).EEPROM_NextIndex % 2 = 0)) := by
  have h32 := hwf.area32
  have hpos := hwf.start_pos
  have hmin := hwf.size_min
  have hse := hwf.start_even
  have hpe := hwf.size_even
  have hPb : cfg.start ≤ P ∧ P + cfg.pageSize ≤ cfg.start + 2 * cfg.pageSize ∧ P % 2 = 0 := by
    unfold EEPROM_PAGE0 EEPROM_PAGE1 at hP
    rcases hP with h | h <;> rw [h] <;> omega
  obtain ⟨b1, b2⟩ := scanReads_bounds s.flash (P + cfg.pageSize) (by omega) (by omega)
    cfg.pageSize (P + 2) (by omega)
  obtain ⟨v1, v2⟩ := scanLoop_even cfg s.flash (P + cfg.pageSize) (by omega) cfg.pageSize
    (P + 2) (s.EEPROM_Index, s.EEPROM_SizeTable) (by omega)
  have hN : (EEPROM_PageToIndex cfg P s).EEPROM_NextIndex =
      (if (scanLoop cfg s.flash (P + cfg.pageSize) cfg.pageSize (P + 2)
            (s.EEPROM_Index, s.EEPROM_SizeTable)).1 ≥ P + cfg.pageSize then 0
       else (scanLoop cfg s.flash (P + cfg.pageSize) cfg.pageSize (P + 2)
            (s.EEPROM_Index, s.EEPROM_SizeTable)).1) := by
    unfold EEPROM_PageToIndex
    rw [if_neg (by unfold EEPROM_PAGE_NONE; omega), Nat.mod_eq_of_lt (by omega),
      Nat.mod_eq_of_lt (by omega)]
  refine ⟨by omega, ?_, b2, hN, ?_⟩
  · intro k
    exact scanLoop_iterations cfg s.flash (P + cfg.pageSize) (by omega) cfg.pageSize (P + 2)
      _ k (by omega)
  · rw [hN]
    by_cases hge : (scanLoop cfg s.flash (P + cfg.pageSize) cfg.pageSize (P + 2)
        (s.EEPROM_Index, s.EEPROM_SizeTable)).1 ≥ P + cfg.pageSize
    · rw [if_pos hge]; exact Or.inl rfl
    · rw [if_neg hge]; exact Or.inr ⟨v1, by omega, v2⟩

theorem C28_scanner_bounds_witness :
    (scanReads tornFlash (EEPROM_PAGE0 stdConfig + stdConfig.pageSize) stdConfig.pageSize
      (EEPROM_PAGE0 stdConfig + 2)).length ≤ (stdConfig.pageSize - 2) / 2 ∧
    ((EEPROM_PageToIndex stdConfig (EEPROM_PAGE0 stdConfig)
        (powerOn tornFlash halOk)).EEPROM_NextIndex = 0 ∨
      (EEPROM_PAGE0 stdConfig + 2 ≤ (EEPROM_PageToIndex stdConfig (EEPROM_PAGE0 stdConfig)
        (powerOn tornFlash halOk)).EEPROM_NextIndex ∧
       (EEPROM_PageToIndex stdConfig (EEPROM_PAGE0 stdConfig)
        (powerOn tornFlash halOk)).EEPROM_NextIndex < EEPROM_PAGE0 stdConfig + stdConfig.pageSize ∧
       (EEPROM_PageToIndex stdConfig (EEPROM_PAGE0 stdConfig)
        (powerOn tornFlash halOk)).EEPROM_NextIndex % 2 = 0)) :=
  ⟨(C28_scanner_bounds stdConfig_wf (Or.inl rfl) (powerOn tornFlash halOk)).1,
   (C28_scanner_bounds stdConfig_wf (Or.inl rfl) (powerOn tornFlash halOk)).2.2.2.2⟩

/-! ## Primitive calls outside the emulation area -/

/-- C27 (V2.0 flash writes stay inside the emulation area): the image left in the tiny
configuration by a power cut two primitive calls into a compaction has page0 Valid (full)
and page1 Receiving with the payload of a record whose header was not yet programmed, a
consistent header pair. `EEPROM_Init` from power-on memory resumes the transfer; the
fragment has used up room, so the copy of the third name finds no room, passes the capacity
check and calls `EEPROM_SetPageStatus(EEPROM_ErasedPage, EEPROM_RECEIVING)` with
`EEPROM_ErasedPage = EEPROM_PAGE_NONE`: the fifth of the eleven primitive calls programs
address 0, the header of the record that follows is programmed at address 2, and the tenth
call erases the page at address 0. -/
theorem C27_program_outside_area :
    ¬ invalidState (read16 (tinyCut 2) (EEPROM_PAGE0 tinyConfig))
      (read16 (tinyCut 2) (EEPROM_PAGE1 tinyConfig)) ∧
    read16 (tinyCut 2) (EEPROM_PAGE0 tinyConfig) = EEPROM_VALID ∧
    read16 (tinyCut 2) (EEPROM_PAGE1 tinyConfig) = EEPROM_RECEIVING ∧
    (EEPROM_Init tinyConfig 3 0 (powerOn (tinyCut 2) halOk)).1 = some EEPROM_SUCCESS ∧
    (EEPROM_Init tinyConfig 3 0 (powerOn (tinyCut 2) halOk)).2.log.length = 11 ∧
    (EEPROM_Init tinyConfig 3 0 (powerOn (tinyCut 2) halOk)).2.log[4]? =
      some (FlashOp.program 1 EEPROM_PAGE_NONE EEPROM_RECEIVING) ∧
    (EEPROM_Init tinyConfig 3 0 (powerOn (tinyCut 2) halOk)).2.log[6]? =
      some (FlashOp.program 1 2 0x4002) ∧
    (EEPROM_Init tinyConfig 3 0 (powerOn (tinyCut 2) halOk)).2.log[9]? =
      some (FlashOp.erase EEPROM_PAGE_NONE 1) ∧
    inArea tinyConfig (FlashOp.program 1 EEPROM_PAGE_NONE EEPROM_RECEIVING) = false ∧
    (EEPROM_Init tinyConfig 3 0 (powerOn (tinyCut 2) halOk)).2.log.all (inArea tinyConfig)
      = false := by
  decide

/-! ## What a compaction leaves on the new valid page -/

theorem layoutEnd_sum (a : Nat) (hs : List Nat) :
    layoutEnd a hs = a + (hs.map (fun h => 2 + payloadBytes (h >>> 14))).sum := by
  induction hs generalizing a with
  | nil => rfl
  | cons x xs ih =>
    show layoutEnd (a + 2 + payloadBytes (x >>> 14)) xs = _
    rw [ih, List.map_cons, List.sum_cons]
    omega

theorem sum_filter_range (p : Nat → Bool) (F : Nat → Nat) (k : Nat) :
    (((List.range k).filter p).map F).sum =
      ∑ m in Finset.range k, if p m = true then F m else 0 := by
  induction k with
  | zero => rfl
  | succ k ih =>
    rw [List.range_succ, List.filter_append, List.map_append, List.sum_append, ih,
      Finset.sum_range_succ]
    by_cases h : p k = true
    · simp [List.filter, h]
    · simp [List.filter, h]

theorem listed_append_frame {f g : Nat → Nat} {P : Nat} {hs : List Nat} {cur : Nat}
    (h : Listed f P hs cur) (hframe : ∀ a, a < cur → read16 g a = read16 f a) (hd : Nat)
    (hhd : read16 g cur = hd) :
    Listed g P (hs ++ [hd]) (cur + 2 + payloadBytes (hd >>> 14)) := by
  obtain ⟨h1, h2⟩ := h
  obtain ⟨e1, e2⟩ := layout_append (P + 2) hs hd
  refine ⟨?_, by rw [e2, h2]⟩
  intro p hp
  rw [e1] at hp
  rcases List.mem_append.mp hp with hp' | hp'
  · have hb := layout_mem (P + 2) hs p hp'
    rw [hframe p.1 (by omega)]
    exact h1 p hp'
  · rw [List.mem_singleton] at hp'
    subst hp'
    show read16 g (layoutEnd (P + 2) hs) = hd
    rw [h2]
    exact hhd

/-- The copy loop of a transfer appends to the receiving page one record for every name
whose index entry pointed into the source page, in the order of the names. -/
theorem copyLoop_listed {cfg : Config} (hwf : cfg.WF) {V R : Nat} {s0 : State}
    (hm : Mid cfg V R s0) (Value : Nat) (H0 : List Nat)
    (hL : Listed s0.flash R H0 (cursorOf cfg R s0)) (k : Nat) (hk : k ≤ cfg.varCount) :
    Listed ((List.range k).foldl (copyStep cfg V) (Value, s0)).2.flash R
      (H0 ++ ((List.range k).filter (fun i => decide (onPage cfg V (s0.EEPROM_Index i)))).map
        (fun i => recordHeader i (s0.EEPROM_SizeTable i)))
      (cursorOf cfg R ((List.range k).foldl (copyStep cfg V) (Value, s0)).2) ∧
    ∀ m, k ≤ m →
      ((List.range k).foldl (copyStep cfg V) (Value, s0)).2.EEPROM_Index m
        = s0.EEPROM_Index m := by
  induction k with
  | zero =>
    refine ⟨?_, fun _ _ => rfl⟩
    simpa using hL
  | succ k ih =>
    obtain ⟨ihL, ihK⟩ := ih (by omega)
    have hd := (copyLoop_drained hwf hm Value k (by omega)).1
    rw [List.range_succ, List.foldl_append, List.filter_append, List.map_append,
      ← List.append_assoc]
    simp only [List.foldl_cons, List.foldl_nil]
    generalize (List.range k).foldl (copyStep cfg V) (Value, s0) = acc at ihL ihK hd
    obtain ⟨vk, sk⟩ := acc
    simp only at ihL ihK hd
    have hi : k < cfg.varCount := by omega
    have hcb := hwf.count_bound
    have eIdx : sk.EEPROM_Index k = s0.EEPROM_Index k := ihK k (Nat.le_refl _)
    have eSz : sk.EEPROM_SizeTable k = s0.EEPROM_SizeTable k := hd.sizes k
    by_cases hon : onPage cfg V (sk.EEPROM_Index k)
    · obtain ⟨hs0, hsz, hroom, hread⟩ := copy_facts hwf hd.mid hi hon vk
      have hstep : copyStep cfg V (vk, sk) k =
          (assemble (sk.EEPROM_SizeTable k) vk
            (fun j => read16 sk.flash (cfg.start + sk.EEPROM_Index k + 2 * j)),
           appendState cfg k (assemble (sk.EEPROM_SizeTable k) vk
            (fun j => read16 sk.flash (cfg.start + sk.EEPROM_Index k + 2 * j)))
            (sk.EEPROM_SizeTable k) sk) := by
        unfold copyStep
        simp only [hon, if_true, hread]
      rw [hstep]
      simp only
      generalize assemble (sk.EEPROM_SizeTable k) vk
            (fun j => read16 sk.flash (cfg.start + sk.EEPROM_Index k + 2 * j)) = v1
      obtain ⟨h0, ⟨h1, h1'⟩, h2, hcur⟩ := room_facts hwf hd.mid.core hroom
      have hcur' := (appendState_cursor hwf hd.mid.core hroom k v1).1
      have hon0 : onPage cfg V (s0.EEPROM_Index k) := eIdx ▸ hon
      have hfil : List.filter (fun i => decide (onPage cfg V (s0.EEPROM_Index i))) [k] = [k] := by
        simp [List.filter, hon0]
      rw [hfil, List.map_cons, List.map_nil]
      constructor
      · have hcode : recordHeader k (s0.EEPROM_SizeTable k) >>> 14 = sk.EEPROM_SizeTable k := by
          unfold recordHeader
          rw [← eSz]
          exact header_code k _ (by omega) hsz
        rw [hcur] at ihL
        have hframe : ∀ a, a < sk.EEPROM_NextIndex →
            read16 (appendState cfg k v1 (sk.EEPROM_SizeTable k) sk).flash a
              = read16 sk.flash a :=
          fun a ha => appendState_flash_out hwf hd.mid.core hsz hroom k v1 a (Or.inl ha)
        have hhd : read16 (appendState cfg k v1 (sk.EEPROM_SizeTable k) sk).flash
            sk.EEPROM_NextIndex = recordHeader k (s0.EEPROM_SizeTable k) := by
          rw [appendState_header hwf hd.mid.core hsz hroom k v1, eSz]
          rfl
        have key := listed_append_frame ihL hframe _ hhd
        rw [hcode] at key
        rw [hcur', (payloadBytes_eq _ hsz).2, ← Nat.add_assoc]
        exact key
      · intro m hmk
        rw [appendState_index, if_neg (by omega)]
        exact ihK m (by omega)
    · have hstep : copyStep cfg V (vk, sk) k = (vk, sk) := by
        unfold copyStep
        simp only [hon, if_false]
      rw [hstep]
      have hon0 : ¬ onPage cfg V (s0.EEPROM_Index k) := eIdx ▸ hon
      have hfil : List.filter (fun i => decide (onPage cfg V (s0.EEPROM_Index i))) [k] = [] := by
        simp [List.filter, hon0]
      rw [hfil, List.map_nil, List.append_nil]
      exact ⟨ihL, fun m hmk => ihK m (by omega)⟩

theorem listed_frame {f g : Nat → Nat} {P : Nat} {hs : List Nat} {cur : Nat}
    (h : Listed f P hs cur) (hframe : ∀ a, P + 2 ≤ a → a < cur → read16 g a = read16 f a) :
    Listed g P hs cur := by
  obtain ⟨h1, h2⟩ := h
  refine ⟨?_, h2⟩
  intro p hp
  have hb := layout_mem (P + 2) hs p hp
  rw [hframe p.1 hb.1 (by omega)]
  exact h1 p hp

/-- Layout of the new valid page after a successful compacting write, in terms of the size
table before the call. -/
theorem compact_layout {cfg : Config} (hwf : cfg.WF) {s : State} (hs : Steady cfg s)
    {n size : Nat} (hn : n < cfg.varCount) (hsz : size ≤ 3) (h0 : size ≠ EEPROM_SIZE_DELETED)
    (hno : noRoom cfg s size) (v fuel : Nat)
    (hok : (EEPROM_WriteVariable cfg (fuel + 2) n v size s).1 = some EEPROM_SUCCESS) :
    Listed (EEPROM_WriteVariable cfg (fuel + 2) n v size s).2.flash s.EEPROM_ErasedPage
      (recordHeader n size ::
        ((List.range cfg.varCount).filter
          (fun i => decide (i ≠ n ∧ s.EEPROM_SizeTable i ≠ EEPROM_SIZE_DELETED))).map
          (fun i => recordHeader i (s.EEPROM_SizeTable i)))
      (cursorOf cfg s.EEPROM_ErasedPage (EEPROM_WriteVariable cfg (fuel + 2) n v size s).2) ∧
    ∀ m, (EEPROM_WriteVariable cfg (fuel + 2) n v size s).2.EEPROM_SizeTable m =
      if m = n then size else s.EEPROM_SizeTable m := by
  have hreq : requiredMemory cfg s.EEPROM_SizeTable n size ≤ cfg.pageSize := by
    by_contra hc
    have hf : EEPROM_WriteVariable cfg (fuel + 2) n v size s = (some EEPROM_FULL, s) :=
      write_full hwf hs hno (Nat.lt_of_not_le hc) v (fuel + 1)
    rw [hf] at hok
    simp at hok
  rw [write_compact_fold hwf hs hn hsz hno hreq v fuel hok]
  have hmid := compact_mid hwf hs hn hsz hreq v
  obtain ⟨bV, bR, bE, bN, bI, bS, bH, bF, bL⟩ := begin_fields hwf hs
  have hroom := compact_room hwf hs hn hsz hreq
  obtain ⟨hbc, hbcur⟩ := begin_core hwf hs
  obtain ⟨hpair, hne, hE0, hV0⟩ := steady_pair hwf hs
  have hpb := pair_bounds hwf hpair
  have hcb := hwf.count_bound
  have hcode : recordHeader n size >>> 14 = size := header_code n size (by omega) hsz
  have hPB := (payloadBytes_eq size hsz).2
  -- the record of the written name is the first one of the receiving page
  have hL0 : Listed (appendState cfg n v size (beginState s)).flash s.EEPROM_ErasedPage
      [recordHeader n size]
      (cursorOf cfg s.EEPROM_ErasedPage (appendState cfg n v size (beginState s))) := by
    constructor
    · intro p hp
      have hp' : p = (s.EEPROM_ErasedPage + 2, recordHeader n size) := by
        simpa [layout] using hp
      subst hp'
      have := appendState_header hwf hbc hsz hroom n v
      rw [bN] at this
      exact this
    · rw [(appendState_cursor hwf hbc hroom n v).1, bN, hPB]
      show s.EEPROM_ErasedPage + 2 + 2 + payloadBytes (recordHeader n size >>> 14) = _
      rw [hcode]
      omega
  obtain ⟨hLk, -⟩ := copyLoop_listed hwf hmid v _ hL0 cfg.varCount (Nat.le_refl _)
  obtain ⟨hd, hoff⟩ := copyLoop_drained hwf hmid v cfg.varCount (Nat.le_refl _)
  generalize ((List.range cfg.varCount).foldl (copyStep cfg s.EEPROM_ValidPage)
      (v, appendState cfg n v size (beginState s))).2 = u at hLk hd hoff
  obtain ⟨fV, fE, fR, fI, fS, fN, fH, fF, fL⟩ := finish_fields hwf hd.mid hoff
  have hsize : size % 256 = size := Nat.mod_eq_of_lt (by omega)
  -- which names the loop copies
  have hq : ∀ i, i ∈ List.range cfg.varCount →
      decide (onPage cfg s.EEPROM_ValidPage
        ((appendState cfg n v size (beginState s)).EEPROM_Index i)) =
      decide (i ≠ n ∧ s.EEPROM_SizeTable i ≠ EEPROM_SIZE_DELETED) := by
    intro i hi
    have hi' : i < cfg.varCount := List.mem_range.mp hi
    rw [decide_eq_decide]
    by_cases hin : i = n
    · subst hin
      have he := hmid.core.entries i hi'
      have hcl := cursorOf_le hwf hmid.core
      have hop := (onPage_other hwf hmid.core.pair hcl.2 he).1
      have hval := appendState_newIndex hwf hbc hroom
      have hnot : ¬ onPage cfg s.EEPROM_ValidPage
          ((appendState cfg i v size (beginState s)).EEPROM_Index i) := by
        intro hon
        obtain ⟨-, ha, hb⟩ := hop.mp hon
        rw [appendState_index, if_pos rfl, if_neg h0, hval.1, bN] at ha hb
        rcases hpb.2.2.2.2.1 with hcase | hcase <;> omega
      exact ⟨fun h => absurd h hnot, fun h => absurd rfl h.1⟩
    · rw [appendState_index, if_neg hin, bI]
      have hso := (steady_onPage hwf hs hi').1
      have hls := (hs.core.entries i hi').lockstep
      constructor
      · intro h
        exact ⟨hin, fun h2 => hso.mp h (hls.mpr h2)⟩
      · intro h
        exact hso.mpr (fun h2 => h.2 (hls.mp h2))
  have hg : ∀ i, i ∈ (List.range cfg.varCount).filter
        (fun i => decide (i ≠ n ∧ s.EEPROM_SizeTable i ≠ EEPROM_SIZE_DELETED)) →
      recordHeader i ((appendState cfg n v size (beginState s)).EEPROM_SizeTable i) =
        recordHeader i (s.EEPROM_SizeTable i) := by
    intro i hi
    have := (List.mem_filter.mp hi).2
    rw [decide_eq_true_eq] at this
    rw [appendState_sizeTable, if_neg this.1, bS]
  rw [List.filter_congr hq, List.map_congr_left hg, List.singleton_append] at hLk
  constructor
  · have ecur : cursorOf cfg s.EEPROM_ErasedPage
        (markState s.EEPROM_ErasedPage EEPROM_VALID (eraseState cfg s.EEPROM_ValidPage u)) =
        cursorOf cfg s.EEPROM_ErasedPage u := by
      unfold cursorOf
      rw [fN]
    rw [ecur, fF]
    apply listed_frame hLk
    intro a ha1 ha2
    have hcl := (cursorOf_le hwf hd.mid.core).2
    rw [read16_programFlash_out _ _ _ _ _ (Or.inr (by simpa [nbHalfwords] using ha1)),
      read16_eraseFlash_out]
    rcases hpb.2.2.2.2.1 with hcase | hcase
    · left; omega
    · right; omega
  · intro m
    rw [fS, hd.sizes m, appendState_sizeTable, hsize, bS]

theorem sum_live_split (k n size : Nat) (hn : n < k) (h0 : size ≠ EEPROM_SIZE_DELETED)
    (old new : Nat → Nat) (hnew : ∀ m, new m = if m = n then size else old m) :
    (∑ m in Finset.range k,
      if new m ≠ EEPROM_SIZE_DELETED then 2 + payloadBytes (new m) else 0) =
    2 + payloadBytes size +
      ∑ m in Finset.range k,
        if decide (m ≠ n ∧ old m ≠ EEPROM_SIZE_DELETED) = true then 2 + payloadBytes (old m)
        else 0 := by
  have hmem : n ∈ Finset.range k := Finset.mem_range.mpr hn
  rw [← Finset.add_sum_erase _ _ hmem, ← Finset.add_sum_erase (Finset.range k) _ hmem]
  have e1 : new n = size := by rw [hnew, if_pos rfl]
  rw [e1, if_pos h0]
  have e2 : decide (n ≠ n ∧ old n ≠ EEPROM_SIZE_DELETED) = false := by simp
  rw [e2]
  simp only [Bool.false_eq_true, if_false, Nat.zero_add]
  congr 1
  apply Finset.sum_congr rfl
  intro m hm
  have hmn : m ≠ n := (Finset.mem_erase.mp hm).1
  rw [hnew, if_neg hmn]
  by_cases ho : old m = EEPROM_SIZE_DELETED
  · simp [ho]
  · simp [ho, hmn]

theorem quiet_refl (cfg : Config) (s : State) : Quiet cfg s s := ⟨[], by simp, by simp⟩

theorem quiet_trans {cfg : Config} {s t u : State} (h1 : Quiet cfg s t) (h2 : Quiet cfg t u) :
    Quiet cfg s u := by
  obtain ⟨o1, b1, c1⟩ := h1
  obtain ⟨o2, b2, c2⟩ := h2
  refine ⟨o1 ++ o2, by rw [b2, b1, List.append_assoc], ?_⟩
  intro op hop
  rcases List.mem_append.1 hop with h | h
  · exact c1 op h
  · exact c2 op h

theorem setPageStatus_log (cfg : Config) (Page st : Nat) (s : State) :
    (EEPROM_SetPageStatus cfg Page st s).2.log = s.log ++
      [if st = EEPROM_ERASED then FlashOp.erase Page 1 else FlashOp.program 1 Page st] := by
  unfold EEPROM_SetPageStatus
  by_cases hst : st = EEPROM_ERASED
  · rw [if_pos hst, if_pos hst]
    simp only []
    unfold HAL_FLASHEx_Erase
    cases hc : halCall cfg (FlashOp.erase Page 1)
        { s with EEPROM_Index := purgeIndex cfg Page s.EEPROM_Index } with
    | mk r1 s2 =>
      have hl : s2.log = s.log ++ [FlashOp.erase Page 1] := by
        have := congrArg (fun p => p.2.log) hc
        simpa [halCall] using this.symm
      cases r1 with
      | HAL_OK => exact (updateRoles_hal_log Page st s2).2.trans hl
      | _ => exact hl
  · rw [if_neg hst, if_neg hst]
    unfold HAL_FLASH_Program
    cases hc : halCall cfg (FlashOp.program 1 Page st) s with
    | mk r1 s2 =>
      have hl : s2.log = s.log ++ [FlashOp.program 1 Page st] := by
        have := congrArg (fun p => p.2.log) hc
        simpa [halCall] using this.symm
      cases r1 with
      | HAL_OK => exact (updateRoles_hal_log Page st s2).2.trans hl
      | _ => exact hl

theorem setPageStatus_quiet (cfg : Config) (Page st : Nat) (s : State)
    (h : st % 65536 ≠ EEPROM_RECEIVING) :
    Quiet cfg s (EEPROM_SetPageStatus cfg Page st s).2 := by
  refine ⟨_, setPageStatus_log cfg Page st s, ?_⟩
  intro op hop
  rw [List.mem_singleton] at hop
  subst hop
  by_cases hst : st = EEPROM_ERASED
  · rw [if_pos hst]; rfl
  · rw [if_neg hst]
    simp [marksReceiving, h]

theorem appendRecord_log (cfg : Config) (n v size : Nat) (s : State) :
    ∃ ops, (appendRecord cfg n v size s).2.log = s.log ++ ops ∧
      ∀ op ∈ ops,
        (size ≠ EEPROM_SIZE_DELETED ∧
          op = FlashOp.program size ((s.EEPROM_NextIndex + 2) % 4294967296) v) ∨
        op = FlashOp.program 1 s.EEPROM_NextIndex ((n + (size <<< 14)) % 65536) := by
  unfold appendRecord HAL_FLASH_Program halCall
  by_cases hs : size = EEPROM_SIZE_DELETED
  · simp only [hs, ne_eq, not_true_eq_false, if_false]
    cases h1 : s.hal s.log.length <;>
      exact ⟨[FlashOp.program 1 s.EEPROM_NextIndex ((n + (EEPROM_SIZE_DELETED <<< 14)) % 65536)],
        rfl, by simp⟩
  · simp only [ne_eq, hs, not_false_eq_true, if_true]
    cases h1 : s.hal s.log.length with
    | HAL_OK =>
      simp only [List.length_append, List.length_singleton]
      cases h2 : s.hal (s.log.length + 1) <;>
        exact ⟨[FlashOp.program size ((s.EEPROM_NextIndex + 2) % 4294967296) v,
          FlashOp.program 1 s.EEPROM_NextIndex ((n + (size <<< 14)) % 65536)],
          by simp, by simp [hs]⟩
    | _ =>
      exact ⟨[FlashOp.program size ((s.EEPROM_NextIndex + 2) % 4294967296) v], rfl,
        by simp [hs]⟩

theorem appendRecord_quiet {cfg : Config} (hwf : cfg.WF) {W O : Nat} {s : State}
    (hc : Core cfg W O s) {size : Nat} (hsz : size ≤ 3) (hroom : ¬ noRoom cfg s size)
    (n v : Nat) : Quiet cfg s (appendRecord cfg n v size s).2 := by
  obtain ⟨ops, hl, hops⟩ := appendRecord_log cfg n v size s
  refine ⟨ops, hl, ?_⟩
  obtain ⟨h0, ⟨h1, h1'⟩, h2, _⟩ := room_facts hwf hc hroom
  have hb := pair_bounds hwf hc.pair
  have h32 := hwf.area32
  have hpair := hc.pair
  intro op hop
  rcases hops op hop with ⟨hs, rfl⟩ | rfl
  · have hB : 4 ≤ recordBytes size := by
      have hs' : size ≠ 0 := hs
      interval_cases size
      · exact absurd rfl hs'
      all_goals decide
    have e1 : (s.EEPROM_NextIndex + 2) % 4294967296 = s.EEPROM_NextIndex + 2 :=
      Nat.mod_eq_of_lt (by omega)
    rw [e1]
    unfold marksReceiving
    simp only [decide_eq_false_iff_not, not_and]
    intro h
    exfalso
    rcases hpair with ⟨e, e'⟩ | ⟨e, e'⟩ <;> rw [← e, ← e'] at h <;> omega
  · unfold marksReceiving
    simp only [decide_eq_false_iff_not, not_and]
    intro h
    exfalso
    rcases hpair with ⟨e, e'⟩ | ⟨e, e'⟩ <;> rw [← e, ← e'] at h <;> omega

theorem transferLoop_quiet {cfg : Config} (hwf : cfg.WF) {V R : Nat} {s : State}
    (hm : Mid cfg V R s) (Value fuel : Nat) (k : Nat) (hk : k ≤ cfg.varCount) :
    Quiet cfg s ((List.range k).foldl
      (transferStep cfg (EEPROM_WriteVariable cfg (fuel + 1)) V)
      (some EEPROM_SUCCESS, Value, s)).2.2 := by
  induction k with
  | zero => exact quiet_refl cfg s
  | succ k ih =>
    have ih := ih (by omega)
    obtain ⟨r, x, h1, -, h2⟩ := transferLoop_mid hwf hm Value fuel k (by omega)
    rw [List.range_succ, List.foldl_append]
    simp only [List.foldl_cons, List.foldl_nil]
    rw [h1] at ih ⊢
    by_cases hr : r = EEPROM_SUCCESS
    · subst hr
      have hx := h2 rfl
      have hd := (copyLoop_drained hwf hm Value k (by omega)).1
      rw [← hx] at hd
      obtain ⟨vk, sk⟩ := x
      simp only at ih hd ⊢
      unfold transferStep
      simp only
      by_cases hon : onPage cfg V (sk.EEPROM_Index k)
      · obtain ⟨hs0, hsz, hroom, hread⟩ := copy_facts hwf hd.mid (by omega : k < cfg.varCount) hon vk
        rw [if_pos hon, hread]
        simp only
        rw [write_append cfg fuel _ _ _ _ (mid_writing hwf hd.mid) hroom]
        exact quiet_trans ih (appendRecord_quiet hwf hd.mid.core hsz hroom _ _)
      · rw [if_neg hon]
        exact ih
    · rw [transferStep_stuck cfg _ V (some r) x k (by simpa using hr)]
      exact ih

theorem pageTransfer_quiet {cfg : Config} (hwf : cfg.WF) {V R : Nat} {s : State}
    (hm : Mid cfg V R s) (Value fuel : Nat) :
    Quiet cfg s (pageTransferWith cfg (EEPROM_WriteVariable cfg (fuel + 1)) Value s).2 := by
  have hq := transferLoop_quiet hwf hm Value fuel cfg.varCount (Nat.le_refl _)
  unfold pageTransferWith
  rw [hm.valid]
  generalize (List.range cfg.varCount).foldl
      (transferStep cfg (EEPROM_WriteVariable cfg (fuel + 1)) V)
      (some EEPROM_SUCCESS, Value, s) = acc at hq
  obtain ⟨r, vk, s1⟩ := acc
  simp only at hq
  have q2 := setPageStatus_quiet cfg s1.EEPROM_ValidPage EEPROM_ERASED s1 (by decide)
  have q3 := fun s2 : State =>
    setPageStatus_quiet cfg s2.EEPROM_ReceivingPage EEPROM_VALID s2 (by decide)
  split
  · rename_i e
    simp only [Prod.mk.injEq] at e
    obtain ⟨-, -, rfl⟩ := e
    split
    · rename_i s2 e2
      rw [e2] at q2
      split
      · rename_i s3 e3
        have := q3 s2
        rw [e3] at this
        exact quiet_trans hq (quiet_trans q2 this)
      · rename_i r3 s3 hne e3
        have := q3 s2
        rw [e3] at this
        exact quiet_trans hq (quiet_trans q2 this)
    · rename_i r2 s2 hne e2
      rw [e2] at q2
      exact quiet_trans hq q2
  · rename_i e
    simp only [Prod.mk.injEq] at e
    obtain ⟨-, -, rfl⟩ := e
    exact hq

theorem write_compact_quiet {cfg : Config} (hwf : cfg.WF) {s : State} (hs : Steady cfg s)
    {n size : Nat} (hn : n < cfg.varCount) (hsz : size ≤ 3) (hno : noRoom cfg s size)
    (hreq : requiredMemory cfg s.EEPROM_SizeTable n size ≤ cfg.pageSize) (v fuel : Nat) :
    ∃ u : State,
      u.log = s.log ++ [FlashOp.program 1 s.EEPROM_ErasedPage EEPROM_RECEIVING] ∧
      Quiet cfg u (EEPROM_WriteVariable cfg (fuel + 2) n v size s).2 := by
  obtain ⟨hc2, hcur2⟩ := begin_core hwf hs
  have hroom := compact_room hwf hs hn hsz hreq
  have hmid := compact_mid hwf hs hn hsz hreq v
  have hlog := setPageStatus_log cfg s.EEPROM_ErasedPage EEPROM_RECEIVING s
  rw [if_neg (by decide)] at hlog
  rw [EEPROM_WriteVariable, if_neg (steady_writing hwf hs), if_pos hno, if_neg (by omega)]
  obtain ⟨a1, a2⟩ := SetPageStatus_mark cfg s.EEPROM_ErasedPage EEPROM_RECEIVING s (by decide)
  split
  · rename_i s1 hM
    rw [hM] at a2
    have hs1 := a2 rfl
    simp only at hs1
    subst hs1
    show ∃ u : State,
      u.log = s.log ++ [FlashOp.program 1 s.EEPROM_ErasedPage EEPROM_RECEIVING] ∧
      Quiet cfg u (match EEPROM_WriteVariable cfg (fuel + 1) n v size (beginState s) with
        | (some EEPROM_SUCCESS, s3) =>
          pageTransferWith cfg (EEPROM_WriteVariable cfg (fuel + 1)) v s3
        | (r, s3) => (r, s3)).2
    have hw : writingPage (beginState s) ≠ EEPROM_PAGE_NONE := by
      have hb := pair_bounds hwf hc2.pair
      rw [hc2.writing]; unfold EEPROM_PAGE_NONE; omega
    rw [write_append cfg fuel n v size _ hw hroom]
    have hq := appendRecord_quiet hwf hc2 hsz hroom n v
    refine ⟨beginState s, (begin_fields hwf hs).2.2.2.2.2.2.2.2, ?_⟩
    by_cases hr : (appendRecord cfg n v size (beginState s)).1 = EEPROM_SUCCESS
    · have hst := appendRecord_success cfg n v size _ hr
      rw [hr]
      simp only
      rw [hst] at hq ⊢
      exact quiet_trans hq (pageTransfer_quiet hwf hmid v fuel)
    · split
      · rename_i e
        simp only [Prod.mk.injEq, Option.some.injEq] at e
        exact absurd e.1 hr
      · rename_i e
        simp only [Prod.mk.injEq] at e
        obtain ⟨-, rfl⟩ := e
        exact hq
  · rename_i r1 s1 hne hM
    rw [hM] at hlog
    exact ⟨s1, hlog, quiet_refl cfg s1⟩

theorem committedFrom_committed {cfg : Config} {flash : Nat → Nat} {P a : Nat}
    {T : (Nat → Nat) × (Nat → Nat)}
    (h : CommittedFrom cfg flash P (fun _ => 0, fun _ => 0) a T) :
    Committed cfg flash P a T := by
  induction h with
  | nil => exact Committed.nil
  | snoc _ h1 h2 ih => exact Committed.snoc ih h1 h2

theorem committedFrom_frame {cfg : Config} {f g : Nat → Nat} {P a : Nat}
    {T0 T : (Nat → Nat) × (Nat → Nat)} (h : CommittedFrom cfg f P T0 a T)
    (hfg : ∀ x, P + 2 ≤ x → x < a → read16 g x = read16 f x) :
    CommittedFrom cfg g P T0 a T := by
  induction h with
  | nil => exact CommittedFrom.nil
  | snoc hc hlt hne ih =>
    rename_i a0 T1
    have hge := committedFrom_ge hc
    have e : read16 g a0 = read16 f a0 := hfg a0 hge (by omega)
    rw [← e]
    exact CommittedFrom.snoc (ih (fun x h1 h2 => hfg x h1 (by omega))) hlt (by rw [e]; exact hne)

/-- A state with a Valid page `V` holding committed records up to the cursor, erased space
behind it, tables equal to the scan of these records, a blank Erased page `O` and no
Receiving page is steady, and its tables are what a scan rebuilds. -/
theorem scanned_steady {cfg : Config} (hwf : cfg.WF) {V O : Nat} (hp : IsPagePair cfg V O)
    {s : State} (hv : s.EEPROM_ValidPage = V) (hr : s.EEPROM_ReceivingPage = EEPROM_PAGE_NONE)
    (he : s.EEPROM_ErasedPage = O)
    (hV : read16 s.flash V = EEPROM_VALID)
    (hO : ∀ a, O ≤ a → a < O + cfg.pageSize → read16 s.flash a = 0xFFFF)
    {aV : Nat}
    (hc : CommittedFrom cfg s.flash V (fun _ => 0, fun _ => 0) aV
      (s.EEPROM_Index, s.EEPROM_SizeTable))
    (haV : aV ≤ V + cfg.pageSize)
    (hnext : s.EEPROM_NextIndex = if aV ≥ V + cfg.pageSize then 0 else aV)
    (hfree : ∀ x, aV ≤ x → x < V + cfg.pageSize → read16 s.flash x = 0xFFFF) :
    Steady cfg s ∧ Scanned cfg s := by
  subst hv he
  have hb := pair_bounds hwf hp
  have hge := committedFrom_ge hc
  have hcur : cursorOf cfg s.EEPROM_ValidPage s = aV := by
    unfold cursorOf
    rw [hnext]
    by_cases h : aV ≥ s.EEPROM_ValidPage + cfg.pageSize
    · rw [if_pos h, if_pos rfl]; omega
    · rw [if_neg h, if_neg (by omega)]
  have hT : ∀ m, EntryIn cfg s.EEPROM_ValidPage aV (s.EEPROM_Index m) (s.EEPROM_SizeTable m) := by
    intro m
    rcases committedFrom_entry hwf hc ⟨hb.1, hb.2.1⟩ m with h | h
    · simp only [] at h
      rw [h.1, h.2]; exact entryIn_zero cfg _ aV
    · exact h
  have hcore : Core cfg s.EEPROM_ValidPage s.EEPROM_ErasedPage s := by
    refine ⟨hp, ?_, ?_, ?_, ?_⟩
    · unfold writingPage
      rw [hr, if_neg (by simp)]
    · rw [hnext]
      by_cases h : aV ≥ s.EEPROM_ValidPage + cfg.pageSize
      · left; rw [if_pos h]
      · right; rw [if_neg h]; omega
    · rw [hcur]; exact hfree
    · intro m _
      rw [hcur]
      have h := hT m
      exact ⟨h.1, h.2.1, h.2.2.1, fun h0 => Or.inl (h.2.2.2 h0)⟩
  have hpair' : IsPagePair cfg s.EEPROM_ErasedPage s.EEPROM_ValidPage := by
    rcases hp with h | h
    · exact Or.inr ⟨h.2, h.1⟩
    · exact Or.inl ⟨h.2, h.1⟩
  have hoff : ∀ m, m < cfg.varCount → ¬ onPage cfg s.EEPROM_ErasedPage (s.EEPROM_Index m) :=
    fun m _ => entryIn_not_onPage hwf hpair' haV (hT m)
  refine ⟨⟨hcore, hr, hV, hO, ?_, ?_⟩, ?_⟩
  · intro m _ h0
    rw [hcur]
    exact (hT m).2.2.2 h0
  · rw [liveSum_eq_pending hwf hcore hoff, hcur]
    unfold pendingBytes
    exact committedFrom_packed hc (fun m => onPage_zero cfg _)
  · unfold Scanned
    rw [hcur]
    exact committedFrom_committed hc

theorem initTail_valid_erased {cfg : Config} (hwf : cfg.WF) {V O : Nat}
    (hp : IsPagePair cfg V O) (a b : Nat) (flash : Nat → Nat) (hal : Nat → HAL_Status)
    (fuel Value0 : Nat)
    (hroles : assignRoles cfg a b (powerOn flash hal) =
      { powerOn flash hal with EEPROM_ValidPage := V, EEPROM_ErasedPage := O })
    {aV : Nat} {T : (Nat → Nat) × (Nat → Nat)}
    (hc : CommittedFrom cfg flash V (fun _ => 0, fun _ => 0) aV T)
    (haV : aV ≤ V + cfg.pageSize)
    (hfree : ∀ x, aV ≤ x → x < V + cfg.pageSize → read16 flash x = 0xFFFF) :
    initTail cfg fuel Value0 a b (powerOn flash hal) =
      (some EEPROM_SUCCESS,
        { powerOn flash hal with
          EEPROM_ValidPage := V, EEPROM_ErasedPage := O,
          EEPROM_Index := T.1, EEPROM_SizeTable := T.2,
          EEPROM_NextIndex := if aV ≥ V + cfg.pageSize then 0 else aV }) := by
  obtain ⟨hVp, -⟩ := isPage_of_pair hp
  have e2 := pageToIndex_from hwf (s := { powerOn flash hal with
      EEPROM_ValidPage := V, EEPROM_ErasedPage := O }) hVp hc haV hfree
  unfold initTail
  simp only []
  rw [hroles]
  simp only []
  rw [e2]
  simp only [powerOn, pageToIndex_none]
  rw [if_neg (by simp)]

/-- Ordinary start-up. On every image whose header pair is Valid / Erased, with committed
records followed by erased space on the Valid page and a blank Erased page, `EEPROM_Init`
from power-on memory returns `EEPROM_SUCCESS` without a primitive call, under any schedule
of HAL outcomes, and the state it leaves is steady with tables equal to the scan. -/
theorem init_valid_erased {cfg : Config} (hwf : cfg.WF) {V O : Nat} (hp : IsPagePair cfg V O)
    (flash : Nat → Nat) (hal : Nat → HAL_Status) (fuel Value0 : Nat)
    (hV : read16 flash V = EEPROM_VALID)
    (hO : ∀ x, O ≤ x → x < O + cfg.pageSize → read16 flash x = 0xFFFF)
    {aV : Nat} {T : (Nat → Nat) × (Nat → Nat)}
    (hc : CommittedFrom cfg flash V (fun _ => 0, fun _ => 0) aV T)
    (haV : aV ≤ V + cfg.pageSize)
    (hfree : ∀ x, aV ≤ x → x < V + cfg.pageSize → read16 flash x = 0xFFFF) :
    (EEPROM_Init cfg fuel Value0 (powerOn flash hal)).1 = some EEPROM_SUCCESS ∧
    (EEPROM_Init cfg fuel Value0 (powerOn flash hal)).2.log = [] ∧
    Steady cfg (EEPROM_Init cfg fuel Value0 (powerOn flash hal)).2 ∧
    Scanned cfg (EEPROM_Init cfg fuel Value0 (powerOn flash hal)).2 := by
  have hmin := hwf.size_min
  have hOe : read16 flash O = EEPROM_ERASED := hO O (Nat.le_refl _) (by omega)
  have hf : (powerOn flash hal).flash = flash := rfl
  have key : EEPROM_Init cfg fuel Value0 (powerOn flash hal) =
      (some EEPROM_SUCCESS,
        { powerOn flash hal with
          EEPROM_ValidPage := V, EEPROM_ErasedPage := O,
          EEPROM_Index := T.1, EEPROM_SizeTable := T.2,
          EEPROM_NextIndex := if aV ≥ V + cfg.pageSize then 0 else aV }) := by
    rcases hp with ⟨p1, p2⟩ | ⟨p1, p2⟩
    · have hni : ¬ invalidState (read16 (powerOn flash hal).flash (EEPROM_PAGE0 cfg))
          (read16 (powerOn flash hal).flash (EEPROM_PAGE1 cfg)) := by
        rw [hf, ← p1, ← p2, hV, hOe]; decide
      rw [init_consistent cfg _ _ _ hni, hf, ← p1, ← p2, hV, hOe]
      exact initTail_valid_erased hwf (Or.inl ⟨p1, p2⟩) _ _ flash hal fuel Value0
        (by rw [assignRoles_valid_erased, p1, p2]) hc haV hfree
    · have hni : ¬ invalidState (read16 (powerOn flash hal).flash (EEPROM_PAGE0 cfg))
          (read16 (powerOn flash hal).flash (EEPROM_PAGE1 cfg)) := by
        rw [hf, ← p1, ← p2, hV, hOe]; decide
      rw [init_consistent cfg _ _ _ hni, hf, ← p1, ← p2, hV, hOe]
      exact initTail_valid_erased hwf (Or.inr ⟨p1, p2⟩) _ _ flash hal fuel Value0
        (by rw [assignRoles_erased_valid, p1, p2]) hc haV hfree
  rw [key]
  obtain ⟨h1, h2⟩ := scanned_steady hwf hp (s := { powerOn flash hal with
      EEPROM_ValidPage := V, EEPROM_ErasedPage := O,
      EEPROM_Index := T.1, EEPROM_SizeTable := T.2,
      EEPROM_NextIndex := if aV ≥ V + cfg.pageSize then 0 else aV })
    rfl rfl rfl hV hO hc haV rfl hfree
  exact ⟨rfl, rfl, h1, h2⟩

theorem steady_reset {cfg : Config} {s : State} (hs : Steady cfg s) (hal : Nat → HAL_Status)
    (log : List FlashOp) : Steady cfg { s with hal := hal, log := log } :=
  ⟨⟨hs.core.pair, hs.core.writing, hs.core.cursor, hs.core.free, hs.core.entries⟩,
    hs.receiving, hs.header, hs.blank, hs.home, hs.sum⟩

/-- Reboot. `EEPROM_Init` from power-on memory on the flash of a steady state whose tables
match its valid page returns `EEPROM_SUCCESS` and leaves a steady state of the same kind,
under any schedule of HAL outcomes, so reboots can be repeated and mixed with writes. -/
theorem reboot_steady {cfg : Config} (hwf : cfg.WF) {s : State} (hs : Steady cfg s)
    (hsc : Scanned cfg s) (hal : Nat → HAL_Status) (fuel Value0 : Nat) :
    (EEPROM_Init cfg fuel Value0 (powerOn s.flash hal)).1 = some EEPROM_SUCCESS ∧
    Steady cfg (EEPROM_Init cfg fuel Value0 (powerOn s.flash hal)).2 ∧
    Scanned cfg (EEPROM_Init cfg fuel Value0 (powerOn s.flash hal)).2 := by
  rw [init_reboot hwf hs hsc hal fuel Value0]
  exact ⟨rfl, steady_reset hs hal [], hsc⟩

theorem initTail_transfer {cfg : Config} (hwf : cfg.WF) {V R : Nat} (hp : IsPagePair cfg R V)
    (a b : Nat) (flash : Nat → Nat) (hal : Nat → HAL_Status) (fuel Value0 : Nat)
    (hroles : assignRoles cfg a b (powerOn flash hal) =
      { powerOn flash hal with EEPROM_ValidPage := V, EEPROM_ReceivingPage := R })
    {aO aR : Nat} {TO T : (Nat → Nat) × (Nat → Nat)}
    (hVc : CommittedFrom cfg flash V (fun _ => 0, fun _ => 0) aO TO)
    (haO : aO ≤ V + cfg.pageSize)
    (hVfree : ∀ x, aO ≤ x → x < V + cfg.pageSize → read16 flash x = 0xFFFF)
    (hRc : CommittedFrom cfg flash R TO aR T) (haR : aR ≤ R + cfg.pageSize)
    (hRfree : ∀ x, aR ≤ x → x < R + cfg.pageSize → read16 flash x = 0xFFFF) :
    initTail cfg (fuel + 1) Value0 a b (powerOn flash hal) =
      pageTransferWith cfg (EEPROM_WriteVariable cfg (fuel + 1)) Value0
        { powerOn flash hal with
          EEPROM_ValidPage := V, EEPROM_ReceivingPage := R,
          EEPROM_Index := T.1, EEPROM_SizeTable := T.2,
          EEPROM_NextIndex := if aR ≥ R + cfg.pageSize then 0 else aR } := by
  have hb := pair_bounds hwf hp
  obtain ⟨hRp, hVp⟩ := isPage_of_pair hp
  have e2 := pageToIndex_from hwf (s := { powerOn flash hal with
      EEPROM_ValidPage := V, EEPROM_ReceivingPage := R }) hVp hVc haO hVfree
  have e3 := pageToIndex_from hwf (s := { powerOn flash hal with
      EEPROM_ValidPage := V, EEPROM_ReceivingPage := R,
      EEPROM_Index := TO.1, EEPROM_SizeTable := TO.2,
      EEPROM_NextIndex := if aO ≥ V + cfg.pageSize then 0 else aO }) hRp hRc haR hRfree
  unfold initTail
  simp only []
  rw [hroles]
  simp only []
  rw [e2]
  simp only []
  rw [e3]
  simp only []
  rw [if_pos (by unfold EEPROM_PAGE_NONE; omega), if_neg (by unfold EEPROM_PAGE_NONE; omega)]
  all_goals rfl

/-- Replayed transfer. On every image whose header pair is Receiving / Valid, with committed
records followed by erased space on both pages and room on the Receiving page for the
records still on the Valid page, an `EEPROM_Init` from power-on memory that returns
`EEPROM_SUCCESS` (as it does when no primitive call fails) leaves a steady state. -/
theorem replay_steady {cfg : Config} (hwf : cfg.WF) (flash : Nat → Nat)
    (hal : Nat → HAL_Status) (fuel Value0 : Nat) {R V : Nat} (hp : IsPagePair cfg R V)
    (hR : read16 flash R = EEPROM_RECEIVING) (hV : read16 flash V = EEPROM_VALID)
    {aO aR : Nat} {TO T : (Nat → Nat) × (Nat → Nat)}
    (hVc : CommittedFrom cfg flash V (fun _ => 0, fun _ => 0) aO TO)
    (haO : aO ≤ V + cfg.pageSize)
    (hVfree : ∀ x, aO ≤ x → x < V + cfg.pageSize → read16 flash x = 0xFFFF)
    (hRc : CommittedFrom cfg flash R TO aR T) (haR : aR ≤ R + cfg.pageSize)
    (hRfree : ∀ x, aR ≤ x → x < R + cfg.pageSize → read16 flash x = 0xFFFF)
    (hroom : aR - R + (∑ m in Finset.range cfg.varCount,
      if onPage cfg V (T.1 m) then liveBytes (T.2 m) else 0) ≤ cfg.pageSize) :
    ((∀ k, hal k = HAL_OK) →
      (EEPROM_Init cfg (fuel + 1) Value0 (powerOn flash hal)).1 = some EEPROM_SUCCESS) ∧
    ((EEPROM_Init cfg (fuel + 1) Value0 (powerOn flash hal)).1 = some EEPROM_SUCCESS →
      Steady cfg (EEPROM_Init cfg (fuel + 1) Value0 (powerOn flash hal)).2) := by
  have hf : (powerOn flash hal).flash = flash := rfl
  have key : EEPROM_Init cfg (fuel + 1) Value0 (powerOn flash hal) =
      pageTransferWith cfg (EEPROM_WriteVariable cfg (fuel + 1)) Value0
        { powerOn flash hal with
          EEPROM_ValidPage := V, EEPROM_ReceivingPage := R,
          EEPROM_Index := T.1, EEPROM_SizeTable := T.2,
          EEPROM_NextIndex := if aR ≥ R + cfg.pageSize then 0 else aR } := by
    rcases hp with ⟨p1, p2⟩ | ⟨p1, p2⟩
    · have hni : ¬ invalidState (read16 (powerOn flash hal).flash (EEPROM_PAGE0 cfg))
          (read16 (powerOn flash hal).flash (EEPROM_PAGE1 cfg)) := by
        rw [hf, ← p1, ← p2, hR, hV]; decide
      rw [init_consistent cfg _ _ _ hni, hf, ← p1, ← p2, hR, hV]
      exact initTail_transfer hwf (Or.inl ⟨p1, p2⟩) _ _ flash hal fuel Value0
        (by rw [assignRoles_receiving_valid, p1, p2]) hVc haO hVfree hRc haR hRfree
    · have hni : ¬ invalidState (read16 (powerOn flash hal).flash (EEPROM_PAGE0 cfg))
          (read16 (powerOn flash hal).flash (EEPROM_PAGE1 cfg)) := by
        rw [hf, ← p1, ← p2, hR, hV]; decide
      rw [init_consistent cfg _ _ _ hni, hf, ← p1, ← p2, hR, hV]
      exact initTail_transfer hwf (Or.inr ⟨p1, p2⟩) _ _ flash hal fuel Value0
        (by rw [assignRoles_valid_receiving, p1, p2]) hVc haO hVfree hRc haR hRfree
  rw [key]
  obtain ⟨hmid, -⟩ := scanned_mid hwf hp (s := { powerOn flash hal with
      EEPROM_ValidPage := V, EEPROM_ReceivingPage := R,
      EEPROM_Index := T.1, EEPROM_SizeTable := T.2,
      EEPROM_NextIndex := if aR ≥ R + cfg.pageSize then 0 else aR })
    rfl rfl rfl hVc haO hRc haR rfl hRfree hroom
  obtain ⟨r, h1, hres, h2⟩ := pageTransfer_mid hwf hmid Value0 fuel
  constructor
  · intro hok
    rw [h1, hres.2 hok]
  · intro hsucc
    rw [h1] at hsucc
    simp only [Option.some.injEq] at hsucc
    obtain ⟨t, hd, hoff, hfin⟩ := h2 hsucc
    rw [hfin]
    exact (finish_steady hwf hd.mid hoff).1

/-- Finished transfer. On every image whose header pair is Receiving / Erased, with
committed records followed by erased space on the Receiving page and a blank Erased page,
an `EEPROM_Init` from power-on memory that returns `EEPROM_SUCCESS` (as it does when the
one program call it issues succeeds) leaves a steady state. -/
theorem init_receiving_erased {cfg : Config} (hwf : cfg.WF) (flash : Nat → Nat)
    (hal : Nat → HAL_Status) (fuel Value0 : Nat) {R O : Nat} (hp : IsPagePair cfg R O)
    (hR : read16 flash R = EEPROM_RECEIVING)
    (hO : ∀ x, O ≤ x → x < O + cfg.pageSize → read16 flash x = 0xFFFF)
    {aR : Nat} {T : (Nat → Nat) × (Nat → Nat)}
    (hRc : CommittedFrom cfg flash R (fun _ => 0, fun _ => 0) aR T)
    (haR : aR ≤ R + cfg.pageSize)
    (hRfree : ∀ x, aR ≤ x → x < R + cfg.pageSize → read16 flash x = 0xFFFF) :
    (hal 0 = HAL_OK →
      (EEPROM_Init cfg fuel Value0 (powerOn flash hal)).1 = some EEPROM_SUCCESS) ∧
    ((EEPROM_Init cfg fuel Value0 (powerOn flash hal)).1 = some EEPROM_SUCCESS →
      Steady cfg (EEPROM_Init cfg fuel Value0 (powerOn flash hal)).2 ∧
      Scanned cfg (EEPROM_Init cfg fuel Value0 (powerOn flash hal)).2) := by
  have hmin := hwf.size_min
  have hb := pair_bounds hwf hp
  obtain ⟨hRp, hOp⟩ := isPage_of_pair hp
  have hOe : read16 flash O = EEPROM_ERASED := hO O (Nat.le_refl _) (by omega)
  have hf : (powerOn flash hal).flash = flash := rfl
  have e3 := pageToIndex_from hwf (s := { powerOn flash hal with
      EEPROM_ErasedPage := O, EEPROM_ReceivingPage := R }) hRp hRc haR hRfree
  have hRne : R ≠ EEPROM_PAGE_NONE := by unfold EEPROM_PAGE_NONE; omega
  have tail : ∀ a b, assignRoles cfg a b (powerOn flash hal) =
      { powerOn flash hal with EEPROM_ErasedPage := O, EEPROM_ReceivingPage := R } →
      initTail cfg fuel Value0 a b (powerOn flash hal) =
        match EEPROM_SetPageStatus cfg R EEPROM_VALID
          { powerOn flash hal with
            EEPROM_ErasedPage := O, EEPROM_ReceivingPage := R,
            EEPROM_Index := T.1, EEPROM_SizeTable := T.2,
            EEPROM_NextIndex := if aR ≥ R + cfg.pageSize then 0 else aR } with
        | (EEPROM_SUCCESS, s4) => (some EEPROM_SUCCESS, s4)
        | (r, s4) => (some r, s4) := by
    intro a b hroles
    unfold initTail
    simp only []
    rw [hroles]
    simp only [powerOn, pageToIndex_none]
    simp only [powerOn] at e3
    rw [e3]
    simp only []
    rw [if_pos hRne, if_pos trivial]
  have key : EEPROM_Init cfg fuel Value0 (powerOn flash hal) =
        match EEPROM_SetPageStatus cfg R EEPROM_VALID
          { powerOn flash hal with
            EEPROM_ErasedPage := O, EEPROM_ReceivingPage := R,
            EEPROM_Index := T.1, EEPROM_SizeTable := T.2,
            EEPROM_NextIndex := if aR ≥ R + cfg.pageSize then 0 else aR } with
        | (EEPROM_SUCCESS, s4) => (some EEPROM_SUCCESS, s4)
        | (r, s4) => (some r, s4) := by
    rcases hp with ⟨p1, p2⟩ | ⟨p1, p2⟩
    · have hni : ¬ invalidState (read16 (powerOn flash hal).flash (EEPROM_PAGE0 cfg))
          (read16 (powerOn flash hal).flash (EEPROM_PAGE1 cfg)) := by
        rw [hf, ← p1, ← p2, hR, hOe]; decide
      rw [init_consistent cfg _ _ _ hni, hf, ← p1, ← p2, hR, hOe]
      exact tail _ _ (by rw [assignRoles_receiving_erased, p1, p2])
    · have hni : ¬ invalidState (read16 (powerOn flash hal).flash (EEPROM_PAGE0 cfg))
          (read16 (powerOn flash hal).flash (EEPROM_PAGE1 cfg)) := by
        rw [hf, ← p1, ← p2, hR, hOe]; decide
      rw [init_consistent cfg _ _ _ hni, hf, ← p1, ← p2, hR, hOe]
      exact tail _ _ (by rw [assignRoles_erased_receiving, p1, p2])
  rw [key]
  obtain ⟨a1, a2⟩ := SetPageStatus_mark cfg R EEPROM_VALID
    { powerOn flash hal with
      EEPROM_ErasedPage := O, EEPROM_ReceivingPage := R,
      EEPROM_Index := T.1, EEPROM_SizeTable := T.2,
      EEPROM_NextIndex := if aR ≥ R + cfg.pageSize then 0 else aR } (by decide)
  generalize EEPROM_SetPageStatus cfg R EEPROM_VALID
    { powerOn flash hal with
      EEPROM_ErasedPage := O, EEPROM_ReceivingPage := R,
      EEPROM_Index := T.1, EEPROM_SizeTable := T.2,
      EEPROM_NextIndex := if aR ≥ R + cfg.pageSize then 0 else aR } = x at a1 a2 ⊢
  obtain ⟨x1, x2⟩ := x
  simp only at a1 a2
  have a1' : x1 = ofHAL (hal 0) := a1
  constructor
  · intro h0
    rw [a1', h0]
    rfl
  · intro hsucc
    have hx1 : x1 = EEPROM_SUCCESS := by
      cases x1 <;> first | rfl | simp at hsucc
    subst hx1
    rw [a2 rfl]
    simp only
    obtain ⟨mI, mS, mF⟩ := markState_tables R EEPROM_VALID
      { powerOn flash hal with
        EEPROM_ErasedPage := O, EEPROM_ReceivingPage := R,
        EEPROM_Index := T.1, EEPROM_SizeTable := T.2,
        EEPROM_NextIndex := if aR ≥ R + cfg.pageSize then 0 else aR }
    have hfr : ∀ x, x < R ∨ R + 2 ≤ x →
        read16 (markState R EEPROM_VALID
          { powerOn flash hal with
            EEPROM_ErasedPage := O, EEPROM_ReceivingPage := R,
            EEPROM_Index := T.1, EEPROM_SizeTable := T.2,
            EEPROM_NextIndex := if aR ≥ R + cfg.pageSize then 0 else aR }).flash x
          = read16 flash x :=
      fun x hx => read16_mark_out R EEPROM_VALID _ x hx
    have hge := committedFrom_ge hRc
    refine @scanned_steady cfg hwf R O hp _ ?_ ?_ ?_ ?_ ?_ aR ?_ ?_ ?_ ?_
    · simp [markState, updateRoles, powerOn, hRne.symm, EEPROM_VALID]
    · simp [markState, updateRoles, powerOn, hRne.symm, EEPROM_VALID]
    · simp [markState, updateRoles, powerOn, hRne.symm, EEPROM_VALID]
    · rw [mF]
      simp [read16, programFlash, nbHalfwords, halfwordOf, EEPROM_VALID]
    · intro x h1 h2
      rw [hfr x (by omega)]
      exact hO x h1 h2
    · rw [mI, mS]
      exact committedFrom_frame hRc (fun x h1 _ => hfr x (Or.inr h1))
    · exact haR
    · simp [markState, updateRoles, powerOn, hRne.symm, EEPROM_VALID]
    · intro x h1 h2
      rw [hfr x (by omega)]
      exact hRfree x h1 h2

/-- Every state in normal operation is steady and its tables are what a scan of the valid
page rebuilds, whatever mix of formatting and non-formatting start-ups, restarts, writes and
deletes led to it. -/
theorem operating_steady {cfg : Config} (hwf : cfg.WF) {s : State} (h : Operating cfg s) :
    Steady cfg s ∧ Scanned cfg s := by
  induction h with
  | format flash hal fuel Value0 hinv hok =>
    have hr := Reachable.init flash hal fuel Value0 hinv hok
    exact ⟨reachable_steady hwf hr, reachable_scanned hwf hr⟩
  | start flash hal fuel Value0 V O aV T hp hV hO hc haV hfree =>
    exact (init_valid_erased hwf hp flash hal fuel Value0 hV hO hc haV hfree).2.2
  | restart s hal fuel Value0 _ ih =>
    exact (reboot_steady hwf ih.1 ih.2 hal fuel Value0).2
  | write s fuel n v size _ hn hsize hok ih =>
    have hsz : size ≤ 3 := by
      rcases hsize with h | h | h <;> rw [h] <;> decide
    exact ⟨(write_ok hwf ih.1 hn hsz v fuel hok).1, write_scanned hwf ih.1 ih.2 hn hsz v fuel hok⟩
  | delete s fuel n _ hn hok ih =>
    exact ⟨(write_ok hwf ih.1 hn (by decide) 0 fuel hok).1,
      write_scanned hwf ih.1 ih.2 hn (by decide) 0 fuel hok⟩

theorem reachable_operating {cfg : Config} {s : State} (h : Reachable cfg s) :
    Operating cfg s := by
  induction h with
  | init flash hal fuel Value0 hinv hok => exact Operating.format flash hal fuel Value0 hinv hok
  | write s fuel n v size _ hn hsize hok ih => exact Operating.write s fuel n v size ih hn hsize hok
  | delete s fuel n _ hn hok ih => exact Operating.delete s fuel n ih hn hok

/-! ## The claims about steady states, at states entered by a start-up that does not format -/

theorem stdOne_reachable : Reachable stdConfig stdOne :=
  Reachable.write _ 2 0 0x1111 EEPROM_SIZE16 stdBoot_reachable (by decide) (Or.inl rfl)
    (by decide)

theorem stdRestart_steady : Steady stdConfig stdRestart :=
  (operating_steady stdConfig_wf
    (Operating.restart stdOne halOk 2 0 (reachable_operating stdOne_reachable))).1

theorem tinyRestart_steady : Steady tinyConfig tinyRestart :=
  (operating_steady tinyConfig_wf
    (Operating.restart tinyFull halOk 2 0 (reachable_operating tinyFull_reachable))).1

end EEPROM

/-! # Theorems about V1.0 -/

namespace EEPROMV1

open EEPROM (Config FlashOp HAL_Status read16 read32 applyOp onPage purgeIndex
  EEPROM_PAGE0 EEPROM_PAGE1 EEPROM_PAGE_NONE EEPROM_ERASED EEPROM_RECEIVING EEPROM_VALID)
open EEPROM.HAL_Status EEPROM_Result EEPROM_Operation

/-! ## V1.0: the index stays inside the two pages -/

/-- The index condition on a bare table. -/
theorem indexOK_def (cfg : Config) (s : State) :
    IndexOK cfg s ↔ ∀ m, m < cfg.varCount → s.EEPROM_Index m = 0 ∨
      onPage cfg (EEPROM_PAGE0 cfg) (s.EEPROM_Index m) ∨
      onPage cfg (EEPROM_PAGE1 cfg) (s.EEPROM_Index m) := Iff.rfl

theorem indexOK_of_eq {cfg : Config} {s t : State} (h : t.EEPROM_Index = s.EEPROM_Index)
    (hs : IndexOK cfg s) : IndexOK cfg t := by
  intro m hm
  rw [h]
  exact hs m hm

theorem halCall_index (cfg : Config) (op : FlashOp) (s : State) :
    (halCall cfg op s).2.EEPROM_Index = s.EEPROM_Index := rfl

theorem pageErase_index (cfg : Config) (P : Nat) (s : State) :
    (EEPROM_PageErase cfg P s).2.EEPROM_Index = purgeIndex cfg P s.EEPROM_Index := rfl

theorem pageErase_ok {cfg : Config} (P : Nat) {s : State} (hs : IndexOK cfg s) :
    IndexOK cfg (EEPROM_PageErase cfg P s).2 := by
  intro m hm
  rw [pageErase_index, EEPROM.purgeIndex_apply]
  by_cases h : m < cfg.varCount ∧ onPage cfg P (s.EEPROM_Index m)
  · rw [if_pos h]; exact Or.inl rfl
  · rw [if_neg h]; exact hs m hm

theorem program_ok {cfg : Config} (t a d : Nat) {s : State} (hs : IndexOK cfg s) :
    IndexOK cfg (HAL_FLASH_Program cfg t a d s).2 := hs

theorem eraseThenMark_ok {cfg : Config} (P Q : Nat) {s : State} (hs : IndexOK cfg s) :
    IndexOK cfg
      (match EEPROM_PageErase cfg P s with
        | (EEPROM_SUCCESS, s1) =>
          match HAL_FLASH_Program cfg 1 Q EEPROM_VALID s1 with
          | (r, s2) => (ofHAL r, s2)
        | (r, s1) => (r, s1)).2 := by
  have h1 := pageErase_ok P hs
  cases hE : EEPROM_PageErase cfg P s with
  | mk r s1 =>
    rw [hE] at h1
    cases r <;> exact h1

theorem setValidPage_ok {cfg : Config} (P : Nat) {s : State} (hs : IndexOK cfg s) :
    IndexOK cfg (EEPROM_SetValidPage cfg P s).2 := by
  unfold EEPROM_SetValidPage
  split_ifs with h1 h2 h3
  · exact eraseThenMark_ok _ _ hs
  · exact eraseThenMark_ok _ _ hs
  · have h1 := pageErase_ok (EEPROM_PAGE0 cfg) hs
    cases hE : EEPROM_PageErase cfg (EEPROM_PAGE0 cfg) s with
    | mk r s1 =>
      rw [hE] at h1
      cases r <;> first | exact h1 | exact pageErase_ok _ h1
  · exact hs

theorem format_ok {cfg : Config} {s : State} (hs : IndexOK cfg s) :
    IndexOK cfg (EEPROM_Format cfg s).2 := by
  unfold EEPROM_Format
  have h1 := pageErase_ok (EEPROM_PAGE0 cfg) hs
  cases hE : EEPROM_PageErase cfg (EEPROM_PAGE0 cfg) s with
  | mk r s1 =>
    rw [hE] at h1
    cases r <;> first | exact h1 | exact setValidPage_ok _ h1

theorem findSlot_range (flash : Nat → Nat) (E : Nat) (hE : E + 4 ≤ 4294967296) (fuel : Nat) :
    ∀ a0 a, findSlot flash E fuel a0 = some a →
      a0 ≤ a ∧ a < E ∧ (a - a0) % 4 = 0 ∧ read32 flash a = 0xFFFFFFFF := by
  induction fuel with
  | zero => intro a0 a h; simp [findSlot] at h
  | succ fuel ih =>
    intro a0 a h
    unfold findSlot at h
    by_cases h1 : a0 < E
    · rw [if_pos h1] at h
      by_cases h2 : read32 flash a0 = 0xFFFFFFFF
      · rw [if_pos h2] at h
        cases h
        exact ⟨Nat.le_refl _, h1, by simp, h2⟩
      · rw [if_neg h2] at h
        have hm : (a0 + 4) % 4294967296 = a0 + 4 := Nat.mod_eq_of_lt (by omega)
        rw [hm] at h
        obtain ⟨e1, e2, e3, e4⟩ := ih _ _ h
        exact ⟨by omega, e2, by omega, e4⟩
    · rw [if_neg h1] at h
      cases h

theorem findValidPage_cases (cfg : Config) (op : EEPROM_Operation) (s : State) :
    EEPROM_FindValidPage cfg op s = EEPROM_PAGE0 cfg ∨
    EEPROM_FindValidPage cfg op s = EEPROM_PAGE1 cfg ∨
    EEPROM_FindValidPage cfg op s = EEPROM_PAGE_NONE := by
  unfold EEPROM_FindValidPage
  simp only
  split_ifs <;> simp

theorem page_cases_pair {cfg : Config} {V : Nat}
    (h : V = EEPROM_PAGE0 cfg ∨ V = EEPROM_PAGE1 cfg) :
    ∃ O, EEPROM.IsPagePair cfg V O := by
  rcases h with h | h
  · exact ⟨EEPROM_PAGE1 cfg, Or.inl ⟨h, rfl⟩⟩
  · exact ⟨EEPROM_PAGE0 cfg, Or.inr ⟨h, rfl⟩⟩

/-- The index entry recorded for a slot found on page `V` points into page `V`. -/
theorem setIndex_onPage {cfg : Config} (hwf : cfg.WF) {V : Nat}
    (hV : V = EEPROM_PAGE0 cfg ∨ V = EEPROM_PAGE1 cfg) {a : Nat}
    (h1 : V + 4 ≤ a) (h2 : a + 2 < V + cfg.pageSize) :
    (a + 4294967296 - cfg.start) % 4294967296 % 65536 = a - cfg.start ∧
    onPage cfg V (a - cfg.start) := by
  obtain ⟨O, hp⟩ := page_cases_pair hV
  obtain ⟨e1, e2, _, _⟩ := EEPROM.offsets_of_pair hwf hp
  have hb := EEPROM.pair_bounds hwf hp
  have h32 := hwf.area32
  have h16 := hwf.area16
  have e : a + 4294967296 - cfg.start = (a - cfg.start) + 4294967296 := by omega
  refine ⟨?_, ?_⟩
  · rw [e, Nat.add_mod_right, Nat.mod_eq_of_lt (by omega), Nat.mod_eq_of_lt (by omega)]
  · unfold onPage
    rw [e1, e2]
    omega

theorem pageEnd_eq {cfg : Config} (hwf : cfg.WF) {V : Nat}
    (hV : V = EEPROM_PAGE0 cfg ∨ V = EEPROM_PAGE1 cfg) :
    (V + cfg.pageSize + 4294967296 - 2) % 4294967296 = V + cfg.pageSize - 2 ∧
    (V + 4) % 4294967296 = V + 4 := by
  obtain ⟨O, hp⟩ := page_cases_pair hV
  have hb := EEPROM.pair_bounds hwf hp
  have h32 := hwf.area32
  have hmin := hwf.size_min
  have e : V + cfg.pageSize + 4294967296 - 2 = (V + cfg.pageSize - 2) + 4294967296 := by omega
  refine ⟨?_, Nat.mod_eq_of_lt (by omega)⟩
  rw [e, Nat.add_mod_right, Nat.mod_eq_of_lt (by omega)]

theorem setIndex_ok {cfg : Config} (hwf : cfg.WF) {V : Nat}
    (hV : V = EEPROM_PAGE0 cfg ∨ V = EEPROM_PAGE1 cfg) {a : Nat}
    (h1 : V + 4 ≤ a) (h2 : a + 2 < V + cfg.pageSize) (n : Nat) {idx : Nat → Nat}
    (h : ∀ m, m < cfg.varCount → idx m = 0 ∨ onPage cfg (EEPROM_PAGE0 cfg) (idx m) ∨
      onPage cfg (EEPROM_PAGE1 cfg) (idx m)) :
    ∀ m, m < cfg.varCount → setIndex cfg n a idx m = 0 ∨
      onPage cfg (EEPROM_PAGE0 cfg) (setIndex cfg n a idx m) ∨
      onPage cfg (EEPROM_PAGE1 cfg) (setIndex cfg n a idx m) := by
  intro m hm
  unfold setIndex
  by_cases hmn : m = n
  · rw [if_pos hmn]
    obtain ⟨e, hon⟩ := setIndex_onPage hwf hV h1 h2
    rw [e]
    rcases hV with hV | hV
    · rw [hV] at hon; exact Or.inr (Or.inl hon)
    · rw [hV] at hon; exact Or.inr (Or.inr hon)
  · rw [if_neg hmn]; exact h m hm

theorem tryWrite_ok {cfg : Config} (hwf : cfg.WF) (n v : Nat) {s : State}
    (hs : IndexOK cfg s) : IndexOK cfg (EEPROM_TryWriteVariable cfg n v s).2 := by
  unfold EEPROM_TryWriteVariable
  simp only
  by_cases hN : EEPROM_FindValidPage cfg EEPROM_WRITE s = EEPROM_PAGE_NONE
  · rw [if_pos hN]; exact hs
  · rw [if_neg hN]
    have hV : EEPROM_FindValidPage cfg EEPROM_WRITE s = EEPROM_PAGE0 cfg ∨
        EEPROM_FindValidPage cfg EEPROM_WRITE s = EEPROM_PAGE1 cfg := by
      rcases findValidPage_cases cfg EEPROM_WRITE s with h | h | h
      · exact Or.inl h
      · exact Or.inr h
      · exact absurd h hN
    obtain ⟨eE, eA⟩ := pageEnd_eq hwf hV
    rw [eE, eA]
    cases hF : findSlot s.flash (EEPROM_FindValidPage cfg EEPROM_WRITE s + cfg.pageSize - 2)
        cfg.pageSize (EEPROM_FindValidPage cfg EEPROM_WRITE s + 4) with
    | none => exact hs
    | some a =>
      obtain ⟨O, hp⟩ := page_cases_pair hV
      have hb := EEPROM.pair_bounds hwf hp
      have h32 := hwf.area32
      obtain ⟨r1, r2, _, _⟩ := findSlot_range s.flash _ (by omega) _ _ _ hF
      simp only
      cases h1 : HAL_FLASH_Program cfg 1 a v s with
      | mk q1 s1 =>
        have i1 : s1.EEPROM_Index = s.EEPROM_Index := by
          have := congrArg (fun p => p.2.EEPROM_Index) h1
          exact this.symm
        cases q1
        · simp only
          cases h2 : HAL_FLASH_Program cfg 1 ((a + 2) % 4294967296) n s1 with
          | mk q2 s2 =>
            have i2 : s2.EEPROM_Index = s1.EEPROM_Index := by
              have := congrArg (fun p => p.2.EEPROM_Index) h2
              exact this.symm
            cases q2
            · simp only
              intro m hm
              show setIndex cfg n a s2.EEPROM_Index m = 0 ∨ _
              rw [i2, i1]
              exact setIndex_ok hwf hV r1 (by omega) n hs m hm
            all_goals exact indexOK_of_eq (i2.trans i1) hs
        all_goals exact indexOK_of_eq i1 hs

theorem transferStep_ok {cfg : Config} (hwf : cfg.WF) (S : Nat)
    (acc : Option EEPROM_Result × Nat × State) (i : Nat) (h : IndexOK cfg acc.2.2) :
    IndexOK cfg (transferStep cfg S acc i).2.2 := by
  obtain ⟨r, Value, s⟩ := acc
  cases r with
  | some r => exact h
  | none =>
    unfold transferStep
    simp only
    split_ifs with hon
    · cases hR : EEPROM_ReadVariable cfg i Value s with
      | mk q Value1 =>
        have hW := tryWrite_ok hwf i Value1 h
        cases q
        · simp only
          cases hT : EEPROM_TryWriteVariable cfg i Value1 s with
          | mk q1 s1 =>
            rw [hT] at hW
            cases q1 <;> exact hW
        all_goals exact h
    · exact h

theorem transferFold_ok {cfg : Config} (hwf : cfg.WF) (S : Nat) (l : List Nat)
    (acc : Option EEPROM_Result × Nat × State) (h : IndexOK cfg acc.2.2) :
    IndexOK cfg (l.foldl (transferStep cfg S) acc).2.2 := by
  induction l generalizing acc with
  | nil => exact h
  | cons i l ih => exact ih _ (transferStep_ok hwf S acc i h)

theorem pageTransfer_ok {cfg : Config} (hwf : cfg.WF) (S T : Nat) {s : State}
    (hs : IndexOK cfg s) : IndexOK cfg (EEPROM_PageTransfer cfg S T s).2 := by
  unfold EEPROM_PageTransfer
  have h := transferFold_ok hwf S (List.range cfg.varCount) (none, 0xFFFF, s) hs
  cases hF : (List.range cfg.varCount).foldl (transferStep cfg S) (none, 0xFFFF, s) with
  | mk r rest =>
    obtain ⟨Value, s1⟩ := rest
    rw [hF] at h
    cases r with
    | some r => exact h
    | none => exact setValidPage_ok T h

theorem writeVariable_ok {cfg : Config} (hwf : cfg.WF) (n v : Nat) {s : State}
    (hs : IndexOK cfg s) : IndexOK cfg (EEPROM_WriteVariable cfg n v s).2 := by
  unfold EEPROM_WriteVariable
  have h1 := tryWrite_ok hwf n v hs
  cases hT : EEPROM_TryWriteVariable cfg n v s with
  | mk q s1 =>
    rw [hT] at h1
    cases q
    case EEPROM_PAGE_FULL =>
      simp only
      by_cases hN : EEPROM_FindValidPage cfg EEPROM_READ s1 = EEPROM_PAGE_NONE
      · rw [if_pos hN]; exact h1
      · rw [if_neg hN]
        generalize (if EEPROM_FindValidPage cfg EEPROM_READ s1 = EEPROM_PAGE1 cfg then
            EEPROM_PAGE0 cfg
          else if EEPROM_FindValidPage cfg EEPROM_READ s1 = EEPROM_PAGE0 cfg then EEPROM_PAGE1 cfg
          else EEPROM_PAGE_NONE) = T
        cases hP : HAL_FLASH_Program cfg 1 T EEPROM_RECEIVING s1 with
        | mk q2 s2 =>
          have h2 : IndexOK cfg s2 := by
            have := program_ok 1 T EEPROM_RECEIVING h1
            rw [hP] at this
            exact this
          cases q2
          · simp only
            have h3 := tryWrite_ok hwf n v h2
            cases hT2 : EEPROM_TryWriteVariable cfg n v s2 with
            | mk q3 s3 =>
              rw [hT2] at h3
              cases q3 <;> first | exact h3 | exact pageTransfer_ok hwf _ _ h3
          all_goals exact h2
    all_goals exact h1

theorem indexLoop_ok {cfg : Config} (hwf : cfg.WF) {V : Nat}
    (hV : V = EEPROM_PAGE0 cfg ∨ V = EEPROM_PAGE1 cfg) (flash : Nat → Nat) (fuel : Nat) :
    ∀ (a : Nat) (idx : Nat → Nat), V + 4 ≤ a →
      (∀ m, m < cfg.varCount → idx m = 0 ∨ onPage cfg (EEPROM_PAGE0 cfg) (idx m) ∨
        onPage cfg (EEPROM_PAGE1 cfg) (idx m)) →
      ∀ m, m < cfg.varCount →
        indexLoop cfg flash (V + cfg.pageSize - 2) fuel a idx m = 0 ∨
        onPage cfg (EEPROM_PAGE0 cfg) (indexLoop cfg flash (V + cfg.pageSize - 2) fuel a idx m) ∨
        onPage cfg (EEPROM_PAGE1 cfg) (indexLoop cfg flash (V + cfg.pageSize - 2) fuel a idx m) := by
  obtain ⟨O, hp⟩ := page_cases_pair hV
  have hb := EEPROM.pair_bounds hwf hp
  have h32 := hwf.area32
  induction fuel with
  | zero => intro a idx _ h; exact h
  | succ fuel ih =>
    intro a idx ha h
    unfold indexLoop
    simp only
    split_ifs with h1 h2 h3
    · exact h
    · rw [Nat.mod_eq_of_lt (show a + 4 < 4294967296 by omega)]
      exact ih _ _ (by omega) (setIndex_ok hwf hV ha (by omega) _ h)
    · rw [Nat.mod_eq_of_lt (show a + 4 < 4294967296 by omega)]
      exact ih _ _ (by omega) h
    · exact h

theorem pageToIndex_ok {cfg : Config} (hwf : cfg.WF) {V : Nat}
    (hV : V = EEPROM_PAGE0 cfg ∨ V = EEPROM_PAGE1 cfg) {s : State} (hs : IndexOK cfg s) :
    IndexOK cfg (EEPROM_PageToIndex cfg V s) := by
  obtain ⟨eE, eA⟩ := pageEnd_eq hwf hV
  have e : (EEPROM_PageToIndex cfg V s).EEPROM_Index =
      indexLoop cfg s.flash (V + cfg.pageSize - 2) cfg.pageSize (V + 4) s.EEPROM_Index := by
    unfold EEPROM_PageToIndex
    simp only
    rw [eE, eA]
  intro m hm
  rw [e]
  exact indexLoop_ok hwf hV s.flash cfg.pageSize _ _ (Nat.le_refl _) hs m hm

theorem init_ok {cfg : Config} (hwf : cfg.WF) {s : State} (hs : IndexOK cfg s) :
    IndexOK cfg (EEPROM_Init cfg s).2 := by
  have h0 : ∀ {t : State}, IndexOK cfg t → IndexOK cfg (EEPROM_PageToIndex cfg (EEPROM_PAGE0 cfg) t) :=
    fun h => pageToIndex_ok hwf (Or.inl rfl) h
  have h1 : ∀ {t : State}, IndexOK cfg t → IndexOK cfg (EEPROM_PageToIndex cfg (EEPROM_PAGE1 cfg) t) :=
    fun h => pageToIndex_ok hwf (Or.inr rfl) h
  unfold EEPROM_Init
  simp only
  generalize hs1 : (if read16 s.flash (EEPROM_PAGE0 cfg) = EEPROM_VALID then
      if read16 s.flash (EEPROM_PAGE1 cfg) = EEPROM_RECEIVING then
        EEPROM_PageToIndex cfg (EEPROM_PAGE1 cfg) (EEPROM_PageToIndex cfg (EEPROM_PAGE0 cfg) s)
      else EEPROM_PageToIndex cfg (EEPROM_PAGE0 cfg) s
    else if read16 s.flash (EEPROM_PAGE1 cfg) = EEPROM_VALID then
      if read16 s.flash (EEPROM_PAGE0 cfg) = EEPROM_RECEIVING then
        EEPROM_PageToIndex cfg (EEPROM_PAGE0 cfg) (EEPROM_PageToIndex cfg (EEPROM_PAGE1 cfg) s)
      else EEPROM_PageToIndex cfg (EEPROM_PAGE1 cfg) s
    else s) = s1
  have h : IndexOK cfg s1 := by
    rw [← hs1]
    split_ifs
    · exact h1 (h0 hs)
    · exact h0 hs
    · exact h0 (h1 hs)
    · exact h1 hs
    · exact hs
  clear hs1
  split_ifs <;>
    first
    | exact h
    | exact setValidPage_ok _ h
    | exact format_ok h
    | exact pageTransfer_ok hwf _ _ h

theorem reachable_indexOK {cfg : Config} (hwf : cfg.WF) {s : State} (h : Reachable cfg s) :
    IndexOK cfg s := by
  induction h with
  | boot flash hal => intro m _; exact Or.inl rfl
  | init s _ ih => exact init_ok hwf ih
  | format s _ ih => exact format_ok ih
  | write s n v _ _ ih => exact writeVariable_ok hwf n v ih

/-! ## V1.0: `EEPROM_Format` -/

theorem stdConfigV1_wf : stdConfig.WF := by
  constructor <;> decide

theorem ofHAL_eq_success {r : HAL_Status} (h : ofHAL r = EEPROM_SUCCESS) : r = HAL_OK := by
  cases r <;> first | rfl | cases h

theorem halCall_success {cfg : Config} {op : FlashOp} {s : State}
    (h : ofHAL (halCall cfg op s).1 = EEPROM_SUCCESS) :
    (halCall cfg op s).2.flash = applyOp cfg s.flash op := by
  have h1 : s.hal s.log.length = HAL_OK := ofHAL_eq_success h
  show (if s.hal s.log.length = HAL_OK then applyOp cfg s.flash op else s.flash) = _
  rw [if_pos h1]

theorem pageErase_success {cfg : Config} {P : Nat} {s : State}
    (h : (EEPROM_PageErase cfg P s).1 = EEPROM_SUCCESS) :
    (EEPROM_PageErase cfg P s).2.flash = EEPROM.eraseFlash cfg s.flash P 1 :=
  halCall_success (s := { s with EEPROM_Index := purgeIndex cfg P s.EEPROM_Index }) h

theorem page0_ne_page1 {cfg : Config} (hwf : cfg.WF) : EEPROM_PAGE0 cfg ≠ EEPROM_PAGE1 cfg := by
  have := hwf.size_min
  unfold EEPROM_PAGE0 EEPROM_PAGE1
  omega

theorem format_success {cfg : Config} (hwf : cfg.WF) {s : State}
    (h : (EEPROM_Format cfg s).1 = EEPROM_SUCCESS) :
    (EEPROM_Format cfg s).2.flash =
      EEPROM.programFlash
        (EEPROM.eraseFlash cfg (EEPROM.eraseFlash cfg s.flash (EEPROM_PAGE0 cfg) 1)
          (EEPROM_PAGE1 cfg) 1) 1 (EEPROM_PAGE0 cfg) EEPROM_VALID ∧
    (EEPROM_Format cfg s).2.EEPROM_Index =
      purgeIndex cfg (EEPROM_PAGE1 cfg) (purgeIndex cfg (EEPROM_PAGE0 cfg) s.EEPROM_Index) := by
  unfold EEPROM_Format at h ⊢
  have f1 := @pageErase_success cfg (EEPROM_PAGE0 cfg) s
  have i1 := pageErase_index cfg (EEPROM_PAGE0 cfg) s
  cases hE : EEPROM_PageErase cfg (EEPROM_PAGE0 cfg) s with
  | mk r s1 =>
    rw [hE] at h f1 i1
    cases r
    case EEPROM_SUCCESS =>
      simp only at h f1 i1 ⊢
      have f1 := f1 trivial
      unfold EEPROM_SetValidPage at h ⊢
      rw [if_neg (page0_ne_page1 hwf), if_pos rfl] at h ⊢
      have f2 := @pageErase_success cfg (EEPROM_PAGE1 cfg) s1
      have i2 := pageErase_index cfg (EEPROM_PAGE1 cfg) s1
      cases hE2 : EEPROM_PageErase cfg (EEPROM_PAGE1 cfg) s1 with
      | mk r2 s2 =>
        rw [hE2] at h f2 i2
        cases r2
        case EEPROM_SUCCESS =>
          simp only at h f2 i2 ⊢
          have f2 := f2 trivial
          have f3 := @halCall_success cfg
            (FlashOp.program 1 (EEPROM_PAGE0 cfg) EEPROM_VALID) s2 h
          refine ⟨?_, ?_⟩
          · show (halCall cfg (FlashOp.program 1 (EEPROM_PAGE0 cfg) EEPROM_VALID) s2).2.flash = _
            rw [f3, f2, f1]
            rfl
          · show s2.EEPROM_Index = _
            rw [i2, i1]
        all_goals cases h
    all_goals cases h

/-- What a successful `EEPROM_Format` leaves is a formatted store. -/
theorem format_formatted {cfg : Config} (hwf : cfg.WF) {s : State} (hs : Reachable cfg s)
    (h : (EEPROM_Format cfg s).1 = EEPROM_SUCCESS) : Formatted cfg (EEPROM_Format cfg s).2 := by
  obtain ⟨hf, hi⟩ := format_success hwf h
  have hmin := hwf.size_min
  have h32 := hwf.area32
  refine ⟨?_, ?_, ?_⟩
  · rw [hf]
    have e := EEPROM.read16_programFlash_erased
      (EEPROM.eraseFlash cfg (EEPROM.eraseFlash cfg s.flash (EEPROM_PAGE0 cfg) 1)
        (EEPROM_PAGE1 cfg) 1) 1 (EEPROM_PAGE0 cfg) EEPROM_VALID 0 (by decide)
      (by
        rw [EEPROM.read16_eraseFlash_out _ _ _ _ _ (by unfold EEPROM_PAGE0 EEPROM_PAGE1; omega)]
        exact EEPROM.read16_eraseFlash_in _ _ _ _ _ (by unfold EEPROM_PAGE0; omega))
    rw [Nat.mul_zero, Nat.add_zero] at e
    rw [e]
    rfl
  · intro a ha1 ha2
    rw [hf, EEPROM.read16_programFlash_out _ _ _ _ _
      (by unfold EEPROM.nbHalfwords; simp; omega)]
    by_cases h1 : EEPROM_PAGE1 cfg ≤ a
    · exact EEPROM.read16_eraseFlash_in _ _ _ _ _
        (by unfold EEPROM_PAGE0 EEPROM_PAGE1 at *; omega)
    · rw [EEPROM.read16_eraseFlash_out _ _ _ _ _ (by omega)]
      exact EEPROM.read16_eraseFlash_in _ _ _ _ _
        (by unfold EEPROM_PAGE0 EEPROM_PAGE1 at *; omega)
  · intro n hn
    have hok := reachable_indexOK hwf hs n hn
    rw [hi, EEPROM.purgeIndex_apply, EEPROM.purgeIndex_apply]
    by_cases h0 : onPage cfg (EEPROM_PAGE0 cfg) (s.EEPROM_Index n)
    · have e0 : (if n < cfg.varCount ∧ onPage cfg (EEPROM_PAGE0 cfg) (s.EEPROM_Index n)
          then 0 else s.EEPROM_Index n) = 0 := if_pos ⟨hn, h0⟩
      rw [e0]
      split_ifs <;> rfl
    · have e0 : (if n < cfg.varCount ∧ onPage cfg (EEPROM_PAGE0 cfg) (s.EEPROM_Index n)
          then 0 else s.EEPROM_Index n) = s.EEPROM_Index n := if_neg (fun h => h0 h.2)
      rw [e0]
      by_cases h1 : onPage cfg (EEPROM_PAGE1 cfg) (s.EEPROM_Index n)
      · rw [if_pos ⟨hn, h1⟩]
      · rw [if_neg (fun h => h1 h.2)]
        rcases hok with h | h | h
        · exact h
        · exact absurd h h0
        · exact absurd h h1

/-- C16 (V1.0 format). In every reachable state, if `EEPROM_Format` returns `EEPROM_SUCCESS`
then afterwards page 0's status header reads Valid (0x0000), page 1's status header reads
Erased (0xFFFF), every data halfword of both pages reads erased (0xFFFF), and
`EEPROM_ReadVariable` returns `EEPROM_NOT_ASSIGNED`, leaving the caller's variable
untouched, for every name below `EEPROM_VARIABLE_COUNT`. -/
theorem C16_format (cfg : Config) (hwf : cfg.WF) (s : State) (hs : Reachable cfg s)
    (h : (EEPROM_Format cfg s).1 = EEPROM_SUCCESS) :
    read16 (EEPROM_Format cfg s).2.flash (EEPROM_PAGE0 cfg) = EEPROM_VALID ∧
    read16 (EEPROM_Format cfg s).2.flash (EEPROM_PAGE1 cfg) = EEPROM_ERASED ∧
    (∀ a, (EEPROM_PAGE0 cfg + 2 ≤ a ∧ a < EEPROM_PAGE0 cfg + cfg.pageSize) ∨
        (EEPROM_PAGE1 cfg + 2 ≤ a ∧ a < EEPROM_PAGE1 cfg + cfg.pageSize) →
      read16 (EEPROM_Format cfg s).2.flash a = 0xFFFF) ∧
    ∀ n, n < cfg.varCount → ∀ Value,
      EEPROM_ReadVariable cfg n Value (EEPROM_Format cfg s).2 = (EEPROM_NOT_ASSIGNED, Value) := by
  obtain ⟨f1, f2, f3⟩ := format_formatted hwf hs h
  have hmin := hwf.size_min
  have h32 := hwf.area32
  refine ⟨f1, ?_, ?_, ?_⟩
  · exact f2 _ (by unfold EEPROM_PAGE0 EEPROM_PAGE1; omega)
      (by unfold EEPROM_PAGE0 EEPROM_PAGE1; omega)
  · intro a ha
    exact f2 a (by unfold EEPROM_PAGE0 EEPROM_PAGE1 at *; omega)
      (by unfold EEPROM_PAGE0 EEPROM_PAGE1 at *; omega)
  · intro n hn Value
    unfold EEPROM_ReadVariable
    rw [if_neg (by omega)]
    simp only
    rw [f3 n hn, Nat.add_zero, Nat.mod_eq_of_lt (by omega),
      if_pos (show cfg.start = EEPROM_PAGE0 cfg from rfl)]

theorem C16_format_witness :
    (EEPROM_Format stdConfig
        (EEPROM_WriteVariable stdConfig 1 7
          (EEPROM_Init stdConfig (powerOn EEPROM.freshFlash EEPROM.halOk)).2).2).1
      = EEPROM_SUCCESS ∧
    EEPROM_ReadVariable stdConfig 1 9
      (EEPROM_Format stdConfig
        (EEPROM_WriteVariable stdConfig 1 7
          (EEPROM_Init stdConfig (powerOn EEPROM.freshFlash EEPROM.halOk)).2).2).2
      = (EEPROM_NOT_ASSIGNED, 9) :=
  ⟨by decide,
   (C16_format stdConfig stdConfigV1_wf _
      (Reachable.write _ 1 7 (Reachable.init _ (Reachable.boot _ _)) (by decide))
      (by decide)).2.2.2 1 (by decide) 9⟩

/-! ## V1.0: record slots -/

theorem slot_lt_iff {cfg : Config} (hwf : cfg.WF) (V j : Nat) :
    slotAddr V j < V + cfg.pageSize - 2 ↔ j < slotCount cfg := by
  have h1 := hwf.size_even
  have h2 := hwf.size_min
  unfold slotAddr slotCount
  omega

theorem slot_bounds {cfg : Config} (hwf : cfg.WF) (V : Nat) {j : Nat} (h : j < slotCount cfg) :
    V + 4 ≤ slotAddr V j ∧ slotAddr V j + 4 ≤ V + cfg.pageSize := by
  have h1 := (slot_lt_iff hwf V j).mpr h
  have h2 := hwf.size_even
  unfold slotAddr at *
  omega

theorem read32_erased {flash : Nat → Nat} {a : Nat} (h1 : read16 flash a = 0xFFFF)
    (h2 : read16 flash (a + 2) = 0xFFFF) : read32 flash a = 0xFFFFFFFF := by
  unfold read32
  rw [h1, h2]

theorem findSlot_used {cfg : Config} (hwf : cfg.WF) {V : Nat}
    (hV : V = EEPROM_PAGE0 cfg ∨ V = EEPROM_PAGE1 cfg) {flash : Nat → Nat} {u : Nat}
    (hu : PageUsed cfg flash V u) (fuel : Nat) :
    ∀ j, j ≤ u → slotCount cfg < fuel + j →
      findSlot flash (V + cfg.pageSize - 2) fuel (slotAddr V j) =
        if u < slotCount cfg then some (slotAddr V u) else none := by
  obtain ⟨O, hp⟩ := page_cases_pair hV
  have hb := EEPROM.pair_bounds hwf hp
  have h32 := hwf.area32
  obtain ⟨hu1, hu2, hu3⟩ := hu
  induction fuel with
  | zero => intro j hj hf; omega
  | succ fuel ih =>
    intro j hj hf
    unfold findSlot
    by_cases hlt : j < slotCount cfg
    · rw [if_pos ((slot_lt_iff hwf V j).mpr hlt)]
      by_cases hju : j < u
      · rw [if_neg (hu2 j hju)]
        have hb2 := slot_bounds hwf V hlt
        have e : (slotAddr V j + 4) % 4294967296 = slotAddr V (j + 1) := by
          rw [Nat.mod_eq_of_lt (by omega)]
          unfold slotAddr
          omega
        rw [e]
        exact ih (j + 1) (by omega) (by omega)
      · have e : j = u := by omega
        subst e
        obtain ⟨e1, e2⟩ := hu3 j (Nat.le_refl _) hlt
        rw [if_pos (read32_erased e1 e2), if_pos hlt]
    · rw [if_neg (fun h => hlt ((slot_lt_iff hwf V j).mp h))]
      rw [if_neg (by omega)]

theorem findSlot_pageUsed {cfg : Config} (hwf : cfg.WF) {V : Nat}
    (hV : V = EEPROM_PAGE0 cfg ∨ V = EEPROM_PAGE1 cfg) {flash : Nat → Nat} {u : Nat}
    (hu : PageUsed cfg flash V u) :
    findSlot flash ((V + cfg.pageSize + 4294967296 - 2) % 4294967296) cfg.pageSize
        ((V + 4) % 4294967296) =
      if u < slotCount cfg then some (slotAddr V u) else none := by
  obtain ⟨eE, eA⟩ := pageEnd_eq hwf hV
  rw [eE, eA]
  have h := findSlot_used hwf hV hu cfg.pageSize 0 (Nat.zero_le _) (by
    have := hwf.size_min
    unfold slotCount
    have : (cfg.pageSize - 4) / 4 ≤ cfg.pageSize - 4 := Nat.div_le_self _ _
    omega)
  exact h

theorem findValidPage_congr {cfg : Config} (op : EEPROM_Operation) {s t : State}
    (h0 : read16 t.flash (EEPROM_PAGE0 cfg) = read16 s.flash (EEPROM_PAGE0 cfg))
    (h1 : read16 t.flash (EEPROM_PAGE1 cfg) = read16 s.flash (EEPROM_PAGE1 cfg)) :
    EEPROM_FindValidPage cfg op t = EEPROM_FindValidPage cfg op s := by
  unfold EEPROM_FindValidPage
  rw [h0, h1]

/-- The flash after a record (value, then name) is programmed into an erased slot. -/
theorem slot_programmed (flash : Nat → Nat) (a v n : Nat)
    (h1 : read16 flash a = 0xFFFF) (h2 : read16 flash (a + 2) = 0xFFFF) :
    read16 (EEPROM.programFlash (EEPROM.programFlash flash 1 a v) 1 (a + 2) n) a = v % 65536 ∧
    read16 (EEPROM.programFlash (EEPROM.programFlash flash 1 a v) 1 (a + 2) n) (a + 2)
      = n % 65536 ∧
    ∀ b, b < a ∨ a + 4 ≤ b →
      read16 (EEPROM.programFlash (EEPROM.programFlash flash 1 a v) 1 (a + 2) n) b
        = read16 flash b := by
  have hw : EEPROM.nbHalfwords 1 = 1 := rfl
  have hv : EEPROM.halfwordOf v 0 = v % 65536 := by
    rw [EEPROM.halfwordOf_eq]; simp
  have hn : EEPROM.halfwordOf n 0 = n % 65536 := by
    rw [EEPROM.halfwordOf_eq]; simp
  refine ⟨?_, ?_, ?_⟩
  · rw [EEPROM.read16_programFlash_out _ _ _ _ _ (Or.inl (by omega))]
    have e := EEPROM.read16_programFlash_erased flash 1 a v 0 (by decide)
      (by rw [Nat.mul_zero, Nat.add_zero]; exact h1)
    rw [Nat.mul_zero, Nat.add_zero] at e
    rw [e, hv]
  · have e := EEPROM.read16_programFlash_erased (EEPROM.programFlash flash 1 a v) 1 (a + 2) n 0
      (by decide)
      (by
        rw [Nat.mul_zero, Nat.add_zero,
          EEPROM.read16_programFlash_out _ _ _ _ _ (Or.inr (by rw [hw]))]
        exact h2)
    rw [Nat.mul_zero, Nat.add_zero] at e
    rw [e, hn]
  · intro b hb
    rw [EEPROM.read16_programFlash_out _ _ _ _ _ (by rw [hw]; omega),
      EEPROM.read16_programFlash_out _ _ _ _ _ (by rw [hw]; omega)]

theorem halCall_ok {cfg : Config} {op : FlashOp} {s : State} (h : NoHardwareError s) :
    halCall cfg op s =
      (HAL_OK, { s with flash := applyOp cfg s.flash op, log := s.log ++ [op] }) := by
  unfold halCall
  simp only [h s.log.length, if_true]

theorem noHardwareError_of_eq {s t : State} (h : t.hal = s.hal) (hs : NoHardwareError s) :
    NoHardwareError t := by
  intro k; rw [h]; exact hs k

/-- With room on the write page, `EEPROM_TryWriteVariable` succeeds and programs the record
into the first erased slot. -/
theorem tryWrite_room {cfg : Config} (hwf : cfg.WF) {W u : Nat} {s : State}
    (hW : WritePage cfg W u s) (hok : NoHardwareError s) (hu : u < slotCount cfg) (n v : Nat) :
    ∃ t, EEPROM_TryWriteVariable cfg n v s = (EEPROM_SUCCESS, t) ∧ t.hal = s.hal ∧
      t.EEPROM_Index = setIndex cfg n (slotAddr W u) s.EEPROM_Index ∧
      read16 t.flash (slotAddr W u) = v % 65536 ∧
      read16 t.flash (slotAddr W u + 2) = n % 65536 ∧
      ∀ b, b < slotAddr W u ∨ slotAddr W u + 4 ≤ b → read16 t.flash b = read16 s.flash b := by
  obtain ⟨hV, hF, hU⟩ := hW
  obtain ⟨O, hp⟩ := page_cases_pair hV
  have hb := EEPROM.pair_bounds hwf hp
  have h32 := hwf.area32
  have hsb := slot_bounds hwf W hu
  obtain ⟨e1, e2⟩ := hU.2.2 u (Nat.le_refl _) hu
  obtain ⟨p1, p2, p3⟩ := slot_programmed s.flash (slotAddr W u) v n e1 e2
  unfold EEPROM_TryWriteVariable
  simp only
  rw [hF, if_neg (by unfold EEPROM_PAGE_NONE; omega), findSlot_pageUsed hwf hV hU, if_pos hu]
  simp only
  have hok1 : ∀ k, s.hal k = HAL_OK := hok
  unfold HAL_FLASH_Program halCall
  simp only [hok1, if_true]
  rw [Nat.mod_eq_of_lt (show slotAddr W u + 2 < 4294967296 by omega)]
  exact ⟨_, rfl, rfl, rfl, p1, p2, p3⟩

/-- With every slot of the write page used, `EEPROM_TryWriteVariable` returns
`EEPROM_PAGE_FULL` and changes nothing. -/
theorem tryWrite_full {cfg : Config} (hwf : cfg.WF) {W : Nat} {s : State}
    (hW : WritePage cfg W (slotCount cfg) s) (n v : Nat) :
    EEPROM_TryWriteVariable cfg n v s = (EEPROM_PAGE_FULL, s) := by
  obtain ⟨hV, hF, hU⟩ := hW
  obtain ⟨O, hp⟩ := page_cases_pair hV
  have hb := EEPROM.pair_bounds hwf hp
  unfold EEPROM_TryWriteVariable
  simp only
  rw [hF, if_neg (by unfold EEPROM_PAGE_NONE; omega), findSlot_pageUsed hwf hV hU,
    if_neg (Nat.lt_irrefl _)]

/-- The slot just written counts as used. -/
theorem pageUsed_succ {cfg : Config} {W u : Nat} {f g : Nat → Nat}
    (hU : PageUsed cfg f W u) (hu : u < slotCount cfg) {n : Nat} (hn : n % 65536 ≠ 0xFFFF)
    (h2 : read16 g (slotAddr W u + 2) = n % 65536)
    (h3 : ∀ b, b < slotAddr W u ∨ slotAddr W u + 4 ≤ b → read16 g b = read16 f b) :
    PageUsed cfg g W (u + 1) := by
  obtain ⟨hu1, hu2, hu3⟩ := hU
  refine ⟨hu, ?_, ?_⟩
  · intro j hj
    by_cases hju : j = u
    · subst hju
      unfold read32
      rw [h2]
      have := EEPROM.read16_lt g (slotAddr W j)
      omega
    · have e1 : read16 g (slotAddr W j) = read16 f (slotAddr W j) :=
        h3 _ (by unfold slotAddr; omega)
      have e2 : read16 g (slotAddr W j + 2) = read16 f (slotAddr W j + 2) :=
        h3 _ (by unfold slotAddr; omega)
      have := hu2 j (by omega)
      unfold read32 at this ⊢
      rw [e1, e2]
      exact this
  · intro j hj1 hj2
    obtain ⟨e1, e2⟩ := hu3 j (by omega) hj2
    rw [h3 _ (by unfold slotAddr; omega), h3 _ (by unfold slotAddr; omega)]
    exact ⟨e1, e2⟩

theorem writePage_succ {cfg : Config} (hwf : cfg.WF) {W u : Nat} {s t : State}
    (hW : WritePage cfg W u s) (hu : u < slotCount cfg) {n : Nat} (hn : n % 65536 ≠ 0xFFFF)
    (h2 : read16 t.flash (slotAddr W u + 2) = n % 65536)
    (h3 : ∀ b, b < slotAddr W u ∨ slotAddr W u + 4 ≤ b → read16 t.flash b = read16 s.flash b) :
    WritePage cfg W (u + 1) t := by
  obtain ⟨hV, hF, hU⟩ := hW
  obtain ⟨O, hp⟩ := page_cases_pair hV
  have hb := EEPROM.pair_bounds hwf hp
  have hsb := slot_bounds hwf W hu
  refine ⟨hV, ?_, pageUsed_succ hU hu hn h2 h3⟩
  rw [← hF]
  apply findValidPage_congr
  · apply h3
    rcases hp with ⟨a, b⟩ | ⟨a, b⟩ <;> unfold EEPROM_PAGE0 EEPROM_PAGE1 at * <;> omega
  · apply h3
    rcases hp with ⟨a, b⟩ | ⟨a, b⟩ <;> unfold EEPROM_PAGE0 EEPROM_PAGE1 at * <;> omega

/-- Part (a) of the variable-count limit, from any fill level `u`. -/
theorem tryWrites_from {cfg : Config} (hwf : cfg.WF) (l : List (Nat × Nat))
    (hl : ∀ p ∈ l, p.1 % 65536 ≠ 0xFFFF) :
    ∀ (W u : Nat) (s : State), WritePage cfg W u s → NoHardwareError s →
      tryWrites cfg l s =
        List.replicate (min l.length (slotCount cfg - u)) EEPROM_SUCCESS ++
        List.replicate (l.length - (slotCount cfg - u)) EEPROM_PAGE_FULL := by
  induction l with
  | nil => intro W u s _ _; simp [tryWrites]
  | cons p l ih =>
    intro W u s hW hok
    have hle := hW.2.2.1
    unfold tryWrites
    by_cases hu : u < slotCount cfg
    · obtain ⟨t, e, eh, _, _, q2, q3⟩ := tryWrite_room hwf hW hok hu p.1 p.2
      rw [e]
      simp only
      rw [ih (fun q hq => hl q (List.mem_cons_of_mem _ hq)) W (u + 1) t
        (writePage_succ hwf hW hu (hl p (List.mem_cons_self _ _)) q2 q3)
        (noHardwareError_of_eq eh hok)]
      have e1 : min (l.length + 1) (slotCount cfg - u)
          = min l.length (slotCount cfg - (u + 1)) + 1 := by omega
      have e2 : l.length + 1 - (slotCount cfg - u) = l.length - (slotCount cfg - (u + 1)) := by
        omega
      rw [List.length_cons, e1, e2, List.replicate_succ, List.cons_append]
    · have e : u = slotCount cfg := by omega
      subst e
      rw [tryWrite_full hwf hW]
      simp only
      rw [ih (fun q hq => hl q (List.mem_cons_of_mem _ hq)) W (slotCount cfg) s hW hok]
      simp [List.replicate_succ]

/-! ## V1.0: writes between and during page transfers -/

theorem findValid_steady {cfg : Config} (hwf : cfg.WF) {V O : Nat} {s : State}
    (hp : EEPROM.IsPagePair cfg V O) (hV : read16 s.flash V = EEPROM_VALID)
    (hO : read16 s.flash O = 0xFFFF) (op : EEPROM_Operation) :
    EEPROM_FindValidPage cfg op s = V := by
  have hne := page0_ne_page1 hwf
  unfold EEPROM_FindValidPage
  simp only
  rcases hp with ⟨h1, h2⟩ | ⟨h1, h2⟩
  · subst h1; subst h2
    rw [hV, hO]
    simp [EEPROM_VALID, EEPROM_RECEIVING]
  · subst h1; subst h2
    rw [hV, hO]
    simp [EEPROM_VALID, EEPROM_RECEIVING]

theorem findValid_mid {cfg : Config} (hwf : cfg.WF) {S T : Nat} {s : State}
    (hp : EEPROM.IsPagePair cfg S T) (hS : read16 s.flash S = EEPROM_VALID)
    (hT : read16 s.flash T = EEPROM_RECEIVING) :
    EEPROM_FindValidPage cfg EEPROM_READ s = S ∧ EEPROM_FindValidPage cfg EEPROM_WRITE s = T := by
  have hne := page0_ne_page1 hwf
  unfold EEPROM_FindValidPage
  simp only
  rcases hp with ⟨h1, h2⟩ | ⟨h1, h2⟩
  · subst h1; subst h2
    rw [hS, hT]
    simp [EEPROM_VALID, EEPROM_RECEIVING]
  · subst h1; subst h2
    rw [hS, hT]
    simp [EEPROM_VALID, EEPROM_RECEIVING]

theorem pair_cases {cfg : Config} {V O : Nat} (hp : EEPROM.IsPagePair cfg V O) :
    (V = EEPROM_PAGE0 cfg ∨ V = EEPROM_PAGE1 cfg) ∧ (O = EEPROM_PAGE0 cfg ∨ O = EEPROM_PAGE1 cfg) := by
  rcases hp with ⟨h1, h2⟩ | ⟨h1, h2⟩
  · exact ⟨Or.inl h1, Or.inr h2⟩
  · exact ⟨Or.inr h1, Or.inl h2⟩

theorem pair_symm {cfg : Config} {V O : Nat} (hp : EEPROM.IsPagePair cfg V O) :
    EEPROM.IsPagePair cfg O V := by
  rcases hp with ⟨h1, h2⟩ | ⟨h1, h2⟩
  · exact Or.inr ⟨h2, h1⟩
  · exact Or.inl ⟨h2, h1⟩

theorem onPage_disjoint {cfg : Config} (hwf : cfg.WF) {S T : Nat}
    (hp : EEPROM.IsPagePair cfg S T) {x : Nat} (h : onPage cfg S x) : ¬ onPage cfg T x := by
  obtain ⟨e1, e2, e3, e4⟩ := EEPROM.offsets_of_pair hwf hp
  have hb := EEPROM.pair_bounds hwf hp
  unfold onPage at *
  rw [e1, e2] at h
  rw [e3, e4]
  omega

theorem name_ok {cfg : Config} (hwf : cfg.WF) {n : Nat} (h : n ≤ slotCount cfg) :
    n % 65536 ≠ 0xFFFF := by
  have := hwf.area16
  unfold slotCount at h
  omega

/-- Reading a name whose index entry points into a page succeeds with the halfword the
entry addresses. -/
theorem read_onPage {cfg : Config} (hwf : cfg.WF) {S T : Nat} (hp : EEPROM.IsPagePair cfg S T)
    {n : Nat} (hn : n < cfg.varCount) {s : State} (h : onPage cfg S (s.EEPROM_Index n))
    (Value : Nat) :
    EEPROM_ReadVariable cfg n Value s =
      (EEPROM_SUCCESS, read16 s.flash (cfg.start + s.EEPROM_Index n)) := by
  obtain ⟨e1, e2, e3, e4⟩ := EEPROM.offsets_of_pair hwf hp
  have hb := EEPROM.pair_bounds hwf hp
  have h32 := hwf.area32
  unfold onPage at h
  rw [e1, e2] at h
  unfold EEPROM_ReadVariable
  rw [if_neg (by omega)]
  simp only
  rw [Nat.mod_eq_of_lt (by omega)]
  have hS := (pair_cases hp).1
  rw [if_neg (by unfold EEPROM_PAGE0 at *; omega), if_neg (by
    unfold EEPROM_PAGE0 EEPROM_PAGE1 at *
    rcases hS with hS | hS <;> omega)]

theorem steady_writePage {cfg : Config} (hwf : cfg.WF) {V O u : Nat} {s : State}
    (h : Steady cfg V O u s) : WritePage cfg V u s := by
  obtain ⟨hp, hV, hO, hU, _⟩ := h
  have hmin := hwf.size_min
  exact ⟨(pair_cases hp).1, findValid_steady hwf hp hV (hO O (Nat.le_refl _) (by omega)) _, hU⟩

theorem mid_writePage {cfg : Config} (hwf : cfg.WF) {S T w : Nat} {s : State}
    (h : Mid cfg S T w s) : WritePage cfg T w s := by
  obtain ⟨hp, hS, hT, hU, _⟩ := h
  exact ⟨(pair_cases hp).2, (findValid_mid hwf hp hS hT).2, hU⟩

theorem setIndex_same (cfg : Config) (n a : Nat) (idx : Nat → Nat) :
    setIndex cfg n a idx n = (a + 4294967296 - cfg.start) % 4294967296 % 65536 := by
  unfold setIndex; rw [if_pos rfl]

theorem setIndex_other (cfg : Config) {n m : Nat} (h : m ≠ n) (a : Nat) (idx : Nat → Nat) :
    setIndex cfg n a idx m = idx m := by
  unfold setIndex; rw [if_neg h]

theorem setIndex_slot {cfg : Config} (hwf : cfg.WF) {W : Nat}
    (hW : W = EEPROM_PAGE0 cfg ∨ W = EEPROM_PAGE1 cfg) {u : Nat} (hu : u < slotCount cfg)
    (n : Nat) (idx : Nat → Nat) : onPage cfg W (setIndex cfg n (slotAddr W u) idx n) := by
  have hsb := slot_bounds hwf W hu
  obtain ⟨e, hon⟩ := setIndex_onPage hwf hW hsb.1 (by omega)
  rw [setIndex_same, e]
  exact hon

/-- A write in a steady state with room appends one record. -/
theorem steady_write_room {cfg : Config} (hwf : cfg.WF) {V O u : Nat} {s : State}
    (h : Steady cfg V O u s) (hok : NoHardwareError s) (hu : u < slotCount cfg)
    {n : Nat} (hn : n % 65536 ≠ 0xFFFF) (v : Nat) :
    ∃ t, EEPROM_WriteVariable cfg n v s = (EEPROM_SUCCESS, t) ∧ t.hal = s.hal ∧
      Steady cfg V O (u + 1) t ∧
      t.EEPROM_Index = setIndex cfg n (slotAddr V u) s.EEPROM_Index := by
  have hW := steady_writePage hwf h
  obtain ⟨t, e, eh, ei, _, q2, q3⟩ := tryWrite_room hwf hW hok hu n v
  obtain ⟨hp, hV, hO, hU, hI⟩ := h
  have hb := EEPROM.pair_bounds hwf hp
  have hsb := slot_bounds hwf V hu
  refine ⟨t, ?_, eh, ⟨hp, ?_, ?_, pageUsed_succ hU hu hn q2 q3, ?_⟩, ei⟩
  · unfold EEPROM_WriteVariable
    rw [e]
  · rw [q3 _ (by omega)]; exact hV
  · intro a h1 h2
    rw [q3 _ (by omega)]
    exact hO a h1 h2
  · intro m hm
    rw [ei]
    by_cases hmn : m = n
    · subst hmn
      exact Or.inr (setIndex_slot hwf hW.1 hu m _)
    · rw [setIndex_other cfg hmn]
      exact hI m hm

/-- A record written during a transfer goes to the receiving page. -/
theorem mid_tryWrite {cfg : Config} (hwf : cfg.WF) {S T w : Nat} {s : State}
    (h : Mid cfg S T w s) (hok : NoHardwareError s) (hw : w < slotCount cfg)
    {n : Nat} (hn : n % 65536 ≠ 0xFFFF) (v : Nat) :
    ∃ t, EEPROM_TryWriteVariable cfg n v s = (EEPROM_SUCCESS, t) ∧ t.hal = s.hal ∧
      Mid cfg S T (w + 1) t ∧
      t.EEPROM_Index = setIndex cfg n (slotAddr T w) s.EEPROM_Index := by
  have hW := mid_writePage hwf h
  obtain ⟨t, e, eh, ei, _, q2, q3⟩ := tryWrite_room hwf hW hok hw n v
  obtain ⟨hp, hS, hT, hU, hI⟩ := h
  have hb := EEPROM.pair_bounds hwf hp
  have hsb := slot_bounds hwf T hw
  refine ⟨t, e, eh, ⟨hp, ?_, ?_, pageUsed_succ hU hw hn q2 q3, ?_⟩, ei⟩
  · rw [q3 _ (by omega)]; exact hS
  · rw [q3 _ (by omega)]; exact hT
  · intro m hm
    rw [ei]
    by_cases hmn : m = n
    · subst hmn
      exact Or.inr (Or.inr (setIndex_slot hwf hW.1 hw m _))
    · rw [setIndex_other cfg hmn]
      exact hI m hm

/-- Marking the erased page Receiving starts a transfer into an empty page. -/
theorem begin_transfer {cfg : Config} (hwf : cfg.WF) {V O u : Nat} {s : State}
    (h : Steady cfg V O u s) (hok : NoHardwareError s) :
    ∃ t, HAL_FLASH_Program cfg 1 O EEPROM_RECEIVING s = (HAL_OK, t) ∧ t.hal = s.hal ∧
      t.EEPROM_Index = s.EEPROM_Index ∧ Mid cfg V O 0 t := by
  obtain ⟨hp, hV, hO, hU, hI⟩ := h
  have hb := EEPROM.pair_bounds hwf hp
  have hmin := hwf.size_min
  have hok1 : ∀ k, s.hal k = HAL_OK := hok
  unfold HAL_FLASH_Program halCall
  simp only [hok1, if_true]
  refine ⟨_, rfl, rfl, rfl, hp, ?_, ?_, ⟨Nat.zero_le _, fun j hj => absurd hj (Nat.not_lt_zero _), ?_⟩,
    fun m hm => (hI m hm).elim Or.inl (fun x => Or.inr (Or.inl x))⟩
  · show read16 (EEPROM.programFlash s.flash 1 O EEPROM_RECEIVING) V = _
    rw [EEPROM.read16_programFlash_out _ _ _ _ _ (by
      have : EEPROM.nbHalfwords 1 = 1 := rfl
      rw [this]; omega)]
    exact hV
  · show read16 (EEPROM.programFlash s.flash 1 O EEPROM_RECEIVING) O = _
    have e := EEPROM.read16_programFlash_erased s.flash 1 O EEPROM_RECEIVING 0 (by decide)
      (by rw [Nat.mul_zero, Nat.add_zero]; exact hO O (Nat.le_refl _) (by omega))
    rw [Nat.mul_zero, Nat.add_zero] at e
    rw [e, EEPROM.halfwordOf_eq]
    decide
  · intro j _ hj
    have hsb := slot_bounds hwf O hj
    show read16 (EEPROM.programFlash s.flash 1 O EEPROM_RECEIVING) _ = _ ∧
      read16 (EEPROM.programFlash s.flash 1 O EEPROM_RECEIVING) _ = _
    have hnb : EEPROM.nbHalfwords 1 = 1 := rfl
    rw [EEPROM.read16_programFlash_out _ _ _ _ _ (by rw [hnb]; omega),
      EEPROM.read16_programFlash_out _ _ _ _ _ (by rw [hnb]; omega)]
    exact ⟨hO _ (by omega) (by omega), hO _ (by omega) (by omega)⟩

/-! ## V1.0: the page transfer -/

/-- One iteration of the copy loop in a transfer with room for the record. -/
theorem transferStep_copy {cfg : Config} (hwf : cfg.WF) {S T w : Nat} {s : State}
    (h : Mid cfg S T w s) (hok : NoHardwareError s) (hw : w < slotCount cfg)
    {i : Nat} (hi : i < cfg.varCount) (hin : i % 65536 ≠ 0xFFFF)
    (hon : onPage cfg S (s.EEPROM_Index i)) (Value : Nat) :
    ∃ Value1 t, transferStep cfg S (none, Value, s) i = (none, Value1, t) ∧ t.hal = s.hal ∧
      Mid cfg S T (w + 1) t ∧
      t.EEPROM_Index = setIndex cfg i (slotAddr T w) s.EEPROM_Index := by
  obtain ⟨t, e, eh, hm, ei⟩ :=
    mid_tryWrite hwf h hok hw hin (read16 s.flash (cfg.start + s.EEPROM_Index i))
  refine ⟨read16 s.flash (cfg.start + s.EEPROM_Index i), t, ?_, eh, hm, ei⟩
  unfold transferStep
  simp only
  rw [if_pos hon, read_onPage hwf h.1 hi hon]
  simp only
  rw [e]

/-- One iteration of the copy loop that hits a full receiving page. -/
theorem transferStep_full {cfg : Config} (hwf : cfg.WF) {S T : Nat} {s : State}
    (h : Mid cfg S T (slotCount cfg) s) {i : Nat} (hi : i < cfg.varCount)
    (hon : onPage cfg S (s.EEPROM_Index i)) (Value : Nat) :
    ∃ Value1, transferStep cfg S (none, Value, s) i = (some EEPROM_PAGE_FULL, Value1, s) := by
  refine ⟨read16 s.flash (cfg.start + s.EEPROM_Index i), ?_⟩
  unfold transferStep
  simp only
  rw [if_pos hon, read_onPage hwf h.1 hi hon]
  simp only
  rw [tryWrite_full hwf (mid_writePage hwf h)]

theorem transferStep_skip {cfg : Config} {S : Nat} {s : State} {i : Nat}
    (hon : ¬ onPage cfg S (s.EEPROM_Index i)) (Value : Nat) :
    transferStep cfg S (none, Value, s) i = (none, Value, s) := by
  unfold transferStep
  simp only
  rw [if_neg hon]

/-- The copy loop of a transfer started by a write of name `n` always has room when
`EEPROM_VARIABLE_COUNT` is at most the number of slots. -/
theorem transferFold_fits {cfg : Config} (hwf : cfg.WF) (hc : cfg.varCount ≤ slotCount cfg)
    {S T : Nat} {n : Nat} (hn : n < cfg.varCount) {s0 : State} (hok : NoHardwareError s0)
    (k : Nat) (hk : k ≤ cfg.varCount) :
    ∀ {w0 : Nat}, Mid cfg S T w0 s0 → w0 ≤ 1 → onPage cfg T (s0.EEPROM_Index n) →
    ∃ Value t w, (List.range k).foldl (transferStep cfg S) (none, 0xFFFF, s0) = (none, Value, t) ∧
      t.hal = s0.hal ∧ Mid cfg S T w t ∧ onPage cfg T (t.EEPROM_Index n) ∧
      w ≤ k + (if n < k then 0 else 1) := by
  intro w0 hm hw0 hn0
  induction k with
  | zero =>
    refine ⟨_, s0, w0, rfl, rfl, hm, hn0, ?_⟩
    rw [if_neg (Nat.not_lt_zero _)]
    omega
  | succ k ih =>
    obtain ⟨Value, t, w, e, eh, hmt, hnt, hw⟩ := ih (by omega)
    rw [List.range_succ, List.foldl_append, e]
    simp only [List.foldl_cons, List.foldl_nil]
    have hokt : NoHardwareError t := noHardwareError_of_eq eh hok
    by_cases hon : onPage cfg S (t.EEPROM_Index k)
    · have hkn : k ≠ n := by
        intro hkn
        subst hkn
        exact onPage_disjoint hwf hmt.1 hon hnt
      have hwlt : w < slotCount cfg := by
        by_cases hnk : n < k
        · rw [if_pos hnk] at hw; omega
        · rw [if_neg hnk] at hw; omega
      obtain ⟨Value1, t1, e1, eh1, hm1, ei1⟩ :=
        transferStep_copy hwf hmt hokt hwlt (show k < cfg.varCount by omega)
          (name_ok hwf (by omega)) hon Value
      refine ⟨Value1, t1, w + 1, e1, eh1.trans eh, hm1, ?_, ?_⟩
      · rw [ei1, setIndex_other cfg (Ne.symm hkn)]
        exact hnt
      · by_cases hnk : n < k
        · rw [if_pos hnk] at hw
          rw [if_pos (by omega)]
          omega
        · rw [if_neg hnk] at hw
          rw [if_neg (by omega)]
          omega
    · refine ⟨Value, t, w, transferStep_skip hon Value, eh, hmt, hnt, ?_⟩
      by_cases hnk : n < k
      · rw [if_pos hnk] at hw
        rw [if_pos (by omega)]
        omega
      · rw [if_neg hnk] at hw
        by_cases hnk1 : n < k + 1
        · rw [if_pos hnk1]; omega
        · rw [if_neg hnk1]; omega

theorem read16_program_valid (flash : Nat → Nat) (P : Nat) :
    read16 (EEPROM.programFlash flash 1 P EEPROM_VALID) P = EEPROM_VALID := by
  unfold read16 EEPROM.programFlash
  have hnb : EEPROM.nbHalfwords 1 = 1 := rfl
  rw [if_pos (by rw [hnb]; omega), Nat.sub_self, EEPROM.halfwordOf_eq]
  show (flash P % 65536 &&& 0) % 65536 = 0
  rw [Nat.and_zero]

/-- The end of a transfer: the source page is erased and the receiving page marked Valid. -/
theorem finish_transfer {cfg : Config} (hwf : cfg.WF) {S T w : Nat} {s : State}
    (h : Mid cfg S T w s) (hok : NoHardwareError s) :
    ∃ t, EEPROM_SetValidPage cfg T s = (EEPROM_SUCCESS, t) ∧ t.hal = s.hal ∧
      Steady cfg T S w t := by
  obtain ⟨hp, hS, hT, hU, hI⟩ := h
  have hb := EEPROM.pair_bounds hwf hp
  have hmin := hwf.size_min
  have hne := page0_ne_page1 hwf
  have hok1 : ∀ k, s.hal k = HAL_OK := hok
  have hnb : EEPROM.nbHalfwords 1 = 1 := rfl
  have key : ∃ t, EEPROM_SetValidPage cfg T s = (EEPROM_SUCCESS, t) ∧ t.hal = s.hal ∧
      t.flash = EEPROM.programFlash (EEPROM.eraseFlash cfg s.flash S 1) 1 T EEPROM_VALID ∧
      t.EEPROM_Index = purgeIndex cfg S s.EEPROM_Index := by
    unfold EEPROM_SetValidPage EEPROM_PageErase HAL_FLASH_Program HAL_FLASHEx_Erase halCall
    rcases hp with ⟨h1, h2⟩ | ⟨h1, h2⟩
    · subst h1; subst h2
      rw [if_pos rfl]
      simp only [hok1, if_true, ofHAL]
      exact ⟨_, rfl, rfl, rfl, rfl⟩
    · subst h1; subst h2
      rw [if_neg hne, if_pos rfl]
      simp only [hok1, if_true, ofHAL]
      exact ⟨_, rfl, rfl, rfl, rfl⟩
  obtain ⟨t, e, eh, ef, ei⟩ := key
  refine ⟨t, e, eh, pair_symm hp, ?_, ?_, ?_, ?_⟩
  · rw [ef]; exact read16_program_valid _ _
  · intro a h1 h2
    rw [ef, EEPROM.read16_programFlash_out _ _ _ _ _ (by rw [hnb]; omega)]
    exact EEPROM.read16_eraseFlash_in _ _ _ _ _ (by omega)
  · obtain ⟨hu1, hu2, hu3⟩ := hU
    have frame : ∀ b, T + 2 ≤ b → b < T + cfg.pageSize → read16 t.flash b = read16 s.flash b := by
      intro b hb1 hb2
      rw [ef, EEPROM.read16_programFlash_out _ _ _ _ _ (by rw [hnb]; omega),
        EEPROM.read16_eraseFlash_out _ _ _ _ _ (by omega)]
    refine ⟨hu1, ?_, ?_⟩
    · intro j hj
      have hsb := slot_bounds hwf T (show j < slotCount cfg by omega)
      have := hu2 j hj
      unfold read32 at this ⊢
      rw [frame _ (by omega) (by omega), frame _ (by omega) (by omega)]
      exact this
    · intro j hj1 hj2
      have hsb := slot_bounds hwf T hj2
      rw [frame _ (by omega) (by omega), frame _ (by omega) (by omega)]
      exact hu3 j hj1 hj2
  · intro m hm
    rw [ei, EEPROM.purgeIndex_apply]
    by_cases hon : onPage cfg S (s.EEPROM_Index m)
    · rw [if_pos ⟨hm, hon⟩]; exact Or.inl rfl
    · rw [if_neg (fun h => hon h.2)]
      rcases hI m hm with h | h | h
      · exact Or.inl h
      · exact absurd h hon
      · exact Or.inr h

theorem target_eq {cfg : Config} (hwf : cfg.WF) {V O : Nat} (hp : EEPROM.IsPagePair cfg V O) :
    (if V = EEPROM_PAGE1 cfg then EEPROM_PAGE0 cfg
      else if V = EEPROM_PAGE0 cfg then EEPROM_PAGE1 cfg else EEPROM_PAGE_NONE) = O := by
  have hne := page0_ne_page1 hwf
  rcases hp with ⟨h1, h2⟩ | ⟨h1, h2⟩
  · subst h1; subst h2
    rw [if_neg hne, if_pos rfl]
  · subst h1; subst h2
    rw [if_pos rfl]

/-- The first half of a write that finds its page full: mark the erased page Receiving. -/
theorem write_full_unfold {cfg : Config} (hwf : cfg.WF) {V O : Nat} {s : State}
    (h : Steady cfg V O (slotCount cfg) s) (hok : NoHardwareError s) (n v : Nat) :
    ∃ s2, s2.hal = s.hal ∧ s2.EEPROM_Index = s.EEPROM_Index ∧ Mid cfg V O 0 s2 ∧
      EEPROM_WriteVariable cfg n v s =
        match EEPROM_TryWriteVariable cfg n v s2 with
        | (EEPROM_SUCCESS, s3) => EEPROM_PageTransfer cfg V O s3
        | (r, s3) => (r, s3) := by
  obtain ⟨s2, e2, eh2, ei2, hm2⟩ := begin_transfer hwf h hok
  refine ⟨s2, eh2, ei2, hm2, ?_⟩
  have hb := EEPROM.pair_bounds hwf h.1
  have hmin := hwf.size_min
  unfold EEPROM_WriteVariable
  rw [tryWrite_full hwf (steady_writePage hwf h)]
  simp only
  rw [findValid_steady hwf h.1 h.2.1 (h.2.2.1 O (Nat.le_refl _) (by omega)),
    if_neg (by unfold EEPROM_PAGE_NONE; omega), target_eq hwf h.1]
  simp only [e2]

/-- A write that finds its page full transfers to the other page and succeeds when
`EEPROM_VARIABLE_COUNT` is at most the number of slots. -/
theorem steady_write_full {cfg : Config} (hwf : cfg.WF) (hc : cfg.varCount ≤ slotCount cfg)
    {V O : Nat} {s : State} (h : Steady cfg V O (slotCount cfg) s) (hok : NoHardwareError s)
    {n : Nat} (hn : n < cfg.varCount) (v : Nat) :
    ∃ t w, EEPROM_WriteVariable cfg n v s = (EEPROM_SUCCESS, t) ∧ t.hal = s.hal ∧
      Steady cfg O V w t := by
  obtain ⟨s2, eh2, _, hm2, e⟩ := write_full_unfold hwf h hok n v
  have hok2 := noHardwareError_of_eq eh2 hok
  obtain ⟨s3, e3, eh3, hm3, ei3⟩ :=
    mid_tryWrite hwf hm2 hok2 (show 0 < slotCount cfg by omega)
      (name_ok hwf (show n ≤ slotCount cfg by omega)) v
  have hok3 := noHardwareError_of_eq eh3 hok2
  have hn3 : onPage cfg O (s3.EEPROM_Index n) := by
    rw [ei3]
    exact setIndex_slot hwf (pair_cases h.1).2 (show 0 < slotCount cfg by omega) n _
  obtain ⟨Value, t, w, ef, eht, hmt, _, _⟩ :=
    transferFold_fits hwf hc hn hok3 cfg.varCount (Nat.le_refl _) hm3 (Nat.le_refl _) hn3
  obtain ⟨t1, e1, eh1, hs1⟩ := finish_transfer hwf hmt (noHardwareError_of_eq eht hok3)
  refine ⟨t1, w, ?_, by rw [eh1, eht, eh3, eh2], hs1⟩
  rw [e, e3]
  simp only
  unfold EEPROM_PageTransfer
  rw [ef]
  simp only
  exact e1

theorem steady_of_formatted {cfg : Config} (hwf : cfg.WF) {s : State} (h : Formatted cfg s) :
    Steady cfg (EEPROM_PAGE0 cfg) (EEPROM_PAGE1 cfg) 0 s := by
  obtain ⟨h1, h2, h3⟩ := h
  have hmin := hwf.size_min
  refine ⟨Or.inl ⟨rfl, rfl⟩, h1, ?_, ⟨Nat.zero_le _, fun j hj => absurd hj (Nat.not_lt_zero _), ?_⟩,
    fun m hm => Or.inl (h3 m hm)⟩
  · intro a ha1 ha2
    exact h2 a (by unfold EEPROM_PAGE0 EEPROM_PAGE1 at *; omega)
      (by unfold EEPROM_PAGE0 EEPROM_PAGE1 at *; omega)
  · intro j _ hj
    have hsb := slot_bounds hwf (EEPROM_PAGE0 cfg) hj
    exact ⟨h2 _ (by omega) (by omega), h2 _ (by omega) (by omega)⟩

/-- Between writes the store is steady, and without hardware errors every write of a valid
name succeeds, when `EEPROM_VARIABLE_COUNT` is at most the number of slots. -/
theorem stored_steady {cfg : Config} (hwf : cfg.WF) (hc : cfg.varCount ≤ slotCount cfg)
    {s : State} (h : Stored cfg s) :
    NoHardwareError s ∧ ∃ V O u, Steady cfg V O u s := by
  induction h with
  | formatted s hf hok => exact ⟨hok, _, _, _, steady_of_formatted hwf hf⟩
  | write s n v _ hn ih =>
    obtain ⟨hok, V, O, u, hs⟩ := ih
    by_cases hu : u < slotCount cfg
    · obtain ⟨t, e, eh, ht, _⟩ := steady_write_room hwf hs hok hu
        (name_ok hwf (show n ≤ slotCount cfg by omega)) v
      rw [e]
      exact ⟨noHardwareError_of_eq eh hok, V, O, u + 1, ht⟩
    · have e : u = slotCount cfg := by have := hs.2.2.2.1.1; omega
      subst e
      obtain ⟨t, w, e, eh, ht⟩ := steady_write_full hwf hc hs hok hn v
      rw [e]
      exact ⟨noHardwareError_of_eq eh hok, O, V, w, ht⟩

theorem stored_write_success {cfg : Config} (hwf : cfg.WF) (hc : cfg.varCount ≤ slotCount cfg)
    {s : State} (h : Stored cfg s) {n : Nat} (hn : n < cfg.varCount) (v : Nat) :
    (EEPROM_WriteVariable cfg n v s).1 = EEPROM_SUCCESS := by
  obtain ⟨hok, V, O, u, hs⟩ := stored_steady hwf hc h
  by_cases hu : u < slotCount cfg
  · obtain ⟨t, e, _⟩ := steady_write_room hwf hs hok hu
        (name_ok hwf (show n ≤ slotCount cfg by omega)) v
    rw [e]
  · have e : u = slotCount cfg := by have := hs.2.2.2.1.1; omega
    subst e
    obtain ⟨t, w, e, _⟩ := steady_write_full hwf hc hs hok hn v
    rw [e]

/-! ## V1.0: one variable too many -/

theorem formattedStore_formatted (cfg : Config) : Formatted cfg (formattedStore cfg) := by
  refine ⟨?_, ?_, fun m _ => rfl⟩
  · show (if EEPROM_PAGE0 cfg = EEPROM_PAGE0 cfg then EEPROM_VALID else 0xFFFF) % 65536 = _
    rw [if_pos rfl]
    rfl
  · intro a h1 h2
    show (if a = EEPROM_PAGE0 cfg then EEPROM_VALID else 0xFFFF) % 65536 = _
    rw [if_neg (by omega)]

theorem formattedStore_ok (cfg : Config) : NoHardwareError (formattedStore cfg) := fun _ => rfl

/-- Filling the first `k` slots of page 0 of the formatted store with the names below `k`. -/
theorem fillStore_steady {cfg : Config} (hwf : cfg.WF) (k : Nat) (hk : k ≤ slotCount cfg)
    (hc : k ≤ cfg.varCount) :
    Stored cfg (fillStore cfg k (formattedStore cfg)) ∧
    NoHardwareError (fillStore cfg k (formattedStore cfg)) ∧
    Steady cfg (EEPROM_PAGE0 cfg) (EEPROM_PAGE1 cfg) k (fillStore cfg k (formattedStore cfg)) ∧
    ∀ j, j < k →
      onPage cfg (EEPROM_PAGE0 cfg) ((fillStore cfg k (formattedStore cfg)).EEPROM_Index j) := by
  induction k with
  | zero =>
    exact ⟨Stored.formatted _ (formattedStore_formatted cfg) (formattedStore_ok cfg),
      formattedStore_ok cfg, steady_of_formatted hwf (formattedStore_formatted cfg),
      fun j hj => absurd hj (Nat.not_lt_zero _)⟩
  | succ k ih =>
    obtain ⟨h1, h2, h3, h4⟩ := ih (by omega) (by omega)
    obtain ⟨t, e, eh, ht, ei⟩ :=
      steady_write_room hwf h3 h2 (show k < slotCount cfg by omega)
        (name_ok hwf (show k ≤ slotCount cfg by omega)) 0
    have ef : fillStore cfg (k + 1) (formattedStore cfg) = t := by
      show (EEPROM_WriteVariable cfg k 0 (fillStore cfg k (formattedStore cfg))).2 = t
      rw [e]
    refine ⟨?_, ?_, ?_, ?_⟩
    · exact Stored.write _ k 0 h1 (by omega)
    · rw [ef]; exact noHardwareError_of_eq eh h2
    · rw [ef]; exact ht
    · intro j hj
      rw [ef, ei]
      by_cases hjk : j = k
      · subst hjk
        exact setIndex_slot hwf (Or.inl rfl) (show j < slotCount cfg by omega) j _
      · rw [setIndex_other cfg hjk]
        exact h4 j (by omega)

theorem transferStep_done (cfg : Config) (S : Nat) (r : EEPROM_Result) (Value : Nat) (s : State)
    (i : Nat) : transferStep cfg S (some r, Value, s) i = (some r, Value, s) := rfl

/-- The copy loop with one name more than slots: after `k` copies the receiving page holds
`k + 1` records. -/
theorem transferFold_prefix {cfg : Config} (hwf : cfg.WF) {S T : Nat} {s0 : State}
    (hok : NoHardwareError s0) (hm : Mid cfg S T 1 s0)
    (hon : ∀ j, j < slotCount cfg → onPage cfg S (s0.EEPROM_Index j))
    (hc : slotCount cfg ≤ cfg.varCount) (k : Nat) (hk : k + 1 ≤ slotCount cfg) :
    ∃ Value t, (List.range k).foldl (transferStep cfg S) (none, 0xFFFF, s0) = (none, Value, t) ∧
      t.hal = s0.hal ∧ Mid cfg S T (k + 1) t ∧
      ∀ j, k ≤ j → j < slotCount cfg → onPage cfg S (t.EEPROM_Index j) := by
  induction k with
  | zero => exact ⟨_, s0, rfl, rfl, hm, fun j _ hj => hon j hj⟩
  | succ k ih =>
    obtain ⟨Value, t, e, eh, hmt, hont⟩ := ih (by omega)
    obtain ⟨Value1, t1, e1, eh1, hm1, ei1⟩ :=
      transferStep_copy hwf hmt (noHardwareError_of_eq eh hok) (show k + 1 < slotCount cfg by omega)
        (show k < cfg.varCount by omega) (name_ok hwf (show k ≤ slotCount cfg by omega))
        (hont k (Nat.le_refl _) (by omega)) Value
    refine ⟨Value1, t1, ?_, eh1.trans eh, hm1, ?_⟩
    · rw [List.range_succ, List.foldl_append, e]
      exact e1
    · intro j hj1 hj2
      rw [ei1, setIndex_other cfg (show j ≠ k by omega)]
      exact hont j (by omega) hj2

/-- With `EEPROM_VARIABLE_COUNT` one more than the number of slots, writing the last name
to a store whose page is full of the other names returns `EEPROM_PAGE_FULL`. -/
theorem write_overflow {cfg : Config} (hwf : cfg.WF) (hc : cfg.varCount = slotCount cfg + 1) :
    (EEPROM_WriteVariable cfg (slotCount cfg) 0
      (fillStore cfg (slotCount cfg) (formattedStore cfg))).1 = EEPROM_PAGE_FULL := by
  obtain ⟨_, hok, hs, hon⟩ := fillStore_steady hwf (slotCount cfg) (Nat.le_refl _) (by omega)
  obtain ⟨s2, eh2, ei2, hm2, e⟩ := write_full_unfold hwf hs hok (slotCount cfg) 0
  have hok2 := noHardwareError_of_eq eh2 hok
  rw [e]
  by_cases h0 : slotCount cfg = 0
  · have hm2f : Mid cfg (EEPROM_PAGE0 cfg) (EEPROM_PAGE1 cfg) (slotCount cfg) s2 := by
      rw [h0]; exact hm2
    rw [tryWrite_full hwf (mid_writePage hwf hm2f)]
  · obtain ⟨m, hm⟩ : ∃ m, slotCount cfg = m + 1 := ⟨slotCount cfg - 1, by omega⟩
    obtain ⟨s3, e3, eh3, hm3, ei3⟩ :=
      mid_tryWrite hwf hm2 hok2 (show 0 < slotCount cfg by omega)
        (name_ok hwf (Nat.le_refl (slotCount cfg))) 0
    have hok3 := noHardwareError_of_eq eh3 hok2
    have hon3 : ∀ j, j < slotCount cfg → onPage cfg (EEPROM_PAGE0 cfg) (s3.EEPROM_Index j) := by
      intro j hj
      rw [ei3, setIndex_other cfg (show j ≠ slotCount cfg by omega), ei2]
      exact hon j hj
    obtain ⟨Value, t, ef, eht, hmt, hont⟩ :=
      transferFold_prefix hwf hok3 hm3 hon3 (by omega) m (by omega)
    have hmt1 : Mid cfg (EEPROM_PAGE0 cfg) (EEPROM_PAGE1 cfg) (slotCount cfg) t := by
      rw [hm]; exact hmt
    obtain ⟨Value1, e1⟩ :=
      transferStep_full hwf hmt1 (show m < cfg.varCount by omega)
        (hont m (Nat.le_refl _) (by omega)) Value
    rw [e3]
    simp only
    unfold EEPROM_PageTransfer
    rw [hc, hm, List.range_succ, List.range_succ, List.foldl_append, List.foldl_append, ef]
    simp only [List.foldl_cons, List.foldl_nil]
    rw [e1, transferStep_done]

/-- C17 (V1.0 variable-count limit). A page of size P holds exactly `(P - 4) / 4` records:
from a state in which the write page is empty and the HAL never fails, successive calls of
`EEPROM_TryWriteVariable` (with names other than 0xFFFF) return `EEPROM_SUCCESS` exactly
`(P - 4) / 4` times and `EEPROM_PAGE_FULL` from then on. With `EEPROM_VARIABLE_COUNT` at most
`(P - 4) / 4`, no write of a name below `EEPROM_VARIABLE_COUNT` returns `EEPROM_PAGE_FULL`
in a state reachable from a formatted store without hardware errors; with
`EEPROM_VARIABLE_COUNT = (P - 4) / 4 + 1`, some such write does. -/
theorem C17_variable_count_limit (cfg : Config) (hwf : cfg.WF) :
    (∀ (W : Nat) (s : State) (l : List (Nat × Nat)), WritePage cfg W 0 s → NoHardwareError s →
      (∀ p ∈ l, p.1 < 65535) →
      tryWrites cfg l s =
        List.replicate (min l.length (slotCount cfg)) EEPROM_SUCCESS ++
        List.replicate (l.length - slotCount cfg) EEPROM_PAGE_FULL) ∧
    (cfg.varCount ≤ slotCount cfg → ∀ s, Stored cfg s → ∀ n, n < cfg.varCount → ∀ v,
      (EEPROM_WriteVariable cfg n v s).1 ≠ EEPROM_PAGE_FULL) ∧
    (cfg.varCount = slotCount cfg + 1 → ∃ s n v, Stored cfg s ∧ n < cfg.varCount ∧
      (EEPROM_WriteVariable cfg n v s).1 = EEPROM_PAGE_FULL) := by
  refine ⟨?_, ?_, ?_⟩
  · intro W s l hW hok hl
    have h := tryWrites_from hwf l
      (fun p hp => by have := hl p hp; omega) W 0 s hW hok
    rw [Nat.sub_zero] at h
    exact h
  · intro hc s hs n hn v
    rw [stored_write_success hwf hc hs hn v]
    decide
  · intro hc
    exact ⟨fillStore cfg (slotCount cfg) (formattedStore cfg), slotCount cfg, 0,
      (fillStore_steady hwf (slotCount cfg) (Nat.le_refl _) (by omega)).1, by omega,
      write_overflow hwf hc⟩

theorem tinyConfigV1_wf : tinyConfig.WF := by
  constructor <;> decide

theorem C17_variable_count_limit_witness :
    slotCount stdConfig = 255 ∧
    tryWrites stdConfig [(0, 5), (1, 6)] (formattedStore stdConfig)
      = [EEPROM_SUCCESS, EEPROM_SUCCESS] ∧
    (EEPROM_WriteVariable stdConfig 2 7 (formattedStore stdConfig)).1 ≠ EEPROM_PAGE_FULL ∧
    ∃ s n v, Stored tinyConfig s ∧ n < tinyConfig.varCount ∧
      (EEPROM_WriteVariable tinyConfig n v s).1 = EEPROM_PAGE_FULL :=
  ⟨by decide,
   (C17_variable_count_limit stdConfig stdConfigV1_wf).1 (EEPROM_PAGE0 stdConfig)
      (formattedStore stdConfig) [(0, 5), (1, 6)]
      (steady_writePage stdConfigV1_wf
        (steady_of_formatted stdConfigV1_wf (formattedStore_formatted stdConfig)))
      (formattedStore_ok stdConfig) (by decide),
   (C17_variable_count_limit stdConfig stdConfigV1_wf).2.1 (by decide) _
      (Stored.formatted _ (formattedStore_formatted stdConfig) (formattedStore_ok stdConfig))
      2 (by decide) 7,
   (C17_variable_count_limit tinyConfig tinyConfigV1_wf).2.2 (by decide)⟩

/-! ## V1.0: `EEPROM_Init` on a finished transfer -/

/-- C29 (V1.0 recovery of a finished transfer): in the small configuration with names 0, 1, 2
holding 0x1111, 0x2222, 0x3333 on a full page 0, the rewrite of name 0 with 0x5555 transfers
to page 1 in nine primitive calls; a power cut after the eighth (page 0 erased, page 1 not
yet marked Valid) leaves page 0 Erased and page 1 Receiving with a record for every name.
`EEPROM_Init` from power-on memory returns `EEPROM_SUCCESS` and marks page 1 Valid, but
`EEPROM_ReadVariable` returns `EEPROM_NOT_ASSIGNED` for all three names: no branch of
`EEPROM_Init` calls `EEPROM_PageToIndex` unless a page is already Valid. The values are
still in flash (a second `EEPROM_Init` after a reboot reads them), but a write before that
reboot finds the page full, transfers an empty index and erases them. -/
theorem C29_finished_transfer_not_indexed :
    read16 (smallCut 8) (EEPROM_PAGE0 smallConfig) = EEPROM_ERASED ∧
    read16 (smallCut 8) (EEPROM_PAGE1 smallConfig) = EEPROM_RECEIVING ∧
    (read16 (smallCut 8) (EEPROM_PAGE1 smallConfig + 4) = 0x5555 ∧
      read16 (smallCut 8) (EEPROM_PAGE1 smallConfig + 6) = 0) ∧
    (read16 (smallCut 8) (EEPROM_PAGE1 smallConfig + 8) = 0x2222 ∧
      read16 (smallCut 8) (EEPROM_PAGE1 smallConfig + 10) = 1) ∧
    (read16 (smallCut 8) (EEPROM_PAGE1 smallConfig + 12) = 0x3333 ∧
      read16 (smallCut 8) (EEPROM_PAGE1 smallConfig + 14) = 2) ∧
    (EEPROM_Init smallConfig (powerOn (smallCut 8) EEPROM.halOk)).1 = EEPROM_SUCCESS ∧
    read16 (EEPROM_Init smallConfig (powerOn (smallCut 8) EEPROM.halOk)).2.flash
      (EEPROM_PAGE1 smallConfig) = EEPROM_VALID ∧
    (∀ n, n < 3 → EEPROM_ReadVariable smallConfig n 0
      (EEPROM_Init smallConfig (powerOn (smallCut 8) EEPROM.halOk)).2
        = (EEPROM_NOT_ASSIGNED, 0)) ∧
    EEPROM_ReadVariable smallConfig 2 0
      (EEPROM_Init smallConfig (powerOn
        (EEPROM_Init smallConfig (powerOn (smallCut 8) EEPROM.halOk)).2.flash
        EEPROM.halOk)).2 = (EEPROM_SUCCESS, 0x3333) ∧
    (EEPROM_WriteVariable smallConfig 1 0x7777
      (EEPROM_Init smallConfig (powerOn (smallCut 8) EEPROM.halOk)).2).1 = EEPROM_SUCCESS ∧
    EEPROM_ReadVariable smallConfig 2 0
      (EEPROM_Init smallConfig (powerOn
        (EEPROM_WriteVariable smallConfig 1 0x7777
          (EEPROM_Init smallConfig (powerOn (smallCut 8) EEPROM.halOk)).2).2.flash
        EEPROM.halOk)).2 = (EEPROM_NOT_ASSIGNED, 0) := by
  decide

end EEPROMV1
